import Mathlib

/-!
# OSKAR: visibility block to Measurement Set serialisation

A shallow embedding of `oskar_vis_block_write_ms` (apps/lib/src/oskar_vis_block_write_ms.c),
of the Measurement Set store of `oskar_measurement_set.cpp` that it drives, and of the image
down-sampling loop of `oskar_fits_to_sky_model` (fits/src/oskar_fits_to_sky_model.c),
followed by theorems about them.

Conventions of the embedding.

* A finite C `float` or `double` is the rational number it denotes; where a value can
  leave the finite numbers it is a `FloatValue` (finite, infinity or NaN).  Copies are
  exact.  The operations that can round are modelled with the rounding of IEEE 754
  (`roundBinary`, to nearest, ties to even): the narrowing from `double` to `float`
  (`toFloat32`), the `double` arithmetic of `current_utc_to_mjd` and of the History time
  (`roundDouble`) and the `float` or `double` accumulation of the image down-sampling
  (`FloatValue.add`).  The time stamps and time ranges that the writer and the store form
  from the caller's `double` values are stated as the expressions of the code.
* A C pointer to an array is a function from the element index to the element; the
  theorems state the conditions under which every access lies inside the allocation
  (`write_defined` for the writer's temporary arrays).
* Counters and dimensions held in C `int` are natural numbers; signed arithmetic is
  exact, and the theorems that depend on it state the range in which C defines it
  (`write_defined`, `downsample_defined`, bounds by `INT_MAX`).  Arithmetic in
  `unsigned int` is reduced modulo `2 ^ 32`.
* A casacore call that throws (a cell outside the table) makes the embedded function
  return `none`.
-/

namespace OSKAR

/-! ## Machine arithmetic and loops -/

/-- The number of values of `unsigned int`. -/
def UINT_RANGE : Nat := 4294967296

/-- The largest value of `int`. -/
def INT_MAX : Nat := 2147483647

/-- Conversion of an integer value to `unsigned int`. -/
def toUInt (n : Nat) : Nat := n % UINT_RANGE

/-- Subtraction in `unsigned int`: `a - b` for `a b < 2 ^ 32`, wrapping below zero. -/
def usub (a b : Nat) : Nat := (a + UINT_RANGE - b) % UINT_RANGE

/-- The loop `for (i = lo; i < lo + n; ++i) st = body i st`. -/
def forLoop {σ : Type} (body : Nat → σ → σ) : Nat → Nat → σ → σ
  | _, 0, st => st
  | lo, n + 1, st => forLoop body (lo + 1) n (body lo st)

/-- The loop `for (i = lo; i < lo + n; ++i)` whose body may throw. -/
def forLoopM {σ : Type} (body : Nat → σ → Option σ) : Nat → Nat → σ → Option σ
  | _, 0, st => some st
  | lo, n + 1, st => (body lo st).bind (forLoopM body (lo + 1) n)

/-- The assignment `f[i] = v` on an array. -/
def setAt {α : Type} (f : Nat → α) (i : Nat) (v : α) : Nat → α :=
  fun j => if j = i then v else f j

/-! ## Numbers -/

/-- The integer nearest to `q`, ties going to the even neighbour. -/
def roundHalfEven (q : ℚ) : Int :=
  let f := Int.floor q
  let r := q - f
  if r < 1 / 2 then f
  else if 1 / 2 < r then f + 1
  else if f % 2 = 0 then f else f + 1

/-- The loop behind `ilog2`: halving `n` until it is below two, at most `fuel` times. -/
def ilog2Loop : Nat → Nat → Nat
  | 0, _ => 0
  | fuel + 1, n => if n < 2 then 0 else ilog2Loop fuel (n / 2) + 1

/-- The position of the leading binary digit of `n` (zero for `n < 2`). -/
def ilog2 (n : Nat) : Nat := ilog2Loop n n

/-- The exponent `e` with `2 ^ e ≤ q < 2 ^ (e + 1)`, for `q > 0`. -/
def binExponent (q : ℚ) : Int :=
  let e0 : Int := (ilog2 q.num.natAbs : Int) - (ilog2 q.den : Int)
  if (2 : ℚ) ^ e0 ≤ q then e0 else e0 - 1

/-- A value of a C floating type (`float` or `double`): a finite number, given by the
rational number it denotes (the two zeros are not told apart), an infinity or a NaN. -/
inductive FloatValue where
  | finite (q : ℚ)
  | infinite (negative : Bool)
  | nan
deriving DecidableEq, Repr

/-- Rounding of a rational number to the nearest number of a binary floating-point format
with `prec` significant digits and least normal exponent `emin`, ties going to the even
significand (the default rounding of IEEE 754): for `2 ^ e <= |q| < 2 ^ (e + 1)` the
candidates are the multiples of `2 ^ (max e emin - (prec - 1))`, which below `2 ^ emin` are
the subnormal numbers.  The exponent is not bounded above here. -/
def roundBinary (prec : Nat) (emin : Int) (q : ℚ) : ℚ :=
  if q = 0 then 0
  else
    let a := |q|
    let ulp : ℚ := (2 : ℚ) ^ (max (binExponent a) emin - ((prec : Int) - 1))
    let m : ℚ := (roundHalfEven (a / ulp) : ℚ) * ulp
    if q < 0 then -m else m

/-- The conversion of a rational number to the binary format with `prec` significant
digits and exponents from `emin` to `emax`: the rounded number if its magnitude is below
`2 ^ (emax + 1)`, and otherwise (overflow) the infinity of the sign of `q`. -/
def toBinaryFormat (prec : Nat) (emin emax : Int) (q : ℚ) : FloatValue :=
  let r := roundBinary prec emin q
  if |r| < (2 : ℚ) ^ (emax + 1) then FloatValue.finite r
  else FloatValue.infinite (decide (q < 0))

/-- The conversion of a `double` to `float` made by `Complex(double, double)` in
`oskar_ms_write_all_for_time_d`: a `float` (IEEE 754 binary32) has 24 significant digits
and exponents from `-126` to `127`. -/
def toFloat32 (q : ℚ) : FloatValue := toBinaryFormat 24 (-126) 127 q

/-- The conversion of a rational number to `double` (IEEE 754 binary64): 53 significant
digits and exponents from `-1022` to `1023`. -/
def toFloat64 (q : ℚ) : FloatValue := toBinaryFormat 53 (-1022) 1023 q

/-- The `double` nearest to a rational number whose magnitude stays below the overflow
threshold `2 ^ 1024`: the result of an operation on `double` values, computed exactly and
then rounded.  It is used where the operands are bounded, so that no operation overflows
(`toFloat64` is then `finite` of this number). -/
def roundDouble (q : ℚ) : ℚ := roundBinary 53 (-1022) q

/-- A complex number as stored by OSKAR (`float2` or `double2`). -/
structure double2 where
  x : ℚ
  y : ℚ
deriving DecidableEq, Repr

/-- A complex zero. -/
def double2.zero : double2 := ⟨0, 0⟩

/-- The view `(const double*) out` of an array of complex numbers. -/
def asReals (buf : Nat → double2) (d : Nat) : ℚ :=
  if d % 2 = 0 then (buf (d / 2)).x else (buf (d / 2)).y

/-! ## Status codes -/

/-- Modelled from the spec: `OSKAR_ERR_INVALID_ARGUMENT` (`InvalidArgument`) is declared in
oskar_global.h, which is not among the sources; only that it is non-zero is used. -/
def OSKAR_ERR_INVALID_ARGUMENT : Int := -3

/-- Modelled from the spec: `OSKAR_ERR_DIMENSION_MISMATCH` (`DimensionMismatch`) is declared
in oskar_global.h, which is not among the sources; only that it is non-zero is used. -/
def OSKAR_ERR_DIMENSION_MISMATCH : Int := -11

/-- Modelled from the spec: `OSKAR_ERR_BAD_DATA_TYPE` (`BadDataType`) is declared in
oskar_global.h, which is not among the sources; only that it is non-zero is used. -/
def OSKAR_ERR_BAD_DATA_TYPE : Int := -13

/-- Modelled from the spec: `OSKAR_ERR_MS_COLUMN_NOT_FOUND` (`ColumnNotFound`) is declared in
oskar_measurement_set.h, which is not among the sources; only that it is non-zero is used. -/
def OSKAR_ERR_MS_COLUMN_NOT_FOUND : Int := 1

/-- Modelled from the spec: `OSKAR_ERR_MS_OUT_OF_RANGE` (`OutOfRange`) is declared in
oskar_measurement_set.h, which is not among the sources; only that it is non-zero is used. -/
def OSKAR_ERR_MS_OUT_OF_RANGE : Int := 2

/-- Modelled from the spec: `OSKAR_ERR_MS_UNKNOWN_DATA_TYPE` (`UnknownDataType`) is declared
in oskar_measurement_set.h, which is not among the sources; only that it is non-zero is
used. -/
def OSKAR_ERR_MS_UNKNOWN_DATA_TYPE : Int := 3

/-- Modelled from the spec: `oskar_set_invalid_argument` is not among the sources; it
reports `InvalidArgument` through the status pointer. -/
def oskar_set_invalid_argument (_status : Int) : Int := OSKAR_ERR_INVALID_ARGUMENT

/-! ## The casacore table behind the store -/

/-- The casacore element types (`casa::DataType`). -/
inductive DataType where
  | TpBool | TpChar | TpUChar | TpShort | TpUShort | TpInt | TpUInt
  | TpFloat | TpDouble | TpComplex | TpDComplex | TpString | TpTable
  | TpArrayBool | TpArrayChar | TpArrayUChar | TpArrayShort | TpArrayUShort
  | TpArrayInt | TpArrayUInt | TpArrayFloat | TpArrayDouble | TpArrayComplex
  | TpArrayDComplex | TpArrayString | TpRecord | TpOther | TpQuantity
  | TpArrayQuantity | TpInt64 | TpArrayInt64
deriving DecidableEq, Repr

/-- One element of a table cell. -/
inductive Value where
  | bool (b : Bool)
  | int (i : Int)
  | real (x : ℚ)
  | complex (re im : FloatValue)
  | str (s : String)
deriving DecidableEq, Repr

/-- The contents of one cell: the elements of the scalar or array, in storage order
(first axis fastest). -/
abbrev Cell := List Value

/-- The part of `casa::ColumnDesc` read by the store. -/
structure ColumnDesc where
  name : String
  dataType : DataType
  isScalar : Bool
deriving DecidableEq, Repr

/-- A row of the OBSERVATION sub-table: the two values of TIME_RANGE and RELEASE_DATE. -/
structure ObservationRow where
  timeRange : ℚ × ℚ
  releaseDate : ℚ
deriving DecidableEq, Repr

/-- A row of the HISTORY sub-table. -/
structure HistoryRow where
  message : String
  application : String
  priority : String
  origin : String
  time : ℚ
  observationId : Int
  appParams : List String
  cliCommand : List String
deriving DecidableEq, Repr

/-- A row of the POLARIZATION sub-table: CORR_TYPE, CORR_PRODUCT (one pair of receptors
for each correlation) and NUM_CORR. -/
structure PolarizationRow where
  corrType : List Int
  corrProduct : List (Int × Int)
  numCorr : Nat
deriving DecidableEq, Repr

/-- A row of the SPECTRAL_WINDOW sub-table: the column NUM_CHAN, a count. -/
structure SpectralWindowRow where
  numChan : Nat
deriving DecidableEq, Repr

/-- The Measurement Set: the main table (its description, its row count, its cells by row
and column), the tile shapes of the hypercubes of its tiled storage managers by manager
name, the data manager type and group of each column, the shape of the array cells
(`ArrayColumn::shape(row)`, `none` where the call throws), and the rows of the OBSERVATION,
HISTORY, POLARIZATION and SPECTRAL_WINDOW sub-tables.  The keyword sets and the other
sub-tables are not part of the embedding. -/
structure Table where
  desc : List ColumnDesc
  nrow : Nat
  cell : Nat → String → Cell
  tiles : List (String × List Nat) := []
  dataManager : String → String × String := fun _ => ("StandardStMan", "StandardStMan")
  cellShape : Nat → String → Option (List Nat) := fun _ _ => none
  observation : List ObservationRow := []
  history : List HistoryRow := []
  polarization : List PolarizationRow := []
  spectralWindow : List SpectralWindowRow := []

/-- The method `TableDesc::isColumn`. -/
def Table.isColumn (t : Table) (column : String) : Bool :=
  t.desc.any (fun d => d.name == column)

/-- The method `Table::addRow(n)`: `n` rows with empty cells after the existing ones. -/
def Table.addRow (t : Table) (n : Nat) : Table :=
  { t with nrow := t.nrow + n, cell := fun r c => if r < t.nrow then t.cell r c else [] }

/-- The method `put(row, value)` of a column: throws when the row is outside the table. -/
def Table.put (t : Table) (column : String) (row : Nat) (v : Cell) : Option Table :=
  if row < t.nrow then
    some { t with cell := fun r c => if r = row ∧ c = column then v else t.cell r c }
  else none

/-- A sequence of `put(row, value)` calls on the columns named in the list, in order. -/
def Table.putAll (t : Table) (row : Nat) : List (String × Cell) → Option Table
  | [] => some t
  | (column, v) :: rest => (t.put column row v).bind fun t1 => t1.putAll row rest

/-- The cells of a row after the values of the list have been put into it, in order. -/
def overlay (vals : List (String × Cell)) (old : String → Cell) : String → Cell :=
  vals.foldl (fun f cv => fun c => if c = cv.1 then cv.2 else f c) old

/-! ## The store handle -/

/-- The largest finite `double`. -/
def DBL_MAX : ℚ := 2 ^ 1024 - 2 ^ 971

/-- The structure `oskar_MeasurementSet`.  The pointers `ms`, `msc` and `msmc` are set
together by `create` and `open` and cleared together by `close`; `ms = none` is the state
in which they are null. -/
structure oskar_MeasurementSet where
  ms : Option Table
  write_autocorr : Bool
  num_pols : Nat
  num_channels : Nat
  num_stations : Nat
  num_receptors : Nat
  ref_freq : ℚ
  chan_width : ℚ
  phase_centre_ra : ℚ
  phase_centre_dec : ℚ
  start_time : ℚ
  end_time : ℚ
  time_inc_sec : ℚ
  app_name : String := ""

/-- The method `oskar_MeasurementSet::num_rows`. -/
def oskar_MeasurementSet.num_rows (p : oskar_MeasurementSet) : Nat :=
  match p.ms with
  | none => 0
  | some t => t.nrow

/-- The function `oskar_ms_num_rows`. -/
def oskar_ms_num_rows (p : oskar_MeasurementSet) : Nat := p.num_rows

/-- The function `oskar_ms_num_pols`. -/
def oskar_ms_num_pols (p : oskar_MeasurementSet) : Nat := p.num_pols

/-- The method `oskar_MeasurementSet::set_num_rows`, `num` being an `unsigned int`. -/
def oskar_MeasurementSet.set_num_rows (p : oskar_MeasurementSet) (num : Nat) :
    oskar_MeasurementSet :=
  match p.ms with
  | none => p
  | some t =>
    let old_num_rows := p.num_rows
    let rows_to_add := usub num old_num_rows
    if rows_to_add = 0 then p
    else { p with ms := some (t.addRow rows_to_add) }

/-- The function `oskar_ms_set_num_rows`. -/
def oskar_ms_set_num_rows (p : oskar_MeasurementSet) (num : Nat) : oskar_MeasurementSet :=
  p.set_num_rows num

/-- The values put into the ten columns of one row by `oskar_ms_write_all_for_time_d`, in
the order of the `put` calls; `r` is the row's position within the time sample and `conv`
the conversion applied to each real and imaginary part by `Complex(re, im)`.  The matrix
`vis_data(p, c)` is stored with the polarisation axis fastest, so the element at storage
position `k` is `vis_data(k % num_pols, k / num_pols)`. -/
def row_values (conv : ℚ → FloatValue) (num_pols num_channels : Nat) (u v w : Nat → ℚ)
    (vis : Nat → ℚ) (ant1 ant2 : Nat → Int) (exposure interval time : ℚ) (r : Nat) :
    List (String × Cell) :=
  let weight : Cell := List.replicate num_pols (Value.real 1)
  let sigma : Cell := List.replicate num_pols (Value.real 1)
  let vis_row : Nat → ℚ := fun b => vis (toUInt (toUInt (2 * num_pols * num_channels) * r) + b)
  let vis_data : Nat → Nat → Value := fun pol c =>
    let b := toUInt (2 * (pol + c * num_pols))
    Value.complex (conv (vis_row b)) (conv (vis_row (b + 1)))
  let data : Cell :=
    (List.range (num_pols * num_channels)).map (fun k => vis_data (k % num_pols) (k / num_pols))
  [("UVW", [Value.real (u r), Value.real (v r), Value.real (w r)]),
   ("ANTENNA1", [Value.int (ant1 r)]),
   ("ANTENNA2", [Value.int (ant2 r)]),
   ("DATA", data),
   ("WEIGHT", weight),
   ("SIGMA", sigma),
   ("EXPOSURE", [Value.real exposure]),
   ("INTERVAL", [Value.real interval]),
   ("TIME", [Value.real time]),
   ("TIME_CENTROID", [Value.real time])]

/-- The body shared by `oskar_ms_write_all_for_time_d` and `oskar_ms_write_all_for_time_f`:
the row loop, then the update of the time range. -/
def oskar_ms_write_all_for_time (conv : ℚ → FloatValue) (p : oskar_MeasurementSet)
    (start_row num_baselines : Nat) (u v w : Nat → ℚ) (vis : Nat → ℚ)
    (ant1 ant2 : Nat → Int) (exposure interval time : ℚ) : Option oskar_MeasurementSet :=
  match p.ms with
  | none => some p
  | some tbl =>
    let rows := forLoopM (fun r tb =>
        let row := toUInt (r + start_row)
        tb.putAll row
          (row_values conv p.num_pols p.num_channels u v w vis ant1 ant2 exposure interval time r))
      0 num_baselines tbl
    rows.map fun tb =>
      { p with
        ms := some tb
        start_time := if time < p.start_time then time - interval / 2 else p.start_time
        end_time := if time > p.end_time then time + interval / 2 else p.end_time
        time_inc_sec := interval }

/-- The function `oskar_ms_write_all_for_time_d`: `Complex` is single precision, so the
`double` parts are narrowed. -/
def oskar_ms_write_all_for_time_d (p : oskar_MeasurementSet)
    (start_row num_baselines : Nat) (u v w : Nat → ℚ) (vis : Nat → ℚ)
    (ant1 ant2 : Nat → Int) (exposure interval time : ℚ) : Option oskar_MeasurementSet :=
  oskar_ms_write_all_for_time toFloat32 p start_row num_baselines u v w vis ant1 ant2
    exposure interval time

/-- Modelled from the spec: `oskar_ms_write_all_for_time_f` is called by the writer but is
not among the sources.  The spec has the single-precision procedure follow the
double-precision one with identical control flow; its `float` parts need no conversion. -/
def oskar_ms_write_all_for_time_f (p : oskar_MeasurementSet)
    (start_row num_baselines : Nat) (u v w : Nat → ℚ) (vis : Nat → ℚ)
    (ant1 ant2 : Nat → Int) (exposure interval time : ℚ) : Option oskar_MeasurementSet :=
  oskar_ms_write_all_for_time FloatValue.finite p start_row num_baselines u v w vis ant1 ant2
    exposure interval time

/-! ## The generic column accessor -/

/-- The outputs of `get_column`: the caller's buffer (as elements of the column's type),
`*required_size` and `*status`. -/
structure ColumnRead where
  data : List Value
  required_size : Nat
  status : Int
deriving DecidableEq, Repr

/-- The method `getColumnRange(Slice(start_row, num_rows, 1))`: the elements of the
selected rows in storage order; throws when the slice leaves the table. -/
def Table.getColumnRange (t : Table) (column : String) (start_row num_rows : Nat) :
    Option (List Value) :=
  if start_row + num_rows ≤ t.nrow then
    some ((List.range' start_row num_rows).flatMap (fun r => t.cell r column))
  else none

/-- The template `oskar_MeasurementSet::copy_scalar<T>`, `sizeofT` being `sizeof(T)`. -/
def copy_scalar (sizeofT : Nat) (t : Table) (column : String) (start_row num_rows : Nat)
    (data_size_bytes : Nat) (data : List Value) (status : Int) : Option ColumnRead :=
  (t.getColumnRange column start_row num_rows).map fun a =>
    let required_size := a.length * sizeofT
    if data_size_bytes ≥ required_size then
      { data := a ++ data.drop a.length, required_size := required_size, status := status }
    else
      { data := data, required_size := required_size, status := OSKAR_ERR_MS_OUT_OF_RANGE }

/-- The template `oskar_MeasurementSet::copy_array<T>`, `sizeofT` being `sizeof(T)`. -/
def copy_array (sizeofT : Nat) (t : Table) (column : String) (start_row num_rows : Nat)
    (data_size_bytes : Nat) (data : List Value) (status : Int) : Option ColumnRead :=
  (t.getColumnRange column start_row num_rows).map fun a =>
    let required_size := a.length * sizeofT
    if data_size_bytes ≥ required_size then
      { data := a ++ data.drop a.length, required_size := required_size, status := status }
    else
      { data := data, required_size := required_size, status := OSKAR_ERR_MS_OUT_OF_RANGE }

/-- The method `oskar_MeasurementSet::get_column`; `start_row` and `num_rows` are
`unsigned int`. -/
def oskar_MeasurementSet.get_column (p : oskar_MeasurementSet) (column : String)
    (start_row num_rows : Nat) (data_size_bytes : Nat) (data : List Value)
    (required_size : Nat) (status : Int) : Option ColumnRead :=
  let unchanged : ColumnRead := { data := data, required_size := required_size, status := status }
  match p.ms with
  | none => some unchanged
  | some t =>
    if status ≠ 0 then some unchanged
    else if !t.isColumn column then
      some { unchanged with status := OSKAR_ERR_MS_COLUMN_NOT_FOUND }
    else if num_rows = 0 then some unchanged
    else
      let total_rows := t.nrow
      if start_row ≥ total_rows then
        some { unchanged with status := OSKAR_ERR_MS_OUT_OF_RANGE }
      else
        let num_rows :=
          if toUInt (start_row + num_rows) > total_rows then total_rows - start_row
          else num_rows
        match t.desc.find? (fun d => d.name == column) with
        | none => none
        | some cdesc =>
          let dtype := cdesc.dataType
          if cdesc.isScalar then
            match dtype with
            | .TpBool => copy_scalar 1 t column start_row num_rows data_size_bytes data status
            | .TpUChar => copy_scalar 1 t column start_row num_rows data_size_bytes data status
            | .TpShort => copy_scalar 2 t column start_row num_rows data_size_bytes data status
            | .TpUShort => copy_scalar 2 t column start_row num_rows data_size_bytes data status
            | .TpInt => copy_scalar 4 t column start_row num_rows data_size_bytes data status
            | .TpUInt => copy_scalar 4 t column start_row num_rows data_size_bytes data status
            | .TpFloat => copy_scalar 4 t column start_row num_rows data_size_bytes data status
            | .TpDouble => copy_scalar 8 t column start_row num_rows data_size_bytes data status
            | .TpComplex => copy_scalar 8 t column start_row num_rows data_size_bytes data status
            | .TpDComplex => copy_scalar 16 t column start_row num_rows data_size_bytes data status
            | _ => some { unchanged with status := OSKAR_ERR_MS_UNKNOWN_DATA_TYPE }
          else
            match dtype with
            | .TpBool => copy_array 1 t column start_row num_rows data_size_bytes data status
            | .TpUChar => copy_array 1 t column start_row num_rows data_size_bytes data status
            | .TpShort => copy_array 2 t column start_row num_rows data_size_bytes data status
            | .TpUShort => copy_array 2 t column start_row num_rows data_size_bytes data status
            | .TpInt => copy_array 4 t column start_row num_rows data_size_bytes data status
            | .TpUInt => copy_array 4 t column start_row num_rows data_size_bytes data status
            | .TpFloat => copy_array 4 t column start_row num_rows data_size_bytes data status
            | .TpDouble => copy_array 8 t column start_row num_rows data_size_bytes data status
            | .TpComplex => copy_array 8 t column start_row num_rows data_size_bytes data status
            | .TpDComplex => copy_array 16 t column start_row num_rows data_size_bytes data status
            | _ => some { unchanged with status := OSKAR_ERR_MS_UNKNOWN_DATA_TYPE }

/-- The function `oskar_ms_get_column`. -/
def oskar_ms_get_column (p : oskar_MeasurementSet) (column : String)
    (start_row num_rows : Nat) (data_size_bytes : Nat) (data : List Value)
    (required_size_bytes : Nat) (status : Int) : Option ColumnRead :=
  p.get_column column start_row num_rows data_size_bytes data required_size_bytes status

/-! ## The visibility block and its header -/

/-- Modelled from the spec: `oskar_mem_precision` and the constants `OSKAR_SINGLE` and
`OSKAR_DOUBLE` are not among the sources; the result is single precision, double precision,
or the precision bits of an array that holds neither `float` nor `double` elements. -/
inductive Precision where
  | OSKAR_SINGLE
  | OSKAR_DOUBLE
  | other
deriving DecidableEq, Repr

/-- Modelled from the spec: the accessor functions `oskar_vis_block_num_times`, ...,
`oskar_vis_block_has_auto_correlations` are not among the sources; each is a field of the
block.  Complex arrays are indexed by complex element, a matrix sample occupying four
consecutive elements (the polarisation dimension is the fastest varying), and every array
of the block has the precision of the cross-correlations. -/
structure oskar_VisBlock where
  num_times : Nat
  num_channels : Nat
  num_baselines : Nat
  num_stations : Nat
  num_pols : Nat
  precision : Precision
  has_auto_correlations : Bool
  time_start_mjd_utc : ℚ
  auto_correlations : Nat → double2
  cross_correlations : Nat → double2
  baseline_uu_metres : Nat → ℚ
  baseline_vv_metres : Nat → ℚ
  baseline_ww_metres : Nat → ℚ
  baseline_station1 : Nat → Int
  baseline_station2 : Nat → Int

/-- Modelled from the spec: `oskar_vis_header_time_inc_sec` and
`oskar_vis_header_time_average_sec` are not among the sources; each is a field of the
header. -/
structure oskar_VisHeader where
  time_inc_sec : ℚ
  time_average_sec : ℚ

/-! ## The writer's loops -/

/-- The loop variables `b`, `i_out` and the array written through `i_out`. -/
structure LoopState (α : Type) where
  b : Nat
  i_out : Nat
  out : Nat → α

/-- The inner loop `for (a2 = a1 + 1, ++i_out; a2 < num_stations; ++a2, ++b, ++i_out)`
of the coordinate construction, after its initialiser: `out[i_out] = in[b]`. -/
def coords_cross (inp : Nat → ℚ) (num_stations a1 : Nat) (st : LoopState ℚ) : LoopState ℚ :=
  forLoop (fun _a2 s =>
      { b := s.b + 1, i_out := s.i_out + 1, out := setAt s.out s.i_out (inp s.b) })
    (a1 + 1) (num_stations - (a1 + 1)) st

/-- The body of the station loop of the coordinate construction: `out[i_out] = 0.0` for the
self-baseline of station `a1`, then the inner loop over its cross-baselines. -/
def coords_station (inp : Nat → ℚ) (num_stations a1 : Nat) (s : LoopState ℚ) : LoopState ℚ :=
  coords_cross inp num_stations a1
    { b := s.b, i_out := s.i_out + 1, out := setAt s.out s.i_out 0 }

/-- The coordinate construction with autocorrelations, for one of the three coordinate
arrays: `for (a1 = 0, b = 0, i_out = 0; a1 < num_stations; ++a1)`.  The index `b` restarts
at zero for every time sample and `inp` is the start of the input array. -/
def coords_autocorr (inp : Nat → ℚ) (num_stations : Nat) (out : Nat → ℚ) : Nat → ℚ :=
  (forLoop (coords_station inp num_stations) 0 num_stations { b := 0, i_out := 0, out := out }).out

/-- Modelled from the spec: `oskar_mem_copy_contents(dst, src, offset_dst, offset_src, n)`
is not among the sources; it copies `n` elements unchanged. -/
def oskar_mem_copy_contents (dst src : Nat → ℚ) (offset_dst offset_src n : Nat) : Nat → ℚ :=
  fun j => if offset_dst ≤ j ∧ j < offset_dst + n then src (offset_src + (j - offset_dst))
    else dst j

/-- The sample copy of the 4-in/4-out case: `((double4c*)out)[i_out] = ((const double4c*)src)[i]`. -/
def put_matrix (out : Nat → double2) (i_out : Nat) (src : Nat → double2) (i : Nat) :
    Nat → double2 :=
  setAt (setAt (setAt (setAt out (4 * i_out) (src (4 * i))) (4 * i_out + 1) (src (4 * i + 1)))
    (4 * i_out + 2) (src (4 * i + 2))) (4 * i_out + 3) (src (4 * i + 3))

/-- The sample copy of the 1-in/1-out case: `((double2*)out)[i_out] = ((const double2*)src)[i]`. -/
def put_scalar (out : Nat → double2) (i_out : Nat) (src : Nat → double2) (i : Nat) :
    Nat → double2 :=
  setAt out i_out (src i)

/-- The sample expansion of the remaining case: `vis_amp = src[i]`, then XX and YY receive
`vis_amp` and both parts of XY and YX receive `0.0`. -/
def put_expand (out : Nat → double2) (i_out : Nat) (src : Nat → double2) (i : Nat) :
    Nat → double2 :=
  let vis_amp := src i
  let o0 := setAt out (i_out + 0) vis_amp
  let o1 := setAt o0 (i_out + 1) { (o0 (i_out + 1)) with x := 0 }
  let o1 := setAt o1 (i_out + 1) { (o1 (i_out + 1)) with y := 0 }
  let o2 := setAt o1 (i_out + 2) { (o1 (i_out + 2)) with x := 0 }
  let o2 := setAt o2 (i_out + 2) { (o2 (i_out + 2)) with y := 0 }
  setAt o2 (i_out + 3) vis_amp

/-- The channel loop `for (c = 0; c < num_channels; ++c)` of the amplitude construction:
`idx c` is the input index `i`, `put` the sample store and `inc` the step of `i_out`. -/
def amp_channels (put : (Nat → double2) → Nat → (Nat → double2) → Nat → (Nat → double2))
    (inc : Nat) (src : Nat → double2) (idx : Nat → Nat) (num_channels : Nat)
    (st : LoopState double2) : LoopState double2 :=
  forLoop (fun c s =>
      { b := s.b, i_out := s.i_out + inc, out := put s.out s.i_out src (idx c) })
    0 num_channels st

/-- The body of the loop `for (a2 = a1 + 1; a2 < num_stations; ++b, ++a2)` of the amplitude
construction: the channels of cross-baseline `b`, then `++b`. -/
def amp_baseline (put : (Nat → double2) → Nat → (Nat → double2) → Nat → (Nat → double2))
    (inc : Nat) (blk : oskar_VisBlock) (t : Nat) (s : LoopState double2) : LoopState double2 :=
  let s1 := amp_channels put inc blk.cross_correlations
    (fun c => blk.num_baselines * (t * blk.num_channels + c) + s.b) blk.num_channels s
  { s1 with b := s1.b + 1 }

/-- The body of the station loop of the amplitude construction: the autocorrelations of
station `a1` when present, then the loop over its cross-baselines. -/
def amp_station (put : (Nat → double2) → Nat → (Nat → double2) → Nat → (Nat → double2))
    (inc : Nat) (blk : oskar_VisBlock) (t a1 : Nat) (st : LoopState double2) :
    LoopState double2 :=
  let st1 :=
    if blk.has_auto_correlations then
      amp_channels put inc blk.auto_correlations
        (fun c => blk.num_stations * (t * blk.num_channels + c) + a1) blk.num_channels st
    else st
  forLoop (fun _a2 s => amp_baseline put inc blk t s)
    (a1 + 1) (blk.num_stations - (a1 + 1)) st1

/-- The amplitude construction `for (a1 = 0, b = 0, i_out = 0; a1 < num_stations; ++a1)`
for time sample `t`. -/
def amp_loop (put : (Nat → double2) → Nat → (Nat → double2) → Nat → (Nat → double2))
    (inc : Nat) (blk : oskar_VisBlock) (t : Nat) (out : Nat → double2) : Nat → double2 :=
  (forLoop (amp_station put inc blk t) 0 blk.num_stations { b := 0, i_out := 0, out := out }).out

/-- The temporary arrays `temp_uu`, `temp_vv`, `temp_ww` and `temp_vis`. -/
structure TempArrays where
  uu : Nat → ℚ
  vv : Nat → ℚ
  ww : Nat → ℚ
  vis : Nat → double2

/-- Modelled from the spec: `oskar_mem_create` is not among the sources; the contents of
the arrays it returns are taken as zero.  The arrays are total functions: the lengths of
the allocations (`num_baselines_out * num_channels * num_pols_out` complex values for
`temp_vis`, `num_baselines_out` values for each coordinate buffer) are not part of the
value, and an access beyond them, which C leaves undefined, is not represented.  The
theorems about the writer assume `write_defined`, under which no such access occurs. -/
def TempArrays.create : TempArrays :=
  { uu := fun _ => 0, vv := fun _ => 0, ww := fun _ => 0, vis := fun _ => double2.zero }

/-- The construction of the baseline coordinates for time sample `t`. -/
def coords_for_time (blk : oskar_VisBlock) (t : Nat) (tmp : TempArrays) : TempArrays :=
  if blk.has_auto_correlations then
    { tmp with
      uu := coords_autocorr blk.baseline_uu_metres blk.num_stations tmp.uu
      vv := coords_autocorr blk.baseline_vv_metres blk.num_stations tmp.vv
      ww := coords_autocorr blk.baseline_ww_metres blk.num_stations tmp.ww }
  else
    { tmp with
      uu := oskar_mem_copy_contents tmp.uu blk.baseline_uu_metres 0
        (t * blk.num_baselines) blk.num_baselines
      vv := oskar_mem_copy_contents tmp.vv blk.baseline_vv_metres 0
        (t * blk.num_baselines) blk.num_baselines
      ww := oskar_mem_copy_contents tmp.ww blk.baseline_ww_metres 0
        (t * blk.num_baselines) blk.num_baselines }

/-- The construction of the amplitude data for time sample `t`.  The indices `i`, `i_out`
and `b`, which the source holds in `int`, are natural numbers here; the theorems about the
construction assume `write_defined`, under which they stay below `INT_MAX`
(`write_defined_indices`), and state that bound. -/
def amps_for_time (blk : oskar_VisBlock) (num_pols_out t : Nat) (out : Nat → double2) :
    Nat → double2 :=
  if blk.num_pols = 4 then amp_loop put_matrix 1 blk t out
  else if blk.num_pols = 1 ∧ num_pols_out = 1 then amp_loop put_scalar 1 blk t out
  else amp_loop put_expand 4 blk t out

/-- The number of output baselines. -/
def num_baselines_out (blk : oskar_VisBlock) : Nat :=
  if blk.has_auto_correlations then blk.num_baselines + blk.num_stations
  else blk.num_baselines

/-- The construction of the coordinates and amplitudes for time sample `t` in the
temporary arrays. -/
def build_time_sample (blk : oskar_VisBlock) (num_pols_out t : Nat) (tmp : TempArrays) :
    TempArrays :=
  let tmp := coords_for_time blk t tmp
  { tmp with vis := amps_for_time blk num_pols_out t tmp.vis }

/-- The temporary arrays as they are handed to the store for time sample `t - 1`, that is
after the constructions for the time samples `0, ..., t - 1`. -/
def temp_after (blk : oskar_VisBlock) (num_pols_out : Nat) : Nat → TempArrays
  | 0 => TempArrays.create
  | t + 1 => build_time_sample blk num_pols_out t (temp_after blk num_pols_out t)

/-- The body of the loop `for (t = 0; t < num_times; ++t)`; `write` is
`oskar_ms_write_all_for_time_d` or `oskar_ms_write_all_for_time_f`. -/
def write_time_sample
    (write : oskar_MeasurementSet → Nat → Nat → (Nat → ℚ) → (Nat → ℚ) → (Nat → ℚ) →
      (Nat → ℚ) → (Nat → Int) → (Nat → Int) → ℚ → ℚ → ℚ → Option oskar_MeasurementSet)
    (blk : oskar_VisBlock) (header : oskar_VisHeader) (start_row : Nat) (t : Nat)
    (st : oskar_MeasurementSet × TempArrays) : Option (oskar_MeasurementSet × TempArrays) :=
  let dt_dump := header.time_inc_sec
  let t_start_sec := blk.time_start_mjd_utc * 86400
  let tmp := build_time_sample blk (oskar_ms_num_pols st.1) t st.2
  (write st.1 (toUInt (start_row + t * num_baselines_out blk)) (toUInt (num_baselines_out blk))
    tmp.uu tmp.vv tmp.ww (asReals tmp.vis) blk.baseline_station1 blk.baseline_station2
    header.time_average_sec dt_dump (t_start_sec + (t : ℚ) * dt_dump)).map fun p => (p, tmp)

/-- The values put into the row at position `r` of time sample `t` by
`oskar_vis_block_write_ms`, for a store with `num_pols` polarisations and `num_channels`
channels. -/
def sample_row_values (conv : ℚ → FloatValue) (blk : oskar_VisBlock) (header : oskar_VisHeader)
    (num_pols num_channels t r : Nat) : List (String × Cell) :=
  let tmp := temp_after blk num_pols (t + 1)
  row_values conv num_pols num_channels tmp.uu tmp.vv tmp.ww (asReals tmp.vis)
    blk.baseline_station1 blk.baseline_station2 header.time_average_sec header.time_inc_sec
    (blk.time_start_mjd_utc * 86400 + (t : ℚ) * header.time_inc_sec) r

/-- The conversion made by the store for a block of the given precision. -/
def conv_of (prec : Precision) : ℚ → FloatValue :=
  match prec with
  | .OSKAR_DOUBLE => toFloat32
  | _ => FloatValue.finite

/-- The function `oskar_vis_block_write_ms`, called with a status pointer that is not
null.  The result is `none` when a casacore call throws; otherwise it is the store behind
`ms` (if the pointer is not null) and `*status` after the call. -/
def oskar_vis_block_write_ms (blk : Option oskar_VisBlock) (header : Option oskar_VisHeader)
    (ms : Option oskar_MeasurementSet) (status : Int) :
    Option (Option oskar_MeasurementSet × Int) :=
  match blk, header, ms with
  | some blk, some header, some ms =>
    if status ≠ 0 then some (some ms, status)
    else
      let num_pols_out := oskar_ms_num_pols ms
      let num_pols_in := blk.num_pols
      if num_pols_in > num_pols_out then some (some ms, OSKAR_ERR_DIMENSION_MISMATCH)
      else
        let start_row := oskar_ms_num_rows ms
        let ms := oskar_ms_set_num_rows ms
          (toUInt (start_row + blk.num_times * num_baselines_out blk))
        match blk.precision with
        | .OSKAR_DOUBLE =>
          (forLoopM (write_time_sample oskar_ms_write_all_for_time_d blk header start_row)
            0 blk.num_times (ms, TempArrays.create)).map fun r => (some r.1, status)
        | .OSKAR_SINGLE =>
          (forLoopM (write_time_sample oskar_ms_write_all_for_time_f blk header start_row)
            0 blk.num_times (ms, TempArrays.create)).map fun r => (some r.1, status)
        | .other => some (some ms, OSKAR_ERR_BAD_DATA_TYPE)
  | _, _, ms => some (ms, oskar_set_invalid_argument status)

/-- The conditions on a block and on the polarisation and channel counts of the store
under which C defines the behaviour of the time loop of `oskar_vis_block_write_ms`.  The
arrays of the embedding are total functions and its counters unbounded, whereas in C the
temporary buffer `temp_vis` has `num_baselines_out * num_channels * num_pols_out` complex
values and the coordinate buffers `num_baselines_out` values each (lines 100 to 104), the
store reads `num_pols * num_channels` complex values for each row, and the counters and
indices are `int`.  The conditions are: the block is a scalar or a matrix block and the
store has one or four polarisations, not fewer than the block (the last branch of the
amplitude construction stores four values for each sample); the store has the channel
count of the block; the block has one cross-baseline for each pair of stations (the loops
run over the pairs); and the number of output baselines, the length of `temp_vis` and the
lengths of the correlation arrays that are read, all computed or indexed in `int`, are at
most `INT_MAX`.  Under them every access stays inside its array
(`amplitude_accesses_log`). -/
def write_defined (blk : oskar_VisBlock) (num_pols_out num_channels_out : Nat) : Prop :=
  ((blk.num_pols = 4 ∧ num_pols_out = 4) ∨
    (blk.num_pols = 1 ∧ (num_pols_out = 1 ∨ num_pols_out = 4))) ∧
  num_channels_out = blk.num_channels ∧
  blk.num_baselines = blk.num_stations * (blk.num_stations - 1) / 2 ∧
  num_baselines_out blk ≤ INT_MAX ∧
  num_baselines_out blk * blk.num_channels * num_pols_out ≤ INT_MAX ∧
  blk.num_baselines * (blk.num_times * blk.num_channels) ≤ INT_MAX ∧
  (blk.has_auto_correlations = true →
    blk.num_stations * (blk.num_times * blk.num_channels) ≤ INT_MAX)

instance write_defined_decidable (blk : oskar_VisBlock) (num_pols_out num_channels_out : Nat) :
    Decidable (write_defined blk num_pols_out num_channels_out) := by
  unfold write_defined
  infer_instance

/-- The sample store `put` writes the `w` elements of output sample `q` (reached with
`i_out = inc * q`) from `content src i`, and nothing else. -/
def PutSpec (put : (Nat → double2) → Nat → (Nat → double2) → Nat → (Nat → double2))
    (inc w : Nat) (content : (Nat → double2) → Nat → Nat → double2) : Prop :=
  ∀ out q src i j, put out (inc * q) src i j =
    if w * q ≤ j ∧ j < w * q + w then content src i (j - w * q) else out j

/-- The number of output rows that a station contributes besides its cross-baselines. -/
def self_rows (have_autocorr : Bool) : Nat := if have_autocorr then 1 else 0

/-! ## Positions of the baselines in the output of one time sample -/

/-- The number of cross-baselines `(a1, a2)`, `a1 < a2 < num_stations`, with `a1 < a`: the
value of the writer's index `b` when its station loop reaches `a1 = a`. -/
def cross_before (num_stations : Nat) : Nat → Nat
  | 0 => 0
  | a + 1 => cross_before num_stations a + (num_stations - (a + 1))

/-- The output sample `q` of the amplitude array `out` is a verbatim copy of the sample `i`
of `src`: the four matrix elements for a block of matrix type, the scalar otherwise. -/
def sample_copied (blk : oskar_VisBlock) (out : Nat → double2) (q : Nat)
    (src : Nat → double2) (i : Nat) : Prop :=
  if blk.num_pols = 4 then ∀ k, k < 4 → out (4 * q + k) = src (4 * i + k)
  else out q = src i

/-- Modelled from the spec: the projection of a four-polarisation sample back to one
polarisation, "take element 0"; no such function is among the sources. -/
def take_element0 (out : Nat → double2) (q : Nat) : double2 := out (4 * q)

/-! ## Creating the store -/

/-- The state set up by the constructor `oskar_MeasurementSet::oskar_MeasurementSet`. -/
def oskar_MeasurementSet.init : oskar_MeasurementSet :=
  { ms := none, write_autocorr := false, num_pols := 0, num_channels := 0, num_stations := 0,
    num_receptors := 2, ref_freq := 0, chan_width := 0, phase_centre_ra := 0,
    phase_centre_dec := 0, start_time := DBL_MAX, end_time := -DBL_MAX, time_inc_sec := 0 }

/-- The main-table description set up by `create`: the required columns of a Measurement
Set (`MS::requiredTableDesc()` of casacore) and the DATA column added to them. -/
def main_table_desc : List ColumnDesc :=
  [⟨"ANTENNA1", .TpInt, true⟩, ⟨"ANTENNA2", .TpInt, true⟩, ⟨"ARRAY_ID", .TpInt, true⟩,
   ⟨"DATA_DESC_ID", .TpInt, true⟩, ⟨"EXPOSURE", .TpDouble, true⟩, ⟨"FEED1", .TpInt, true⟩,
   ⟨"FEED2", .TpInt, true⟩, ⟨"FIELD_ID", .TpInt, true⟩, ⟨"FLAG", .TpBool, false⟩,
   ⟨"FLAG_CATEGORY", .TpBool, false⟩, ⟨"FLAG_ROW", .TpBool, true⟩,
   ⟨"INTERVAL", .TpDouble, true⟩, ⟨"OBSERVATION_ID", .TpInt, true⟩,
   ⟨"PROCESSOR_ID", .TpInt, true⟩, ⟨"SCAN_NUMBER", .TpInt, true⟩, ⟨"SIGMA", .TpFloat, false⟩,
   ⟨"STATE_ID", .TpInt, true⟩, ⟨"TIME", .TpDouble, true⟩, ⟨"TIME_CENTROID", .TpDouble, true⟩,
   ⟨"UVW", .TpDouble, false⟩, ⟨"WEIGHT", .TpFloat, false⟩, ⟨"DATA", .TpComplex, false⟩]

/-- The local variable `num_baselines` of `create`, computed in `unsigned int` from the
station count and the two flags; `none` is the `return false` of the last branch. -/
def create_num_baselines (num_stations : Nat) (write_autocorr write_crosscorr : Int) :
    Option Nat :=
  if write_autocorr ≠ 0 ∧ write_crosscorr ≠ 0 then
    some (toUInt (num_stations * toUInt (num_stations + 1)) / 2)
  else if ¬ write_autocorr ≠ 0 ∧ write_crosscorr ≠ 0 then
    some (toUInt (num_stations * usub num_stations 1) / 2)
  else if write_autocorr ≠ 0 ∧ ¬ write_crosscorr ≠ 0 then
    some num_stations
  else none

/-- The code `Undefined` of the enumeration `casa::Stokes::StokesTypes`. -/
def Stokes.Undefined : Int := 0

/-- The code of the correlation product XX. -/
def Stokes.XX : Int := 9

/-- The code of the correlation product XY. -/
def Stokes.XY : Int := 10

/-- The code of the correlation product YX. -/
def Stokes.YX : Int := 11

/-- The code of the correlation product YY. -/
def Stokes.YY : Int := 12

/-- The function `casa::Stokes::receptor1` on the codes of correlation products (RR to
QQ): the receptor of the first antenna. -/
def Stokes.receptor1 (stokesType : Int) : Int := (stokesType - 1) % 4 / 2

/-- The function `casa::Stokes::receptor2` on the codes of correlation products (RR to
QQ): the receptor of the second antenna. -/
def Stokes.receptor2 (stokesType : Int) : Int := (stokesType - 1) % 4 % 2

/-- The method `oskar_MeasurementSet::set_time_range`; `none` when the OBSERVATION
sub-table has no row `0` to read. -/
def oskar_MeasurementSet.set_time_range (p : oskar_MeasurementSet) :
    Option oskar_MeasurementSet :=
  match p.ms with
  | none => some p
  | some t =>
    match t.observation with
    | [] => none
    | row0 :: rest =>
      let old_range := row0.timeRange
      let range0 :=
        if old_range.1 ≤ 0 ∨ p.start_time < old_range.1 then p.start_time else old_range.1
      let range1 := if p.end_time > old_range.2 then p.end_time else old_range.2
      let release_date := range1 + 365.25 * 86400
      some { p with
        ms := some { t with
          observation := { timeRange := (range0, range1), releaseDate := release_date } :: rest } }

/-- The method `oskar_MeasurementSet::close`: the handle after the call and the Measurement
Set that the deleted table objects leave on disk (`none` when the handle was not open). -/
def oskar_MeasurementSet.close (p : oskar_MeasurementSet) :
    Option (oskar_MeasurementSet × Option Table) :=
  p.set_time_range.map fun p1 =>
    ({ p1 with
        ms := none, num_pols := 0, num_channels := 0, num_stations := 0,
        phase_centre_ra := 0, phase_centre_dec := 0 },
      p1.ms)

/-- The method `oskar_MeasurementSet::add_pol`.  The elements of `corr_type` that the code
does not assign (polarisation counts other than 1, 2 and 4) are taken as
`Stokes::Undefined`. -/
def oskar_MeasurementSet.add_pol (p : oskar_MeasurementSet) (num_pols : Nat) :
    oskar_MeasurementSet :=
  match p.ms with
  | none => p
  | some t =>
    let corr_type := (List.replicate num_pols Stokes.Undefined).set 0 Stokes.XX
    let corr_type :=
      if num_pols = 2 then corr_type.set 1 Stokes.YY
      else if num_pols = 4 then
        ((corr_type.set 1 Stokes.XY).set 2 Stokes.YX).set 3 Stokes.YY
      else corr_type
    let corr_product := corr_type.map fun c => (Stokes.receptor1 c, Stokes.receptor2 c)
    { p with
      ms := some { t with
        polarization := t.polarization ++
          [{ corrType := corr_type, corrProduct := corr_product, numCorr := num_pols }] } }

/-- The method `oskar_MeasurementSet::add_field`: of the row added to the FIELD sub-table
only the phase centre kept in the handle is part of the embedding. -/
def oskar_MeasurementSet.add_field (p : oskar_MeasurementSet) (ra_rad dec_rad : ℚ) :
    oskar_MeasurementSet :=
  match p.ms with
  | none => p
  | some _ => { p with phase_centre_ra := ra_rad, phase_centre_dec := dec_rad }

/-- The method `oskar_MeasurementSet::add_band`: of the rows added to the DATA_DESCRIPTION
and SPECTRAL_WINDOW sub-tables only the channel count is part of the embedding. -/
def oskar_MeasurementSet.add_band (p : oskar_MeasurementSet) (num_channels : Nat) :
    oskar_MeasurementSet :=
  match p.ms with
  | none => p
  | some t =>
    { p with ms := some { t with spectralWindow := t.spectralWindow ++ [⟨num_channels⟩] } }

/-- The data manager (type and group) that `create` binds to each column of the main
table. -/
def create_dataManager (column : String) : String × String :=
  if column = "ANTENNA1" ∨ column = "ANTENNA2" then ("StandardStMan", "SSMData")
  else if column = "UVW" then ("TiledColumnStMan", "TiledUVW")
  else if column = "WEIGHT" then ("TiledColumnStMan", "TiledWeight")
  else if column = "SIGMA" then ("TiledColumnStMan", "TiledSigma")
  else if column = "DATA" then ("TiledColumnStMan", "TiledData")
  else if column = "FLAG" then ("TiledColumnStMan", "TiledFlag")
  else ("IncrementalStMan", "ISMData")

/-- The fixed cell shapes that `create` declares for the array columns of the main table
(UVW has the shape `[3]` in `MS::requiredTableDesc()`). -/
def create_cellShape (num_pols num_channels : Nat) (column : String) : Option (List Nat) :=
  if column = "DATA" ∨ column = "FLAG" then some [num_pols, num_channels]
  else if column = "WEIGHT" ∨ column = "SIGMA" then some [num_pols]
  else if column = "UVW" then some [3]
  else none

/-- The method `oskar_MeasurementSet::create` on a newly constructed object: `none` is the
result `false`.  `throws` tells whether a casacore call throws (the new table cannot be
made).  Of the sub-tables that the method fills after the main table is set up, the
embedding has the OBSERVATION row with its time range and release date, the POLARIZATION
row and the channel count of the SPECTRAL_WINDOW row; the row that it adds to the HISTORY
sub-table, whose text and time come from the wall clock, is left out. -/
def oskar_MeasurementSet.create (throws : Bool) (_filename app_name : String)
    (ra_rad dec_rad : ℚ) (num_pols num_channels : Nat) (ref_freq chan_width : ℚ)
    (num_stations : Nat) (write_autocorr write_crosscorr : Int) :
    Option oskar_MeasurementSet :=
  match create_num_baselines num_stations write_autocorr write_crosscorr with
  | none => none
  | some num_baselines =>
    if throws then none
    else
      let p : oskar_MeasurementSet :=
        { oskar_MeasurementSet.init with
          ms := some
            { desc := main_table_desc, nrow := 0, cell := fun _ _ => [],
              tiles :=
                [("TiledUVW", [3, toUInt (2 * num_baselines)]),
                 ("TiledWeight", [num_pols, toUInt (2 * num_baselines)]),
                 ("TiledSigma", [num_pols, toUInt (2 * num_baselines)]),
                 ("TiledData", [num_pols, num_channels, toUInt (2 * num_baselines)]),
                 ("TiledFlag", [num_pols, num_channels, toUInt (16 * num_baselines)])],
              dataManager := create_dataManager,
              cellShape := fun _ => create_cellShape num_pols num_channels,
              observation := [{ timeRange := (0, 0), releaseDate := 0 }] }
          app_name := app_name }
      p.set_time_range.map fun p =>
        let p := p.add_pol num_pols
        let p := p.add_field ra_rad dec_rad
        let p := p.add_band num_channels
        { p with
          write_autocorr := decide (write_autocorr ≠ 0)
          num_pols := num_pols
          num_channels := num_channels
          num_stations := num_stations
          num_receptors := 2
          ref_freq := ref_freq
          chan_width := chan_width }

/-- The function `oskar_ms_create`: the new handle, or `none` for the null pointer. -/
def oskar_ms_create (throws : Bool) (filename app_name : String) (ra_rad dec_rad : ℚ)
    (num_pols num_channels : Nat) (ref_freq chan_width : ℚ) (num_stations : Nat)
    (write_autocorr write_crosscorr : Int) : Option oskar_MeasurementSet :=
  oskar_MeasurementSet.create throws filename app_name ra_rad dec_rad num_pols num_channels
    ref_freq chan_width num_stations write_autocorr write_crosscorr

/-! ## Sequences of calls -/

/-- The arguments of one call of `oskar_ms_write_all_for_time_d`. -/
structure TimeWrite where
  start_row : Nat
  num_baselines : Nat
  u : Nat → ℚ
  v : Nat → ℚ
  w : Nat → ℚ
  vis : Nat → ℚ
  ant1 : Nat → Int
  ant2 : Nat → Int
  exposure : ℚ
  interval : ℚ
  time : ℚ

/-- A sequence of calls of `oskar_ms_write_all_for_time_d` on one store, in order. -/
def write_times : List TimeWrite → oskar_MeasurementSet → Option oskar_MeasurementSet
  | [], p => some p
  | x :: rest, p =>
    (oskar_ms_write_all_for_time_d p x.start_row x.num_baselines x.u x.v x.w x.vis x.ant1
      x.ant2 x.exposure x.interval x.time).bind (write_times rest)

/-- A sequence of calls of `oskar_vis_block_write_ms` on one store, in order, the status
threaded through the calls. -/
def write_blocks : List (oskar_VisBlock × oskar_VisHeader) → oskar_MeasurementSet → Int →
    Option (oskar_MeasurementSet × Int)
  | [], ms, status => some (ms, status)
  | bh :: rest, ms, status =>
    match oskar_vis_block_write_ms (some bh.1) (some bh.2) (some ms) status with
    | some (some ms1, status1) => write_blocks rest ms1 status1
    | _ => none

/-- The number of time samples of a sequence of blocks. -/
def total_times (blocks : List (oskar_VisBlock × oskar_VisHeader)) : Nat :=
  (blocks.map (fun bh => bh.1.num_times)).sum

/-! ## Element sizes -/

/-- The size in bytes of one element, `sizeof(T)`, for the element types that `get_column`
passes to `copy_scalar<T>` and `copy_array<T>`; `none` for the other types. -/
def sizeofType : DataType → Option Nat
  | .TpBool => some 1
  | .TpUChar => some 1
  | .TpShort => some 2
  | .TpUShort => some 2
  | .TpInt => some 4
  | .TpUInt => some 4
  | .TpFloat => some 4
  | .TpDouble => some 8
  | .TpComplex => some 8
  | .TpDComplex => some 16
  | _ => none

/-- The number of rows that `get_column` reads for a request of `num_rows` rows from
`start_row` in a table of `total_rows` rows. -/
def clamped_rows (total_rows start_row num_rows : Nat) : Nat :=
  if start_row + num_rows > total_rows then total_rows - start_row else num_rows

/-! ## The history of the store -/

/-- The function `split_string`'s call `std::getline(ss, item, delim)` on the characters of
the stream that are not yet read: the item and the characters left, or `none` when the
call fails because the stream is at its end. -/
def getline (delim : Char) : List Char → Option (List Char × List Char)
  | [] => none
  | c :: rest =>
    if c = delim then some ([], rest)
    else
      match getline delim rest with
      | none => some ([c], [])
      | some (item, rest1) => some (c :: item, rest1)

/-- The loop `while (std::getline(ss, item, delim)) v.push_back(item)` of `split_string`,
cut off after `fuel` calls. -/
def split_string_loop (delim : Char) : Nat → List Char → List (List Char)
  | 0, _ => []
  | fuel + 1, ss =>
    match getline delim ss with
    | none => []
    | some (item, rest) => item :: split_string_loop delim fuel rest

/-- The function `split_string`.  Every successful `getline` reads at least one character,
so `s.length + 1` calls reach the end of the stream. -/
def split_string (s : List Char) (delim : Char) : List (List Char) :=
  split_string_loop delim (s.length + 1) s

/-- The fields of `struct tm` that `current_utc_to_mjd` reads. -/
structure tm where
  tm_sec : Int
  tm_min : Int
  tm_hour : Int
  tm_mday : Int
  tm_mon : Int
  tm_year : Int
deriving DecidableEq, Repr

/-- The function `current_utc_to_mjd`, `time_s` being what `std::gmtime` returns for the
system clock.  The division of `int` values is C's, which truncates.  The day fraction and
the returned value are computed in `double`: each division, addition and subtraction is
rounded to the nearest `double` (`roundDouble`), in the order in which the expression is
evaluated; the conversions of the `int` values and the constants `24.0`, `1440.0`,
`86400.0`, `2400000.5` and `0.5` are exact. -/
def current_utc_to_mjd (time_s : tm) : ℚ :=
  let a := Int.tdiv (14 - (time_s.tm_mon + 1)) 12
  let y := (time_s.tm_year + 1900) + 4800 - a
  let m := (time_s.tm_mon + 1) + 12 * a - 3
  let jdn := time_s.tm_mday + Int.tdiv (153 * m + 2) 5 + (365 * y) + Int.tdiv y 4
    - Int.tdiv y 100 + Int.tdiv y 400 - 32045
  let day_fraction : ℚ :=
    roundDouble (roundDouble (roundDouble ((time_s.tm_hour : ℚ) / 24)
      + roundDouble ((time_s.tm_min : ℚ) / 1440)) + roundDouble ((time_s.tm_sec : ℚ) / 86400))
  roundDouble (roundDouble (roundDouble ((jdn : ℚ) + day_fraction) - 2400000.5) - 0.5)

/-- The method `oskar_MeasurementSet::add_history`. -/
def oskar_MeasurementSet.add_history (p : oskar_MeasurementSet) (message origin : String)
    (time : ℚ) (app_params : List String) : oskar_MeasurementSet :=
  match p.ms with
  | none => p
  | some t =>
    { p with
      ms := some { t with
        history := t.history ++
          [{ message := message, application := p.app_name, priority := "INFO",
             origin := origin, time := time, observationId := -1,
             appParams := app_params, cliCommand := [] }] } }

/-- The function `oskar_ms_add_history`: `str` is the character array behind the pointer
(`none` for the null pointer), of which `size` characters are taken, and `clock` is the
system clock as `std::gmtime` returns it.  The product `86400.0 * current_utc_to_mjd()` is
a product of `double` values, rounded to the nearest `double`. -/
def oskar_ms_add_history (clock : tm) (p : oskar_MeasurementSet) (origin : String)
    (str : Option (List Char)) (size : Nat) : oskar_MeasurementSet :=
  match str with
  | none => p
  | some str =>
    if size = 0 then p
    else
      let v := split_string (str.take size) '\n'
      let num_lines := v.length
      let current_utc := roundDouble (86400 * current_utc_to_mjd clock)
      forLoop (fun i p => p.add_history (String.mk (v.getD i [])) origin current_utc [])
        0 num_lines p

/-! ## The scratch columns -/

/-- The method `String::contains` of casacore: `sub` occurs in `s`. -/
def contains_text (s sub : String) : Bool :=
  s.data.tails.any (fun rest => sub.data.isPrefixOf rest)

/-- The method `IPosition::product`: zero for a shape without axes. -/
def IPosition_product (shape : List Nat) : Nat :=
  if shape = [] then 0 else shape.prod

/-- Conversion of an integer value to `int`: the value itself if it is in the range of
`int`, and otherwise (where the result is implementation-defined) the value reduced modulo
`2 ^ 32`, as GCC and Clang define it. -/
def toInt (n : Nat) : Int :=
  if n % UINT_RANGE ≤ INT_MAX then ((n % UINT_RANGE : Nat) : Int)
  else ((n % UINT_RANGE : Nat) : Int) - (UINT_RANGE : Int)

/-- The variables `highestProduct` and `highestId` of `add_scratch_cols`. -/
structure TileSearch where
  highestProduct : Int
  highestId : Nat
deriving DecidableEq, Repr

/-- The loop of `add_scratch_cols` over the hypercubes of the storage manager of the data
column, `cubes` being their tile shapes. -/
def find_tile_shape (cubes : List (List Nat)) : TileSearch :=
  forLoop (fun i st =>
      let product := toInt (IPosition_product (cubes.getD i []))
      if product > 0 ∧ product > st.highestProduct then
        { highestProduct := product, highestId := i }
      else st)
    0 cubes.length { highestProduct := -(INT_MAX : Int), highestId := 0 }

/-- The tile shapes of the hypercubes of the tiled storage manager `group`
(`ROTiledStManAccessor::getTileShape`). -/
def Table.hypercubes (t : Table) (group : String) : List (List Nat) :=
  (t.tiles.filter (fun e => e.1 == group)).map (fun e => e.2)

/-- The column accessor `data` of `add_scratch_cols`: FLOAT_DATA when the main table has
that column, DATA otherwise; `none` when the constructor of the accessor throws because
the column is missing or is not an array column of the element type. -/
def data_column (t : Table) : Option String :=
  let name := if t.isColumn "FLOAT_DATA" then "FLOAT_DATA" else "DATA"
  let elem := if t.isColumn "FLOAT_DATA" then DataType.TpFloat else DataType.TpComplex
  match t.desc.find? (fun d => d.name == name) with
  | none => none
  | some d => if d.isScalar = false ∧ d.dataType = elem then some name else none

/-- The canonical tile shape of `add_scratch_cols` for a data column that is untiled or
tiled in another dimensionality; `none` when there is no spectral window (the maximum of
an empty column throws), when the shape of row `0` cannot be read, or when `nCorr` is
zero (the division is undefined). -/
def canonical_tile_shape (t : Table) (data : String) : Option (List Nat) :=
  match t.spectralWindow.map (fun w => w.numChan) with
  | [] => none
  | n :: ns =>
    let max_num_channels := ns.foldl max n
    let tileSize := max_num_channels / 10 + 1
    match t.cellShape 0 data with
    | some (nCorr :: _) =>
      if nCorr = 0 then none
      else some [nCorr, tileSize, 131072 / nCorr / tileSize + 1]
    | _ => none

/-- The tile shape `dataTileShape` that `add_scratch_cols` gives to the new columns. -/
def scratch_tile_shape (t : Table) (data : String) : Option (List Nat) :=
  let dataManType := (t.dataManager data).1
  let dataManGroup := (t.dataManager data).2
  let tiled := contains_text dataManType "Tiled"
  let found : Option (List Nat × Bool) :=
    if tiled then
      let cubes := t.hypercubes dataManGroup
      (cubes.get? (find_tile_shape cubes).highestId).map fun dataTileShape =>
        (dataTileShape, decide (dataTileShape.length = 3))
    else some ([], false)
  found.bind fun r =>
    let dataTileShape := r.1
    let simpleTiling := r.2
    if !tiled || !simpleTiling then canonical_tile_shape t data
    else some dataTileShape

/-- The call `ms->addColumn(td, tsm)` for one new column bound to a new tiled storage
manager with the given default tile shape; the cells of the new column are empty. -/
def Table.addColumn (t : Table) (d : ColumnDesc) (manType manName : String)
    (tileShape : List Nat) : Table :=
  { t with
    desc := t.desc ++ [d]
    cell := fun r c => if c = d.name then [] else t.cell r c
    tiles := t.tiles ++ [(manName, tileShape)]
    dataManager := fun c => if c = d.name then (manType, manName) else t.dataManager c
    cellShape := fun r c => if c = d.name then none else t.cellShape r c }

/-- The method `oskar_MeasurementSet::add_scratch_cols`; `none` when a casacore call
throws.  The removal of the keywords SORT_COLUMNS and SORTED_TABLE and of the on-the-fly
model records (`remove_otf_model`) changes keyword sets and the SOURCE sub-table only,
which are not part of the embedding. -/
def oskar_MeasurementSet.add_scratch_cols (p : oskar_MeasurementSet)
    (add_model add_corrected : Bool) : Option oskar_MeasurementSet :=
  match p.ms with
  | none => some p
  | some t =>
    let add_model := add_model && !(t.isColumn "MODEL_DATA")
    let add_corrected := add_corrected && !(t.isColumn "CORRECTED_DATA")
    if !add_model && !add_corrected then some p
    else
      (data_column t).bind fun data =>
        (scratch_tile_shape t data).map fun dataTileShape =>
          let t1 :=
            if add_model then
              t.addColumn ⟨"MODEL_DATA", .TpComplex, false⟩ "TiledShapeStMan" "ModelTiled"
                dataTileShape
            else t
          let t2 :=
            if add_corrected then
              t1.addColumn ⟨"CORRECTED_DATA", .TpComplex, false⟩ "TiledShapeStMan"
                "CorrectedTiled" dataTileShape
            else t1
          { p with ms := some t2 }

/-- The function `oskar_ms_add_scratch_columns`; the `int` flags convert to `bool`. -/
def oskar_ms_add_scratch_columns (p : oskar_MeasurementSet) (add_model add_corrected : Int) :
    Option oskar_MeasurementSet :=
  p.add_scratch_cols (decide (add_model ≠ 0)) (decide (add_corrected ≠ 0))

/-! ## The calendar -/

/-- Specification side of the Modified Julian Date: the leap years of the Gregorian
calendar. -/
def gregorian_leap (year : Nat) : Bool :=
  (year % 4 == 0 && year % 100 != 0) || year % 400 == 0

/-- Specification side of the Modified Julian Date: the number of days of a month
(`1` to `12`) of a year. -/
def gregorian_month_days (year month : Nat) : Nat :=
  if month = 2 then (if gregorian_leap year then 29 else 28)
  else if month = 4 ∨ month = 6 ∨ month = 9 ∨ month = 11 then 30
  else if 1 ≤ month ∧ month ≤ 12 then 31
  else 0

/-- Specification side of the Modified Julian Date: the number of days of the years `0`
to `year - 1`. -/
def gregorian_days_before_year : Nat → Nat
  | 0 => 0
  | y + 1 => gregorian_days_before_year y + (if gregorian_leap y then 366 else 365)

/-- Specification side of the Modified Julian Date: the number of days of the months of
`year` before `month`. -/
def gregorian_days_before_month (year : Nat) : Nat → Nat
  | 0 => 0
  | m + 1 => gregorian_days_before_month year m + gregorian_month_days year m

/-- Specification side of the Modified Julian Date: the number of days from the first day
of the year `0` to a date. -/
def gregorian_days (year month day : Nat) : Nat :=
  gregorian_days_before_year year + gregorian_days_before_month year month + (day - 1)

/-- Specification side of the Modified Julian Date: the number of days, with day fraction,
elapsed since 1858-11-17 00:00:00 at a date and time of day. -/
def modified_julian_date (year month day hour minute second : Nat) : ℚ :=
  ((gregorian_days year month day : ℚ) - (gregorian_days 1858 11 17 : ℚ)) +
    ((hour : ℚ) * 3600 + (minute : ℚ) * 60 + (second : ℚ)) / 86400

/-- The fields that `std::gmtime` gives for a date and time of day: `tm_mon` counts the
months from zero and `tm_year` the years from 1900. -/
def clock_at (year month day hour minute second : Nat) : tm :=
  { tm_sec := second, tm_min := minute, tm_hour := hour, tm_mday := day,
    tm_mon := (month : Int) - 1, tm_year := (year : Int) - 1900 }

/-! ## The memory accesses of the amplitude construction -/

/-- The loop variables `b` and `i_out` of the amplitude construction together with a record
of its memory accesses, in order: the positions of `(double*) out` that are written (the
complex value `k` of `out` occupies the positions `2 * k` and `2 * k + 1`) and the indices
`i` at which the autocorrelation and the cross-correlation buffer are read. -/
structure AccessLog where
  b : Nat
  i_out : Nat
  writes : List Nat
  reads_auto : List Nat
  reads_cross : List Nat
deriving DecidableEq, Repr

/-- The positions written by `((double4c*)out)[i_out] = ...`: four complex values. -/
def writes_matrix (i_out : Nat) : List Nat :=
  [8 * i_out, 8 * i_out + 1, 8 * i_out + 2, 8 * i_out + 3, 8 * i_out + 4, 8 * i_out + 5,
   8 * i_out + 6, 8 * i_out + 7]

/-- The positions written by `((double2*)out)[i_out] = ...`. -/
def writes_scalar (i_out : Nat) : List Nat := [2 * i_out, 2 * i_out + 1]

/-- The positions written by the six assignments of the expansion: `out_[i_out + 0]`, the
parts `x` and `y` of `out_[i_out + 1]` and of `out_[i_out + 2]`, and `out_[i_out + 3]`. -/
def writes_expand (i_out : Nat) : List Nat :=
  [2 * (i_out + 0), 2 * (i_out + 0) + 1, 2 * (i_out + 1), 2 * (i_out + 1) + 1,
   2 * (i_out + 2), 2 * (i_out + 2) + 1, 2 * (i_out + 3), 2 * (i_out + 3) + 1]

/-- The accesses of the channel loop `for (c = 0; c < num_channels; ++c)`: `idx c` is the
input index `i`, read in the autocorrelation buffer when `auto` is set and in the
cross-correlation buffer otherwise, `writes` gives the positions that the sample store
writes and `inc` is the step of `i_out`. -/
def amp_channels_log (writes : Nat → List Nat) (inc : Nat) (auto : Bool) (idx : Nat → Nat)
    (num_channels : Nat) (st : AccessLog) : AccessLog :=
  forLoop (fun c s =>
      { s with
        i_out := s.i_out + inc
        writes := s.writes ++ writes s.i_out
        reads_auto := if auto then s.reads_auto ++ [idx c] else s.reads_auto
        reads_cross := if auto then s.reads_cross else s.reads_cross ++ [idx c] })
    0 num_channels st

/-- The accesses of the body of the loop `for (a2 = a1 + 1; a2 < num_stations; ++b, ++a2)`. -/
def amp_baseline_log (writes : Nat → List Nat) (inc : Nat) (blk : oskar_VisBlock) (t : Nat)
    (s : AccessLog) : AccessLog :=
  let s1 := amp_channels_log writes inc false
    (fun c => blk.num_baselines * (t * blk.num_channels + c) + s.b) blk.num_channels s
  { s1 with b := s1.b + 1 }

/-- The accesses of the body of the station loop of the amplitude construction. -/
def amp_station_log (writes : Nat → List Nat) (inc : Nat) (blk : oskar_VisBlock) (t a1 : Nat)
    (st : AccessLog) : AccessLog :=
  let st1 :=
    if blk.has_auto_correlations then
      amp_channels_log writes inc true
        (fun c => blk.num_stations * (t * blk.num_channels + c) + a1) blk.num_channels st
    else st
  forLoop (fun _a2 s => amp_baseline_log writes inc blk t s)
    (a1 + 1) (blk.num_stations - (a1 + 1)) st1

/-- The accesses of the amplitude construction
`for (a1 = 0, b = 0, i_out = 0; a1 < num_stations; ++a1)` for time sample `t`. -/
def amp_loop_log (writes : Nat → List Nat) (inc : Nat) (blk : oskar_VisBlock) (t : Nat) :
    AccessLog :=
  forLoop (amp_station_log writes inc blk t) 0 blk.num_stations
    { b := 0, i_out := 0, writes := [], reads_auto := [], reads_cross := [] }

/-- The accesses of the construction of the amplitude data for time sample `t`, by the
branch that `oskar_vis_block_write_ms` takes.  The record runs the loops of
`amps_for_time` with the same variables `b` and `i_out` (`amp_loop_log_follows`,
`amps_for_time_log_vars`); the indices recorded are natural numbers, and the theorem about
them assumes `write_defined` and states that they stay below `INT_MAX`. -/
def amps_for_time_log (blk : oskar_VisBlock) (num_pols_out t : Nat) : AccessLog :=
  if blk.num_pols = 4 then amp_loop_log writes_matrix 1 blk t
  else if blk.num_pols = 1 ∧ num_pols_out = 1 then amp_loop_log writes_scalar 1 blk t
  else amp_loop_log writes_expand 4 blk t

/-- The positions of `vis` that `oskar_ms_write_all_for_time_d` reads, in order, for a
store of `num_pols` polarisations and `num_channels` channels and `num_baselines` rows:
`vis_row[b]` and `vis_row[b + 1]` with `vis_row = vis + (2 * num_pols * num_channels) * r`
and `b = 2 * (p + c * num_pols)`, both in `unsigned int`. -/
def vis_reads (num_pols num_channels num_baselines : Nat) : List Nat :=
  (List.range num_baselines).flatMap fun r =>
    (List.range num_channels).flatMap fun c =>
      (List.range num_pols).flatMap fun p =>
        let b := toUInt (2 * (p + c * num_pols))
        [toUInt (toUInt (2 * num_pols * num_channels) * r) + b,
         toUInt (toUInt (2 * num_pols * num_channels) * r) + (b + 1)]

/-- The invariant of the access record: `q` samples are stored, the positions written are
exactly those of the first `q` samples, in order, and the reads are in range. -/
def LogInv (w inc bcross bauto : Nat) (s : AccessLog) (q : Nat) : Prop :=
  s.i_out = inc * q ∧ s.writes = List.range (w * q) ∧
  (∀ i ∈ s.reads_cross, i < bcross) ∧ (∀ i ∈ s.reads_auto, i < bauto)

/-! ## The down-sampling of an image (`oskar_fits_to_sky_model`) -/

/-- The sum of two values of a floating type whose rounding is `fmt` (`toFloat32` for
`float`, `toFloat64` for `double`): the exact sum of two finite values, rounded; a NaN if an
operand is a NaN or the operands are infinities of opposite signs; and otherwise the
infinity among the operands. -/
def FloatValue.add (fmt : ℚ → FloatValue) : FloatValue → FloatValue → FloatValue
  | .finite a, .finite b => fmt (a + b)
  | .nan, _ => .nan
  | _, .nan => .nan
  | .infinite s, .infinite t => if s = t then .infinite s else .nan
  | .infinite s, .finite _ => .infinite s
  | .finite _, .infinite t => .infinite t

/-- The number that a finite value denotes (zero for an infinity or a NaN). -/
def FloatValue.toRat : FloatValue → ℚ
  | .finite q => q
  | _ => 0

/-- The pixel types of the images that `oskar_fits_to_sky_model` reads (`datatype`). -/
inductive ImageType where
  | TFLOAT
  | TDOUBLE
deriving DecidableEq, Repr

/-- The value of `bytes_per_element`: `sizeof(float)` or `sizeof(double)`. -/
def ImageType.bytes_per_element : ImageType → Nat
  | .TFLOAT => 4
  | .TDOUBLE => 8

/-- The rounding of the pixel type. -/
def ImageType.fmt : ImageType → ℚ → FloatValue
  | .TFLOAT => toFloat32
  | .TDOUBLE => toFloat64

/-- The accumulation of one super-pixel in `oskar_fits_to_sky_model`: the loops over `yy`
and `xx` for the output pixel `(x, y)`, `naxes0` and `naxes1` being the image dimensions,
`f` the down-sampling factor, `zero` the value `0.0` and `add` the addition of the pixel
type.  The index `i` is the `long` value `naxes[0] * iy + ix` converted to `int`; `ix` and
`iy` are computed in `int`, and the theorems state the range in which they do not overflow
(`downsample_defined`). -/
def downsample_pixel {α : Type} (add : α → α → α) (zero : α) (naxes0 naxes1 : Nat)
    (num_pixels : Int) (f : Nat) (img : Nat → α) (x y : Nat) : α :=
  forLoop (fun yy new_val =>
      forLoop (fun xx new_val =>
          let ix := xx + x * f
          let iy := yy + y * f
          let i : Int := toInt (naxes0 * iy + ix)
          if ix ≥ naxes0 ∨ iy ≥ naxes1 ∨ i ≥ num_pixels then new_val
          else add new_val (img i.toNat))
        0 f new_val)
    0 f zero

/-- The loop variable `j` and the image array of the down-sampling loop. -/
structure DownsampleState (α : Type) where
  j : Nat
  img : Nat → α

/-- The body of the loop `for (x = 0; x < width; ++x, ++j)`: `img[j] = new_val`. -/
def downsample_step {α : Type} (add : α → α → α) (zero : α) (naxes0 naxes1 : Nat)
    (num_pixels : Int) (f y x : Nat) (st : DownsampleState α) : DownsampleState α :=
  { j := st.j + 1
    img := setAt st.img st.j
      (downsample_pixel add zero naxes0 naxes1 num_pixels f st.img x y) }

/-- The function `oskar_fits_to_sky_model`, from "Down-sample the image" to the end of the
loop `for (y = 0, i = 0, j = 0; y < height; ++y)`, for one pixel type: the image array
after the loop.  The value of `num_pixels` is the one assigned before the image is read,
the `long` product `naxes[0] * naxes[1]` converted to `int`. -/
def downsample {α : Type} (add : α → α → α) (zero : α) (naxes0 naxes1 : Nat)
    (downsample_factor : Int) (img : Nat → α) : Nat → α :=
  let downsample_factor : Nat := if downsample_factor < 1 then 1 else downsample_factor.toNat
  let num_pixels : Int := toInt (naxes0 * naxes1)
  let width := (naxes0 + downsample_factor - 1) / downsample_factor
  let height := (naxes1 + downsample_factor - 1) / downsample_factor
  (forLoop (fun y st =>
      forLoop (downsample_step add zero naxes0 naxes1 num_pixels downsample_factor y)
        0 width st)
    0 height { j := 0, img := img }).img

/-- The down-sampling of `oskar_fits_to_sky_model` with its two branches: a `float` image
is accumulated in `float` and a `double` image in `double`, each addition rounded to the
pixel type. -/
def downsample_image (datatype : ImageType) (naxes0 naxes1 : Nat) (downsample_factor : Int)
    (img : Nat → FloatValue) : Nat → FloatValue :=
  match datatype with
  | .TFLOAT =>
    downsample (FloatValue.add toFloat32) (FloatValue.finite 0) naxes0 naxes1
      downsample_factor img
  | .TDOUBLE =>
    downsample (FloatValue.add toFloat64) (FloatValue.finite 0) naxes0 naxes1
      downsample_factor img

/-- The range in which the `int` arithmetic of the down-sampling is defined:
`bytes_per_element * num_pixels`, the size of the image buffer, is a product of `int`
values, and `xx + x * downsample_factor` and `yy + y * downsample_factor` go up to
`width * downsample_factor - 1` and `height * downsample_factor - 1`. -/
def downsample_defined (bytes_per_element naxes0 naxes1 f : Nat) : Prop :=
  bytes_per_element * (naxes0 * naxes1) ≤ INT_MAX ∧
  (naxes0 + f - 1) / f * f ≤ INT_MAX + 1 ∧
  (naxes1 + f - 1) / f * f ≤ INT_MAX + 1

instance downsample_defined_decidable (bytes_per_element naxes0 naxes1 f : Nat) :
    Decidable (downsample_defined bytes_per_element naxes0 naxes1 f) := by
  unfold downsample_defined
  infer_instance

/-- The out-of-place definition of the down-sampled image at the moment when the first `n`
super-pixels are stored: position `k < n` holds the super-pixel `(k % width, k / width)`
accumulated from the input image `img`, the other positions hold the input image. -/
def downsample_after {α : Type} (add : α → α → α) (zero : α) (naxes0 naxes1 f : Nat)
    (img : Nat → α) (n : Nat) : Nat → α :=
  fun k =>
    if k < n then
      downsample_pixel add zero naxes0 naxes1 ((naxes0 * naxes1 : Nat) : Int) f img
        (k % ((naxes0 + f - 1) / f)) (k / ((naxes0 + f - 1) / f))
    else img k

/-- Specification side of the down-sampling: the indices of the pixels `(ix, iy)` of the
input image with `x * f <= ix < min((x + 1) * f, W)` and `y * f <= iy < min((y + 1) * f, H)`,
row by row. -/
def block_pixels (W H f x y : Nat) : List Nat :=
  (List.range' (y * f) (min ((y + 1) * f) H - y * f)).flatMap fun iy =>
    (List.range' (x * f) (min ((x + 1) * f) W - x * f)).map fun ix => W * iy + ix

/-- Specification side of the down-sampling: the sum of the pixels of `img` at the indices
`l`, accumulated from `zero` in the order of the list. -/
def pixel_sum {α : Type} (add : α → α → α) (zero : α) (img : Nat → α) (l : List Nat) : α :=
  l.foldl (fun a i => add a (img i)) zero

/-- No addition of the accumulation of a super-pixel rounds: for the image of the finite
pixel values `q`, every sum of the first `m` pixels (`m` at least one) of a block is a
number of the pixel type. -/
def sums_exact (fmt : ℚ → FloatValue) (W H f : Nat) (q : Nat → ℚ) : Prop :=
  ∀ x y m, 1 ≤ m → m ≤ (block_pixels W H f x y).length →
    fmt (((block_pixels W H f x y).take m).map q).sum
      = FloatValue.finite (((block_pixels W H f x y).take m).map q).sum

/-! ## Example data -/

/-- The columns of the main table that the writer fills. -/
def example_desc : List ColumnDesc :=
  [⟨"UVW", .TpDouble, false⟩, ⟨"ANTENNA1", .TpInt, true⟩, ⟨"ANTENNA2", .TpInt, true⟩,
   ⟨"DATA", .TpComplex, false⟩, ⟨"WEIGHT", .TpFloat, false⟩, ⟨"SIGMA", .TpFloat, false⟩,
   ⟨"EXPOSURE", .TpDouble, true⟩, ⟨"INTERVAL", .TpDouble, true⟩, ⟨"TIME", .TpDouble, true⟩,
   ⟨"TIME_CENTROID", .TpDouble, true⟩]

/-- An empty main table. -/
def example_table : Table := { desc := example_desc, nrow := 0, cell := fun _ _ => [] }

/-- A store without rows for two stations, `num_pols` polarisations and one channel. -/
def example_store (num_pols : Nat) : oskar_MeasurementSet :=
  { ms := some example_table, write_autocorr := false, num_pols := num_pols,
    num_channels := 1, num_stations := 2, num_receptors := 2, ref_freq := 0, chan_width := 0,
    phase_centre_ra := 0, phase_centre_dec := 0, start_time := DBL_MAX, end_time := -DBL_MAX,
    time_inc_sec := 0 }

/-- A double-precision block of two stations, one time sample, one channel and scalar
polarisation without autocorrelations: `(u, v, w) = (10, 20, 30)`, visibility `3 + 4i`. -/
def example_block : oskar_VisBlock :=
  { num_times := 1, num_channels := 1, num_baselines := 1, num_stations := 2, num_pols := 1,
    precision := .OSKAR_DOUBLE, has_auto_correlations := false, time_start_mjd_utc := 0,
    auto_correlations := fun _ => ⟨0, 0⟩, cross_correlations := fun _ => ⟨3, 4⟩,
    baseline_uu_metres := fun _ => 10, baseline_vv_metres := fun _ => 20,
    baseline_ww_metres := fun _ => 30,
    baseline_station1 := fun _ => 0, baseline_station2 := fun _ => 1 }

/-- A header with a dump time and an averaging time of one second. -/
def example_header : oskar_VisHeader := ⟨1, 1⟩

/-- A double-precision block of two stations, two time samples, one channel and scalar
polarisation with autocorrelations; the coordinates of time sample `t` are
`(10 + t, 20 + t, 30 + t)`. -/
def example_block_autocorr : oskar_VisBlock :=
  { num_times := 2, num_channels := 1, num_baselines := 1, num_stations := 2, num_pols := 1,
    precision := .OSKAR_DOUBLE, has_auto_correlations := true, time_start_mjd_utc := 0,
    auto_correlations := fun _ => ⟨1, 0⟩, cross_correlations := fun _ => ⟨3, 4⟩,
    baseline_uu_metres := fun i => 10 + (i : ℚ), baseline_vv_metres := fun i => 20 + (i : ℚ),
    baseline_ww_metres := fun i => 30 + (i : ℚ),
    baseline_station1 := fun _ => 0, baseline_station2 := fun _ => 1 }

/-- The block `example_block` with matrix amplitudes (four polarisations). -/
def example_block_matrix : oskar_VisBlock := { example_block with num_pols := 4 }

/-- The block `example_block` with amplitudes that are neither `float` nor `double`. -/
def example_block_other : oskar_VisBlock := { example_block with precision := .other }

/-- The block `example_block` with the visibility `16777217 + 0i`, a `double` that is not a
`float`. -/
def example_block_wide : oskar_VisBlock :=
  { example_block with cross_correlations := fun _ => ⟨16777217, 0⟩ }

/-- A main table of two rows with the columns of `main_table_desc`: TIME holds `10` and
`11`, UVW holds `(1, 2, 3)` in both rows, the other cells are empty. -/
def example_table_rows : Table :=
  { desc := main_table_desc, nrow := 2,
    cell := fun r c =>
      if c = "TIME" then [Value.real (10 + (r : ℚ))]
      else if c = "UVW" then [Value.real 1, Value.real 2, Value.real 3]
      else [] }

/-- A store whose main table is `example_table_rows`. -/
def example_store_rows : oskar_MeasurementSet :=
  { oskar_MeasurementSet.init with
    ms := some example_table_rows, num_pols := 1, num_channels := 1, num_stations := 2 }

/-- A main table of two rows with a scalar column NOTE of strings beside TIME. -/
def example_table_text : Table :=
  { desc := [⟨"TIME", .TpDouble, true⟩, ⟨"NOTE", .TpString, true⟩], nrow := 2,
    cell := fun r c =>
      if c = "TIME" then [Value.real (10 + (r : ℚ))]
      else if c = "NOTE" then [Value.str "note"]
      else [] }

/-- A store whose main table is `example_table_text`. -/
def example_store_text : oskar_MeasurementSet :=
  { oskar_MeasurementSet.init with
    ms := some example_table_text, num_pols := 1, num_channels := 1, num_stations := 2 }

/-- An empty main table with the OBSERVATION record `[5, 8]`. -/
def example_table_observed : Table :=
  { example_table with observation := [{ timeRange := (5, 8), releaseDate := 0 }] }

/-- An open store on `example_table_observed` with the running time range `[4, 9]`. -/
def example_store_observed : oskar_MeasurementSet :=
  { example_store 1 with ms := some example_table_observed, start_time := 4, end_time := 9 }

/-- The clock at 2000-01-01 00:00:00 UTC. -/
def example_clock : tm :=
  { tm_sec := 0, tm_min := 0, tm_hour := 0, tm_mday := 1, tm_mon := 0, tm_year := 100 }

/-- The clock at 2000-01-01 01:00:00 UTC. -/
def example_clock_one_hour : tm :=
  { tm_sec := 0, tm_min := 0, tm_hour := 1, tm_mday := 1, tm_mon := 0, tm_year := 100 }

/-- A `float` image of two pixels, `2 ^ 24` and `1`. -/
def example_image_wide : Nat → FloatValue :=
  fun i => if i = 0 then FloatValue.finite 16777216 else if i = 1 then FloatValue.finite 1
    else FloatValue.finite 0

/-- A main table of one row whose DATA column (four polarisations, 64 channels) is kept by
a storage manager that is not tiled, with spectral windows of 64 and 16 channels. -/
def example_table_untiled : Table :=
  { desc := [⟨"DATA", .TpComplex, false⟩], nrow := 1, cell := fun _ _ => [],
    cellShape := fun _ c => if c = "DATA" then some [4, 64] else none,
    spectralWindow := [⟨64⟩, ⟨16⟩] }

/-- An open store on `example_table_untiled`. -/
def example_store_untiled : oskar_MeasurementSet :=
  { oskar_MeasurementSet.init with
    ms := some example_table_untiled, num_pols := 4, num_channels := 64, num_stations := 2 }

/-! # Theorems -/

/-! ## Loops -/

theorem forLoop_succ_last {σ : Type} (body : Nat → σ → σ) (n : Nat) :
    ∀ (lo : Nat) (st : σ), forLoop body lo (n + 1) st = body (lo + n) (forLoop body lo n st) := by
  induction n with
  | zero => intro lo st; simp [forLoop]
  | succ k ih =>
    intro lo st
    rw [forLoop, ih (lo + 1) (body lo st)]
    have h : lo + 1 + k = lo + (k + 1) := by omega
    rw [h]
    rfl

theorem forLoopM_succ_last {σ : Type} (body : Nat → σ → Option σ) (n : Nat) :
    ∀ (lo : Nat) (st : σ),
      forLoopM body lo (n + 1) st = (forLoopM body lo n st).bind (body (lo + n)) := by
  induction n with
  | zero => intro lo st; simp [forLoopM]
  | succ k ih =>
    intro lo st
    rw [forLoopM]
    cases hb : body lo st with
    | none => simp [forLoopM, hb]
    | some s1 =>
      have h : lo + 1 + k = lo + (k + 1) := by omega
      simp only [Option.some_bind, Option.bind_eq_bind]
      rw [ih (lo + 1) s1, h]
      conv_rhs => rw [forLoopM]
      simp [hb]

/-! ## Table writes -/

theorem overlay_cons (c : String) (v : Cell) (rest : List (String × Cell))
    (old : String → Cell) :
    overlay ((c, v) :: rest) old = overlay rest (fun c1 => if c1 = c then v else old c1) := by
  simp [overlay]

theorem Table.putAll_eq (row : Nat) (l : List (String × Cell)) :
    ∀ (t : Table), row < t.nrow →
      t.putAll row l = some { t with
        cell := fun r c => if r = row then overlay l (t.cell r) c else t.cell r c } := by
  induction l with
  | nil =>
    intro t _
    simp [Table.putAll, overlay]
  | cons cv rest ih =>
    intro t h
    obtain ⟨c, v⟩ := cv
    simp only [Table.putAll, Table.put, h, if_true, Option.some_bind, Option.bind_eq_bind]
    rw [ih _ (by exact h)]
    simp only [overlay_cons]
    congr 2
    funext r c1
    by_cases hr : r = row
    · subst hr
      simp only [if_true, true_and]
    · simp [hr]

theorem write_rows_eq (vals : Nat → List (String × Cell)) (start : Nat) (t : Table)
    (hu : t.nrow ≤ UINT_RANGE) (nb : Nat) (h : start + nb ≤ t.nrow) :
    forLoopM (fun r tb => tb.putAll (toUInt (r + start)) (vals r)) 0 nb t =
      some { t with
        cell := fun r c => if start ≤ r ∧ r < start + nb
          then overlay (vals (r - start)) (t.cell r) c else t.cell r c } := by
  induction nb with
  | zero =>
    have h0 : ∀ r, ¬ (start ≤ r ∧ r < start) := by intro r; omega
    simp [forLoopM, h0]
  | succ k ih =>
    rw [forLoopM_succ_last, ih (by omega)]
    have hk : toUInt (0 + k + start) = start + k := by
      unfold toUInt
      rw [Nat.mod_eq_of_lt (by omega)]
      omega
    simp only [Option.some_bind, Option.bind_eq_bind]
    rw [hk, Table.putAll_eq _ _ _ (by simp; omega)]
    congr 2
    funext r c
    by_cases h1 : r = start + k
    · subst h1
      have e1 : ¬ (start + k < start + k) := by omega
      have e2 : start + k < start + (k + 1) := by omega
      simp [e1, e2]
    · by_cases h2 : start ≤ r ∧ r < start + k
      · have h3 : start ≤ r ∧ r < start + (k + 1) := ⟨h2.1, by omega⟩
        simp [h1, h2, h3]
      · have h3 : ¬ (start ≤ r ∧ r < start + (k + 1)) := by omega
        simp [h1, h2, h3]

theorem write_all_for_time_eq (conv : ℚ → FloatValue) (p : oskar_MeasurementSet) (tbl : Table)
    (hp : p.ms = some tbl) (hu : tbl.nrow ≤ UINT_RANGE) (start nb : Nat)
    (h : start + nb ≤ tbl.nrow) (u v w vis : Nat → ℚ) (ant1 ant2 : Nat → Int)
    (exposure interval time : ℚ) :
    oskar_ms_write_all_for_time conv p start nb u v w vis ant1 ant2 exposure interval time =
      some { p with
        ms := some { tbl with
          cell := fun r c => if start ≤ r ∧ r < start + nb
            then overlay (row_values conv p.num_pols p.num_channels u v w vis ant1 ant2
              exposure interval time (r - start)) (tbl.cell r) c
            else tbl.cell r c }
        start_time := if time < p.start_time then time - interval / 2 else p.start_time
        end_time := if time > p.end_time then time + interval / 2 else p.end_time
        time_inc_sec := interval } := by
  unfold oskar_ms_write_all_for_time
  simp only [hp]
  rw [write_rows_eq _ start tbl hu nb h]
  rfl

theorem div_mod_of_block (nbo k r : Nat) (hr : r < nbo) :
    (r + k * nbo) / nbo = k ∧ (r + k * nbo) % nbo = r := by
  have hpos : 0 < nbo := by omega
  constructor
  · rw [Nat.add_mul_div_right _ _ hpos, Nat.div_eq_of_lt hr]
    omega
  · rw [Nat.add_mul_mod_self_right, Nat.mod_eq_of_lt hr]

theorem time_loop_spec (conv : ℚ → FloatValue) (blk : oskar_VisBlock) (header : oskar_VisHeader)
    (ms1 : oskar_MeasurementSet) (t1 : Table) (hms : ms1.ms = some t1) (start : Nat)
    (hmax : t1.nrow ≤ INT_MAX)
    (hrows : start + blk.num_times * num_baselines_out blk ≤ t1.nrow) (k : Nat)
    (hk : k ≤ blk.num_times) :
    ∃ msk tk,
      forLoopM (write_time_sample (oskar_ms_write_all_for_time conv) blk header start) 0 k
          (ms1, TempArrays.create) = some (msk, temp_after blk ms1.num_pols k) ∧
      msk.ms = some tk ∧ msk.num_pols = ms1.num_pols ∧ msk.num_channels = ms1.num_channels ∧
      tk.nrow = t1.nrow ∧ tk.desc = t1.desc ∧
      ∀ row c, tk.cell row c =
        if start ≤ row ∧ row < start + k * num_baselines_out blk then
          overlay (sample_row_values conv blk header ms1.num_pols ms1.num_channels
            ((row - start) / num_baselines_out blk) ((row - start) % num_baselines_out blk))
            (t1.cell row) c
        else t1.cell row c := by
  induction k with
  | zero =>
    refine ⟨ms1, t1, ?_, hms, rfl, rfl, rfl, rfl, ?_⟩
    · simp [forLoopM, temp_after]
    · intro row c
      have h0 : ¬ (start ≤ row ∧ row < start + 0 * num_baselines_out blk) := by omega
      simp only [h0, if_false]
  | succ k ih =>
    obtain ⟨msk, tk, hloop, hmsk, hpols, hchans, hnrow, hdesc, hcell⟩ := ih (by omega)
    have hmul : (k + 1) * num_baselines_out blk ≤ blk.num_times * num_baselines_out blk :=
      Nat.mul_le_mul_right _ hk
    have hsucc : (k + 1) * num_baselines_out blk
        = k * num_baselines_out blk + num_baselines_out blk := by ring
    have hI : INT_MAX = 2147483647 := rfl
    have hU : UINT_RANGE = 4294967296 := rfl
    have e1 : toUInt (start + k * num_baselines_out blk) = start + k * num_baselines_out blk := by
      unfold toUInt
      exact Nat.mod_eq_of_lt (by omega)
    have e2 : toUInt (num_baselines_out blk) = num_baselines_out blk := by
      unfold toUInt
      exact Nat.mod_eq_of_lt (by omega)
    have hw := write_all_for_time_eq conv msk tk hmsk (by omega)
      (start + k * num_baselines_out blk) (num_baselines_out blk) (by omega)
    rw [forLoopM_succ_last, hloop]
    simp only [Option.some_bind, Option.bind_eq_bind, write_time_sample, oskar_ms_num_pols,
      e1, e2, hw, Option.map_some', hpols, Nat.zero_add]
    refine ⟨_, _, rfl, rfl, rfl, hchans, hnrow, hdesc, ?_⟩
    intro row c
    dsimp only
    by_cases hin : start + k * num_baselines_out blk ≤ row ∧
        row < start + k * num_baselines_out blk + num_baselines_out blk
    · have hnot : ¬ (start ≤ row ∧ row < start + k * num_baselines_out blk) := by omega
      have hyes : start ≤ row ∧ row < start + (k + 1) * num_baselines_out blk := by omega
      obtain ⟨hd, hm⟩ := div_mod_of_block (num_baselines_out blk) k
        (row - (start + k * num_baselines_out blk)) (by omega)
      have hrow : row - start = row - (start + k * num_baselines_out blk)
          + k * num_baselines_out blk := by omega
      have hcellrow : tk.cell row = t1.cell row := by
        funext c1
        rw [hcell, if_neg hnot]
      rw [if_pos hin, if_pos hyes, hrow, hd, hm, hcellrow]
      simp only [sample_row_values, temp_after, hpols, hchans]
    · rw [if_neg hin, hcell]
      by_cases hlow : start ≤ row ∧ row < start + k * num_baselines_out blk
      · have hyes : start ≤ row ∧ row < start + (k + 1) * num_baselines_out blk := by omega
        rw [if_pos hlow, if_pos hyes]
      · have hno : ¬ (start ≤ row ∧ row < start + (k + 1) * num_baselines_out blk) := by omega
        rw [if_neg hlow, if_neg hno]

theorem set_num_rows_grow (ms : oskar_MeasurementSet) (tbl : Table) (hms : ms.ms = some tbl)
    (n : Nat) (hrange : tbl.nrow + n ≤ INT_MAX) :
    ∃ t1, (oskar_ms_set_num_rows ms (toUInt (tbl.nrow + n))).ms = some t1 ∧
      (oskar_ms_set_num_rows ms (toUInt (tbl.nrow + n))).num_pols = ms.num_pols ∧
      (oskar_ms_set_num_rows ms (toUInt (tbl.nrow + n))).num_channels
        = ms.num_channels ∧
      t1.nrow = tbl.nrow + n ∧ t1.desc = tbl.desc ∧
      (∀ row c, row < tbl.nrow → t1.cell row c = tbl.cell row c) ∧
      (∀ row c, tbl.nrow ≤ row → row < tbl.nrow + n → t1.cell row c = []) := by
  have hI : INT_MAX = 2147483647 := rfl
  have hR : oskar_ms_num_rows ms = tbl.nrow := by
    simp [oskar_ms_num_rows, oskar_MeasurementSet.num_rows, hms]
  have hsub : usub (toUInt (tbl.nrow + n)) tbl.nrow = n := by
    unfold usub toUInt UINT_RANGE
    omega
  by_cases hn : n = 0
  · subst hn
    have hsub0 : usub (toUInt tbl.nrow) tbl.nrow = 0 := by simpa using hsub
    refine ⟨tbl, ?_, ?_, ?_, rfl, rfl, fun _ _ _ => rfl, ?_⟩
    · simp [oskar_ms_set_num_rows, oskar_MeasurementSet.set_num_rows, hms, hR,
        oskar_MeasurementSet.num_rows, hsub0]
    · simp [oskar_ms_set_num_rows, oskar_MeasurementSet.set_num_rows, hms, hR,
        oskar_MeasurementSet.num_rows, hsub0]
    · simp [oskar_ms_set_num_rows, oskar_MeasurementSet.set_num_rows, hms, hR,
        oskar_MeasurementSet.num_rows, hsub0]
    · intro row c h1 h2
      omega
  · refine ⟨tbl.addRow n, ?_, ?_, ?_, rfl, rfl, ?_, ?_⟩
    · simp [oskar_ms_set_num_rows, oskar_MeasurementSet.set_num_rows, hms, hR,
        oskar_MeasurementSet.num_rows, hsub, hn]
    · simp [oskar_ms_set_num_rows, oskar_MeasurementSet.set_num_rows, hms, hR,
        oskar_MeasurementSet.num_rows, hsub, hn]
    · simp [oskar_ms_set_num_rows, oskar_MeasurementSet.set_num_rows, hms, hR,
        oskar_MeasurementSet.num_rows, hsub, hn]
    · intro row c h1
      simp [Table.addRow, h1]
    · intro row c h1 _
      have h3 : ¬ row < tbl.nrow := by omega
      simp [Table.addRow, h3]

theorem write_ms_spec (blk : oskar_VisBlock) (header : oskar_VisHeader)
    (ms : oskar_MeasurementSet) (tbl : Table) (hms : ms.ms = some tbl)
    (hpol : blk.num_pols ≤ ms.num_pols) (hprec : blk.precision ≠ Precision.other)
    (hrange : tbl.nrow + blk.num_times * num_baselines_out blk ≤ INT_MAX) :
    ∃ ms1 tbl1,
      oskar_vis_block_write_ms (some blk) (some header) (some ms) 0 = some (some ms1, 0) ∧
      ms1.ms = some tbl1 ∧ ms1.num_pols = ms.num_pols ∧ ms1.num_channels = ms.num_channels ∧
      tbl1.nrow = tbl.nrow + blk.num_times * num_baselines_out blk ∧ tbl1.desc = tbl.desc ∧
      (∀ row c, row < tbl.nrow → tbl1.cell row c = tbl.cell row c) ∧
      (∀ t r c, t < blk.num_times → r < num_baselines_out blk →
        tbl1.cell (tbl.nrow + t * num_baselines_out blk + r) c =
          overlay (sample_row_values (conv_of blk.precision) blk header ms.num_pols
            ms.num_channels t r) (fun _ => []) c) := by
  obtain ⟨t1, h1ms, h1pols, h1chans, h1nrow, h1desc, h1old, h1new⟩ :=
    set_num_rows_grow ms tbl hms (blk.num_times * num_baselines_out blk) hrange
  have hR : oskar_ms_num_rows ms = tbl.nrow := by
    simp [oskar_ms_num_rows, oskar_MeasurementSet.num_rows, hms]
  have hloop := fun conv => time_loop_spec conv blk header _ t1 h1ms tbl.nrow
    (by omega) (by omega) blk.num_times (le_refl _)
  have hnpol : ¬ (blk.num_pols > oskar_ms_num_pols ms) := by
    simp only [oskar_ms_num_pols]
    omega
  have key : ∀ conv, conv = conv_of blk.precision →
      ∃ ms1 tbl1,
        (forLoopM (write_time_sample (oskar_ms_write_all_for_time conv) blk header
            tbl.nrow) 0 blk.num_times
            (oskar_ms_set_num_rows ms
              (toUInt (tbl.nrow + blk.num_times * num_baselines_out blk)),
              TempArrays.create)).map (fun r => (some r.1, (0 : Int))) = some (some ms1, 0) ∧
        ms1.ms = some tbl1 ∧ ms1.num_pols = ms.num_pols ∧ ms1.num_channels = ms.num_channels ∧
        tbl1.nrow = tbl.nrow + blk.num_times * num_baselines_out blk ∧ tbl1.desc = tbl.desc ∧
        (∀ row c, row < tbl.nrow → tbl1.cell row c = tbl.cell row c) ∧
        (∀ t r c, t < blk.num_times → r < num_baselines_out blk →
          tbl1.cell (tbl.nrow + t * num_baselines_out blk + r) c =
            overlay (sample_row_values (conv_of blk.precision) blk header ms.num_pols
              ms.num_channels t r) (fun _ => []) c) := by
    intro conv hconv
    obtain ⟨msk, tk, hl, hmsk, hpols, hchans, hnrow, hdesc, hcell⟩ := hloop conv
    refine ⟨msk, tk, ?_, hmsk, hpols.trans h1pols, hchans.trans h1chans,
      hnrow.trans h1nrow, hdesc.trans h1desc, ?_, ?_⟩
    · rw [hl]
      rfl
    · intro row c hrow
      have hno : ¬ (tbl.nrow ≤ row ∧
          row < tbl.nrow + blk.num_times * num_baselines_out blk) := by omega
      rw [hcell, if_neg hno, h1old row c hrow]
    · intro t r c ht hr
      have hmul : (t + 1) * num_baselines_out blk ≤ blk.num_times * num_baselines_out blk :=
        Nat.mul_le_mul_right _ ht
      have hsucc : (t + 1) * num_baselines_out blk
          = t * num_baselines_out blk + num_baselines_out blk := by ring
      have hyes : tbl.nrow ≤ tbl.nrow + t * num_baselines_out blk + r ∧
          tbl.nrow + t * num_baselines_out blk + r
            < tbl.nrow + blk.num_times * num_baselines_out blk := by omega
      obtain ⟨hd, hm⟩ := div_mod_of_block (num_baselines_out blk) t r hr
      have hsub : tbl.nrow + t * num_baselines_out blk + r - tbl.nrow
          = r + t * num_baselines_out blk := by omega
      have hblank : t1.cell (tbl.nrow + t * num_baselines_out blk + r) = fun _ => [] := by
        funext c1
        exact h1new _ c1 (by omega) (by omega)
      rw [hcell, if_pos hyes, hsub, hd, hm, hblank, h1pols, h1chans, hconv]
  unfold oskar_vis_block_write_ms
  simp only [ne_eq, not_true_eq_false, if_false, hnpol, hR]
  cases hp : blk.precision with
  | OSKAR_DOUBLE =>
    have := key toFloat32 (by simp [conv_of, hp])
    simpa [hp, hR, oskar_ms_write_all_for_time_d] using this
  | OSKAR_SINGLE =>
    have := key FloatValue.finite (by simp [conv_of, hp])
    simpa [hp, hR, oskar_ms_write_all_for_time_f] using this
  | other => exact absurd hp hprec

/-! ## The row count (C1) -/

/-- C1: a call with valid handles and clear status for a block of single or double
precision on a store with `R` rows, under the conditions `write_defined` in which C defines
the call (polarisation counts `1` or `4` with `num_pols_in <= num_pols_out`, the channel
count of the block, `B = N * (N - 1) / 2`, sizes within `int`), returns with status clear
and leaves the store with exactly `R + T * num_output_baselines` rows,
`num_output_baselines` being `B + N` if the block has autocorrelations and `B` otherwise
(the sum being within the range of `int`, in which the writer computes it). -/
theorem write_ms_row_count (blk : oskar_VisBlock) (header : oskar_VisHeader)
    (ms : oskar_MeasurementSet) (tbl : Table) (hms : ms.ms = some tbl)
    (hdef : write_defined blk (oskar_ms_num_pols ms) ms.num_channels)
    (hprec : blk.precision ≠ Precision.other)
    (hrange : oskar_ms_num_rows ms + blk.num_times *
      (blk.num_baselines + if blk.has_auto_correlations then blk.num_stations else 0)
        ≤ INT_MAX) :
    ∃ ms1, oskar_vis_block_write_ms (some blk) (some header) (some ms) 0 = some (some ms1, 0) ∧
      oskar_ms_num_rows ms1 = oskar_ms_num_rows ms + blk.num_times *
        (blk.num_baselines + if blk.has_auto_correlations then blk.num_stations else 0) := by
  have hpol : blk.num_pols ≤ oskar_ms_num_pols ms := by
    obtain ⟨h, -⟩ := hdef
    omega
  have hR : oskar_ms_num_rows ms = tbl.nrow := by
    simp [oskar_ms_num_rows, oskar_MeasurementSet.num_rows, hms]
  have hnbo : num_baselines_out blk
      = blk.num_baselines + if blk.has_auto_correlations then blk.num_stations else 0 := by
    unfold num_baselines_out
    split <;> simp
  rw [← hnbo, hR] at hrange
  obtain ⟨ms1, tbl1, hres, hms1, -, -, hnrow, -, -, -⟩ :=
    write_ms_spec blk header ms tbl hms hpol hprec hrange
  refine ⟨ms1, hres, ?_⟩
  rw [← hnbo, hR]
  simp [oskar_ms_num_rows, oskar_MeasurementSet.num_rows, hms1, hnrow]

theorem write_ms_row_count_witness :
    ∃ ms1, oskar_vis_block_write_ms (some example_block) (some example_header)
        (some (example_store 1)) 0 = some (some ms1, 0) ∧
      oskar_ms_num_rows ms1 = oskar_ms_num_rows (example_store 1) + example_block.num_times *
        (example_block.num_baselines +
          if example_block.has_auto_correlations then example_block.num_stations else 0) :=
  write_ms_row_count example_block example_header (example_store 1) example_table rfl
    (by decide) (by decide) (by decide)

/-! ## Positions -/

theorem cross_before_closed (n : Nat) :
    ∀ a, a ≤ n → cross_before n a + a + a * (a - 1) / 2 = a * n := by
  intro a
  induction a with
  | zero => intro _; simp [cross_before]
  | succ k ih =>
    intro hk
    have h1 := ih (by omega)
    have h2 := Nat.triangle_succ k
    simp only [cross_before]
    have h3 : (k + 1) * n = k * n + n := by ring
    rw [h2, h3]
    omega

theorem cross_before_position (n a : Nat) (h : a ≤ n) :
    cross_before n a + a = a * n - a * (a - 1) / 2 := by
  have := cross_before_closed n a h
  omega

theorem cross_before_total (n : Nat) : cross_before n n = n * (n - 1) / 2 := by
  have h := cross_before_closed n n (le_refl _)
  cases n with
  | zero => simp [cross_before]
  | succ k =>
    have h2 : (k + 1) * (k + 1) = (k + 1) * k + (k + 1) := by ring
    have h3 : (k + 1) * (k + 1 - 1) = (k + 1) * k := by simp
    have h4 : 2 ∣ (k + 1) * k := by
      have := Nat.even_mul_succ_self k
      rw [Nat.mul_comm]
      exact even_iff_two_dvd.mp this
    rw [h3] at h ⊢
    rw [h2] at h
    omega

theorem cross_before_step (n a : Nat) :
    cross_before n (a + 1) + (a + 1) = cross_before n a + a + 1 + (n - (a + 1)) := by
  simp only [cross_before]
  omega

theorem cross_before_mono (n : Nat) :
    ∀ b a, a ≤ b → cross_before n a + a ≤ cross_before n b + b := by
  intro b
  induction b with
  | zero => intro a h; have : a = 0 := by omega
            subst this; exact le_refl _
  | succ k ih =>
    intro a h
    by_cases hk : a = k + 1
    · subst hk; exact le_refl _
    · have := ih a (by omega)
      have := cross_before_step n k
      omega

/-! ## The coordinate construction -/

theorem coords_cross_loop (inp : Nat → ℚ) (n : Nat) :
    ∀ (lo : Nat) (st : LoopState ℚ),
      (forLoop (fun _a2 s =>
          ({ b := s.b + 1, i_out := s.i_out + 1, out := setAt s.out s.i_out (inp s.b) } :
            LoopState ℚ)) lo n st).b = st.b + n ∧
      (forLoop (fun _a2 s =>
          ({ b := s.b + 1, i_out := s.i_out + 1, out := setAt s.out s.i_out (inp s.b) } :
            LoopState ℚ)) lo n st).i_out = st.i_out + n ∧
      ∀ j, (forLoop (fun _a2 s =>
          ({ b := s.b + 1, i_out := s.i_out + 1, out := setAt s.out s.i_out (inp s.b) } :
            LoopState ℚ)) lo n st).out j =
        if st.i_out ≤ j ∧ j < st.i_out + n then inp (st.b + (j - st.i_out)) else st.out j := by
  induction n with
  | zero =>
    intro lo st
    refine ⟨rfl, rfl, ?_⟩
    intro j
    have h0 : ¬ (st.i_out ≤ j ∧ j < st.i_out) := by omega
    simp [forLoop, h0]
  | succ k ih =>
    intro lo st
    obtain ⟨hb, hi, ho⟩ := ih lo st
    rw [forLoop_succ_last]
    refine ⟨?_, ?_, ?_⟩
    · simp only [hb]; omega
    · simp only [hi]; omega
    · intro j
      simp only [setAt, hb, hi, ho]
      by_cases hj : j = st.i_out + k
      · subst hj
        have h1 : st.i_out ≤ st.i_out + k ∧ st.i_out + k < st.i_out + (k + 1) := by omega
        have h2 : st.i_out + k - st.i_out = k := by omega
        simp [h1, h2]
      · by_cases h1 : st.i_out ≤ j ∧ j < st.i_out + k
        · have h2 : st.i_out ≤ j ∧ j < st.i_out + (k + 1) := by omega
          simp [hj, h1, h2]
        · have h2 : ¬ (st.i_out ≤ j ∧ j < st.i_out + (k + 1)) := by omega
          simp [hj, h1, h2]

theorem coords_station_loop (inp : Nat → ℚ) (n : Nat) (out : Nat → ℚ) :
    ∀ a, a ≤ n →
      (forLoop (coords_station inp n) 0 a { b := 0, i_out := 0, out := out }).b
        = cross_before n a ∧
      (forLoop (coords_station inp n) 0 a { b := 0, i_out := 0, out := out }).i_out
        = cross_before n a + a ∧
      (∀ a1, a1 < a →
        (forLoop (coords_station inp n) 0 a { b := 0, i_out := 0, out := out }).out
          (cross_before n a1 + a1) = 0 ∧
        ∀ m, m < n - (a1 + 1) →
          (forLoop (coords_station inp n) 0 a { b := 0, i_out := 0, out := out }).out
            (cross_before n a1 + a1 + 1 + m) = inp (cross_before n a1 + m)) ∧
      (∀ j, cross_before n a + a ≤ j →
        (forLoop (coords_station inp n) 0 a { b := 0, i_out := 0, out := out }).out j = out j) := by
  intro a
  induction a with
  | zero =>
    intro _
    refine ⟨rfl, rfl, ?_, ?_⟩
    · intro a1 h; omega
    · intro j _; rfl
  | succ k ih =>
    intro hk
    obtain ⟨hb, hi, hdone, hframe⟩ := ih (by omega)
    rw [forLoop_succ_last]
    generalize forLoop (coords_station inp n) 0 k { b := 0, i_out := 0, out := out } = s
      at hb hi hdone hframe ⊢
    obtain ⟨cb, ci, co⟩ := coords_cross_loop inp (n - (k + 1)) (k + 1)
      { b := s.b, i_out := s.i_out + 1, out := setAt s.out s.i_out 0 }
    simp only [] at cb ci co
    have hstep := cross_before_step n k
    simp only [Nat.zero_add, coords_station, coords_cross]
    refine ⟨?_, ?_, ?_, ?_⟩
    · rw [cb]; simp only [cross_before, hb]
    · rw [ci]; omega
    · intro a1 ha1
      by_cases hlast : a1 = k
      · subst hlast
        refine ⟨?_, ?_⟩
        · rw [co]
          have h0 : ¬ (s.i_out + 1 ≤ cross_before n a1 + a1 ∧
              cross_before n a1 + a1 < s.i_out + 1 + (n - (a1 + 1))) := by omega
          rw [if_neg h0]
          simp [setAt, hi]
        · intro m hm
          rw [co]
          have h1 : s.i_out + 1 ≤ cross_before n a1 + a1 + 1 + m ∧
              cross_before n a1 + a1 + 1 + m < s.i_out + 1 + (n - (a1 + 1)) := by omega
          have h2 : cross_before n a1 + a1 + 1 + m - (s.i_out + 1) = m := by omega
          rw [if_pos h1, h2, hb]
      · have hlt : a1 < k := by omega
        obtain ⟨hz, hc⟩ := hdone a1 hlt
        have hmono := cross_before_mono n k (a1 + 1) (by omega)
        have hs1 := cross_before_step n a1
        refine ⟨?_, ?_⟩
        · rw [co]
          have h0 : ¬ (s.i_out + 1 ≤ cross_before n a1 + a1 ∧
              cross_before n a1 + a1 < s.i_out + 1 + (n - (k + 1))) := by omega
          have h1 : cross_before n a1 + a1 ≠ s.i_out := by omega
          rw [if_neg h0]
          simp only [setAt, h1, if_false, hz]
        · intro m hm
          rw [co]
          have h0 : ¬ (s.i_out + 1 ≤ cross_before n a1 + a1 + 1 + m ∧
              cross_before n a1 + a1 + 1 + m < s.i_out + 1 + (n - (k + 1))) := by omega
          have h1 : cross_before n a1 + a1 + 1 + m ≠ s.i_out := by omega
          rw [if_neg h0]
          simp only [setAt, h1, if_false, hc m hm]
    · intro j hj
      rw [co]
      have h0 : ¬ (s.i_out + 1 ≤ j ∧ j < s.i_out + 1 + (n - (k + 1))) := by omega
      have h1 : j ≠ s.i_out := by omega
      rw [if_neg h0]
      simp only [setAt, h1, if_false, hframe j (by omega)]

theorem coords_autocorr_self (inp : Nat → ℚ) (n : Nat) (out : Nat → ℚ) (a1 : Nat)
    (h : a1 < n) : coords_autocorr inp n out (cross_before n a1 + a1) = 0 :=
  ((coords_station_loop inp n out n (le_refl _)).2.2.1 a1 h).1

theorem coords_autocorr_cross (inp : Nat → ℚ) (n : Nat) (out : Nat → ℚ) (a1 a2 : Nat)
    (h1 : a1 < a2) (h2 : a2 < n) :
    coords_autocorr inp n out (cross_before n a1 + a1 + (a2 - a1))
      = inp (cross_before n a1 + (a2 - a1 - 1)) := by
  have := ((coords_station_loop inp n out n (le_refl _)).2.2.1 a1 (by omega)).2
    (a2 - a1 - 1) (by omega)
  have e : cross_before n a1 + a1 + 1 + (a2 - a1 - 1) = cross_before n a1 + a1 + (a2 - a1) := by
    omega
  rw [e] at this
  exact this

/-! ## The coordinates in the store -/

theorem sample_row_uvw (conv : ℚ → FloatValue) (blk : oskar_VisBlock) (header : oskar_VisHeader)
    (num_pols num_channels t r : Nat) (old : String → Cell) :
    overlay (sample_row_values conv blk header num_pols num_channels t r) old "UVW" =
      [Value.real ((coords_for_time blk t (temp_after blk num_pols t)).uu r),
       Value.real ((coords_for_time blk t (temp_after blk num_pols t)).vv r),
       Value.real ((coords_for_time blk t (temp_after blk num_pols t)).ww r)] := by
  simp [overlay, sample_row_values, row_values, temp_after, build_time_sample]

theorem sample_row_data (conv : ℚ → FloatValue) (blk : oskar_VisBlock) (header : oskar_VisHeader)
    (num_pols num_channels t r : Nat) (old : String → Cell) :
    overlay (sample_row_values conv blk header num_pols num_channels t r) old "DATA" =
      (List.range (num_pols * num_channels)).map (fun k =>
        Value.complex
          (conv (asReals (temp_after blk num_pols (t + 1)).vis
            (toUInt (toUInt (2 * num_pols * num_channels) * r)
              + toUInt (2 * (k % num_pols + k / num_pols * num_pols)))))
          (conv (asReals (temp_after blk num_pols (t + 1)).vis
            (toUInt (toUInt (2 * num_pols * num_channels) * r)
              + (toUInt (2 * (k % num_pols + k / num_pols * num_pols)) + 1))))) := by
  simp [overlay, sample_row_values, row_values]

theorem write_ms_uvw (blk : oskar_VisBlock) (header : oskar_VisHeader)
    (ms : oskar_MeasurementSet) (tbl : Table) (hms : ms.ms = some tbl)
    (hpol : blk.num_pols ≤ ms.num_pols) (hprec : blk.precision ≠ Precision.other)
    (hrange : tbl.nrow + blk.num_times * num_baselines_out blk ≤ INT_MAX) :
    ∃ ms1 tbl1,
      oskar_vis_block_write_ms (some blk) (some header) (some ms) 0 = some (some ms1, 0) ∧
      ms1.ms = some tbl1 ∧
      tbl1.nrow = tbl.nrow + blk.num_times * num_baselines_out blk ∧
      ∀ t r, t < blk.num_times → r < num_baselines_out blk →
        tbl1.cell (tbl.nrow + t * num_baselines_out blk + r) "UVW" =
          [Value.real ((coords_for_time blk t (temp_after blk ms.num_pols t)).uu r),
           Value.real ((coords_for_time blk t (temp_after blk ms.num_pols t)).vv r),
           Value.real ((coords_for_time blk t (temp_after blk ms.num_pols t)).ww r)] := by
  obtain ⟨ms1, tbl1, hres, hms1, -, -, hnrow, -, -, hnew⟩ :=
    write_ms_spec blk header ms tbl hms hpol hprec hrange
  refine ⟨ms1, tbl1, hres, hms1, hnrow, ?_⟩
  intro t r ht hr
  rw [hnew t r "UVW" ht hr, sample_row_uvw]

/-! ## The baseline coordinates (C2, C3, C4) -/

/-- C2: for a block written without autocorrelations (valid handles, clear status, single
or double precision, the conditions `write_defined` in which C defines the call, sizes
within `int`), every time sample `t` occupies the `B` rows `R + t * B + b`, `b < B` (`B`
the input cross-baseline count, also the number of output baselines), and the UVW cell of
row `R + t * B + b` holds exactly the input coordinates at index `t * B + b`. -/
theorem write_ms_cross_only_coords (blk : oskar_VisBlock) (header : oskar_VisHeader)
    (ms : oskar_MeasurementSet) (tbl : Table) (hms : ms.ms = some tbl)
    (hdef : write_defined blk (oskar_ms_num_pols ms) ms.num_channels)
    (hprec : blk.precision ≠ Precision.other)
    (hauto : blk.has_auto_correlations = false)
    (hrange : tbl.nrow + blk.num_times * blk.num_baselines ≤ INT_MAX) :
    num_baselines_out blk = blk.num_baselines ∧
    ∃ ms1 tbl1,
      oskar_vis_block_write_ms (some blk) (some header) (some ms) 0 = some (some ms1, 0) ∧
      ms1.ms = some tbl1 ∧
      tbl1.nrow = tbl.nrow + blk.num_times * blk.num_baselines ∧
      ∀ t b, t < blk.num_times → b < blk.num_baselines →
        tbl1.cell (tbl.nrow + t * blk.num_baselines + b) "UVW" =
          [Value.real (blk.baseline_uu_metres (t * blk.num_baselines + b)),
           Value.real (blk.baseline_vv_metres (t * blk.num_baselines + b)),
           Value.real (blk.baseline_ww_metres (t * blk.num_baselines + b))] := by
  have hpol : blk.num_pols ≤ oskar_ms_num_pols ms := by
    obtain ⟨h, -⟩ := hdef
    omega
  have hnbo : num_baselines_out blk = blk.num_baselines := by
    simp [num_baselines_out, hauto]
  refine ⟨hnbo, ?_⟩
  obtain ⟨ms1, tbl1, hres, hms1, hnrow, hcell⟩ :=
    write_ms_uvw blk header ms tbl hms hpol hprec (by rw [hnbo]; exact hrange)
  rw [hnbo] at hnrow hcell
  refine ⟨ms1, tbl1, hres, hms1, hnrow, ?_⟩
  intro t b ht hb
  rw [hcell t b ht hb]
  simp [coords_for_time, hauto, oskar_mem_copy_contents, hb]

theorem write_ms_cross_only_coords_witness :
    num_baselines_out example_block = example_block.num_baselines ∧
    ∃ ms1 tbl1,
      oskar_vis_block_write_ms (some example_block) (some example_header)
        (some (example_store 1)) 0 = some (some ms1, 0) ∧
      ms1.ms = some tbl1 ∧
      tbl1.nrow = example_table.nrow + example_block.num_times * example_block.num_baselines ∧
      ∀ t b, t < example_block.num_times → b < example_block.num_baselines →
        tbl1.cell (example_table.nrow + t * example_block.num_baselines + b) "UVW" =
          [Value.real (example_block.baseline_uu_metres (t * example_block.num_baselines + b)),
           Value.real (example_block.baseline_vv_metres (t * example_block.num_baselines + b)),
           Value.real (example_block.baseline_ww_metres (t * example_block.num_baselines + b))] :=
  write_ms_cross_only_coords example_block example_header (example_store 1) example_table rfl
    (by decide) (by decide) rfl (by decide)

theorem write_ms_autocorr_uvw (blk : oskar_VisBlock) (header : oskar_VisHeader)
    (ms : oskar_MeasurementSet) (tbl : Table) (hms : ms.ms = some tbl)
    (hpol : blk.num_pols ≤ ms.num_pols) (hprec : blk.precision ≠ Precision.other)
    (hauto : blk.has_auto_correlations = true)
    (hB : blk.num_baselines = blk.num_stations * (blk.num_stations - 1) / 2)
    (hrange : tbl.nrow + blk.num_times *
      (blk.num_stations * (blk.num_stations - 1) / 2 + blk.num_stations) ≤ INT_MAX) :
    ∃ ms1 tbl1,
      oskar_vis_block_write_ms (some blk) (some header) (some ms) 0 = some (some ms1, 0) ∧
      ms1.ms = some tbl1 ∧
      tbl1.nrow = tbl.nrow + blk.num_times *
        (blk.num_stations * (blk.num_stations - 1) / 2 + blk.num_stations) ∧
      ∀ t a1, t < blk.num_times → a1 < blk.num_stations →
        tbl1.cell (tbl.nrow + t * (blk.num_stations * (blk.num_stations - 1) / 2
            + blk.num_stations) + (cross_before blk.num_stations a1 + a1)) "UVW" =
          [Value.real 0, Value.real 0, Value.real 0] ∧
        ∀ a2, a1 < a2 → a2 < blk.num_stations →
          tbl1.cell (tbl.nrow + t * (blk.num_stations * (blk.num_stations - 1) / 2
              + blk.num_stations) + (cross_before blk.num_stations a1 + a1 + (a2 - a1))) "UVW" =
            [Value.real (blk.baseline_uu_metres
               (cross_before blk.num_stations a1 + (a2 - a1 - 1))),
             Value.real (blk.baseline_vv_metres
               (cross_before blk.num_stations a1 + (a2 - a1 - 1))),
             Value.real (blk.baseline_ww_metres
               (cross_before blk.num_stations a1 + (a2 - a1 - 1)))] := by
  have hnbo : num_baselines_out blk
      = blk.num_stations * (blk.num_stations - 1) / 2 + blk.num_stations := by
    simp [num_baselines_out, hauto, hB]
  obtain ⟨ms1, tbl1, hres, hms1, hnrow, hcell⟩ :=
    write_ms_uvw blk header ms tbl hms hpol hprec (by rw [hnbo]; exact hrange)
  rw [hnbo] at hnrow hcell
  refine ⟨ms1, tbl1, hres, hms1, hnrow, ?_⟩
  intro t a1 ht ha1
  have htot := cross_before_total blk.num_stations
  have hmono := cross_before_mono blk.num_stations blk.num_stations (a1 + 1) (by omega)
  have hstep := cross_before_step blk.num_stations a1
  refine ⟨?_, ?_⟩
  · rw [hcell t _ ht (by omega)]
    simp [coords_for_time, hauto, coords_autocorr_self _ _ _ a1 ha1]
  · intro a2 h12 h2
    rw [hcell t _ ht (by omega)]
    simp [coords_for_time, hauto, coords_autocorr_cross _ _ _ a1 a2 h12 h2]

/-- C3: for a block written with autocorrelations, `N` stations and `B = N * (N - 1) / 2`
cross baselines (valid handles, clear status, single or double precision, the conditions
`write_defined` in which C defines the call, sizes within `int`), every time sample `t`
occupies
`N * (N - 1) / 2 + N` rows; the row at position `a1 * N - a1 * (a1 - 1) / 2` of the sample
is the self-baseline of station `a1` with UVW exactly `(0, 0, 0)`, and the rows after it,
at distance `a2 - a1` for `a1 < a2 < N`, carry the coordinates read at the input index of
the pair `(a1, a2)` in station-pair order, `cross_before N a1 + (a2 - a1 - 1)`. -/
theorem write_ms_autocorr_layout (blk : oskar_VisBlock) (header : oskar_VisHeader)
    (ms : oskar_MeasurementSet) (tbl : Table) (hms : ms.ms = some tbl)
    (hdef : write_defined blk (oskar_ms_num_pols ms) ms.num_channels)
    (hprec : blk.precision ≠ Precision.other)
    (hauto : blk.has_auto_correlations = true)
    (hrange : tbl.nrow + blk.num_times *
      (blk.num_stations * (blk.num_stations - 1) / 2 + blk.num_stations) ≤ INT_MAX) :
    num_baselines_out blk = blk.num_stations * (blk.num_stations - 1) / 2 + blk.num_stations ∧
    ∃ ms1 tbl1,
      oskar_vis_block_write_ms (some blk) (some header) (some ms) 0 = some (some ms1, 0) ∧
      ms1.ms = some tbl1 ∧
      tbl1.nrow = tbl.nrow + blk.num_times *
        (blk.num_stations * (blk.num_stations - 1) / 2 + blk.num_stations) ∧
      ∀ t a1, t < blk.num_times → a1 < blk.num_stations →
        tbl1.cell (tbl.nrow + t * (blk.num_stations * (blk.num_stations - 1) / 2
            + blk.num_stations) + (a1 * blk.num_stations - a1 * (a1 - 1) / 2)) "UVW" =
          [Value.real 0, Value.real 0, Value.real 0] ∧
        ∀ a2, a1 < a2 → a2 < blk.num_stations →
          tbl1.cell (tbl.nrow + t * (blk.num_stations * (blk.num_stations - 1) / 2
              + blk.num_stations) + (a1 * blk.num_stations - a1 * (a1 - 1) / 2 + (a2 - a1)))
              "UVW" =
            [Value.real (blk.baseline_uu_metres
               (cross_before blk.num_stations a1 + (a2 - a1 - 1))),
             Value.real (blk.baseline_vv_metres
               (cross_before blk.num_stations a1 + (a2 - a1 - 1))),
             Value.real (blk.baseline_ww_metres
               (cross_before blk.num_stations a1 + (a2 - a1 - 1)))] := by
  have hpol : blk.num_pols ≤ oskar_ms_num_pols ms := by
    obtain ⟨h, -⟩ := hdef
    omega
  have hB : blk.num_baselines = blk.num_stations * (blk.num_stations - 1) / 2 := hdef.2.2.1
  refine ⟨by simp [num_baselines_out, hauto, hB], ?_⟩
  obtain ⟨ms1, tbl1, hres, hms1, hnrow, hcell⟩ :=
    write_ms_autocorr_uvw blk header ms tbl hms hpol hprec hauto hB hrange
  refine ⟨ms1, tbl1, hres, hms1, hnrow, ?_⟩
  intro t a1 ht ha1
  rw [← cross_before_position blk.num_stations a1 (by omega)]
  exact hcell t a1 ht ha1

theorem write_ms_autocorr_layout_witness :
    num_baselines_out example_block_autocorr
      = example_block_autocorr.num_stations * (example_block_autocorr.num_stations - 1) / 2
        + example_block_autocorr.num_stations ∧
    ∃ ms1 tbl1,
      oskar_vis_block_write_ms (some example_block_autocorr) (some example_header)
        (some (example_store 1)) 0 = some (some ms1, 0) ∧
      ms1.ms = some tbl1 ∧
      tbl1.nrow = example_table.nrow + example_block_autocorr.num_times *
        (example_block_autocorr.num_stations * (example_block_autocorr.num_stations - 1) / 2
          + example_block_autocorr.num_stations) ∧
      ∀ t a1, t < example_block_autocorr.num_times → a1 < example_block_autocorr.num_stations →
        tbl1.cell (example_table.nrow + t * (example_block_autocorr.num_stations
            * (example_block_autocorr.num_stations - 1) / 2
            + example_block_autocorr.num_stations)
            + (a1 * example_block_autocorr.num_stations - a1 * (a1 - 1) / 2)) "UVW" =
          [Value.real 0, Value.real 0, Value.real 0] ∧
        ∀ a2, a1 < a2 → a2 < example_block_autocorr.num_stations →
          tbl1.cell (example_table.nrow + t * (example_block_autocorr.num_stations
              * (example_block_autocorr.num_stations - 1) / 2
              + example_block_autocorr.num_stations)
              + (a1 * example_block_autocorr.num_stations - a1 * (a1 - 1) / 2 + (a2 - a1)))
              "UVW" =
            [Value.real (example_block_autocorr.baseline_uu_metres
               (cross_before example_block_autocorr.num_stations a1 + (a2 - a1 - 1))),
             Value.real (example_block_autocorr.baseline_vv_metres
               (cross_before example_block_autocorr.num_stations a1 + (a2 - a1 - 1))),
             Value.real (example_block_autocorr.baseline_ww_metres
               (cross_before example_block_autocorr.num_stations a1 + (a2 - a1 - 1)))] :=
  write_ms_autocorr_layout example_block_autocorr example_header (example_store 1)
    example_table rfl (by decide) (by decide) rfl (by decide)

/-- C4 (the code departs from the claim): for the block `example_block_autocorr` (two
stations, two time samples, autocorrelations, coordinates `(10 + t, 20 + t, 30 + t)` at
time sample `t`) the cross-baseline row of time sample `1`, row `4`, receives the
coordinates of time sample `0`, `(10, 20, 30)`, and not the input coordinates at index
`t * num_baselines_in + b = 1`, which are `(11, 21, 31)`. -/
theorem write_ms_autocorr_coords_second_sample :
    ∃ ms1 tbl1,
      oskar_vis_block_write_ms (some example_block_autocorr) (some example_header)
        (some (example_store 1)) 0 = some (some ms1, 0) ∧
      ms1.ms = some tbl1 ∧
      tbl1.cell 4 "UVW" = [Value.real 10, Value.real 20, Value.real 30] ∧
      [Value.real (example_block_autocorr.baseline_uu_metres
          (1 * example_block_autocorr.num_baselines + 0)),
        Value.real (example_block_autocorr.baseline_vv_metres
          (1 * example_block_autocorr.num_baselines + 0)),
        Value.real (example_block_autocorr.baseline_ww_metres
          (1 * example_block_autocorr.num_baselines + 0))]
        = [Value.real 11, Value.real 21, Value.real 31] ∧
      tbl1.cell 4 "UVW" ≠ [Value.real 11, Value.real 21, Value.real 31] := by
  obtain ⟨ms1, tbl1, hres, hms1, -, hcell⟩ :=
    write_ms_autocorr_uvw example_block_autocorr example_header (example_store 1)
      example_table rfl (by decide) (by decide) rfl (by decide) (by decide)
  have h := (hcell 1 0 (by decide) (by decide)).2 1 (by decide) (by decide)
  have hrow : example_table.nrow + 1 * (example_block_autocorr.num_stations
      * (example_block_autocorr.num_stations - 1) / 2 + example_block_autocorr.num_stations)
      + (cross_before example_block_autocorr.num_stations 0 + 0 + (1 - 0)) = 4 := by decide
  rw [hrow] at h
  have hval : tbl1.cell 4 "UVW" = [Value.real 10, Value.real 20, Value.real 30] := by
    rw [h]
    simp [example_block_autocorr, cross_before]
  refine ⟨ms1, tbl1, hres, hms1, hval, ?_, ?_⟩
  · simp [example_block_autocorr]
    norm_num
  · rw [hval]
    simp

/-! ## The amplitude construction -/

theorem put_matrix_spec : PutSpec put_matrix 1 4 (fun src i k => src (4 * i + k)) := by
  intro out q src i j
  simp only [put_matrix, setAt, Nat.one_mul]
  by_cases h0 : j = 4 * q
  · subst h0; simp
  by_cases h1 : j = 4 * q + 1
  · subst h1; simp
  by_cases h2 : j = 4 * q + 2
  · subst h2; simp
  by_cases h3 : j = 4 * q + 3
  · subst h3; simp
  have hout : ¬ (4 * q ≤ j ∧ j < 4 * q + 4) := by omega
  simp [h0, h1, h2, h3, hout]

theorem put_scalar_spec : PutSpec put_scalar 1 1 (fun src i _ => src i) := by
  intro out q src i j
  simp only [put_scalar, setAt, Nat.one_mul]
  by_cases h0 : j = q
  · subst h0; simp
  · have hout : ¬ (q ≤ j ∧ j < q + 1) := by omega
    simp [h0, hout]

theorem put_expand_spec :
    PutSpec put_expand 4 4 (fun src i k => if k = 0 ∨ k = 3 then src i else double2.zero) := by
  intro out q src i j
  simp only [put_expand, setAt, Nat.add_zero]
  by_cases h0 : j = 4 * q
  · subst h0; simp
  by_cases h1 : j = 4 * q + 1
  · subst h1; simp [double2.zero]
  by_cases h2 : j = 4 * q + 2
  · subst h2; simp [double2.zero]
  by_cases h3 : j = 4 * q + 3
  · subst h3; simp
  have hout : ¬ (4 * q ≤ j ∧ j < 4 * q + 4) := by omega
  simp [h0, h1, h2, h3, hout]

theorem slot_bounds (w C r c k : Nat) (hc : c < C) (hk : k < w) :
    w * (r * C) ≤ w * (r * C + c) + k ∧ w * (r * C + c) + k < w * ((r + 1) * C) := by
  have h1 : w * (r * C + c) = w * (r * C) + w * c := Nat.mul_add _ _ _
  have h2 : w * ((r + 1) * C) = w * (r * C) + w * C := by ring
  have h3 : w * (c + 1) ≤ w * C := Nat.mul_le_mul_left _ hc
  have h4 : w * (c + 1) = w * c + w := by ring
  omega

theorem band_mono (w C r r1 : Nat) (h : r ≤ r1) : w * (r * C) ≤ w * (r1 * C) :=
  Nat.mul_le_mul_left _ (Nat.mul_le_mul_right _ h)

theorem amp_channels_spec
    (put : (Nat → double2) → Nat → (Nat → double2) → Nat → (Nat → double2))
    (inc w : Nat) (content : (Nat → double2) → Nat → Nat → double2)
    (hput : PutSpec put inc w content) (src : Nat → double2) (idx : Nat → Nat)
    (st : LoopState double2) (q0 : Nat) (hq : st.i_out = inc * q0) (C : Nat) :
    (amp_channels put inc src idx C st).b = st.b ∧
    (amp_channels put inc src idx C st).i_out = inc * (q0 + C) ∧
    (∀ c k, c < C → k < w →
      (amp_channels put inc src idx C st).out (w * (q0 + c) + k) = content src (idx c) k) ∧
    (∀ j, j < w * q0 ∨ w * (q0 + C) ≤ j →
      (amp_channels put inc src idx C st).out j = st.out j) := by
  induction C with
  | zero =>
    refine ⟨rfl, ?_, ?_, ?_⟩
    · simpa [amp_channels, forLoop] using hq
    · intro c k hc; omega
    · intro j _; rfl
  | succ n ih =>
    obtain ⟨hb, hi, hdone, hframe⟩ := ih
    have hunf : amp_channels put inc src idx (n + 1) st =
        { b := (amp_channels put inc src idx n st).b,
          i_out := (amp_channels put inc src idx n st).i_out + inc,
          out := put (amp_channels put inc src idx n st).out
            (amp_channels put inc src idx n st).i_out src (idx n) } := by
      simp only [amp_channels]
      rw [forLoop_succ_last]
      simp
    rw [hunf]
    have e1 : w * (q0 + (n + 1)) = w * (q0 + n) + w := by ring
    have e2 : w * q0 ≤ w * (q0 + n) := Nat.mul_le_mul_left _ (by omega)
    refine ⟨hb, ?_, ?_, ?_⟩
    · simp only [hi]; ring
    · intro c k hc hk
      simp only [hi]
      rw [hput]
      by_cases hlast : c = n
      · subst hlast
        have hin : w * (q0 + c) ≤ w * (q0 + c) + k ∧ w * (q0 + c) + k < w * (q0 + c) + w := by
          omega
        rw [if_pos hin]
        congr 1
        omega
      · have e3 : w * (q0 + c + 1) ≤ w * (q0 + n) := Nat.mul_le_mul_left _ (by omega)
        have e4 : w * (q0 + c + 1) = w * (q0 + c) + w := by ring
        have hout : ¬ (w * (q0 + n) ≤ w * (q0 + c) + k ∧
            w * (q0 + c) + k < w * (q0 + n) + w) := by omega
        rw [if_neg hout]
        exact hdone c k (by omega) hk
    · intro j hj
      simp only [hi]
      rw [hput]
      have hout : ¬ (w * (q0 + n) ≤ j ∧ j < w * (q0 + n) + w) := by omega
      rw [if_neg hout]
      exact hframe j (by omega)

theorem amp_baseline_loop
    (put : (Nat → double2) → Nat → (Nat → double2) → Nat → (Nat → double2))
    (inc w : Nat) (content : (Nat → double2) → Nat → Nat → double2)
    (hput : PutSpec put inc w content) (blk : oskar_VisBlock) (t : Nat)
    (st : LoopState double2) (r0 : Nat) (hq : st.i_out = inc * (r0 * blk.num_channels))
    (n : Nat) : ∀ lo,
    (forLoop (fun _a2 s => amp_baseline put inc blk t s) lo n st).b = st.b + n ∧
    (forLoop (fun _a2 s => amp_baseline put inc blk t s) lo n st).i_out
      = inc * ((r0 + n) * blk.num_channels) ∧
    (∀ m c k, m < n → c < blk.num_channels → k < w →
      (forLoop (fun _a2 s => amp_baseline put inc blk t s) lo n st).out
        (w * ((r0 + m) * blk.num_channels + c) + k)
        = content blk.cross_correlations
            (blk.num_baselines * (t * blk.num_channels + c) + (st.b + m)) k) ∧
    (∀ j, j < w * (r0 * blk.num_channels) ∨ w * ((r0 + n) * blk.num_channels) ≤ j →
      (forLoop (fun _a2 s => amp_baseline put inc blk t s) lo n st).out j = st.out j) := by
  induction n with
  | zero =>
    intro lo
    refine ⟨rfl, ?_, ?_, ?_⟩
    · simpa [forLoop] using hq
    · intro m c k hm; omega
    · intro j _; rfl
  | succ n ih =>
    intro lo
    obtain ⟨hb, hi, hdone, hframe⟩ := ih lo
    rw [forLoop_succ_last]
    generalize forLoop (fun _a2 s => amp_baseline put inc blk t s) lo n st = s
      at hb hi hdone hframe ⊢
    obtain ⟨cb, ci, cdone, cframe⟩ := amp_channels_spec put inc w content hput
      blk.cross_correlations
      (fun c => blk.num_baselines * (t * blk.num_channels + c) + s.b) s
      ((r0 + n) * blk.num_channels) hi blk.num_channels
    have e1 : (r0 + n) * blk.num_channels + blk.num_channels
        = (r0 + (n + 1)) * blk.num_channels := by ring
    rw [e1] at ci cframe
    simp only [amp_baseline]
    refine ⟨?_, ci, ?_, ?_⟩
    · rw [cb, hb]; omega
    · intro m c k hm hc hk
      by_cases hlast : m = n
      · subst hlast
        rw [cdone c k hc hk, hb]
      · have hs := slot_bounds w blk.num_channels (r0 + m) c k hc hk
        have hmn := band_mono w blk.num_channels (r0 + m + 1) (r0 + n) (by omega)
        rw [cframe _ (Or.inl (by omega))]
        exact hdone m c k (by omega) hc hk
    · intro j hj
      have hmn := band_mono w blk.num_channels r0 (r0 + n) (by omega)
      have hmn2 := band_mono w blk.num_channels (r0 + n) (r0 + (n + 1)) (by omega)
      rw [cframe j (by omega)]
      exact hframe j (by omega)

theorem amp_station_spec
    (put : (Nat → double2) → Nat → (Nat → double2) → Nat → (Nat → double2))
    (inc w : Nat) (content : (Nat → double2) → Nat → Nat → double2)
    (hput : PutSpec put inc w content) (blk : oskar_VisBlock) (t a1 : Nat)
    (st : LoopState double2) (r0 : Nat) (hq : st.i_out = inc * (r0 * blk.num_channels)) :
    (amp_station put inc blk t a1 st).b = st.b + (blk.num_stations - (a1 + 1)) ∧
    (amp_station put inc blk t a1 st).i_out
      = inc * ((r0 + self_rows blk.has_auto_correlations + (blk.num_stations - (a1 + 1)))
          * blk.num_channels) ∧
    (blk.has_auto_correlations = true → ∀ c k, c < blk.num_channels → k < w →
      (amp_station put inc blk t a1 st).out (w * (r0 * blk.num_channels + c) + k)
        = content blk.auto_correlations
            (blk.num_stations * (t * blk.num_channels + c) + a1) k) ∧
    (∀ m c k, m < blk.num_stations - (a1 + 1) → c < blk.num_channels → k < w →
      (amp_station put inc blk t a1 st).out
        (w * ((r0 + self_rows blk.has_auto_correlations + m) * blk.num_channels + c) + k)
        = content blk.cross_correlations
            (blk.num_baselines * (t * blk.num_channels + c) + (st.b + m)) k) ∧
    (∀ j, j < w * (r0 * blk.num_channels) ∨
        w * ((r0 + self_rows blk.has_auto_correlations + (blk.num_stations - (a1 + 1)))
          * blk.num_channels) ≤ j →
      (amp_station put inc blk t a1 st).out j = st.out j) := by
  cases hauto : blk.has_auto_correlations with
  | false =>
    obtain ⟨lb, li, ldone, lframe⟩ := amp_baseline_loop put inc w content hput blk t st r0 hq
      (blk.num_stations - (a1 + 1)) (a1 + 1)
    simp only [amp_station, hauto, self_rows, Nat.add_zero, Bool.false_eq_true, if_false]
    exact ⟨lb, li, fun h => absurd h (by simp), ldone, lframe⟩
  | true =>
    obtain ⟨cb, ci, cdone, cframe⟩ := amp_channels_spec put inc w content hput
      blk.auto_correlations
      (fun c => blk.num_stations * (t * blk.num_channels + c) + a1) st
      (r0 * blk.num_channels) hq blk.num_channels
    have e1 : r0 * blk.num_channels + blk.num_channels = (r0 + 1) * blk.num_channels := by ring
    rw [e1] at ci cframe
    obtain ⟨lb, li, ldone, lframe⟩ := amp_baseline_loop put inc w content hput blk t _
      (r0 + 1) ci (blk.num_stations - (a1 + 1)) (a1 + 1)
    simp only [amp_station, hauto, self_rows, if_true]
    refine ⟨?_, li, ?_, ?_, ?_⟩
    · rw [lb, cb]
    · intro _ c k hc hk
      have hs := slot_bounds w blk.num_channels r0 c k hc hk
      rw [lframe _ (Or.inl (by omega))]
      exact cdone c k hc hk
    · intro m c k hm hc hk
      rw [ldone m c k hm hc hk, cb]
    · intro j hj
      have h1 := band_mono w blk.num_channels r0 (r0 + 1) (by omega)
      have h2 := band_mono w blk.num_channels (r0 + 1)
        (r0 + 1 + (blk.num_stations - (a1 + 1))) (by omega)
      rw [lframe j (by omega)]
      exact cframe j (by omega)

theorem row_start_mono (n h : Nat) :
    ∀ b a, a ≤ b → cross_before n a + h * a ≤ cross_before n b + h * b := by
  intro b
  induction b with
  | zero =>
    intro a ha
    have : a = 0 := by omega
    subst this
    exact le_refl _
  | succ k ih =>
    intro a ha
    by_cases hk : a = k + 1
    · subst hk; exact le_refl _
    · have h1 := ih a (by omega)
      have h2 : h * (k + 1) = h * k + h := by ring
      simp only [cross_before]
      omega

theorem cross_before_cover (n : Nat) :
    ∀ a b, b < cross_before n a → ∃ a1 m, a1 < a ∧ m < n - (a1 + 1) ∧ b = cross_before n a1 + m := by
  intro a
  induction a with
  | zero => intro b hb; simp [cross_before] at hb
  | succ k ih =>
    intro b hb
    simp only [cross_before] at hb
    by_cases h : b < cross_before n k
    · obtain ⟨a1, m, h1, h2, h3⟩ := ih b h
      exact ⟨a1, m, by omega, h2, h3⟩
    · exact ⟨k, b - cross_before n k, by omega, by omega, by omega⟩

theorem amp_stations_loop
    (put : (Nat → double2) → Nat → (Nat → double2) → Nat → (Nat → double2))
    (inc w : Nat) (content : (Nat → double2) → Nat → Nat → double2)
    (hput : PutSpec put inc w content) (blk : oskar_VisBlock) (t : Nat) (out : Nat → double2) :
    ∀ a, a ≤ blk.num_stations →
      (forLoop (amp_station put inc blk t) 0 a { b := 0, i_out := 0, out := out }).b
        = cross_before blk.num_stations a ∧
      (forLoop (amp_station put inc blk t) 0 a { b := 0, i_out := 0, out := out }).i_out
        = inc * ((cross_before blk.num_stations a
            + self_rows blk.has_auto_correlations * a) * blk.num_channels) ∧
      (∀ a1, a1 < a →
        (blk.has_auto_correlations = true → ∀ c k, c < blk.num_channels → k < w →
          (forLoop (amp_station put inc blk t) 0 a { b := 0, i_out := 0, out := out }).out
            (w * ((cross_before blk.num_stations a1
              + self_rows blk.has_auto_correlations * a1) * blk.num_channels + c) + k)
            = content blk.auto_correlations
                (blk.num_stations * (t * blk.num_channels + c) + a1) k) ∧
        (∀ m c k, m < blk.num_stations - (a1 + 1) → c < blk.num_channels → k < w →
          (forLoop (amp_station put inc blk t) 0 a { b := 0, i_out := 0, out := out }).out
            (w * ((cross_before blk.num_stations a1
              + self_rows blk.has_auto_correlations * a1
              + self_rows blk.has_auto_correlations + m) * blk.num_channels + c) + k)
            = content blk.cross_correlations
                (blk.num_baselines * (t * blk.num_channels + c)
                  + (cross_before blk.num_stations a1 + m)) k)) ∧
      (∀ j, w * ((cross_before blk.num_stations a
            + self_rows blk.has_auto_correlations * a) * blk.num_channels) ≤ j →
        (forLoop (amp_station put inc blk t) 0 a { b := 0, i_out := 0, out := out }).out j
          = out j) := by
  intro a
  induction a with
  | zero =>
    intro _
    refine ⟨rfl, ?_, ?_, ?_⟩
    · simp [forLoop, cross_before]
    · intro a1 h; omega
    · intro j _; rfl
  | succ n ih =>
    intro hn
    obtain ⟨hb, hi, hdone, hframe⟩ := ih (by omega)
    rw [forLoop_succ_last]
    generalize forLoop (amp_station put inc blk t) 0 n { b := 0, i_out := 0, out := out } = s
      at hb hi hdone hframe ⊢
    obtain ⟨sb, si, sauto, scross, sframe⟩ := amp_station_spec put inc w content hput blk t
      (0 + n) s (cross_before blk.num_stations n + self_rows blk.has_auto_correlations * n) hi
    simp only [Nat.zero_add] at sb si sauto scross sframe ⊢
    have hrow : cross_before blk.num_stations n + self_rows blk.has_auto_correlations * n
          + self_rows blk.has_auto_correlations + (blk.num_stations - (n + 1))
        = cross_before blk.num_stations (n + 1)
          + self_rows blk.has_auto_correlations * (n + 1) := by
      simp only [cross_before]
      ring
    rw [hrow] at si sframe
    refine ⟨?_, si, ?_, ?_⟩
    · rw [sb, hb]; simp only [cross_before]
    · intro a1 ha1
      by_cases hlast : a1 = n
      · subst hlast
        refine ⟨sauto, ?_⟩
        intro m c k hm hc hk
        rw [scross m c k hm hc hk, hb]
      · have hlt : a1 < n := by omega
        obtain ⟨dauto, dcross⟩ := hdone a1 hlt
        have hmono := row_start_mono blk.num_stations (self_rows blk.has_auto_correlations)
          n (a1 + 1) (by omega)
        have hstep : cross_before blk.num_stations (a1 + 1)
              + self_rows blk.has_auto_correlations * (a1 + 1)
            = cross_before blk.num_stations a1 + self_rows blk.has_auto_correlations * a1
              + self_rows blk.has_auto_correlations + (blk.num_stations - (a1 + 1)) := by
          simp only [cross_before]
          ring
        refine ⟨?_, ?_⟩
        · intro hauto c k hc hk
          have hs := slot_bounds w blk.num_channels
            (cross_before blk.num_stations a1 + self_rows blk.has_auto_correlations * a1)
            c k hc hk
          have hself : self_rows blk.has_auto_correlations = 1 := by simp [self_rows, hauto]
          have hbm := band_mono w blk.num_channels
            (cross_before blk.num_stations a1 + self_rows blk.has_auto_correlations * a1 + 1)
            (cross_before blk.num_stations n + self_rows blk.has_auto_correlations * n)
            (by omega)
          rw [sframe _ (Or.inl (by omega))]
          exact dauto hauto c k hc hk
        · intro m c k hm hc hk
          have hs := slot_bounds w blk.num_channels
            (cross_before blk.num_stations a1 + self_rows blk.has_auto_correlations * a1
              + self_rows blk.has_auto_correlations + m) c k hc hk
          have hbm := band_mono w blk.num_channels
            (cross_before blk.num_stations a1 + self_rows blk.has_auto_correlations * a1
              + self_rows blk.has_auto_correlations + m + 1)
            (cross_before blk.num_stations n + self_rows blk.has_auto_correlations * n)
            (by omega)
          rw [sframe _ (Or.inl (by omega))]
          exact dcross m c k hm hc hk
    · intro j hj
      have hbm := band_mono w blk.num_channels
        (cross_before blk.num_stations n + self_rows blk.has_auto_correlations * n)
        (cross_before blk.num_stations (n + 1)
          + self_rows blk.has_auto_correlations * (n + 1)) (by rw [← hrow]; omega)
      rw [sframe j (Or.inr hj)]
      exact hframe j (by omega)

theorem amp_loop_spec
    (put : (Nat → double2) → Nat → (Nat → double2) → Nat → (Nat → double2))
    (inc w : Nat) (content : (Nat → double2) → Nat → Nat → double2)
    (hput : PutSpec put inc w content) (blk : oskar_VisBlock) (t : Nat) (out : Nat → double2) :
    (blk.has_auto_correlations = true → ∀ a1 c k, a1 < blk.num_stations →
      c < blk.num_channels → k < w →
      amp_loop put inc blk t out
        (w * ((cross_before blk.num_stations a1 + a1) * blk.num_channels + c) + k)
        = content blk.auto_correlations
            (blk.num_stations * (t * blk.num_channels + c) + a1) k) ∧
    (∀ a1 a2 c k, a1 < a2 → a2 < blk.num_stations → c < blk.num_channels → k < w →
      amp_loop put inc blk t out
        (w * ((cross_before blk.num_stations a1 + (a2 - a1 - 1)
          + self_rows blk.has_auto_correlations * (a1 + 1)) * blk.num_channels + c) + k)
        = content blk.cross_correlations
            (blk.num_baselines * (t * blk.num_channels + c)
              + (cross_before blk.num_stations a1 + (a2 - a1 - 1))) k) := by
  obtain ⟨-, -, hdone, -⟩ := amp_stations_loop put inc w content hput blk t out
    blk.num_stations (le_refl _)
  refine ⟨?_, ?_⟩
  · intro hauto a1 c k ha1 hc hk
    have := (hdone a1 ha1).1 hauto c k hc hk
    have hself : self_rows blk.has_auto_correlations = 1 := by simp [self_rows, hauto]
    rw [hself, Nat.one_mul] at this
    exact this
  · intro a1 a2 c k h12 h2 hc hk
    have := (hdone a1 (by omega)).2 (a2 - a1 - 1) c k (by omega) hc hk
    have e : cross_before blk.num_stations a1 + self_rows blk.has_auto_correlations * a1
          + self_rows blk.has_auto_correlations + (a2 - a1 - 1)
        = cross_before blk.num_stations a1 + (a2 - a1 - 1)
          + self_rows blk.has_auto_correlations * (a1 + 1) := by ring
    rw [e] at this
    exact this

/-! ## The amplitudes (C5, C6) -/

theorem amps_for_time_copied (blk : oskar_VisBlock) (num_pols_out t : Nat)
    (out : Nat → double2)
    (hcase : blk.num_pols = 4 ∨ (blk.num_pols = 1 ∧ num_pols_out = 1)) :
    (blk.has_auto_correlations = true → ∀ a1 c, a1 < blk.num_stations →
      c < blk.num_channels →
      sample_copied blk (amps_for_time blk num_pols_out t out)
        ((cross_before blk.num_stations a1 + a1) * blk.num_channels + c)
        blk.auto_correlations (blk.num_stations * (t * blk.num_channels + c) + a1)) ∧
    (blk.has_auto_correlations = true → ∀ a1 a2 c, a1 < a2 → a2 < blk.num_stations →
      c < blk.num_channels →
      sample_copied blk (amps_for_time blk num_pols_out t out)
        ((cross_before blk.num_stations a1 + a1 + (a2 - a1)) * blk.num_channels + c)
        blk.cross_correlations
        (blk.num_baselines * (t * blk.num_channels + c)
          + (cross_before blk.num_stations a1 + (a2 - a1 - 1)))) ∧
    (blk.has_auto_correlations = false → ∀ b c,
      b < blk.num_stations * (blk.num_stations - 1) / 2 → c < blk.num_channels →
      sample_copied blk (amps_for_time blk num_pols_out t out)
        (b * blk.num_channels + c) blk.cross_correlations
        (blk.num_baselines * (t * blk.num_channels + c) + b)) := by
  by_cases h4 : blk.num_pols = 4
  · obtain ⟨hself, hcross⟩ := amp_loop_spec put_matrix 1 4 _ put_matrix_spec blk t out
    have hamp : amps_for_time blk num_pols_out t out = amp_loop put_matrix 1 blk t out := by
      simp [amps_for_time, h4]
    simp only [sample_copied, h4, if_true, hamp]
    refine ⟨?_, ?_, ?_⟩
    · intro hauto a1 c ha1 hc k hk
      exact hself hauto a1 c k ha1 hc hk
    · intro hauto a1 a2 c h12 h2 hc k hk
      have := hcross a1 a2 c k h12 h2 hc hk
      have e : cross_before blk.num_stations a1 + (a2 - a1 - 1)
          + self_rows blk.has_auto_correlations * (a1 + 1)
          = cross_before blk.num_stations a1 + a1 + (a2 - a1) := by
        simp only [self_rows, hauto, if_true]
        omega
      rw [e] at this
      exact this
    · intro hauto b c hb hc k hk
      rw [← cross_before_total] at hb
      obtain ⟨a1, m, ha1, hm, rfl⟩ := cross_before_cover _ _ b hb
      have := hcross a1 (a1 + 1 + m) c k (by omega) (by omega) hc hk
      have e1 : a1 + 1 + m - a1 - 1 = m := by omega
      have e2 : self_rows blk.has_auto_correlations * (a1 + 1) = 0 := by
        simp [self_rows, hauto]
      rw [e1, e2, Nat.add_zero] at this
      exact this
  · have h1 : blk.num_pols = 1 ∧ num_pols_out = 1 := by
      rcases hcase with h | h
      · exact absurd h h4
      · exact h
    obtain ⟨hself, hcross⟩ := amp_loop_spec put_scalar 1 1 _ put_scalar_spec blk t out
    have hamp : amps_for_time blk num_pols_out t out = amp_loop put_scalar 1 blk t out := by
      simp [amps_for_time, h1]
    simp only [sample_copied, h4, if_false, hamp]
    refine ⟨?_, ?_, ?_⟩
    · intro hauto a1 c ha1 hc
      simpa using hself hauto a1 c 0 ha1 hc (by omega)
    · intro hauto a1 a2 c h12 h2 hc
      have := hcross a1 a2 c 0 h12 h2 hc (by omega)
      have e : cross_before blk.num_stations a1 + (a2 - a1 - 1)
          + self_rows blk.has_auto_correlations * (a1 + 1)
          = cross_before blk.num_stations a1 + a1 + (a2 - a1) := by
        simp only [self_rows, hauto, if_true]
        omega
      rw [e] at this
      simpa using this
    · intro hauto b c hb hc
      rw [← cross_before_total] at hb
      obtain ⟨a1, m, ha1, hm, rfl⟩ := cross_before_cover _ _ b hb
      have := hcross a1 (a1 + 1 + m) c 0 (by omega) (by omega) hc (by omega)
      have e1 : a1 + 1 + m - a1 - 1 = m := by omega
      have e2 : self_rows blk.has_auto_correlations * (a1 + 1) = 0 := by
        simp [self_rows, hauto]
      rw [e1, e2, Nat.add_zero] at this
      simpa using this

theorem amp_index_bound (n nch T t c a : Nat) (ht : t < T) (hc : c < nch) (ha : a < n) :
    n * (t * nch + c) + a < n * (T * nch) := by
  have h1 : t * nch + c + 1 ≤ T * nch := by
    have : (t + 1) * nch ≤ T * nch := Nat.mul_le_mul_right _ ht
    have e : (t + 1) * nch = t * nch + nch := by ring
    omega
  have h2 : n * (t * nch + c + 1) ≤ n * (T * nch) := Nat.mul_le_mul_left _ h1
  have e : n * (t * nch + c + 1) = n * (t * nch + c) + n := by ring
  omega

theorem write_defined_indices (blk : oskar_VisBlock) (num_pols_out num_channels_out t : Nat)
    (hdef : write_defined blk num_pols_out num_channels_out) (ht : t < blk.num_times)
    (c : Nat) (hc : c < blk.num_channels) :
    (blk.has_auto_correlations = true → ∀ a1, a1 < blk.num_stations →
      blk.num_stations * (t * blk.num_channels + c) + a1 < INT_MAX) ∧
    (∀ b, b < blk.num_baselines →
      blk.num_baselines * (t * blk.num_channels + c) + b < INT_MAX) ∧
    (∀ r, r < num_baselines_out blk →
      num_pols_out * (r * blk.num_channels + c) + num_pols_out ≤ INT_MAX) := by
  obtain ⟨hp, -, -, -, hlen, hx, ha⟩ := hdef
  refine ⟨?_, ?_, ?_⟩
  · intro hauto a1 ha1
    have := amp_index_bound _ _ _ t c a1 ht hc ha1
    have := ha hauto
    omega
  · intro b hb
    have := amp_index_bound _ _ _ t c b ht hc hb
    omega
  · intro r hr
    have h1 : r * blk.num_channels + c + 1 ≤ num_baselines_out blk * blk.num_channels := by
      have : (r + 1) * blk.num_channels ≤ num_baselines_out blk * blk.num_channels :=
        Nat.mul_le_mul_right _ hr
      have e : (r + 1) * blk.num_channels = r * blk.num_channels + blk.num_channels := by ring
      omega
    have h2 : num_pols_out * (r * blk.num_channels + c + 1)
        ≤ num_pols_out * (num_baselines_out blk * blk.num_channels) :=
      Nat.mul_le_mul_left _ h1
    have e1 : num_pols_out * (r * blk.num_channels + c + 1)
        = num_pols_out * (r * blk.num_channels + c) + num_pols_out := by ring
    have e2 : num_pols_out * (num_baselines_out blk * blk.num_channels)
        = num_baselines_out blk * blk.num_channels * num_pols_out := by ring
    omega

/-- C5: for a block and a store under the conditions `write_defined` in which C defines
the writer (among them `B = N * (N - 1) / 2` and indices within `int`), in the 4-in/4-out
and 1-in/1-out cases, the amplitude array built for a time sample `t` of the block holds,
at output sample index `r * num_channels + c`, a verbatim copy of the autocorrelation
sample `num_stations * (t * num_channels + c) + a1` when `r` is the self-baseline row of
station `a1` (`r = cross_before N a1 + a1`), and of the cross-correlation sample
`num_baselines_in * (t * num_channels + c) + b` when `r` is the row of cross-baseline `b`:
`r = cross_before N a1 + a1 + (a2 - a1)` for the pair `(a1, a2)` with
`b = cross_before N a1 + (a2 - a1 - 1)` when autocorrelations are present, and `r = b` for
every `b < N * (N - 1) / 2` when they are absent.  The input indices and the positions of
the output samples are below `INT_MAX`. -/
theorem amps_for_time_mapping (blk : oskar_VisBlock) (num_pols_out t : Nat)
    (out : Nat → double2) (hdef : write_defined blk num_pols_out blk.num_channels)
    (hcase : blk.num_pols = num_pols_out) (ht : t < blk.num_times) :
    (blk.has_auto_correlations = true → ∀ a1 c, a1 < blk.num_stations →
      c < blk.num_channels →
      sample_copied blk (amps_for_time blk num_pols_out t out)
        ((cross_before blk.num_stations a1 + a1) * blk.num_channels + c)
        blk.auto_correlations (blk.num_stations * (t * blk.num_channels + c) + a1)) ∧
    (blk.has_auto_correlations = true → ∀ a1 a2 c, a1 < a2 → a2 < blk.num_stations →
      c < blk.num_channels →
      sample_copied blk (amps_for_time blk num_pols_out t out)
        ((cross_before blk.num_stations a1 + a1 + (a2 - a1)) * blk.num_channels + c)
        blk.cross_correlations
        (blk.num_baselines * (t * blk.num_channels + c)
          + (cross_before blk.num_stations a1 + (a2 - a1 - 1)))) ∧
    (blk.has_auto_correlations = false → ∀ b c,
      b < blk.num_stations * (blk.num_stations - 1) / 2 → c < blk.num_channels →
      sample_copied blk (amps_for_time blk num_pols_out t out)
        (b * blk.num_channels + c) blk.cross_correlations
        (blk.num_baselines * (t * blk.num_channels + c) + b)) ∧
    (∀ c, c < blk.num_channels →
      (blk.has_auto_correlations = true → ∀ a1, a1 < blk.num_stations →
        blk.num_stations * (t * blk.num_channels + c) + a1 < INT_MAX) ∧
      (∀ b, b < blk.num_baselines →
        blk.num_baselines * (t * blk.num_channels + c) + b < INT_MAX) ∧
      (∀ r, r < num_baselines_out blk →
        num_pols_out * (r * blk.num_channels + c) + num_pols_out ≤ INT_MAX)) := by
  have hc : blk.num_pols = 4 ∨ (blk.num_pols = 1 ∧ num_pols_out = 1) := by
    obtain ⟨h, -⟩ := hdef
    omega
  obtain ⟨h1, h2, h3⟩ := amps_for_time_copied blk num_pols_out t out hc
  exact ⟨h1, h2, h3,
    fun c hc => write_defined_indices blk num_pols_out blk.num_channels t hdef ht c hc⟩

theorem amps_for_time_mapping_witness :
    (example_block.has_auto_correlations = true → ∀ a1 c, a1 < example_block.num_stations →
      c < example_block.num_channels →
      sample_copied example_block (amps_for_time example_block 1 0 (fun _ => double2.zero))
        ((cross_before example_block.num_stations a1 + a1) * example_block.num_channels + c)
        example_block.auto_correlations
        (example_block.num_stations * (0 * example_block.num_channels + c) + a1)) ∧
    (example_block.has_auto_correlations = true → ∀ a1 a2 c, a1 < a2 →
      a2 < example_block.num_stations → c < example_block.num_channels →
      sample_copied example_block (amps_for_time example_block 1 0 (fun _ => double2.zero))
        ((cross_before example_block.num_stations a1 + a1 + (a2 - a1))
          * example_block.num_channels + c)
        example_block.cross_correlations
        (example_block.num_baselines * (0 * example_block.num_channels + c)
          + (cross_before example_block.num_stations a1 + (a2 - a1 - 1)))) ∧
    (example_block.has_auto_correlations = false → ∀ b c,
      b < example_block.num_stations * (example_block.num_stations - 1) / 2 →
      c < example_block.num_channels →
      sample_copied example_block (amps_for_time example_block 1 0 (fun _ => double2.zero))
        (b * example_block.num_channels + c) example_block.cross_correlations
        (example_block.num_baselines * (0 * example_block.num_channels + c) + b)) ∧
    (∀ c, c < example_block.num_channels →
      (example_block.has_auto_correlations = true → ∀ a1, a1 < example_block.num_stations →
        example_block.num_stations * (0 * example_block.num_channels + c) + a1 < INT_MAX) ∧
      (∀ b, b < example_block.num_baselines →
        example_block.num_baselines * (0 * example_block.num_channels + c) + b < INT_MAX) ∧
      (∀ r, r < num_baselines_out example_block →
        1 * (r * example_block.num_channels + c) + 1 ≤ INT_MAX)) :=
  amps_for_time_mapping example_block 1 0 (fun _ => double2.zero) (by decide) rfl (by decide)

theorem amps_for_time_expanded (blk : oskar_VisBlock) (num_pols_out t : Nat)
    (out : Nat → double2) (hin : blk.num_pols = 1) (hout : num_pols_out = 4) :
    (blk.has_auto_correlations = true → ∀ a1 c, a1 < blk.num_stations →
      c < blk.num_channels →
      (List.range 4).map (fun k => amps_for_time blk num_pols_out t out
          (4 * ((cross_before blk.num_stations a1 + a1) * blk.num_channels + c) + k))
        = [blk.auto_correlations (blk.num_stations * (t * blk.num_channels + c) + a1),
           double2.zero, double2.zero,
           blk.auto_correlations (blk.num_stations * (t * blk.num_channels + c) + a1)] ∧
      take_element0 (amps_for_time blk num_pols_out t out)
          ((cross_before blk.num_stations a1 + a1) * blk.num_channels + c)
        = blk.auto_correlations (blk.num_stations * (t * blk.num_channels + c) + a1)) ∧
    (∀ a1 a2 c, a1 < a2 → a2 < blk.num_stations → c < blk.num_channels →
      (List.range 4).map (fun k => amps_for_time blk num_pols_out t out
          (4 * ((cross_before blk.num_stations a1 + (a2 - a1 - 1)
            + self_rows blk.has_auto_correlations * (a1 + 1)) * blk.num_channels + c) + k))
        = [blk.cross_correlations (blk.num_baselines * (t * blk.num_channels + c)
             + (cross_before blk.num_stations a1 + (a2 - a1 - 1))),
           double2.zero, double2.zero,
           blk.cross_correlations (blk.num_baselines * (t * blk.num_channels + c)
             + (cross_before blk.num_stations a1 + (a2 - a1 - 1)))] ∧
      take_element0 (amps_for_time blk num_pols_out t out)
          ((cross_before blk.num_stations a1 + (a2 - a1 - 1)
            + self_rows blk.has_auto_correlations * (a1 + 1)) * blk.num_channels + c)
        = blk.cross_correlations (blk.num_baselines * (t * blk.num_channels + c)
            + (cross_before blk.num_stations a1 + (a2 - a1 - 1)))) := by
  obtain ⟨hself, hcross⟩ := amp_loop_spec put_expand 4 4 _ put_expand_spec blk t out
  have hamp : amps_for_time blk num_pols_out t out = amp_loop put_expand 4 blk t out := by
    simp [amps_for_time, hin, hout]
  rw [hamp]
  have hr : List.range 4 = [0, 1, 2, 3] := by decide
  refine ⟨?_, ?_⟩
  · intro hauto a1 c ha1 hc
    have h0 := hself hauto a1 c 0 ha1 hc (by omega)
    have h1 := hself hauto a1 c 1 ha1 hc (by omega)
    have h2 := hself hauto a1 c 2 ha1 hc (by omega)
    have h3 := hself hauto a1 c 3 ha1 hc (by omega)
    simp only [take_element0, hr, List.map_cons, List.map_nil]
    refine ⟨?_, by simpa using h0⟩
    rw [h0, h1, h2, h3]
    simp
  · intro a1 a2 c h12 h2a hc
    have h0 := hcross a1 a2 c 0 h12 h2a hc (by omega)
    have h1 := hcross a1 a2 c 1 h12 h2a hc (by omega)
    have h2 := hcross a1 a2 c 2 h12 h2a hc (by omega)
    have h3 := hcross a1 a2 c 3 h12 h2a hc (by omega)
    simp only [take_element0, hr, List.map_cons, List.map_nil]
    refine ⟨?_, by simpa using h0⟩
    rw [h0, h1, h2, h3]
    simp

/-- C6: for `num_pols_in = 1` and `num_pols_out = 4`, under the conditions `write_defined`
in which C defines the writer (among them indices within `int`), every output sample of
the amplitude array built for a time sample `t` of the block (the autocorrelation of every
station `a1` when present, the cross-correlation of every pair `a1 < a2`, every channel
`c`) is the four-element matrix `[s, 0, 0, s]`, `s` being the input complex scalar, and
`take_element0` of the output sample is `s`.  The input indices and the positions of the
output values are below `INT_MAX`. -/
theorem amps_for_time_expansion (blk : oskar_VisBlock) (num_pols_out t : Nat)
    (out : Nat → double2) (hdef : write_defined blk num_pols_out blk.num_channels)
    (hin : blk.num_pols = 1) (hout : num_pols_out = 4) (ht : t < blk.num_times) :
    (blk.has_auto_correlations = true → ∀ a1 c, a1 < blk.num_stations →
      c < blk.num_channels →
      (List.range 4).map (fun k => amps_for_time blk num_pols_out t out
          (4 * ((cross_before blk.num_stations a1 + a1) * blk.num_channels + c) + k))
        = [blk.auto_correlations (blk.num_stations * (t * blk.num_channels + c) + a1),
           double2.zero, double2.zero,
           blk.auto_correlations (blk.num_stations * (t * blk.num_channels + c) + a1)] ∧
      take_element0 (amps_for_time blk num_pols_out t out)
          ((cross_before blk.num_stations a1 + a1) * blk.num_channels + c)
        = blk.auto_correlations (blk.num_stations * (t * blk.num_channels + c) + a1)) ∧
    (∀ a1 a2 c, a1 < a2 → a2 < blk.num_stations → c < blk.num_channels →
      (List.range 4).map (fun k => amps_for_time blk num_pols_out t out
          (4 * ((cross_before blk.num_stations a1 + (a2 - a1 - 1)
            + self_rows blk.has_auto_correlations * (a1 + 1)) * blk.num_channels + c) + k))
        = [blk.cross_correlations (blk.num_baselines * (t * blk.num_channels + c)
             + (cross_before blk.num_stations a1 + (a2 - a1 - 1))),
           double2.zero, double2.zero,
           blk.cross_correlations (blk.num_baselines * (t * blk.num_channels + c)
             + (cross_before blk.num_stations a1 + (a2 - a1 - 1)))] ∧
      take_element0 (amps_for_time blk num_pols_out t out)
          ((cross_before blk.num_stations a1 + (a2 - a1 - 1)
            + self_rows blk.has_auto_correlations * (a1 + 1)) * blk.num_channels + c)
        = blk.cross_correlations (blk.num_baselines * (t * blk.num_channels + c)
            + (cross_before blk.num_stations a1 + (a2 - a1 - 1)))) ∧
    (∀ c, c < blk.num_channels →
      (blk.has_auto_correlations = true → ∀ a1, a1 < blk.num_stations →
        blk.num_stations * (t * blk.num_channels + c) + a1 < INT_MAX) ∧
      (∀ b, b < blk.num_baselines →
        blk.num_baselines * (t * blk.num_channels + c) + b < INT_MAX) ∧
      (∀ r, r < num_baselines_out blk →
        num_pols_out * (r * blk.num_channels + c) + num_pols_out ≤ INT_MAX)) := by
  obtain ⟨h1, h2⟩ := amps_for_time_expanded blk num_pols_out t out hin hout
  exact ⟨h1, h2,
    fun c hc => write_defined_indices blk num_pols_out blk.num_channels t hdef ht c hc⟩

theorem amps_for_time_expansion_witness :
    (example_block.has_auto_correlations = true → ∀ a1 c, a1 < example_block.num_stations →
      c < example_block.num_channels →
      (List.range 4).map (fun k => amps_for_time example_block 4 0 (fun _ => double2.zero)
          (4 * ((cross_before example_block.num_stations a1 + a1)
            * example_block.num_channels + c) + k))
        = [example_block.auto_correlations
             (example_block.num_stations * (0 * example_block.num_channels + c) + a1),
           double2.zero, double2.zero,
           example_block.auto_correlations
             (example_block.num_stations * (0 * example_block.num_channels + c) + a1)] ∧
      take_element0 (amps_for_time example_block 4 0 (fun _ => double2.zero))
          ((cross_before example_block.num_stations a1 + a1) * example_block.num_channels + c)
        = example_block.auto_correlations
            (example_block.num_stations * (0 * example_block.num_channels + c) + a1)) ∧
    (∀ a1 a2 c, a1 < a2 → a2 < example_block.num_stations → c < example_block.num_channels →
      (List.range 4).map (fun k => amps_for_time example_block 4 0 (fun _ => double2.zero)
          (4 * ((cross_before example_block.num_stations a1 + (a2 - a1 - 1)
            + self_rows example_block.has_auto_correlations * (a1 + 1))
            * example_block.num_channels + c) + k))
        = [example_block.cross_correlations
             (example_block.num_baselines * (0 * example_block.num_channels + c)
               + (cross_before example_block.num_stations a1 + (a2 - a1 - 1))),
           double2.zero, double2.zero,
           example_block.cross_correlations
             (example_block.num_baselines * (0 * example_block.num_channels + c)
               + (cross_before example_block.num_stations a1 + (a2 - a1 - 1)))] ∧
      take_element0 (amps_for_time example_block 4 0 (fun _ => double2.zero))
          ((cross_before example_block.num_stations a1 + (a2 - a1 - 1)
            + self_rows example_block.has_auto_correlations * (a1 + 1))
            * example_block.num_channels + c)
        = example_block.cross_correlations
            (example_block.num_baselines * (0 * example_block.num_channels + c)
              + (cross_before example_block.num_stations a1 + (a2 - a1 - 1)))) ∧
    (∀ c, c < example_block.num_channels →
      (example_block.has_auto_correlations = true → ∀ a1, a1 < example_block.num_stations →
        example_block.num_stations * (0 * example_block.num_channels + c) + a1 < INT_MAX) ∧
      (∀ b, b < example_block.num_baselines →
        example_block.num_baselines * (0 * example_block.num_channels + c) + b < INT_MAX) ∧
      (∀ r, r < num_baselines_out example_block →
        4 * (r * example_block.num_channels + c) + 4 ≤ INT_MAX)) :=
  amps_for_time_expansion example_block 4 0 (fun _ => double2.zero) (by decide) rfl rfl
    (by decide)

/-! ## Failures (C8, C9, C10) -/

/-- C8: with valid handles and status clear on entry, `num_pols_in > num_pols_out` makes
`oskar_vis_block_write_ms` set status `DimensionMismatch` (a non-zero code) and return the
store exactly as it was: no row is added and no cell is written. -/
theorem write_ms_dimension_mismatch (blk : oskar_VisBlock) (header : oskar_VisHeader)
    (ms : oskar_MeasurementSet) (h : blk.num_pols > oskar_ms_num_pols ms) :
    oskar_vis_block_write_ms (some blk) (some header) (some ms) 0
      = some (some ms, OSKAR_ERR_DIMENSION_MISMATCH) ∧
    OSKAR_ERR_DIMENSION_MISMATCH ≠ 0 := by
  refine ⟨?_, by decide⟩
  simp [oskar_vis_block_write_ms, h]

theorem write_ms_dimension_mismatch_witness :
    oskar_vis_block_write_ms (some example_block_matrix) (some example_header)
        (some (example_store 1)) 0
      = some (some (example_store 1), OSKAR_ERR_DIMENSION_MISMATCH) ∧
    OSKAR_ERR_DIMENSION_MISMATCH ≠ 0 :=
  write_ms_dimension_mismatch example_block_matrix example_header (example_store 1)
    (by decide)

theorem write_ms_bad_data_type (blk : oskar_VisBlock) (header : oskar_VisHeader)
    (ms : oskar_MeasurementSet) (tbl : Table) (hms : ms.ms = some tbl)
    (hpol : blk.num_pols ≤ oskar_ms_num_pols ms) (hprec : blk.precision = Precision.other)
    (hrange : tbl.nrow + blk.num_times * num_baselines_out blk ≤ INT_MAX) :
    ∃ ms1, oskar_vis_block_write_ms (some blk) (some header) (some ms) 0
        = some (some ms1, OSKAR_ERR_BAD_DATA_TYPE) ∧
      oskar_ms_num_rows ms1 = oskar_ms_num_rows ms + blk.num_times * num_baselines_out blk := by
  obtain ⟨t1, h1ms, -, -, h1nrow, -, -, -⟩ :=
    set_num_rows_grow ms tbl hms (blk.num_times * num_baselines_out blk) hrange
  have hR : oskar_ms_num_rows ms = tbl.nrow := by
    simp [oskar_ms_num_rows, oskar_MeasurementSet.num_rows, hms]
  have hnpol : ¬ (oskar_ms_num_pols ms < blk.num_pols) := by omega
  refine ⟨oskar_ms_set_num_rows ms
    (toUInt (tbl.nrow + blk.num_times * num_baselines_out blk)), ?_, ?_⟩
  · simp [oskar_vis_block_write_ms, hnpol, hprec, hR]
  · rw [hR]
    simp [oskar_ms_num_rows, oskar_MeasurementSet.num_rows, h1ms, h1nrow]

/-- C9, as stated, fails: for `example_block_other` (precision neither single nor double)
written to the empty store the call ends with status `BadDataType` and the store has one
row, while it had none before the call. -/
theorem write_ms_bad_data_type_grows :
    ∃ ms1, oskar_vis_block_write_ms (some example_block_other) (some example_header)
        (some (example_store 1)) 0 = some (some ms1, OSKAR_ERR_BAD_DATA_TYPE) ∧
      oskar_ms_num_rows (example_store 1) = 0 ∧ oskar_ms_num_rows ms1 = 1 := by
  obtain ⟨ms1, h1, h2⟩ := write_ms_bad_data_type example_block_other example_header
    (example_store 1) example_table rfl (by decide) rfl (by decide)
  exact ⟨ms1, h1, rfl, h2⟩

/-- C9, amended: a failure with `InvalidArgument` (a null block, header or store handle; a
store handle that is not null is returned as it was) or with `DimensionMismatch`
(`num_pols_in > num_pols_out`) leaves the store, hence its row count, unchanged;
`BadDataType` (a precision that is neither single nor double) is reported after the main
table has been grown, so that the call ends with `R + num_times * num_output_baselines`
rows. -/
theorem write_ms_failures (blk : oskar_VisBlock) (header : oskar_VisHeader)
    (ms : oskar_MeasurementSet) (tbl : Table) (hms : ms.ms = some tbl)
    (hrange : tbl.nrow + blk.num_times * num_baselines_out blk ≤ INT_MAX) :
    (∀ ms0, oskar_vis_block_write_ms none (some header) ms0 0
      = some (ms0, OSKAR_ERR_INVALID_ARGUMENT)) ∧
    (∀ ms0, oskar_vis_block_write_ms (some blk) none ms0 0
      = some (ms0, OSKAR_ERR_INVALID_ARGUMENT)) ∧
    (∀ ms0, oskar_vis_block_write_ms none none ms0 0
      = some (ms0, OSKAR_ERR_INVALID_ARGUMENT)) ∧
    oskar_vis_block_write_ms (some blk) (some header) none 0
      = some (none, OSKAR_ERR_INVALID_ARGUMENT) ∧
    (blk.num_pols > oskar_ms_num_pols ms →
      oskar_vis_block_write_ms (some blk) (some header) (some ms) 0
        = some (some ms, OSKAR_ERR_DIMENSION_MISMATCH)) ∧
    (blk.num_pols ≤ oskar_ms_num_pols ms → blk.precision = Precision.other →
      ∃ ms1, oskar_vis_block_write_ms (some blk) (some header) (some ms) 0
          = some (some ms1, OSKAR_ERR_BAD_DATA_TYPE) ∧
        oskar_ms_num_rows ms1
          = oskar_ms_num_rows ms + blk.num_times * num_baselines_out blk) := by
  refine ⟨?_, ?_, ?_, ?_, ?_, ?_⟩
  · intro ms0; cases ms0 <;> rfl
  · intro ms0; cases ms0 <;> rfl
  · intro ms0; cases ms0 <;> rfl
  · rfl
  · intro h
    simp [oskar_vis_block_write_ms, h]
  · intro hpol hprec
    exact write_ms_bad_data_type blk header ms tbl hms hpol hprec hrange

theorem write_ms_failures_witness :
    (∀ ms0, oskar_vis_block_write_ms none (some example_header) ms0 0
      = some (ms0, OSKAR_ERR_INVALID_ARGUMENT)) ∧
    (∀ ms0, oskar_vis_block_write_ms (some example_block_other) none ms0 0
      = some (ms0, OSKAR_ERR_INVALID_ARGUMENT)) ∧
    (∀ ms0, oskar_vis_block_write_ms none none ms0 0
      = some (ms0, OSKAR_ERR_INVALID_ARGUMENT)) ∧
    oskar_vis_block_write_ms (some example_block_other) (some example_header) none 0
      = some (none, OSKAR_ERR_INVALID_ARGUMENT) ∧
    (example_block_other.num_pols > oskar_ms_num_pols (example_store 1) →
      oskar_vis_block_write_ms (some example_block_other) (some example_header)
          (some (example_store 1)) 0
        = some (some (example_store 1), OSKAR_ERR_DIMENSION_MISMATCH)) ∧
    (example_block_other.num_pols ≤ oskar_ms_num_pols (example_store 1) →
      example_block_other.precision = Precision.other →
      ∃ ms1, oskar_vis_block_write_ms (some example_block_other) (some example_header)
          (some (example_store 1)) 0 = some (some ms1, OSKAR_ERR_BAD_DATA_TYPE) ∧
        oskar_ms_num_rows ms1 = oskar_ms_num_rows (example_store 1)
          + example_block_other.num_times * num_baselines_out example_block_other) :=
  write_ms_failures example_block_other example_header (example_store 1) example_table rfl
    (by decide)

/-- C10: if the status is non-zero on entry, `oskar_vis_block_write_ms` with non-null
handles returns the store and the status unchanged, and `get_column` returns with the
caller's buffer, `required_size` and the status unchanged (it does not modify the store). -/
theorem status_set_on_entry (blk : oskar_VisBlock) (header : oskar_VisHeader)
    (ms : oskar_MeasurementSet) (status : Int) (h : status ≠ 0) :
    oskar_vis_block_write_ms (some blk) (some header) (some ms) status
      = some (some ms, status) ∧
    ∀ (column : String) (start_row num_rows data_size_bytes : Nat) (data : List Value)
      (required_size : Nat),
      ms.get_column column start_row num_rows data_size_bytes data required_size status
        = some { data := data, required_size := required_size, status := status } := by
  refine ⟨?_, ?_⟩
  · simp [oskar_vis_block_write_ms, h]
  · intro column start_row num_rows data_size_bytes data required_size
    unfold oskar_MeasurementSet.get_column
    cases ms.ms with
    | none => rfl
    | some t => simp [h]

theorem status_set_on_entry_witness :
    oskar_vis_block_write_ms (some example_block) (some example_header)
        (some (example_store 1)) 1 = some (some (example_store 1), 1) ∧
    ∀ (column : String) (start_row num_rows data_size_bytes : Nat) (data : List Value)
      (required_size : Nat),
      (example_store 1).get_column column start_row num_rows data_size_bytes data
          required_size 1
        = some { data := data, required_size := required_size, status := 1 } :=
  status_set_on_entry example_block example_header (example_store 1) 1 (by decide)

/-! ## Rounding to a binary floating-point format -/

theorem ilog2Loop_spec : ∀ (fuel n : Nat), 1 ≤ n → n ≤ fuel →
    2 ^ ilog2Loop fuel n ≤ n ∧ n < 2 ^ (ilog2Loop fuel n + 1) := by
  intro fuel
  induction fuel with
  | zero => intro n h1 h2; omega
  | succ k ih =>
    intro n h1 h2
    unfold ilog2Loop
    by_cases hn : n < 2
    · rw [if_pos hn]
      have : n = 1 := by omega
      subst this
      simp
    · rw [if_neg hn]
      obtain ⟨ha, hb⟩ := ih (n / 2) (by omega) (by omega)
      constructor
      · rw [pow_succ]
        omega
      · rw [pow_succ]
        omega

theorem ilog2_spec (n : Nat) (h : 1 ≤ n) : 2 ^ ilog2 n ≤ n ∧ n < 2 ^ (ilog2 n + 1) :=
  ilog2Loop_spec n n h (le_refl _)

theorem binExponent_spec (q : ℚ) (hq : 0 < q) :
    (2 : ℚ) ^ binExponent q ≤ q ∧ q < (2 : ℚ) ^ (binExponent q + 1) := by
  have hnum : 0 < q.num := Rat.num_pos.mpr hq
  have hden : 0 < q.den := q.den_pos
  obtain ⟨ha1, ha2⟩ := ilog2_spec q.num.natAbs (by omega)
  obtain ⟨hb1, hb2⟩ := ilog2_spec q.den (by omega)
  have hqe : q = (q.num.natAbs : ℚ) / (q.den : ℚ) := by
    have hn : ((q.num.natAbs : ℕ) : ℚ) = (q.num : ℚ) := by
      have h0 : ((q.num.natAbs : ℕ) : ℤ) = q.num := Int.natAbs_of_nonneg hnum.le
      rw [← Int.cast_natCast, h0]
    rw [hn]
    exact (Rat.num_div_den q).symm
  have hdq : (0 : ℚ) < (q.den : ℚ) := by exact_mod_cast hden
  have ha1q : (2 : ℚ) ^ ilog2 q.num.natAbs ≤ (q.num.natAbs : ℚ) := by exact_mod_cast ha1
  have ha2q : (q.num.natAbs : ℚ) < (2 : ℚ) ^ (ilog2 q.num.natAbs + 1) := by exact_mod_cast ha2
  have hb1q : (2 : ℚ) ^ ilog2 q.den ≤ (q.den : ℚ) := by exact_mod_cast hb1
  have hb2q : (q.den : ℚ) < (2 : ℚ) ^ (ilog2 q.den + 1) := by exact_mod_cast hb2
  have h2 : (0 : ℚ) < 2 := by norm_num
  have hpa : (0 : ℚ) < (2 : ℚ) ^ ilog2 q.num.natAbs := pow_pos h2 _
  have hpb : (0 : ℚ) < (2 : ℚ) ^ ilog2 q.den := pow_pos h2 _
  -- the two candidate exponents
  have hz : ∀ (a b : Nat), (2 : ℚ) ^ ((a : Int) - (b : Int)) = (2 : ℚ) ^ a / (2 : ℚ) ^ b := by
    intro a b
    rw [zpow_sub₀ (by norm_num : (2 : ℚ) ≠ 0), zpow_natCast, zpow_natCast]
  have hlow : (2 : ℚ) ^ ((ilog2 q.num.natAbs : Int) - (ilog2 q.den : Int) - 1) < q := by
    have e : ((ilog2 q.num.natAbs : Int) - (ilog2 q.den : Int) - 1)
        = ((ilog2 q.num.natAbs : Nat) : Int) - ((ilog2 q.den + 1 : Nat) : Int) := by
      push_cast; ring
    rw [e, hz]
    conv_rhs => rw [hqe]
    rw [div_lt_div_iff₀ (pow_pos h2 _) hdq]
    calc (2 : ℚ) ^ ilog2 q.num.natAbs * (q.den : ℚ)
        < (2 : ℚ) ^ ilog2 q.num.natAbs * (2 : ℚ) ^ (ilog2 q.den + 1) :=
          mul_lt_mul_of_pos_left hb2q hpa
      _ ≤ (q.num.natAbs : ℚ) * (2 : ℚ) ^ (ilog2 q.den + 1) :=
          mul_le_mul_of_nonneg_right ha1q (pow_pos h2 _).le
  have hhigh : q < (2 : ℚ) ^ ((ilog2 q.num.natAbs : Int) - (ilog2 q.den : Int) + 1) := by
    have e : ((ilog2 q.num.natAbs : Int) - (ilog2 q.den : Int) + 1)
        = ((ilog2 q.num.natAbs + 1 : Nat) : Int) - ((ilog2 q.den : Nat) : Int) := by
      push_cast; ring
    rw [e, hz]
    conv_lhs => rw [hqe]
    rw [div_lt_div_iff₀ hdq hpb]
    calc (q.num.natAbs : ℚ) * (2 : ℚ) ^ ilog2 q.den
        < (2 : ℚ) ^ (ilog2 q.num.natAbs + 1) * (2 : ℚ) ^ ilog2 q.den :=
          mul_lt_mul_of_pos_right ha2q hpb
      _ ≤ (2 : ℚ) ^ (ilog2 q.num.natAbs + 1) * (q.den : ℚ) :=
          mul_le_mul_of_nonneg_left hb1q (pow_pos h2 _).le
  unfold binExponent
  simp only
  by_cases h : (2 : ℚ) ^ ((ilog2 q.num.natAbs : Int) - (ilog2 q.den : Int)) ≤ q
  · rw [if_pos h]
    exact ⟨h, hhigh⟩
  · rw [if_neg h]
    refine ⟨hlow.le, ?_⟩
    rw [sub_add_cancel]
    exact lt_of_not_le h

theorem binExponent_eq (q : ℚ) (e : Int) (h1 : (2 : ℚ) ^ e ≤ q) (h2 : q < (2 : ℚ) ^ (e + 1)) :
    binExponent q = e := by
  have hq : 0 < q := lt_of_lt_of_le (zpow_pos (by norm_num) e) h1
  obtain ⟨h3, h4⟩ := binExponent_spec q hq
  have hlt1 : (2 : ℚ) ^ e < (2 : ℚ) ^ (binExponent q + 1) := lt_of_le_of_lt h1 h4
  have hlt2 : (2 : ℚ) ^ binExponent q < (2 : ℚ) ^ (e + 1) := lt_of_le_of_lt h3 h2
  have a1 := (zpow_lt_zpow_iff_right₀ (by norm_num : (1 : ℚ) < 2)).mp hlt1
  have a2 := (zpow_lt_zpow_iff_right₀ (by norm_num : (1 : ℚ) < 2)).mp hlt2
  omega

theorem roundHalfEven_intCast (z : Int) : roundHalfEven (z : ℚ) = z := by
  simp [roundHalfEven]

theorem roundHalfEven_error (y : ℚ) : |(roundHalfEven y : ℚ) - y| ≤ 1 / 2 := by
  have h0 := Int.floor_le y
  have h1 := Int.lt_floor_add_one y
  unfold roundHalfEven
  simp only
  split_ifs with ha hb hc
  · rw [abs_le]; constructor <;> linarith
  · push_cast; rw [abs_le]; constructor <;> linarith
  · rw [abs_le]; constructor <;> linarith
  · push_cast; rw [abs_le]; constructor <;> linarith

theorem roundHalfEven_eq (y : ℚ) (z : Int) (h : |y - z| < 1 / 2) : roundHalfEven y = z := by
  rw [abs_lt] at h
  obtain ⟨hl, hr⟩ := h
  by_cases hge : (z : ℚ) ≤ y
  · have hf : Int.floor y = z := by
      rw [Int.floor_eq_iff]
      constructor
      · exact hge
      · linarith
    unfold roundHalfEven
    simp only [hf]
    rw [if_pos (by linarith)]
  · have hf : Int.floor y = z - 1 := by
      rw [Int.floor_eq_iff]
      push_cast
      constructor <;> linarith
    unfold roundHalfEven
    simp only [hf]
    push_cast
    rw [if_neg (by linarith), if_pos (by linarith)]
    ring

theorem roundHalfEven_tie (z : Int) :
    roundHalfEven ((z : ℚ) + 1 / 2) = if z % 2 = 0 then z else z + 1 := by
  have hf : Int.floor ((z : ℚ) + 1 / 2) = z := by
    rw [Int.floor_eq_iff]
    constructor <;> linarith
  unfold roundHalfEven
  simp only [hf]
  rw [if_neg (by linarith), if_neg (by linarith)]

theorem roundBinary_zero (p : Nat) (emin : Int) : roundBinary p emin 0 = 0 := by
  simp [roundBinary]

theorem roundBinary_of_pos (p : Nat) (emin : Int) (x : ℚ) (hx : 0 < x) :
    roundBinary p emin x =
      (roundHalfEven (x / (2 : ℚ) ^ (max (binExponent x) emin - ((p : Int) - 1))) : ℚ)
        * (2 : ℚ) ^ (max (binExponent x) emin - ((p : Int) - 1)) := by
  unfold roundBinary
  rw [if_neg hx.ne']
  simp only [abs_of_pos hx]
  rw [if_neg (not_lt.mpr hx.le)]

theorem roundBinary_neg (p : Nat) (emin : Int) (x : ℚ) :
    roundBinary p emin (-x) = - roundBinary p emin x := by
  rcases lt_trichotomy x 0 with h | h | h
  · unfold roundBinary
    have h1 : -x ≠ 0 := by linarith
    have h2 : ¬ (-x < 0) := by linarith
    rw [if_neg h1, if_neg h.ne]
    simp only [abs_neg]
    rw [if_neg h2, if_pos h]
    ring
  · subst h
    simp [roundBinary]
  · unfold roundBinary
    have h1 : -x ≠ 0 := by linarith
    have h2 : -x < 0 := by linarith
    have h3 : ¬ (x < 0) := by linarith
    rw [if_neg h1, if_neg h.ne']
    simp only [abs_neg]
    rw [if_pos h2, if_neg h3]

theorem roundBinary_error_pos (p : Nat) (emin k : Int) (x : ℚ) (hx : 0 < x)
    (hk : x < (2 : ℚ) ^ k) (hmin : emin < k) :
    |roundBinary p emin x - x| ≤ (2 : ℚ) ^ (k - p) / 2 := by
  obtain ⟨h1, h2⟩ := binExponent_spec x hx
  have he : binExponent x < k :=
    (zpow_lt_zpow_iff_right₀ (by norm_num : (1 : ℚ) < 2)).mp (lt_of_le_of_lt h1 hk)
  have hu : max (binExponent x) emin - ((p : Int) - 1) ≤ k - p := by
    have : max (binExponent x) emin ≤ k - 1 := max_le (by omega) (by omega)
    omega
  rw [roundBinary_of_pos p emin x hx]
  set u := max (binExponent x) emin - ((p : Int) - 1) with hu_def
  have hup : (0 : ℚ) < (2 : ℚ) ^ u := zpow_pos (by norm_num) u
  have herr := roundHalfEven_error (x / (2 : ℚ) ^ u)
  have hule : (2 : ℚ) ^ u ≤ (2 : ℚ) ^ (k - p) :=
    zpow_le_zpow_right₀ (by norm_num) hu
  have key : (roundHalfEven (x / (2 : ℚ) ^ u) : ℚ) * (2 : ℚ) ^ u - x
      = ((roundHalfEven (x / (2 : ℚ) ^ u) : ℚ) - x / (2 : ℚ) ^ u) * (2 : ℚ) ^ u := by
    field_simp
  rw [key, abs_mul, abs_of_pos hup]
  calc |((roundHalfEven (x / (2 : ℚ) ^ u) : ℚ)) - x / (2 : ℚ) ^ u| * (2 : ℚ) ^ u
      ≤ 1 / 2 * (2 : ℚ) ^ u := mul_le_mul_of_nonneg_right herr hup.le
    _ ≤ 1 / 2 * (2 : ℚ) ^ (k - p) := mul_le_mul_of_nonneg_left hule (by norm_num)
    _ = (2 : ℚ) ^ (k - p) / 2 := by ring

theorem roundBinary_error (p : Nat) (emin k : Int) (x : ℚ)
    (hk : |x| < (2 : ℚ) ^ k) (hmin : emin < k) :
    |roundBinary p emin x - x| ≤ (2 : ℚ) ^ (k - p) / 2 := by
  rcases lt_trichotomy x 0 with h | h | h
  · have hpos : 0 < -x := by linarith
    have := roundBinary_error_pos p emin k (-x) hpos (by rwa [abs_of_neg h] at hk) hmin
    rw [roundBinary_neg] at this
    have e : -roundBinary p emin x - -x = -(roundBinary p emin x - x) := by ring
    rwa [e, abs_neg] at this
  · subst h
    rw [roundBinary_zero]
    simp only [sub_zero, abs_zero]
    have : (0 : ℚ) < (2 : ℚ) ^ (k - p) := zpow_pos (by norm_num) _
    linarith
  · exact roundBinary_error_pos p emin k x h (by rwa [abs_of_pos h] at hk) hmin

theorem roundBinary_eval (p : Nat) (emin : Int) (x : ℚ) (e z : Int)
    (h1 : (2 : ℚ) ^ e ≤ x) (h2 : x < (2 : ℚ) ^ (e + 1))
    (hz : |x / (2 : ℚ) ^ (max e emin - ((p : Int) - 1)) - z| < 1 / 2) :
    roundBinary p emin x = (z : ℚ) * (2 : ℚ) ^ (max e emin - ((p : Int) - 1)) := by
  have hx : 0 < x := lt_of_lt_of_le (zpow_pos (by norm_num) e) h1
  rw [roundBinary_of_pos p emin x hx, binExponent_eq x e h1 h2, roundHalfEven_eq _ z hz]

theorem roundBinary_exact_pos (p : Nat) (emin : Int) (z : Nat) (j : Int) (hz0 : 0 < z)
    (hz : z < 2 ^ p) (hj : emin - ((p : Int) - 1) ≤ j) :
    roundBinary p emin ((z : ℚ) * (2 : ℚ) ^ j) = (z : ℚ) * (2 : ℚ) ^ j := by
  have h2 : (0 : ℚ) < 2 := by norm_num
  have hjp : (0 : ℚ) < (2 : ℚ) ^ j := zpow_pos h2 j
  have hzq : (0 : ℚ) < (z : ℚ) := by exact_mod_cast hz0
  have hx : (0 : ℚ) < (z : ℚ) * (2 : ℚ) ^ j := mul_pos hzq hjp
  obtain ⟨hb1, hb2⟩ := binExponent_spec _ hx
  have hlt : (z : ℚ) * (2 : ℚ) ^ j < (2 : ℚ) ^ ((p : Int) + j) := by
    rw [zpow_add₀ (by norm_num : (2 : ℚ) ≠ 0), zpow_natCast]
    have : (z : ℚ) < (2 : ℚ) ^ p := by exact_mod_cast hz
    exact mul_lt_mul_of_pos_right this hjp
  have he : binExponent ((z : ℚ) * (2 : ℚ) ^ j) < (p : Int) + j :=
    (zpow_lt_zpow_iff_right₀ (by norm_num : (1 : ℚ) < 2)).mp (lt_of_le_of_lt hb1 hlt)
  rw [roundBinary_of_pos p emin _ hx]
  set u := max (binExponent ((z : ℚ) * (2 : ℚ) ^ j)) emin - ((p : Int) - 1) with hu_def
  have hu : u ≤ j := by
    have : max (binExponent ((z : ℚ) * (2 : ℚ) ^ j)) emin ≤ j + ((p : Int) - 1) :=
      max_le (by omega) (by omega)
    omega
  obtain ⟨n, hn⟩ := Int.eq_ofNat_of_zero_le (by omega : 0 ≤ j - u)
  have hju : (2 : ℚ) ^ j = (2 : ℚ) ^ n * (2 : ℚ) ^ u := by
    have : j = (n : Int) + u := by omega
    rw [this, zpow_add₀ (by norm_num : (2 : ℚ) ≠ 0), zpow_natCast]
  have hup : (0 : ℚ) < (2 : ℚ) ^ u := zpow_pos h2 u
  have hdiv : (z : ℚ) * (2 : ℚ) ^ j / (2 : ℚ) ^ u = (((z * 2 ^ n : Nat) : Int) : ℚ) := by
    rw [hju]
    push_cast
    field_simp
    ring
  rw [hdiv, roundHalfEven_intCast, hju]
  push_cast
  ring

theorem roundBinary_exact (p : Nat) (emin : Int) (z j : Int) (hz : |z| < 2 ^ p)
    (hj : emin - ((p : Int) - 1) ≤ j) :
    roundBinary p emin ((z : ℚ) * (2 : ℚ) ^ j) = (z : ℚ) * (2 : ℚ) ^ j := by
  rcases lt_trichotomy z 0 with h | h | h
  · obtain ⟨n, hn⟩ := Int.eq_ofNat_of_zero_le (by omega : 0 ≤ -z)
    have hzn : z = -(n : Int) := by omega
    have hn0 : 0 < n := by omega
    have hnp : n < 2 ^ p := by
      have : |z| = (n : Int) := by rw [abs_of_neg h]; exact hn
      rw [this] at hz
      exact_mod_cast hz
    have := roundBinary_exact_pos p emin n j hn0 hnp hj
    rw [hzn]
    push_cast
    rw [neg_mul, roundBinary_neg, this]
  · subst h
    simp [roundBinary_zero]
  · obtain ⟨n, hn⟩ := Int.eq_ofNat_of_zero_le h.le
    have hn0 : 0 < n := by omega
    have hnp : n < 2 ^ p := by
      have : |z| = (n : Int) := by rw [abs_of_pos h]; exact hn
      rw [this] at hz
      exact_mod_cast hz
    have := roundBinary_exact_pos p emin n j hn0 hnp hj
    rw [hn]
    exact_mod_cast this

theorem toBinaryFormat_exact (p : Nat) (emin emax : Int) (z j : Int) (hz : |z| < 2 ^ p)
    (hj : emin - ((p : Int) - 1) ≤ j)
    (hmax : |(z : ℚ) * (2 : ℚ) ^ j| < (2 : ℚ) ^ (emax + 1)) :
    toBinaryFormat p emin emax ((z : ℚ) * (2 : ℚ) ^ j)
      = FloatValue.finite ((z : ℚ) * (2 : ℚ) ^ j) := by
  unfold toBinaryFormat
  simp only [roundBinary_exact p emin z j hz hj]
  rw [if_pos hmax]

theorem toBinaryFormat_int (p : Nat) (emin emax : Int) (z : Int) (hz : |z| ≤ 2 ^ p)
    (hmin : emin ≤ 0) (hp : 1 ≤ p) (hmax : (p : Int) ≤ emax) :
    toBinaryFormat p emin emax (z : ℚ) = FloatValue.finite (z : ℚ) := by
  have hbig : (2 : ℚ) ^ (p : Int) < (2 : ℚ) ^ (emax + 1) :=
    (zpow_lt_zpow_iff_right₀ (by norm_num : (1 : ℚ) < 2)).mpr (by omega)
  have hzq : |(z : ℚ)| ≤ (2 : ℚ) ^ (p : Int) := by
    rw [zpow_natCast]
    have : ((|z| : Int) : ℚ) ≤ ((2 ^ p : Int) : ℚ) := by exact_mod_cast hz
    simpa using this
  rcases lt_or_eq_of_le hz with hlt | heq
  · have := toBinaryFormat_exact p emin emax z 0 hlt (by omega)
      (by simpa using lt_of_le_of_lt hzq hbig)
    simpa using this
  · -- |z| = 2 ^ p: z = ± 2 ^ (p - 1) * 2
    obtain ⟨k, hk⟩ : ∃ k, p = k + 1 := ⟨p - 1, by omega⟩
    subst hk
    have hz2 : z = (z / 2) * 2 := by
      have h2 : (2 : Int) ∣ |z| := by rw [heq, pow_succ]; exact dvd_mul_left 2 _
      have h3 : (2 : Int) ∣ z := (dvd_abs 2 z).mp h2
      omega
    have hhalf : |z / 2| < 2 ^ (k + 1) := by
      have h4 : |z / 2| * 2 = |z| := by
        have : |z| = |z / 2 * 2| := by rw [← hz2]
        rw [this, abs_mul]
        simp
      have h5 : (2 : Int) ^ (k + 1) = 2 ^ k * 2 := pow_succ 2 k
      have h6 : (0 : Int) < 2 ^ k := by positivity
      omega
    have hq : (z : ℚ) = ((z / 2 : Int) : ℚ) * (2 : ℚ) ^ (1 : Int) := by
      have : ((z : Int) : ℚ) = (((z / 2) * 2 : Int) : ℚ) := by rw [← hz2]
      rw [this]
      push_cast
      norm_num
    have := toBinaryFormat_exact (k + 1) emin emax (z / 2) 1 hhalf (by push_cast; omega)
      (by rw [← hq]; exact lt_of_le_of_lt hzq hbig)
    rw [← hq] at this
    exact this

theorem toFloat32_three : toFloat32 3 = FloatValue.finite 3 := by
  have := toBinaryFormat_int 24 (-126) 127 3 (by norm_num) (by norm_num) (by norm_num)
    (by norm_num)
  simpa [toFloat32] using this

theorem toFloat32_four : toFloat32 4 = FloatValue.finite 4 := by
  have := toBinaryFormat_int 24 (-126) 127 4 (by norm_num) (by norm_num) (by norm_num)
    (by norm_num)
  simpa [toFloat32] using this

theorem toFloat32_zero : toFloat32 0 = FloatValue.finite 0 := by
  have := toBinaryFormat_int 24 (-126) 127 0 (by norm_num) (by norm_num) (by norm_num)
    (by norm_num)
  simpa [toFloat32] using this

theorem toFloat32_wide : toFloat32 16777217 = FloatValue.finite 16777216 := by
  have hr : roundBinary 24 (-126) 16777217 = 16777216 := by
    rw [roundBinary_of_pos _ _ _ (by norm_num),
      binExponent_eq 16777217 24 (by norm_num) (by norm_num)]
    have hq : (16777217 : ℚ) / (2 : ℚ) ^ (max (24 : Int) (-126) - (((24 : Nat) : Int) - 1))
        = ((8388608 : Int) : ℚ) + 1 / 2 := by
      norm_num
    rw [hq, roundHalfEven_tie]
    norm_num
  unfold toFloat32 toBinaryFormat
  simp only [hr]
  norm_num

theorem toFloat32_overflow :
    toFloat32 ((2 : ℚ) ^ (200 : Int)) = FloatValue.infinite false := by
  have hr : roundBinary 24 (-126) ((2 : ℚ) ^ (200 : Int)) = (2 : ℚ) ^ (200 : Int) := by
    have := roundBinary_exact 24 (-126) 1 200 (by norm_num) (by norm_num)
    rw [Int.cast_one, one_mul] at this
    exact this
  have hpos : (0 : ℚ) < (2 : ℚ) ^ (200 : Int) := zpow_pos (by norm_num) _
  have hbig : ¬ (|(2 : ℚ) ^ (200 : Int)| < (2 : ℚ) ^ ((127 : Int) + 1)) := by
    rw [abs_of_pos hpos, not_lt]
    exact zpow_le_zpow_right₀ (by norm_num) (by norm_num)
  unfold toFloat32 toBinaryFormat
  simp only [hr]
  rw [if_neg hbig, decide_eq_false (not_lt.mpr hpos.le)]

theorem toFloat32_subnormal :
    toFloat32 ((2 : ℚ) ^ (-140 : Int) + (2 : ℚ) ^ (-160 : Int))
      = FloatValue.finite ((2 : ℚ) ^ (-140 : Int)) := by
  have h160 : (2 : ℚ) ^ (-160 : Int) = (2 : ℚ) ^ (-140 : Int) * (2 : ℚ) ^ (-20 : Int) := by
    rw [← zpow_add₀ (by norm_num : (2 : ℚ) ≠ 0)]
    norm_num
  have h139 : (2 : ℚ) ^ ((-140 : Int) + 1) = (2 : ℚ) ^ (-140 : Int) * 2 := by
    rw [zpow_add₀ (by norm_num : (2 : ℚ) ≠ 0)]
    norm_num
  have h149 : (2 : ℚ) ^ (-140 : Int) = 512 * (2 : ℚ) ^ (-149 : Int) := by
    have : (512 : ℚ) = (2 : ℚ) ^ (9 : Int) := by norm_num
    rw [this, ← zpow_add₀ (by norm_num : (2 : ℚ) ≠ 0)]
    norm_num
  have hp : (0 : ℚ) < (2 : ℚ) ^ (-140 : Int) := zpow_pos (by norm_num) _
  have hp9 : (0 : ℚ) < (2 : ℚ) ^ (-149 : Int) := zpow_pos (by norm_num) _
  have h20 : (2 : ℚ) ^ (-20 : Int) = 1 / 1048576 := by norm_num
  have hr : roundBinary 24 (-126) ((2 : ℚ) ^ (-140 : Int) + (2 : ℚ) ^ (-160 : Int))
      = (2 : ℚ) ^ (-140 : Int) := by
    have hu : max (-140 : Int) (-126) - (((24 : Nat) : Int) - 1) = -149 := by norm_num
    have := roundBinary_eval 24 (-126) ((2 : ℚ) ^ (-140 : Int) + (2 : ℚ) ^ (-160 : Int))
      (-140) 512
      (by rw [h160, h20]; nlinarith)
      (by rw [h139, h160, h20]; nlinarith)
      (by
        rw [hu, h160, h149, h20]
        have e : (512 * (2 : ℚ) ^ (-149 : Int) + 512 * (2 : ℚ) ^ (-149 : Int) * (1 / 1048576))
            / (2 : ℚ) ^ (-149 : Int) - ((512 : Int) : ℚ) = 512 / 1048576 := by
          field_simp
          ring
        rw [e, abs_lt]
        constructor <;> norm_num)
    rw [this, hu, h149]
    norm_num
  have hsmall : |(2 : ℚ) ^ (-140 : Int)| < (2 : ℚ) ^ ((127 : Int) + 1) := by
    rw [abs_of_pos hp]
    exact (zpow_lt_zpow_iff_right₀ (by norm_num : (1 : ℚ) < 2)).mpr (by norm_num)
  unfold toFloat32 toBinaryFormat
  simp only [hr]
  rw [if_pos hsmall]

/-! ## Arithmetic in `double` -/

theorem roundDouble_zero : roundDouble 0 = 0 := roundBinary_zero _ _

theorem roundDouble_error (k : Int) (x : ℚ) (hk : |x| < (2 : ℚ) ^ k) (hmin : -1022 < k) :
    |roundDouble x - x| ≤ (2 : ℚ) ^ (k - 53) / 2 := by
  have := roundBinary_error 53 (-1022) k x hk hmin
  simpa [roundDouble] using this

theorem roundDouble_near (k : Int) (x ε : ℚ) (hk : |x| < (2 : ℚ) ^ k) (hmin : -1022 < k)
    (hε : (2 : ℚ) ^ (k - 53) / 2 ≤ ε) :
    x - ε ≤ roundDouble x ∧ roundDouble x ≤ x + ε := by
  have h := roundDouble_error k x hk hmin
  rw [abs_le] at h
  constructor <;> linarith [h.1, h.2]

theorem roundDouble_exact (z j : Int) (hz : |z| < 2 ^ 53) (hj : -1074 ≤ j) :
    roundDouble ((z : ℚ) * (2 : ℚ) ^ j) = (z : ℚ) * (2 : ℚ) ^ j :=
  roundBinary_exact 53 (-1022) z j hz (by norm_num; omega)

theorem roundDouble_int (z : Int) (hz : |z| < 2 ^ 53) : roundDouble (z : ℚ) = (z : ℚ) := by
  have := roundDouble_exact z 0 hz (by norm_num)
  simpa using this

theorem roundDouble_div_128 (z : Int) (hz : |z| < 2 ^ 53) :
    roundDouble ((z : ℚ) / 128) = (z : ℚ) / 128 := by
  have := roundDouble_exact z (-7) hz (by norm_num)
  have e : (z : ℚ) * (2 : ℚ) ^ (-7 : Int) = (z : ℚ) / 128 := by
    rw [zpow_neg, div_eq_mul_inv]
    norm_num
  rwa [e] at this

/-- Every `double` is a whole number divided by a power of two. -/
theorem roundDouble_grid (x : ℚ) : ∃ (n : Nat) (z : Int), roundDouble x * 2 ^ n = (z : ℚ) := by
  refine ⟨1074, ?_⟩
  unfold roundDouble roundBinary
  by_cases h0 : x = 0
  · exact ⟨0, by simp [h0]⟩
  · simp only [h0, if_false]
    generalize hj : max (binExponent |x|) (-1022) - (((53 : ℕ) : Int) - 1) = j
    have hj0 : 0 ≤ j + 1074 := by
      have := le_max_right (binExponent |x|) (-1022)
      push_cast at hj
      omega
    obtain ⟨n, hn⟩ : ∃ n : ℕ, j + 1074 = n := ⟨(j + 1074).toNat, (Int.toNat_of_nonneg hj0).symm⟩
    have hp : (2 : ℚ) ^ j * 2 ^ 1074 = 2 ^ n := by
      rw [← zpow_natCast (2 : ℚ) 1074, ← zpow_add₀ (by norm_num : (2 : ℚ) ≠ 0),
        ← zpow_natCast (2 : ℚ) n, ← hn]
      norm_num
    split_ifs
    · refine ⟨-(roundHalfEven (|x| / 2 ^ j) * 2 ^ n), ?_⟩
      push_cast
      rw [neg_mul, mul_assoc, hp]
    · refine ⟨roundHalfEven (|x| / 2 ^ j) * 2 ^ n, ?_⟩
      push_cast
      rw [mul_assoc, hp]

/-- A number between `2 ^ 20` and `2 ^ 45` that lies within `2 ^ (-34)` of a multiple of
`1 / 128` is rounded to that multiple. -/
theorem roundDouble_snap (x : ℚ) (G : Int) (hlo : (2 : ℚ) ^ (20 : Int) ≤ x)
    (hhi : x < (2 : ℚ) ^ (45 : Int)) (hc : |x - (G : ℚ) / 128| ≤ 1 / 2 ^ 34) :
    roundDouble x = (G : ℚ) / 128 := by
  have hx : 0 < x := lt_of_lt_of_le (zpow_pos (by norm_num) _) hlo
  obtain ⟨h1, h2⟩ := binExponent_spec x hx
  generalize binExponent x = e at h1 h2
  have he1 : 20 ≤ e := by
    have h : (2 : ℚ) ^ (20 : Int) < 2 ^ (e + 1) := lt_of_le_of_lt hlo h2
    have := (zpow_lt_zpow_iff_right₀ (by norm_num : (1 : ℚ) < 2)).1 h
    omega
  have he2 : e ≤ 44 := by
    have h : (2 : ℚ) ^ e < 2 ^ (45 : Int) := lt_of_le_of_lt h1 hhi
    have := (zpow_lt_zpow_iff_right₀ (by norm_num : (1 : ℚ) < 2)).1 h
    omega
  obtain ⟨n, hn⟩ : ∃ n : ℕ, 45 - e = n := ⟨(45 - e).toNat, (Int.toNat_of_nonneg (by omega)).symm⟩
  have hmax : max e (-1022) - (((53 : ℕ) : Int) - 1) = e - 52 := by
    rw [max_eq_left (by omega)]
    norm_num
  have hupos : (0 : ℚ) < 2 ^ (e - 52) := zpow_pos (by norm_num) _
  have hulp : (2 : ℚ) ^ n * (2 : ℚ) ^ (e - 52) = 1 / 128 := by
    rw [← zpow_natCast (2 : ℚ) n, ← zpow_add₀ (by norm_num : (2 : ℚ) ≠ 0), ← hn]
    have : 45 - e + (e - 52) = -7 := by ring
    rw [this]
    norm_num
  have hu : (2 : ℚ) ^ (-32 : Int) ≤ 2 ^ (e - 52) :=
    zpow_le_zpow_right₀ (by norm_num) (by omega)
  have hval : ((G * 2 ^ n : Int) : ℚ) * (2 : ℚ) ^ (e - 52) = (G : ℚ) / 128 := by
    push_cast
    rw [mul_assoc, hulp]
    ring
  have hz : |x / (2 : ℚ) ^ (max e (-1022) - (((53 : ℕ) : Int) - 1)) - ((G * 2 ^ n : Int) : ℚ)|
      < 1 / 2 := by
    rw [hmax]
    have e1 : x / (2 : ℚ) ^ (e - 52) - ((G * 2 ^ n : Int) : ℚ)
        = (x - (G : ℚ) / 128) / (2 : ℚ) ^ (e - 52) := by
      rw [← hval]
      field_simp
      ring
    rw [e1, abs_div, abs_of_pos hupos, div_lt_iff₀ hupos]
    have h32 : (2 : ℚ) ^ (-32 : Int) = 1 / 2 ^ 32 := by
      rw [zpow_neg]
      norm_num
    rw [h32] at hu
    have : (1 : ℚ) / 2 ^ 34 < 1 / 2 * (1 / 2 ^ 32) := by norm_num
    linarith
  have := roundBinary_eval 53 (-1022) x e (G * 2 ^ n) h1 h2 hz
  unfold roundDouble
  rw [this, hmax, hval]

/-! ## Reading back (C7) -/

theorem amp_loop_cross_only
    (put : (Nat → double2) → Nat → (Nat → double2) → Nat → (Nat → double2))
    (inc w : Nat) (content : (Nat → double2) → Nat → Nat → double2)
    (hput : PutSpec put inc w content) (blk : oskar_VisBlock) (t : Nat) (out : Nat → double2)
    (hauto : blk.has_auto_correlations = false) (b c k : Nat)
    (hb : b < blk.num_stations * (blk.num_stations - 1) / 2) (hc : c < blk.num_channels)
    (hk : k < w) :
    amp_loop put inc blk t out (w * (b * blk.num_channels + c) + k)
      = content blk.cross_correlations
          (blk.num_baselines * (t * blk.num_channels + c) + b) k := by
  obtain ⟨-, hcross⟩ := amp_loop_spec put inc w content hput blk t out
  rw [← cross_before_total] at hb
  obtain ⟨a1, m, ha1, hm, rfl⟩ := cross_before_cover _ _ b hb
  have := hcross a1 (a1 + 1 + m) c k (by omega) (by omega) hc hk
  have e1 : a1 + 1 + m - a1 - 1 = m := by omega
  have e2 : self_rows blk.has_auto_correlations * (a1 + 1) = 0 := by
    simp [self_rows, hauto]
  rw [e1, e2, Nat.add_zero] at this
  exact this

theorem isColumn_of_find (t : Table) (column : String) (d : ColumnDesc)
    (h : t.desc.find? (fun d => d.name == column) = some d) : t.isColumn column = true := by
  unfold Table.isColumn
  rw [List.any_eq_true]
  have hname := List.find?_some h
  exact ⟨d, List.mem_of_find?_eq_some h, hname⟩

theorem get_column_one_row (p : oskar_MeasurementSet) (t : Table) (hp : p.ms = some t)
    (column : String) (dtype : DataType) (hd : dtype = DataType.TpDouble ∨ dtype = DataType.TpComplex)
    (hfind : t.desc.find? (fun d => d.name == column) = some ⟨column, dtype, false⟩)
    (row : Nat) (hrow : row < t.nrow) (cap : Nat)
    (hcap : (t.cell row column).length * 8 ≤ cap) (buf : List Value) (req : Nat) :
    p.get_column column row 1 cap buf req 0 =
      some { data := t.cell row column ++ buf.drop (t.cell row column).length,
             required_size := (t.cell row column).length * 8, status := 0 } := by
  have hcol := isColumn_of_find t column _ hfind
  have hclamp : ¬ (toUInt (row + 1) > t.nrow) := by
    unfold toUInt UINT_RANGE
    omega
  have hnot : ¬ (row ≥ t.nrow) := by omega
  have hrange : t.getColumnRange column row 1 = some (t.cell row column) := by
    have : row + 1 ≤ t.nrow := by omega
    simp [Table.getColumnRange, this, List.range']
  unfold oskar_MeasurementSet.get_column
  simp only [hp, ne_eq, not_true_eq_false, if_false, hcol, Bool.not_true, Bool.false_eq_true,
    one_ne_zero, hnot, hclamp, hfind]
  rcases hd with rfl | rfl
  · simp [copy_array, hrange, hcap]
  · simp [copy_array, hrange, hcap]

theorem asReals_even (buf : Nat → double2) (q : Nat) :
    asReals buf (2 * q) = (buf q).x ∧ asReals buf (2 * q + 1) = (buf q).y := by
  unfold asReals
  have h1 : 2 * q % 2 = 0 := by omega
  have h2 : (2 * q + 1) % 2 ≠ 0 := by omega
  have h3 : 2 * q / 2 = q := by omega
  have h4 : (2 * q + 1) / 2 = q := by omega
  simp [h1, h2, h3, h4]

theorem write_ms_read_back (blk : oskar_VisBlock) (header : oskar_VisHeader)
    (ms : oskar_MeasurementSet) (tbl : Table) (hms : ms.ms = some tbl)
    (hin : blk.num_pols = 1) (hout : ms.num_pols = 1)
    (hchan : ms.num_channels = blk.num_channels)
    (hprec : blk.precision ≠ Precision.other) (hauto : blk.has_auto_correlations = false)
    (hB : blk.num_baselines = blk.num_stations * (blk.num_stations - 1) / 2)
    (hrange : tbl.nrow + blk.num_times * blk.num_baselines ≤ INT_MAX)
    (hsize : 2 * blk.num_channels * blk.num_baselines < UINT_RANGE)
    (huvw : tbl.desc.find? (fun d => d.name == "UVW") = some ⟨"UVW", DataType.TpDouble, false⟩)
    (hdata : tbl.desc.find? (fun d => d.name == "DATA")
      = some ⟨"DATA", DataType.TpComplex, false⟩) :
    ∃ ms1,
      oskar_vis_block_write_ms (some blk) (some header) (some ms) 0 = some (some ms1, 0) ∧
      ∀ t b, t < blk.num_times → b < blk.num_baselines → ∀ (buf : List Value) (req : Nat),
        ms1.get_column "UVW" (tbl.nrow + t * blk.num_baselines + b) 1 24 buf req 0 =
          some { data := [Value.real (blk.baseline_uu_metres (t * blk.num_baselines + b)),
                   Value.real (blk.baseline_vv_metres (t * blk.num_baselines + b)),
                   Value.real (blk.baseline_ww_metres (t * blk.num_baselines + b))]
                   ++ buf.drop 3,
                 required_size := 24, status := 0 } ∧
        ms1.get_column "DATA" (tbl.nrow + t * blk.num_baselines + b) 1
            (8 * blk.num_channels) buf req 0 =
          some { data := (List.range blk.num_channels).map (fun c =>
                   Value.complex
                     (conv_of blk.precision (blk.cross_correlations
                       (blk.num_baselines * (t * blk.num_channels + c) + b)).x)
                     (conv_of blk.precision (blk.cross_correlations
                       (blk.num_baselines * (t * blk.num_channels + c) + b)).y))
                   ++ buf.drop blk.num_channels,
                 required_size := 8 * blk.num_channels, status := 0 } := by
  have hnbo : num_baselines_out blk = blk.num_baselines := by
    simp [num_baselines_out, hauto]
  obtain ⟨ms1, tbl1, hres, hms1, -, -, hnrow, hdesc, -, hnew⟩ :=
    write_ms_spec blk header ms tbl hms (by omega) hprec (by rw [hnbo]; exact hrange)
  rw [hnbo] at hnrow hnew
  refine ⟨ms1, hres, ?_⟩
  intro t b ht hb buf req
  have hI : INT_MAX = 2147483647 := rfl
  have hU : UINT_RANGE = 4294967296 := rfl
  have hmul : (t + 1) * blk.num_baselines ≤ blk.num_times * blk.num_baselines :=
    Nat.mul_le_mul_right _ ht
  have hsucc : (t + 1) * blk.num_baselines = t * blk.num_baselines + blk.num_baselines := by
    ring
  have hrow : tbl.nrow + t * blk.num_baselines + b < tbl1.nrow := by omega
  have hcellU : tbl1.cell (tbl.nrow + t * blk.num_baselines + b) "UVW" =
      [Value.real (blk.baseline_uu_metres (t * blk.num_baselines + b)),
       Value.real (blk.baseline_vv_metres (t * blk.num_baselines + b)),
       Value.real (blk.baseline_ww_metres (t * blk.num_baselines + b))] := by
    rw [hnew t b "UVW" ht hb, sample_row_uvw]
    simp [coords_for_time, hauto, oskar_mem_copy_contents, hb]
  have hcellD : tbl1.cell (tbl.nrow + t * blk.num_baselines + b) "DATA" =
      (List.range blk.num_channels).map (fun c =>
        Value.complex
          (conv_of blk.precision (blk.cross_correlations
            (blk.num_baselines * (t * blk.num_channels + c) + b)).x)
          (conv_of blk.precision (blk.cross_correlations
            (blk.num_baselines * (t * blk.num_channels + c) + b)).y)) := by
    rw [hnew t b "DATA" ht hb, sample_row_data, hout, hchan, Nat.one_mul]
    apply List.map_congr_left
    intro c hc
    rw [List.mem_range] at hc
    have hcb : blk.num_channels * (b + 1) ≤ blk.num_channels * blk.num_baselines :=
      Nat.mul_le_mul_left _ hb
    have hcb2 : blk.num_channels * (b + 1) = blk.num_channels * b + blk.num_channels := by ring
    have hassoc : 2 * blk.num_channels * blk.num_baselines
        = 2 * (blk.num_channels * blk.num_baselines) := by ring
    have hassoc2 : 2 * blk.num_channels * b = 2 * (blk.num_channels * b) := by ring
    have e1 : toUInt (2 * 1 * blk.num_channels) = 2 * blk.num_channels := by
      unfold toUInt
      rw [Nat.mul_one]
      exact Nat.mod_eq_of_lt (by omega)
    have e2 : toUInt (2 * blk.num_channels * b) = 2 * blk.num_channels * b := by
      unfold toUInt
      exact Nat.mod_eq_of_lt (by omega)
    have e3 : toUInt (2 * (c % 1 + c / 1 * 1)) = 2 * c := by
      unfold toUInt
      rw [Nat.mod_one, Nat.div_one, Nat.mul_one, Nat.zero_add]
      exact Nat.mod_eq_of_lt (by omega)
    have e4 : 2 * blk.num_channels * b + 2 * c = 2 * (b * blk.num_channels + c) := by ring
    have e5 : 2 * blk.num_channels * b + (2 * c + 1) = 2 * (b * blk.num_channels + c) + 1 := by
      ring
    rw [e1, e2, e3, e4, e5]
    obtain ⟨hx, hy⟩ := asReals_even (temp_after blk 1 (t + 1)).vis (b * blk.num_channels + c)
    rw [hx, hy]
    have hamp : (temp_after blk 1 (t + 1)).vis (b * blk.num_channels + c)
        = blk.cross_correlations (blk.num_baselines * (t * blk.num_channels + c) + b) := by
      have := amp_loop_cross_only put_scalar 1 1 _ put_scalar_spec blk t
        (coords_for_time blk t (temp_after blk 1 t)).vis hauto b c 0 (by omega) hc (by omega)
      simp only [Nat.one_mul, Nat.add_zero] at this
      simp only [temp_after, build_time_sample, amps_for_time, hin]
      simpa using this
    rw [hamp]
  have hlenD : (tbl1.cell (tbl.nrow + t * blk.num_baselines + b) "DATA").length
      = blk.num_channels := by
    rw [hcellD]
    simp
  refine ⟨?_, ?_⟩
  · have := get_column_one_row ms1 tbl1 hms1 "UVW" DataType.TpDouble (Or.inl rfl)
      (by rw [hdesc]; exact huvw) _ hrow 24 (by rw [hcellU]; simp) buf req
    rw [this, hcellU]
    simp
  · have := get_column_one_row ms1 tbl1 hms1 "DATA" DataType.TpComplex (Or.inr rfl)
      (by rw [hdesc]; exact hdata) _ hrow (8 * blk.num_channels)
      (by rw [hlenD]; omega) buf req
    rw [this, hlenD, hcellD]
    simp [Nat.mul_comm]

/-- C7, as stated, fails: the double-precision block `example_block_wide` carries the
visibility `16777217 + 0i`; after it is written to the empty one-polarisation store,
reading back DATA of row `0` yields `16777216 + 0i`, because the DATA column holds
single-precision complex numbers. -/
theorem read_back_narrowed :
    ∃ ms1,
      oskar_vis_block_write_ms (some example_block_wide) (some example_header)
        (some (example_store 1)) 0 = some (some ms1, 0) ∧
      ms1.get_column "DATA" 0 1 8 [] 0 0
        = some { data := [Value.complex (FloatValue.finite 16777216) (FloatValue.finite 0)],
                 required_size := 8, status := 0 } ∧
      example_block_wide.cross_correlations
          (example_block_wide.num_baselines * (0 * example_block_wide.num_channels + 0) + 0)
        = ⟨16777217, 0⟩ ∧
      Value.complex (FloatValue.finite 16777216) (FloatValue.finite 0)
        ≠ Value.complex (FloatValue.finite 16777217) (FloatValue.finite 0) := by
  obtain ⟨ms1, h1, h2⟩ := write_ms_read_back example_block_wide example_header
    (example_store 1) example_table rfl rfl rfl rfl (by decide) rfl (by decide) (by decide)
    (by decide) (by decide) (by decide)
  refine ⟨ms1, h1, ?_, rfl, by simp⟩
  have hd := (h2 0 0 (by decide) (by decide) [] 0).2
  have hrow : example_table.nrow + 0 * example_block_wide.num_baselines + 0 = 0 := by decide
  have hcap : 8 * example_block_wide.num_channels = 8 := by decide
  rw [hrow, hcap] at hd
  rw [hd]
  have hr : List.range example_block_wide.num_channels = [0] := by decide
  simp [hr, conv_of, example_block_wide, example_block, toFloat32_wide, toFloat32_zero]

/-- C7, amended: for a block without autocorrelations and with scalar polarisation, of
single or double precision, written to a one-polarisation store with the standard UVW and
DATA columns under the conditions `write_defined` in which C defines the call (the
channel count of the block, `B = N * (N - 1) / 2`, sizes within `int`), reading back row
`start_row + t * B + b` yields UVW equal to the input `(u, v, w)` at index `t * B + b`,
and DATA`(0, c)` equal to the input sample `xcorr[B * (t * C + c) + b]` converted to single
precision (rounded to 24 digits, with the subnormal numbers and the infinities of
`float`): the input sample itself for a single-precision block and for every
double-precision sample whose parts are `float` numbers. -/
theorem write_ms_round_trip (blk : oskar_VisBlock) (header : oskar_VisHeader)
    (ms : oskar_MeasurementSet) (tbl : Table) (hms : ms.ms = some tbl)
    (hdef : write_defined blk (oskar_ms_num_pols ms) ms.num_channels)
    (hin : blk.num_pols = 1) (hout : oskar_ms_num_pols ms = 1)
    (hprec : blk.precision ≠ Precision.other) (hauto : blk.has_auto_correlations = false)
    (hrange : tbl.nrow + blk.num_times * blk.num_baselines ≤ INT_MAX)
    (huvw : tbl.desc.find? (fun d => d.name == "UVW") = some ⟨"UVW", DataType.TpDouble, false⟩)
    (hdata : tbl.desc.find? (fun d => d.name == "DATA")
      = some ⟨"DATA", DataType.TpComplex, false⟩) :
    ∃ ms1,
      oskar_vis_block_write_ms (some blk) (some header) (some ms) 0 = some (some ms1, 0) ∧
      ∀ t b, t < blk.num_times → b < blk.num_baselines → ∀ (buf : List Value) (req : Nat),
        ms1.get_column "UVW" (tbl.nrow + t * blk.num_baselines + b) 1 24 buf req 0 =
          some { data := [Value.real (blk.baseline_uu_metres (t * blk.num_baselines + b)),
                   Value.real (blk.baseline_vv_metres (t * blk.num_baselines + b)),
                   Value.real (blk.baseline_ww_metres (t * blk.num_baselines + b))]
                   ++ buf.drop 3,
                 required_size := 24, status := 0 } ∧
        ms1.get_column "DATA" (tbl.nrow + t * blk.num_baselines + b) 1
            (8 * blk.num_channels) buf req 0 =
          some { data := (List.range blk.num_channels).map (fun c =>
                   Value.complex
                     (conv_of blk.precision (blk.cross_correlations
                       (blk.num_baselines * (t * blk.num_channels + c) + b)).x)
                     (conv_of blk.precision (blk.cross_correlations
                       (blk.num_baselines * (t * blk.num_channels + c) + b)).y))
                   ++ buf.drop blk.num_channels,
                 required_size := 8 * blk.num_channels, status := 0 } ∧
        ((blk.precision = Precision.OSKAR_SINGLE ∨ ∀ c, c < blk.num_channels →
            toFloat32 (blk.cross_correlations
              (blk.num_baselines * (t * blk.num_channels + c) + b)).x
              = FloatValue.finite (blk.cross_correlations
                  (blk.num_baselines * (t * blk.num_channels + c) + b)).x ∧
            toFloat32 (blk.cross_correlations
              (blk.num_baselines * (t * blk.num_channels + c) + b)).y
              = FloatValue.finite (blk.cross_correlations
                  (blk.num_baselines * (t * blk.num_channels + c) + b)).y) →
          ms1.get_column "DATA" (tbl.nrow + t * blk.num_baselines + b) 1
              (8 * blk.num_channels) buf req 0 =
            some { data := (List.range blk.num_channels).map (fun c =>
                     Value.complex
                       (FloatValue.finite (blk.cross_correlations
                         (blk.num_baselines * (t * blk.num_channels + c) + b)).x)
                       (FloatValue.finite (blk.cross_correlations
                         (blk.num_baselines * (t * blk.num_channels + c) + b)).y))
                     ++ buf.drop blk.num_channels,
                   required_size := 8 * blk.num_channels, status := 0 }) := by
  obtain ⟨-, hchan, hB, -, hlen, -⟩ := hdef
  have hsize : 2 * blk.num_channels * blk.num_baselines < UINT_RANGE := by
    have hI : INT_MAX = 2147483647 := rfl
    have hU : UINT_RANGE = 4294967296 := rfl
    have hnbo : num_baselines_out blk = blk.num_baselines := by
      simp [num_baselines_out, hauto]
    rw [hnbo, hout, Nat.mul_one] at hlen
    have e : 2 * blk.num_channels * blk.num_baselines
        = 2 * (blk.num_baselines * blk.num_channels) := by ring
    omega
  obtain ⟨ms1, h1, h2⟩ := write_ms_read_back blk header ms tbl hms hin hout hchan hprec hauto
    hB hrange hsize huvw hdata
  refine ⟨ms1, h1, ?_⟩
  intro t b ht hb buf req
  obtain ⟨hu, hd⟩ := h2 t b ht hb buf req
  refine ⟨hu, hd, ?_⟩
  intro hexact
  rw [hd]
  have hmap : (List.range blk.num_channels).map (fun c =>
        Value.complex
          (conv_of blk.precision (blk.cross_correlations
            (blk.num_baselines * (t * blk.num_channels + c) + b)).x)
          (conv_of blk.precision (blk.cross_correlations
            (blk.num_baselines * (t * blk.num_channels + c) + b)).y))
      = (List.range blk.num_channels).map (fun c =>
        Value.complex
          (FloatValue.finite
            (blk.cross_correlations (blk.num_baselines * (t * blk.num_channels + c) + b)).x)
          (FloatValue.finite
            (blk.cross_correlations (blk.num_baselines * (t * blk.num_channels + c) + b)).y)) := by
    apply List.map_congr_left
    intro c hc
    rw [List.mem_range] at hc
    rcases hexact with hs | hfix
    · simp [conv_of, hs]
    · obtain ⟨hx, hy⟩ := hfix c hc
      cases hp : blk.precision with
      | OSKAR_DOUBLE => simp only [conv_of, hx, hy]
      | OSKAR_SINGLE => simp [conv_of]
      | other => exact absurd hp hprec
  rw [hmap]

theorem write_ms_round_trip_witness :
    ∃ ms1,
      oskar_vis_block_write_ms (some example_block) (some example_header)
        (some (example_store 1)) 0 = some (some ms1, 0) ∧
      ms1.get_column "UVW" 0 1 24 [] 0 0
        = some { data := [Value.real 10, Value.real 20, Value.real 30],
                 required_size := 24, status := 0 } ∧
      ms1.get_column "DATA" 0 1 8 [] 0 0
        = some { data := [Value.complex (FloatValue.finite 3) (FloatValue.finite 4)],
                 required_size := 8, status := 0 } := by
  obtain ⟨ms1, h1, h2⟩ := write_ms_round_trip example_block example_header
    (example_store 1) example_table rfl (by decide) rfl rfl (by decide) rfl (by decide)
    (by decide) (by decide)
  obtain ⟨hu, -, hd⟩ := h2 0 0 (by decide) (by decide) [] 0
  have hrow : example_table.nrow + 0 * example_block.num_baselines + 0 = 0 := by decide
  have hcap : 8 * example_block.num_channels = 8 := by decide
  have hr : List.range example_block.num_channels = [0] := by decide
  rw [hrow] at hu
  rw [hrow, hcap] at hd
  refine ⟨ms1, h1, ?_, ?_⟩
  · rw [hu]
    simp [example_block]
  · rw [hd]
    · simp [hr, example_block]
    · right
      intro c _
      simp [example_block, toFloat32_three, toFloat32_four]

/-! ## The time metadata of the rows (C11) -/

/-- C13 (the code departs from the claim): `set_num_rows(1)` on the store
`example_store_rows`, which has two rows, computes `rows_to_add = 1 - 2` in `unsigned int`,
that is `4294967295`, and adds that many rows: the row count does not stay at
`max(2, 1) = 2`.  Growing, `set_num_rows(5)` on the same store gives five rows. -/
theorem set_num_rows_below_current :
    oskar_ms_num_rows example_store_rows = 2 ∧
    usub 1 (oskar_ms_num_rows example_store_rows) = 4294967295 ∧
    (oskar_ms_set_num_rows example_store_rows 1).ms
      = some (example_table_rows.addRow 4294967295) ∧
    oskar_ms_num_rows (oskar_ms_set_num_rows example_store_rows 1) ≠ max 2 1 ∧
    oskar_ms_num_rows (oskar_ms_set_num_rows example_store_rows 5) = max 2 5 := by
  refine ⟨rfl, by decide, rfl, by decide, by decide⟩

/-! ## The running time range (C12) -/

theorem create_num_baselines_small (n : Nat) (hn : n * (n + 1) < UINT_RANGE)
    (write_autocorr write_crosscorr : Int) :
    (write_autocorr ≠ 0 → write_crosscorr ≠ 0 →
      create_num_baselines n write_autocorr write_crosscorr = some (n * (n + 1) / 2)) ∧
    (write_autocorr = 0 → write_crosscorr ≠ 0 →
      create_num_baselines n write_autocorr write_crosscorr = some (n * (n - 1) / 2)) ∧
    (write_autocorr ≠ 0 → write_crosscorr = 0 →
      create_num_baselines n write_autocorr write_crosscorr = some n) ∧
    (write_autocorr = 0 → write_crosscorr = 0 →
      create_num_baselines n write_autocorr write_crosscorr = none) := by
  have hU : UINT_RANGE = 4294967296 := rfl
  have hle : n ≤ n * (n + 1) := Nat.le_mul_of_pos_right n (by omega)
  have hle1 : n = 0 ∨ n + 1 ≤ n * (n + 1) := by
    cases n with
    | zero => exact Or.inl rfl
    | succ k => exact Or.inr (Nat.le_mul_of_pos_left _ (by omega))
  have h1 : toUInt (n + 1) = n + 1 := by
    unfold toUInt
    exact Nat.mod_eq_of_lt (by omega)
  have h2 : toUInt (n * (n + 1)) = n * (n + 1) := by
    unfold toUInt
    exact Nat.mod_eq_of_lt hn
  have h3 : toUInt (n * usub n 1) = n * (n - 1) := by
    cases n with
    | zero => simp [toUInt]
    | succ k =>
      have hs : usub (k + 1) 1 = k := by
        unfold usub
        rw [hU]
        omega
      have hlt : (k + 1) * k ≤ (k + 1) * (k + 1 + 1) := Nat.mul_le_mul_left _ (by omega)
      rw [hs]
      unfold toUInt
      rw [Nat.mod_eq_of_lt (by omega)]
      simp
  refine ⟨?_, ?_, ?_, ?_⟩
  · intro ha hc
    simp [create_num_baselines, ha, hc, h1, h2]
  · intro ha hc
    simp [create_num_baselines, ha, hc, h3]
  · intro ha hc
    simp [create_num_baselines, ha, hc]
  · intro ha hc
    simp [create_num_baselines, ha, hc]

theorem create_num_baselines_exact (n : Nat) (hn : n < UINT_RANGE)
    (write_autocorr write_crosscorr : Int) :
    (write_autocorr ≠ 0 → write_crosscorr ≠ 0 →
      (create_num_baselines n write_autocorr write_crosscorr = some (n * (n + 1) / 2) ↔
        n * (n + 1) < UINT_RANGE)) ∧
    (write_autocorr = 0 → write_crosscorr ≠ 0 →
      (create_num_baselines n write_autocorr write_crosscorr = some (n * (n - 1) / 2) ↔
        n * (n - 1) < UINT_RANGE)) ∧
    (write_autocorr ≠ 0 → write_crosscorr = 0 →
      create_num_baselines n write_autocorr write_crosscorr = some n) ∧
    (write_autocorr = 0 → write_crosscorr = 0 →
      create_num_baselines n write_autocorr write_crosscorr = none) := by
  have hU : UINT_RANGE = 4294967296 := rfl
  have key : ∀ x : Nat, (x % UINT_RANGE / 2 = x / 2 ↔ x < UINT_RANGE) := by
    intro x
    constructor
    · intro h
      by_contra hx
      have h1 : x % UINT_RANGE < UINT_RANGE := Nat.mod_lt _ (by rw [hU]; omega)
      omega
    · intro h
      rw [Nat.mod_eq_of_lt h]
  have h2 : toUInt (n * toUInt (n + 1)) = (n * (n + 1)) % UINT_RANGE := by
    unfold toUInt
    rw [Nat.mul_mod, Nat.mod_mod, ← Nat.mul_mod]
  have h3 : toUInt (n * usub n 1) = (n * (n - 1)) % UINT_RANGE := by
    cases n with
    | zero => simp [toUInt]
    | succ k =>
      have hs : usub (k + 1) 1 = k := by
        unfold usub
        rw [hU] at hn ⊢
        omega
      rw [hs]
      rfl
  refine ⟨?_, ?_, ?_, ?_⟩
  · intro ha hc
    simp only [create_num_baselines, ha, hc, ne_eq, not_false_eq_true, and_self, if_true,
      Option.some.injEq, h2]
    exact key _
  · intro ha hc
    simp only [create_num_baselines, ha, hc, ne_eq, not_true_eq_false, not_false_eq_true,
      false_and, and_self, if_false, if_true, Option.some.injEq, h3]
    exact key _
  · intro ha hc
    simp [create_num_baselines, ha, hc]
  · intro ha hc
    simp [create_num_baselines, ha, hc]


/-- C15, as stated, fails: for `65536` stations and both flags set, `create` computes
`num_stations * (num_stations + 1)` in `unsigned int`, where it wraps to `65536`, and
derives `32768` baselines (tile depth `2 * 32768`), not `65536 * 65537 / 2 = 2147516416`. -/
theorem create_num_baselines_wraps :
    create_num_baselines 65536 1 1 = some 32768 ∧
    65536 * (65536 + 1) / 2 = 2147516416 ∧
    ((oskar_ms_create false "example.ms" "example" 0 0 4 1 0 0 65536 1 1).bind
        (fun p => p.ms)).map (fun t => t.tiles)
      = some [("TiledUVW", [3, 65536]), ("TiledWeight", [4, 65536]),
          ("TiledSigma", [4, 65536]), ("TiledData", [4, 1, 65536]),
          ("TiledFlag", [4, 1, 524288])] := by
  refine ⟨by decide, by decide, by decide⟩

/-- C15, amended: for every station count `N` (an `unsigned int`) `create` derives the
output baseline count `N * (N + 1) / 2` when both autocorrelations and cross-correlations
are written exactly when `N * (N + 1) < 2 ^ 32` (`N <= 65535`), `N * (N - 1) / 2` for
cross-only exactly when `N * (N - 1) < 2 ^ 32` (`N <= 65536`), and `N` for auto-only for
every `N`; the new main table has no rows and tiles of depth twice the count derived
(sixteen times for FLAG); when both flags are false `create` returns failure and
`oskar_ms_create` returns no store, for every station count. -/
theorem create_baseline_count (n : Nat) (hn : n < UINT_RANGE)
    (write_autocorr write_crosscorr : Int) (filename app_name : String)
    (ra_rad dec_rad ref_freq chan_width : ℚ) (num_pols num_channels : Nat) :
    (write_autocorr ≠ 0 → write_crosscorr ≠ 0 →
      (create_num_baselines n write_autocorr write_crosscorr = some (n * (n + 1) / 2) ↔
        n * (n + 1) < UINT_RANGE)) ∧
    (write_autocorr = 0 → write_crosscorr ≠ 0 →
      (create_num_baselines n write_autocorr write_crosscorr = some (n * (n - 1) / 2) ↔
        n * (n - 1) < UINT_RANGE)) ∧
    (write_autocorr ≠ 0 → write_crosscorr = 0 →
      create_num_baselines n write_autocorr write_crosscorr = some n) ∧
    (∀ nb, create_num_baselines n write_autocorr write_crosscorr = some nb →
      ∃ p tbl, oskar_ms_create false filename app_name ra_rad dec_rad num_pols num_channels
          ref_freq chan_width n write_autocorr write_crosscorr = some p ∧
        p.ms = some tbl ∧ tbl.nrow = 0 ∧
        tbl.tiles = [("TiledUVW", [3, toUInt (2 * nb)]),
          ("TiledWeight", [num_pols, toUInt (2 * nb)]),
          ("TiledSigma", [num_pols, toUInt (2 * nb)]),
          ("TiledData", [num_pols, num_channels, toUInt (2 * nb)]),
          ("TiledFlag", [num_pols, num_channels, toUInt (16 * nb)])]) ∧
    (∀ (throws : Bool) (m : Nat),
      oskar_ms_create throws filename app_name ra_rad dec_rad num_pols num_channels
        ref_freq chan_width m 0 0 = none) := by
  obtain ⟨h1, h2, h3, -⟩ := create_num_baselines_exact n hn write_autocorr write_crosscorr
  refine ⟨h1, h2, h3, ?_, ?_⟩
  · intro nb hnb
    simp [oskar_ms_create, oskar_MeasurementSet.create, hnb,
      oskar_MeasurementSet.set_time_range, oskar_MeasurementSet.add_pol,
      oskar_MeasurementSet.add_field, oskar_MeasurementSet.add_band,
      oskar_MeasurementSet.init]
  · intro throws m
    simp [oskar_ms_create, oskar_MeasurementSet.create, create_num_baselines]

theorem create_baseline_count_witness :
    (((1 : Int) ≠ 0 → (1 : Int) ≠ 0 →
      (create_num_baselines 65535 1 1 = some (65535 * (65535 + 1) / 2) ↔
        65535 * (65535 + 1) < UINT_RANGE)) ∧
    ((1 : Int) = 0 → (1 : Int) ≠ 0 →
      (create_num_baselines 65535 1 1 = some (65535 * (65535 - 1) / 2) ↔
        65535 * (65535 - 1) < UINT_RANGE)) ∧
    ((1 : Int) ≠ 0 → (1 : Int) = 0 →
      create_num_baselines 65535 1 1 = some 65535) ∧
    (∀ nb, create_num_baselines 65535 1 1 = some nb →
      ∃ p tbl, oskar_ms_create false "example.ms" "example" 0 0 1 1 0 0 65535 1 1 = some p ∧
        p.ms = some tbl ∧ tbl.nrow = 0 ∧
        tbl.tiles = [("TiledUVW", [3, toUInt (2 * nb)]),
          ("TiledWeight", [1, toUInt (2 * nb)]),
          ("TiledSigma", [1, toUInt (2 * nb)]),
          ("TiledData", [1, 1, toUInt (2 * nb)]),
          ("TiledFlag", [1, 1, toUInt (16 * nb)])]) ∧
    (∀ (throws : Bool) (m : Nat),
      oskar_ms_create throws "example.ms" "example" 0 0 1 1 0 0 m 0 0 = none)) :=
  create_baseline_count 65535 (by decide) 1 1 "example.ms" "example" 0 0 0 0 1 1

theorem create_num_baselines_cross_only_example :
    create_num_baselines 65536 0 1 = some (65536 * (65536 - 1) / 2) ∧
    create_num_baselines 100000 1 0 = some 100000 := by
  refine ⟨by decide, by decide⟩

theorem write_blocks_rows (nb : Nat) (blocks : List (oskar_VisBlock × oskar_VisHeader)) :
    ∀ (ms : oskar_MeasurementSet) (tbl : Table), ms.ms = some tbl →
      (∀ bh ∈ blocks, bh.1.num_pols ≤ ms.num_pols ∧ bh.1.precision ≠ Precision.other ∧
        num_baselines_out bh.1 = nb) →
      tbl.nrow + total_times blocks * nb ≤ INT_MAX →
      ∃ ms1, write_blocks blocks ms 0 = some (ms1, 0) ∧
        oskar_ms_num_rows ms1 = tbl.nrow + total_times blocks * nb := by
  induction blocks with
  | nil =>
    intro ms tbl hms _ _
    refine ⟨ms, rfl, ?_⟩
    simp [oskar_ms_num_rows, oskar_MeasurementSet.num_rows, hms, total_times]
  | cons bh rest ih =>
    intro ms tbl hms hall hrange
    obtain ⟨hpol, hprec, hnbo⟩ := hall bh (List.mem_cons_self _ _)
    have htot : total_times (bh :: rest) * nb
        = bh.1.num_times * nb + total_times rest * nb := by
      simp only [total_times, List.map_cons, List.sum_cons]
      ring
    rw [htot] at hrange ⊢
    obtain ⟨ms1, tbl1, hres, hms1, hpols1, -, hnrow, -, -, -⟩ :=
      write_ms_spec bh.1 bh.2 ms tbl hms hpol hprec (by rw [hnbo]; omega)
    rw [hnbo] at hnrow
    obtain ⟨ms2, h2, hrows2⟩ := ih ms1 tbl1 hms1
      (fun b hb => by
        obtain ⟨h1, h2, h3⟩ := hall b (List.mem_cons_of_mem _ hb)
        exact ⟨by rw [hpols1]; exact h1, h2, h3⟩)
      (by rw [hnrow]; omega)
    refine ⟨ms2, ?_, ?_⟩
    · simp only [write_blocks, hres]
      exact h2
    · rw [hrows2, hnrow]
      omega

theorem half_succ_mul (n : Nat) : n * (n - 1) / 2 + n = n * (n + 1) / 2 := by
  cases n with
  | zero => simp
  | succ k =>
    have h : (k + 1) * (k + 1 + 1) = (k + 1) * (k + 1 - 1) + (k + 1) * 2 := by
      simp only [Nat.add_sub_cancel]
      ring
    rw [h, Nat.add_mul_div_right _ _ (by decide : 0 < 2)]

theorem create_open (filename app_name : String) (ra_rad dec_rad ref_freq chan_width : ℚ)
    (num_pols num_channels n : Nat) (write_autocorr write_crosscorr : Int) (nb : Nat)
    (hnb : create_num_baselines n write_autocorr write_crosscorr = some nb) :
    ∃ p tbl, oskar_ms_create false filename app_name ra_rad dec_rad num_pols num_channels
        ref_freq chan_width n write_autocorr write_crosscorr = some p ∧
      p.ms = some tbl ∧ tbl.nrow = 0 ∧ p.num_pols = num_pols ∧
      p.num_channels = num_channels ∧ p.num_stations = n ∧
      p.write_autocorr = decide (write_autocorr ≠ 0) ∧
      p.start_time = DBL_MAX ∧ p.end_time = -DBL_MAX := by
  simp [oskar_ms_create, oskar_MeasurementSet.create, hnb,
    oskar_MeasurementSet.set_time_range, oskar_MeasurementSet.add_pol,
    oskar_MeasurementSet.add_field, oskar_MeasurementSet.add_band,
    oskar_MeasurementSet.init]

/-- C14, as stated, fails for a store configured for autocorrelations only: `create` with
two stations and the flags (autocorrelations, no cross-correlations) derives two output
baselines, while the serializer writes three rows for each of the two time samples of
`example_block_autocorr` (two stations, one cross baseline, autocorrelations present), so
that the main table has six rows and not `2 * 2 = 4`. -/
theorem auto_only_store_row_count :
    ∃ ms0 ms1,
      oskar_ms_create false "example.ms" "example" 0 0 1 1 0 0 2 1 0 = some ms0 ∧
      create_num_baselines 2 1 0 = some 2 ∧
      example_block_autocorr.num_stations = 2 ∧
      example_block_autocorr.num_baselines = 2 * (2 - 1) / 2 ∧
      example_block_autocorr.has_auto_correlations = ms0.write_autocorr ∧
      write_blocks [(example_block_autocorr, example_header)] ms0 0 = some (ms1, 0) ∧
      oskar_ms_num_rows ms1 = 6 ∧
      total_times [(example_block_autocorr, example_header)] * 2 = 4 := by
  have hnb : create_num_baselines 2 1 0 = some 2 := by decide
  obtain ⟨ms0, tbl0, hcreate, hms0, hnrow0, hpols0, -, -, hauto0, -, -⟩ :=
    create_open "example.ms" "example" 0 0 0 0 1 1 2 1 0 2 hnb
  obtain ⟨ms1, h1, h2⟩ := write_blocks_rows 3 [(example_block_autocorr, example_header)]
    ms0 tbl0 hms0
    (by
      intro bh hbh
      simp at hbh
      subst hbh
      rw [hpols0]
      exact ⟨by decide, by decide, by decide⟩)
    (by rw [hnrow0]; decide)
  refine ⟨ms0, ms1, hcreate, hnb, rfl, rfl, ?_, h1, ?_, rfl⟩
  · rw [hauto0]; decide
  · rw [h2, hnrow0]; decide

theorem half_bound (x : Nat) (h : x / 2 ≤ INT_MAX) : x < UINT_RANGE := by
  have hI : INT_MAX = 2147483647 := rfl
  have hU : UINT_RANGE = 4294967296 := rfl
  omega

/-- C14, amended: for a store created with `N` stations for cross-correlations, with or
without autocorrelations, and blocks with `N` stations, autocorrelation presence equal to
`write_autocorr`, single or double precision and the conditions `write_defined` in which C
defines the serializer (among them `N * (N - 1) / 2` cross baselines and sizes within
`int`), the main-table row count after serializing the blocks, `k` time samples in total,
is `k * num_output_baselines`, `num_output_baselines` being the value `create` derived
from the two flags (the product being within the range of `int`). -/
theorem created_store_row_count (filename app_name : String)
    (ra_rad dec_rad ref_freq chan_width : ℚ) (num_pols num_channels n : Nat)
    (write_autocorr write_crosscorr : Int) (hcross : write_crosscorr ≠ 0)
    (blocks : List (oskar_VisBlock × oskar_VisHeader))
    (hblocks : ∀ bh ∈ blocks, bh.1.num_stations = n ∧
      bh.1.has_auto_correlations = decide (write_autocorr ≠ 0) ∧
      write_defined bh.1 num_pols num_channels ∧ bh.1.precision ≠ Precision.other)
    (nb : Nat) (hnb : create_num_baselines n write_autocorr write_crosscorr = some nb)
    (hrange : total_times blocks * nb ≤ INT_MAX) :
    ∃ ms0 ms1,
      oskar_ms_create false filename app_name ra_rad dec_rad num_pols num_channels
        ref_freq chan_width n write_autocorr write_crosscorr = some ms0 ∧
      write_blocks blocks ms0 0 = some (ms1, 0) ∧
      oskar_ms_num_rows ms1 = total_times blocks * nb ∧
      ∀ bh ∈ blocks, num_baselines_out bh.1 = nb := by
  have hI : INT_MAX = 2147483647 := rfl
  have hU : UINT_RANGE = 4294967296 := rfl
  obtain ⟨ms0, tbl0, hcreate, hms0, hnrow0, hpols0, -, -, -, -, -⟩ :=
    create_open filename app_name ra_rad dec_rad ref_freq chan_width num_pols num_channels n
      write_autocorr write_crosscorr nb hnb
  have hnbo : ∀ bh ∈ blocks, num_baselines_out bh.1 = nb := by
    intro bh hbh
    obtain ⟨hs, ha, ⟨-, -, hb, hout, -⟩, -⟩ := hblocks bh hbh
    rw [hs] at hb
    by_cases hauto : write_autocorr = 0
    · have hno : num_baselines_out bh.1 = n * (n - 1) / 2 := by
        simp [num_baselines_out, ha, hauto, hb]
      rw [hno] at hout
      have hx := half_bound _ hout
      have hn : n < UINT_RANGE := by
        rcases Nat.lt_or_ge n 2 with h2 | h2
        · omega
        · have : n * 1 ≤ n * (n - 1) := Nat.mul_le_mul_left _ (by omega)
          omega
      have := ((create_num_baselines_exact n hn write_autocorr write_crosscorr).2.1
        hauto hcross).2 hx
      rw [hnb] at this
      simp only [Option.some.injEq] at this
      rw [hno, this]
    · have hno : num_baselines_out bh.1 = n * (n + 1) / 2 := by
        simp [num_baselines_out, ha, hauto, hb, hs, half_succ_mul]
      rw [hno] at hout
      have hx := half_bound _ hout
      have hn : n < UINT_RANGE := by
        have : n * 1 ≤ n * (n + 1) := Nat.mul_le_mul_left _ (by omega)
        omega
      have := ((create_num_baselines_exact n hn write_autocorr write_crosscorr).1
        hauto hcross).2 hx
      rw [hnb] at this
      simp only [Option.some.injEq] at this
      rw [hno, this]
  obtain ⟨ms1, h1, h2⟩ := write_blocks_rows nb blocks ms0 tbl0 hms0
    (by
      intro bh hbh
      obtain ⟨-, -, ⟨hp, -⟩, hprec⟩ := hblocks bh hbh
      exact ⟨by rw [hpols0]; omega, hprec, hnbo bh hbh⟩)
    (by rw [hnrow0]; omega)
  refine ⟨ms0, ms1, hcreate, h1, ?_, hnbo⟩
  rw [h2, hnrow0]
  omega

theorem created_store_row_count_witness :
    ∃ ms0 ms1,
      oskar_ms_create false "example.ms" "example" 0 0 1 1 0 0 2 1 1 = some ms0 ∧
      write_blocks [(example_block_autocorr, example_header),
        (example_block_autocorr, example_header)] ms0 0 = some (ms1, 0) ∧
      oskar_ms_num_rows ms1 = total_times [(example_block_autocorr, example_header),
        (example_block_autocorr, example_header)] * 3 ∧
      ∀ bh ∈ [(example_block_autocorr, example_header),
        (example_block_autocorr, example_header)], num_baselines_out bh.1 = 3 :=
  created_store_row_count "example.ms" "example" 0 0 0 0 1 1 2 1 1 (by decide)
    [(example_block_autocorr, example_header), (example_block_autocorr, example_header)]
    (by
      intro bh hbh
      simp at hbh
      subst hbh
      exact ⟨rfl, by decide, by decide, by decide⟩)
    3 (by decide) (by decide)

/-! ## The column accessor (C16 to C20) -/

theorem find_of_isColumn (t : Table) (column : String) (h : t.isColumn column = true) :
    ∃ d, t.desc.find? (fun d => d.name == column) = some d := by
  unfold Table.isColumn at h
  rw [List.any_eq_true] at h
  obtain ⟨x, hx, hname⟩ := h
  cases hf : t.desc.find? (fun d => d.name == column) with
  | some d => exact ⟨d, rfl⟩
  | none =>
    rw [List.find?_eq_none] at hf
    exact absurd hname (by simpa using hf x hx)

theorem get_column_reaches_copy (p : oskar_MeasurementSet) (t : Table) (hp : p.ms = some t)
    (column : String) (d : ColumnDesc)
    (hfind : t.desc.find? (fun d => d.name == column) = some d)
    (start num : Nat) (hnum : num ≠ 0) (hstart : start < t.nrow)
    (cap : Nat) (data : List Value) (req : Nat) :
    (∀ s, sizeofType d.dataType = some s →
      p.get_column column start num cap data req 0 =
        (t.getColumnRange column start
            (if toUInt (start + num) > t.nrow then t.nrow - start else num)).map
          (fun a =>
            if cap ≥ a.length * s then
              { data := a ++ data.drop a.length, required_size := a.length * s, status := 0 }
            else
              { data := data, required_size := a.length * s,
                status := OSKAR_ERR_MS_OUT_OF_RANGE })) ∧
    (sizeofType d.dataType = none →
      p.get_column column start num cap data req 0 =
        some { data := data, required_size := req,
               status := OSKAR_ERR_MS_UNKNOWN_DATA_TYPE }) := by
  have hcol := isColumn_of_find t column _ hfind
  have hnot : ¬ (start ≥ t.nrow) := by omega
  constructor
  · intro s hs
    unfold oskar_MeasurementSet.get_column
    simp only [hp, ne_eq, not_true_eq_false, if_false, hcol, Bool.not_true,
      Bool.false_eq_true, hnum, hnot, hfind]
    cases hsc : d.isScalar <;> cases hdt : d.dataType <;>
      simp [sizeofType, hdt] at hs <;> subst hs <;>
      simp [copy_scalar, copy_array]
  · intro hs
    unfold oskar_MeasurementSet.get_column
    simp only [hp, ne_eq, not_true_eq_false, if_false, hcol, Bool.not_true,
      Bool.false_eq_true, hnum, hnot, hfind]
    cases hsc : d.isScalar <;> cases hdt : d.dataType <;>
      simp [sizeofType, hdt] at hs <;> simp

theorem get_column_not_found_eq (p : oskar_MeasurementSet) (t : Table) (hp : p.ms = some t)
    (column : String) (hcol : t.isColumn column = false) (start num cap : Nat)
    (data : List Value) (req : Nat) :
    p.get_column column start num cap data req 0 =
      some { data := data, required_size := req, status := OSKAR_ERR_MS_COLUMN_NOT_FOUND } := by
  unfold oskar_MeasurementSet.get_column
  simp [hp, hcol]

theorem get_column_beyond_eq (p : oskar_MeasurementSet) (t : Table) (hp : p.ms = some t)
    (column : String) (hcol : t.isColumn column = true) (start num cap : Nat)
    (hnum : 1 ≤ num) (hstart : t.nrow ≤ start) (data : List Value) (req : Nat) :
    p.get_column column start num cap data req 0 =
      some { data := data, required_size := req, status := OSKAR_ERR_MS_OUT_OF_RANGE } := by
  have hn : num ≠ 0 := by omega
  unfold oskar_MeasurementSet.get_column
  simp [hp, hcol, hn, hstart]

theorem get_column_in_range (p : oskar_MeasurementSet) (t : Table) (hp : p.ms = some t)
    (column : String) (d : ColumnDesc)
    (hfind : t.desc.find? (fun d => d.name == column) = some d)
    (s : Nat) (hs : sizeofType d.dataType = some s)
    (start num : Nat) (hnum : 1 ≤ num) (hstart : start < t.nrow)
    (hwrap : start + num < UINT_RANGE) (cap : Nat) (data : List Value) (req : Nat) :
    p.get_column column start num cap data req 0 =
      some (if cap <
          ((List.range' start (clamped_rows t.nrow start num)).flatMap
            (fun r => t.cell r column)).length * s then
        { data := data,
          required_size := ((List.range' start (clamped_rows t.nrow start num)).flatMap
            (fun r => t.cell r column)).length * s,
          status := OSKAR_ERR_MS_OUT_OF_RANGE }
      else
        { data := (List.range' start (clamped_rows t.nrow start num)).flatMap
              (fun r => t.cell r column)
            ++ data.drop ((List.range' start (clamped_rows t.nrow start num)).flatMap
              (fun r => t.cell r column)).length,
          required_size := ((List.range' start (clamped_rows t.nrow start num)).flatMap
            (fun r => t.cell r column)).length * s,
          status := 0 }) := by
  have hU : toUInt (start + num) = start + num := by
    unfold toUInt
    exact Nat.mod_eq_of_lt hwrap
  have hclamp : (if toUInt (start + num) > t.nrow then t.nrow - start else num)
      = clamped_rows t.nrow start num := by
    rw [hU]; rfl
  have hfits : start + clamped_rows t.nrow start num ≤ t.nrow := by
    unfold clamped_rows
    split <;> omega
  rw [(get_column_reaches_copy p t hp column d hfind start num (by omega) hstart cap data
    req).1 s hs, hclamp]
  simp only [Table.getColumnRange, hfits, if_true, Option.map_some']
  by_cases hc : cap < ((List.range' start (clamped_rows t.nrow start num)).flatMap
      (fun r => t.cell r column)).length * s
  · have hc2 : ¬ (cap ≥ ((List.range' start (clamped_rows t.nrow start num)).flatMap
        (fun r => t.cell r column)).length * s) := by omega
    rw [if_pos hc, if_neg hc2]
  · have hc2 : cap ≥ ((List.range' start (clamped_rows t.nrow start num)).flatMap
        (fun r => t.cell r column)).length * s := by omega
    rw [if_neg hc, if_pos hc2]

/-- C16 (the code departs from the claim): on `example_store_rows` (two rows) the request
`start_row = 1`, `num_rows = 4294967295` for the column TIME has `start_row < R` and
`start_row + num_rows > R` as integers, but the sum is formed in `unsigned int`, where it
is `0`; the test `start_row + num_rows > total_rows` fails, the request is not clamped and
`getColumnRange` is asked for rows outside the table, which throws.  The request
`num_rows = 5` from the same row is clamped to the one remaining row. -/
theorem get_column_clamp_wraps :
    1 < oskar_ms_num_rows example_store_rows ∧
    1 + 4294967295 > oskar_ms_num_rows example_store_rows ∧
    toUInt (1 + 4294967295) = 0 ∧
    example_store_rows.get_column "TIME" 1 4294967295 100 [] 0 0 = none ∧
    example_store_rows.get_column "TIME" 1 5 100 [] 0 0
      = some { data := [Value.real 11], required_size := 8, status := 0 } := by
  have hfind : example_table_rows.desc.find? (fun d => d.name == "TIME")
      = some ⟨"TIME", DataType.TpDouble, true⟩ := by decide
  refine ⟨by decide, by decide, by decide, ?_, ?_⟩
  · rw [(get_column_reaches_copy example_store_rows example_table_rows rfl "TIME" _ hfind
      1 4294967295 (by decide) (by decide) 100 [] 0).1 8 rfl]
    have hno : ¬ (toUInt (1 + 4294967295) > example_table_rows.nrow) := by decide
    have hout : ¬ (1 + 4294967295 ≤ example_table_rows.nrow) := by decide
    simp only [hno, if_false, Table.getColumnRange, hout, Option.map_none']
  · rw [get_column_in_range example_store_rows example_table_rows rfl "TIME" _ hfind 8 rfl
      1 5 (by decide) (by decide) (by decide) 100 [] 0]
    have hc : clamped_rows example_table_rows.nrow 1 5 = 1 := by decide
    rw [hc]
    simp [example_table_rows, List.range']
    norm_num

/-- C17: for an open store and status clear on entry, a column name that is not a column of
the main table makes `get_column` set status `ColumnNotFound` (a non-zero code) and return
the caller's buffer (and `required_size`) as they were, for every `start_row`, `num_rows`
and buffer capacity. -/
theorem get_column_not_found (p : oskar_MeasurementSet) (t : Table) (hp : p.ms = some t)
    (column : String) (hcol : t.isColumn column = false) (start_row num_rows : Nat)
    (data_size_bytes : Nat) (data : List Value) (required_size : Nat) :
    p.get_column column start_row num_rows data_size_bytes data required_size 0 =
      some { data := data, required_size := required_size,
             status := OSKAR_ERR_MS_COLUMN_NOT_FOUND } ∧
    OSKAR_ERR_MS_COLUMN_NOT_FOUND ≠ 0 :=
  ⟨get_column_not_found_eq p t hp column hcol start_row num_rows data_size_bytes data
    required_size, by decide⟩

theorem get_column_not_found_witness :
    example_store_rows.get_column "MODEL_DATA" 0 1 100 [Value.bool true] 0 0 =
      some { data := [Value.bool true], required_size := 0,
             status := OSKAR_ERR_MS_COLUMN_NOT_FOUND } ∧
    OSKAR_ERR_MS_COLUMN_NOT_FOUND ≠ 0 :=
  get_column_not_found example_store_rows example_table_rows rfl "MODEL_DATA" (by decide)
    0 1 100 [Value.bool true] 0

/-- C18, as stated, fails: on `example_store_rows` the request for the missing column
MODEL_DATA ends with `ColumnNotFound` and the request for TIME from row `2` of the
two-row table ends with `OutOfRange`, and both return `required_size` as the caller left
it (`777`): it is not assigned. -/
theorem get_column_required_size_untouched :
    example_store_rows.get_column "MODEL_DATA" 0 1 100 [] 777 0 =
      some { data := [], required_size := 777, status := OSKAR_ERR_MS_COLUMN_NOT_FOUND } ∧
    example_store_rows.get_column "TIME" 2 1 100 [] 777 0 =
      some { data := [], required_size := 777, status := OSKAR_ERR_MS_OUT_OF_RANGE } := by
  refine ⟨?_, ?_⟩
  · exact get_column_not_found_eq example_store_rows example_table_rows rfl "MODEL_DATA"
      (by decide) 0 1 100 [] 777
  · exact get_column_beyond_eq example_store_rows example_table_rows rfl "TIME"
      (by decide) 2 1 100 (by decide) (by decide) [] 777

/-- C18, amended: for an open store and status clear on entry, `get_column` assigns
`required_size_bytes` when the request reaches the copy, that is for an existing column of
a supported element type, `num_rows >= 1`, `start_row` inside the table and
`start_row + num_rows < 2 ^ 32`: it is then the byte size of the clamped row range,
whether the call succeeds or ends with `OutOfRange` because the buffer is too small.  When
the call ends with `ColumnNotFound`, returns at once because `num_rows` is `0`, ends with
`OutOfRange` because `start_row` is at or beyond the row count, or ends with
`UnknownDataType`, `required_size_bytes` is left as it was.  (The one case left out, a
supported column with `start_row + num_rows >= 2 ^ 32`, is the subject of C16.) -/
theorem get_column_required_size (p : oskar_MeasurementSet) (t : Table) (hp : p.ms = some t)
    (column : String) (start_row num_rows data_size_bytes : Nat) (data : List Value)
    (required_size : Nat) :
    (∀ d s, t.desc.find? (fun d => d.name == column) = some d →
      sizeofType d.dataType = some s → 1 ≤ num_rows → start_row < t.nrow →
      start_row + num_rows < UINT_RANGE →
      ∃ r, p.get_column column start_row num_rows data_size_bytes data required_size 0
          = some r ∧
        r.required_size = ((List.range' start_row
          (clamped_rows t.nrow start_row num_rows)).flatMap
            (fun r => t.cell r column)).length * s ∧
        (r.status = 0 ∨ r.status = OSKAR_ERR_MS_OUT_OF_RANGE)) ∧
    (t.isColumn column = false →
      p.get_column column start_row num_rows data_size_bytes data required_size 0 =
        some { data := data, required_size := required_size,
               status := OSKAR_ERR_MS_COLUMN_NOT_FOUND }) ∧
    (t.isColumn column = true → num_rows = 0 →
      p.get_column column start_row num_rows data_size_bytes data required_size 0 =
        some { data := data, required_size := required_size, status := 0 }) ∧
    (t.isColumn column = true → 1 ≤ num_rows → t.nrow ≤ start_row →
      p.get_column column start_row num_rows data_size_bytes data required_size 0 =
        some { data := data, required_size := required_size,
               status := OSKAR_ERR_MS_OUT_OF_RANGE }) ∧
    (∀ d, t.desc.find? (fun d => d.name == column) = some d →
      sizeofType d.dataType = none → 1 ≤ num_rows → start_row < t.nrow →
      p.get_column column start_row num_rows data_size_bytes data required_size 0 =
        some { data := data, required_size := required_size,
               status := OSKAR_ERR_MS_UNKNOWN_DATA_TYPE }) := by
  refine ⟨?_, ?_, ?_, ?_, ?_⟩
  · intro d s hfind hs hnum hstart hwrap
    rw [get_column_in_range p t hp column d hfind s hs start_row num_rows hnum hstart hwrap
      data_size_bytes data required_size]
    refine ⟨_, rfl, ?_, ?_⟩
    · split <;> rfl
    · split
      · exact Or.inr rfl
      · exact Or.inl rfl
  · intro hcol
    exact get_column_not_found_eq p t hp column hcol start_row num_rows data_size_bytes data
      required_size
  · intro hcol hzero
    unfold oskar_MeasurementSet.get_column
    simp [hp, hcol, hzero]
  · intro hcol hnum hstart
    exact get_column_beyond_eq p t hp column hcol start_row num_rows data_size_bytes hnum
      hstart data required_size
  · intro d hfind hs hnum hstart
    exact (get_column_reaches_copy p t hp column d hfind start_row num_rows (by omega)
      hstart data_size_bytes data required_size).2 hs

theorem get_column_required_size_witness :
    (∀ d s, example_table_rows.desc.find? (fun d => d.name == "UVW") = some d →
      sizeofType d.dataType = some s → 1 ≤ 5 → 0 < example_table_rows.nrow →
      0 + 5 < UINT_RANGE →
      ∃ r, example_store_rows.get_column "UVW" 0 5 100 [] 777 0 = some r ∧
        r.required_size = ((List.range' 0
          (clamped_rows example_table_rows.nrow 0 5)).flatMap
            (fun r => example_table_rows.cell r "UVW")).length * s ∧
        (r.status = 0 ∨ r.status = OSKAR_ERR_MS_OUT_OF_RANGE)) ∧
    (example_table_rows.isColumn "UVW" = false →
      example_store_rows.get_column "UVW" 0 5 100 [] 777 0 =
        some { data := [], required_size := 777,
               status := OSKAR_ERR_MS_COLUMN_NOT_FOUND }) ∧
    (example_table_rows.isColumn "UVW" = true → 5 = 0 →
      example_store_rows.get_column "UVW" 0 5 100 [] 777 0 =
        some { data := [], required_size := 777, status := 0 }) ∧
    (example_table_rows.isColumn "UVW" = true → 1 ≤ 5 → example_table_rows.nrow ≤ 0 →
      example_store_rows.get_column "UVW" 0 5 100 [] 777 0 =
        some { data := [], required_size := 777,
               status := OSKAR_ERR_MS_OUT_OF_RANGE }) ∧
    (∀ d, example_table_rows.desc.find? (fun d => d.name == "UVW") = some d →
      sizeofType d.dataType = none → 1 ≤ 5 → 0 < example_table_rows.nrow →
      example_store_rows.get_column "UVW" 0 5 100 [] 777 0 =
        some { data := [], required_size := 777,
               status := OSKAR_ERR_MS_UNKNOWN_DATA_TYPE }) :=
  get_column_required_size example_store_rows example_table_rows rfl "UVW" 0 5 100 [] 777

/-- The size contract of `get_column` for the requests whose row range does not wrap: for
an open store, status clear on entry, an existing column (scalar or array valued) of a
supported element type, `num_rows >= 1`, `start_row` inside the table and
`start_row + num_rows < 2 ^ 32`, `required_size` is the number of elements in the clamped
row range times the element size; if the buffer capacity is smaller, `get_column` sets
`OutOfRange` and returns the buffer unmodified; otherwise it overwrites the first
`required_size` bytes of the buffer with those elements, leaves the rest and leaves the
status clear. -/
theorem get_column_size_contract (p : oskar_MeasurementSet) (t : Table) (hp : p.ms = some t)
    (column : String) (d : ColumnDesc)
    (hfind : t.desc.find? (fun d => d.name == column) = some d)
    (s : Nat) (hs : sizeofType d.dataType = some s)
    (start_row num_rows : Nat) (hnum : 1 ≤ num_rows) (hstart : start_row < t.nrow)
    (hwrap : start_row + num_rows < UINT_RANGE) (data_size_bytes : Nat) (data : List Value)
    (required_size : Nat) :
    (data_size_bytes <
        ((List.range' start_row (clamped_rows t.nrow start_row num_rows)).flatMap
          (fun r => t.cell r column)).length * s →
      p.get_column column start_row num_rows data_size_bytes data required_size 0 =
        some { data := data,
               required_size := ((List.range' start_row
                 (clamped_rows t.nrow start_row num_rows)).flatMap
                   (fun r => t.cell r column)).length * s,
               status := OSKAR_ERR_MS_OUT_OF_RANGE }) ∧
    (((List.range' start_row (clamped_rows t.nrow start_row num_rows)).flatMap
          (fun r => t.cell r column)).length * s ≤ data_size_bytes →
      p.get_column column start_row num_rows data_size_bytes data required_size 0 =
        some { data := (List.range' start_row
                   (clamped_rows t.nrow start_row num_rows)).flatMap
                     (fun r => t.cell r column)
                 ++ data.drop ((List.range' start_row
                   (clamped_rows t.nrow start_row num_rows)).flatMap
                     (fun r => t.cell r column)).length,
               required_size := ((List.range' start_row
                 (clamped_rows t.nrow start_row num_rows)).flatMap
                   (fun r => t.cell r column)).length * s,
               status := 0 }) ∧
    clamped_rows t.nrow start_row num_rows = min num_rows (t.nrow - start_row) ∧
    OSKAR_ERR_MS_OUT_OF_RANGE ≠ 0 := by
  have h := get_column_in_range p t hp column d hfind s hs start_row num_rows hnum hstart
    hwrap data_size_bytes data required_size
  refine ⟨?_, ?_, ?_, by decide⟩
  · intro hsmall
    rw [h, if_pos hsmall]
  · intro hfits
    rw [h, if_neg (by omega)]
  · unfold clamped_rows
    split <;> omega

theorem get_column_size_contract_witness :
    (100 <
        ((List.range' 0 (clamped_rows example_table_rows.nrow 0 5)).flatMap
          (fun r => example_table_rows.cell r "UVW")).length * 8 →
      example_store_rows.get_column "UVW" 0 5 100 [Value.bool true] 0 0 =
        some { data := [Value.bool true],
               required_size := ((List.range' 0
                 (clamped_rows example_table_rows.nrow 0 5)).flatMap
                   (fun r => example_table_rows.cell r "UVW")).length * 8,
               status := OSKAR_ERR_MS_OUT_OF_RANGE }) ∧
    (((List.range' 0 (clamped_rows example_table_rows.nrow 0 5)).flatMap
          (fun r => example_table_rows.cell r "UVW")).length * 8 ≤ 100 →
      example_store_rows.get_column "UVW" 0 5 100 [Value.bool true] 0 0 =
        some { data := (List.range' 0
                   (clamped_rows example_table_rows.nrow 0 5)).flatMap
                     (fun r => example_table_rows.cell r "UVW")
                 ++ [Value.bool true].drop ((List.range' 0
                   (clamped_rows example_table_rows.nrow 0 5)).flatMap
                     (fun r => example_table_rows.cell r "UVW")).length,
               required_size := ((List.range' 0
                 (clamped_rows example_table_rows.nrow 0 5)).flatMap
                   (fun r => example_table_rows.cell r "UVW")).length * 8,
               status := 0 }) ∧
    clamped_rows example_table_rows.nrow 0 5 = min 5 (example_table_rows.nrow - 0) ∧
    OSKAR_ERR_MS_OUT_OF_RANGE ≠ 0 :=
  get_column_size_contract example_store_rows example_table_rows rfl "UVW"
    ⟨"UVW", DataType.TpDouble, false⟩ (by decide) 8 rfl 0 5 (by decide) (by decide)
    (by decide) 100 [Value.bool true] 0

/-- C19 (the code departs from the claim): on `example_store_rows` (two rows) the request
`start_row = 1`, `num_rows = 4294967295` for the array column UVW starts inside the table
and its clamped row range is the one row `1`, three elements of eight bytes, so that the
claim gives `required_size = 24`, a copy of `24` bytes into a buffer of `100` bytes and
`OutOfRange` for a buffer of `8` bytes.  The sum `start_row + num_rows` is formed in
`unsigned int`, where it is `0` (the defect of C16): the request is not clamped and
`getColumnRange` throws, so that the call neither copies, nor sets `OutOfRange`, nor
assigns `required_size`, whatever the capacity.  The scalar path (column TIME) does the
same. -/
theorem get_column_size_contract_wraps :
    1 < oskar_ms_num_rows example_store_rows ∧
    min 4294967295 (oskar_ms_num_rows example_store_rows - 1) = 1 ∧
    ((List.range' 1 1).flatMap (fun r => example_table_rows.cell r "UVW")).length * 8 = 24 ∧
    toUInt (1 + 4294967295) = 0 ∧
    example_store_rows.get_column "UVW" 1 4294967295 100 [] 0 0 = none ∧
    example_store_rows.get_column "UVW" 1 4294967295 8 [] 0 0 = none ∧
    example_store_rows.get_column "TIME" 1 4294967295 0 [] 0 0 = none := by
  have hfindU : example_table_rows.desc.find? (fun d => d.name == "UVW")
      = some ⟨"UVW", DataType.TpDouble, false⟩ := by decide
  have hfindT : example_table_rows.desc.find? (fun d => d.name == "TIME")
      = some ⟨"TIME", DataType.TpDouble, true⟩ := by decide
  have hno : ¬ (toUInt (1 + 4294967295) > example_table_rows.nrow) := by decide
  have hout : ¬ (1 + 4294967295 ≤ example_table_rows.nrow) := by decide
  refine ⟨by decide, by decide, by decide, by decide, ?_, ?_, ?_⟩
  · rw [(get_column_reaches_copy example_store_rows example_table_rows rfl "UVW" _ hfindU
      1 4294967295 (by decide) (by decide) 100 [] 0).1 8 rfl]
    simp only [hno, if_false, Table.getColumnRange, hout, Option.map_none']
  · rw [(get_column_reaches_copy example_store_rows example_table_rows rfl "UVW" _ hfindU
      1 4294967295 (by decide) (by decide) 8 [] 0).1 8 rfl]
    simp only [hno, if_false, Table.getColumnRange, hout, Option.map_none']
  · rw [(get_column_reaches_copy example_store_rows example_table_rows rfl "TIME" _ hfindT
      1 4294967295 (by decide) (by decide) 0 [] 0).1 8 rfl]
    simp only [hno, if_false, Table.getColumnRange, hout, Option.map_none']

/-- C20: for an open store, status clear on entry, an existing column and `num_rows >= 1`,
a `start_row` at or beyond the table's row count makes `get_column` set `OutOfRange` (a
non-zero code) and return the buffer (and `required_size`) as they were. -/
theorem get_column_start_beyond (p : oskar_MeasurementSet) (t : Table) (hp : p.ms = some t)
    (column : String) (hcol : t.isColumn column = true) (start_row num_rows : Nat)
    (hnum : 1 ≤ num_rows) (hstart : t.nrow ≤ start_row) (data_size_bytes : Nat)
    (data : List Value) (required_size : Nat) :
    p.get_column column start_row num_rows data_size_bytes data required_size 0 =
      some { data := data, required_size := required_size,
             status := OSKAR_ERR_MS_OUT_OF_RANGE } ∧
    OSKAR_ERR_MS_OUT_OF_RANGE ≠ 0 :=
  ⟨get_column_beyond_eq p t hp column hcol start_row num_rows data_size_bytes hnum hstart
    data required_size, by decide⟩

theorem get_column_start_beyond_witness :
    example_store_rows.get_column "TIME" 2 1 100 [Value.bool true] 0 0 =
      some { data := [Value.bool true], required_size := 0,
             status := OSKAR_ERR_MS_OUT_OF_RANGE } ∧
    OSKAR_ERR_MS_OUT_OF_RANGE ≠ 0 :=
  get_column_start_beyond example_store_rows example_table_rows rfl "TIME" (by decide) 2 1
    (by decide) (by decide) 100 [Value.bool true] 0

/-! ## The element types of the column accessor (C21) -/

theorem sizeofType_none_iff (dt : DataType) :
    sizeofType dt = none ↔
      dt ∉ [DataType.TpBool, DataType.TpUChar, DataType.TpShort, DataType.TpUShort,
        DataType.TpInt, DataType.TpUInt, DataType.TpFloat, DataType.TpDouble,
        DataType.TpComplex, DataType.TpDComplex] := by
  cases dt <;> simp [sizeofType]

theorem get_column_supported_status (p : oskar_MeasurementSet) (t : Table) (hp : p.ms = some t)
    (column : String) (d : ColumnDesc)
    (hfind : t.desc.find? (fun d => d.name == column) = some d)
    (s : Nat) (hs : sizeofType d.dataType = some s)
    (start num : Nat) (hnum : num ≠ 0) (hstart : start < t.nrow)
    (cap : Nat) (data : List Value) (req : Nat) (r : ColumnRead)
    (hr : p.get_column column start num cap data req 0 = some r) :
    r.status = 0 ∨ r.status = OSKAR_ERR_MS_OUT_OF_RANGE := by
  rw [(get_column_reaches_copy p t hp column d hfind start num hnum hstart cap data req).1 s hs]
    at hr
  simp only [Option.map_eq_some'] at hr
  obtain ⟨a, -, ha⟩ := hr
  rw [← ha]
  split
  · exact Or.inl rfl
  · exact Or.inr rfl

/-- C21: for an open store with the status clear, an existing column (scalar or array,
with the description `d`) and a non-empty request that starts inside the table,
`get_column` returns with status `UnknownDataType` if and only if the declared element
type of the column is outside the set Bool, UChar, Short, UShort, Int, UInt, Float, Double,
Complex, DComplex, and it then returns the buffer and the required size as they were:
nothing is copied.  The condition does not mention `d.isScalar`: the set is the same for
scalar and array columns.  For an element type of the set and `start_row + num_rows`
below `2 ^ 32` the call returns with the status clear or `OutOfRange`. -/
theorem get_column_unknown_data_type (p : oskar_MeasurementSet) (t : Table)
    (hp : p.ms = some t) (column : String) (d : ColumnDesc)
    (hfind : t.desc.find? (fun d => d.name == column) = some d)
    (start_row num_rows : Nat) (hnum : 1 ≤ num_rows) (hstart : start_row < t.nrow)
    (data_size_bytes : Nat) (data : List Value) (required_size : Nat) :
    ((∃ r, oskar_ms_get_column p column start_row num_rows data_size_bytes data
          required_size 0 = some r ∧ r.status = OSKAR_ERR_MS_UNKNOWN_DATA_TYPE) ↔
      d.dataType ∉ [DataType.TpBool, DataType.TpUChar, DataType.TpShort,
        DataType.TpUShort, DataType.TpInt, DataType.TpUInt, DataType.TpFloat,
        DataType.TpDouble, DataType.TpComplex, DataType.TpDComplex]) ∧
    (d.dataType ∉ [DataType.TpBool, DataType.TpUChar, DataType.TpShort,
        DataType.TpUShort, DataType.TpInt, DataType.TpUInt, DataType.TpFloat,
        DataType.TpDouble, DataType.TpComplex, DataType.TpDComplex] →
      oskar_ms_get_column p column start_row num_rows data_size_bytes data required_size 0
        = some { data := data, required_size := required_size,
                 status := OSKAR_ERR_MS_UNKNOWN_DATA_TYPE }) ∧
    (d.dataType ∈ [DataType.TpBool, DataType.TpUChar, DataType.TpShort,
        DataType.TpUShort, DataType.TpInt, DataType.TpUInt, DataType.TpFloat,
        DataType.TpDouble, DataType.TpComplex, DataType.TpDComplex] →
      start_row + num_rows < UINT_RANGE →
      ∃ r, oskar_ms_get_column p column start_row num_rows data_size_bytes data
          required_size 0 = some r ∧
        (r.status = 0 ∨ r.status = OSKAR_ERR_MS_OUT_OF_RANGE)) ∧
    OSKAR_ERR_MS_UNKNOWN_DATA_TYPE ≠ 0 ∧
    OSKAR_ERR_MS_UNKNOWN_DATA_TYPE ≠ OSKAR_ERR_MS_OUT_OF_RANGE := by
  unfold oskar_ms_get_column
  rw [← sizeofType_none_iff]
  have hnone := (get_column_reaches_copy p t hp column d hfind start_row num_rows (by omega)
    hstart data_size_bytes data required_size).2
  refine ⟨⟨?_, ?_⟩, hnone, ?_, by decide, by decide⟩
  · rintro ⟨r, hr, hst⟩
    cases hs : sizeofType d.dataType with
    | none => rfl
    | some s =>
      have := get_column_supported_status p t hp column d hfind s hs start_row num_rows
        (by omega) hstart data_size_bytes data required_size r hr
      rw [hst] at this
      rcases this with h | h <;> exact absurd h (by decide)
  · intro hs
    exact ⟨_, hnone hs, rfl⟩
  · intro hsup hwrap
    cases hs : sizeofType d.dataType with
    | none => exact absurd hsup ((sizeofType_none_iff _).1 hs)
    | some s =>
      rw [get_column_in_range p t hp column d hfind s hs start_row num_rows hnum hstart hwrap
        data_size_bytes data required_size]
      refine ⟨_, rfl, ?_⟩
      split
      · exact Or.inr rfl
      · exact Or.inl rfl

theorem get_column_unknown_data_type_witness :
    ((∃ r, oskar_ms_get_column example_store_text "NOTE" 0 1 100 [] 777 0 = some r ∧
        r.status = OSKAR_ERR_MS_UNKNOWN_DATA_TYPE) ↔
      DataType.TpString ∉ [DataType.TpBool, DataType.TpUChar, DataType.TpShort,
        DataType.TpUShort, DataType.TpInt, DataType.TpUInt, DataType.TpFloat,
        DataType.TpDouble, DataType.TpComplex, DataType.TpDComplex]) ∧
    (DataType.TpString ∉ [DataType.TpBool, DataType.TpUChar, DataType.TpShort,
        DataType.TpUShort, DataType.TpInt, DataType.TpUInt, DataType.TpFloat,
        DataType.TpDouble, DataType.TpComplex, DataType.TpDComplex] →
      oskar_ms_get_column example_store_text "NOTE" 0 1 100 [] 777 0
        = some { data := [], required_size := 777,
                 status := OSKAR_ERR_MS_UNKNOWN_DATA_TYPE }) ∧
    (DataType.TpString ∈ [DataType.TpBool, DataType.TpUChar, DataType.TpShort,
        DataType.TpUShort, DataType.TpInt, DataType.TpUInt, DataType.TpFloat,
        DataType.TpDouble, DataType.TpComplex, DataType.TpDComplex] →
      0 + 1 < UINT_RANGE →
      ∃ r, oskar_ms_get_column example_store_text "NOTE" 0 1 100 [] 777 0 = some r ∧
        (r.status = 0 ∨ r.status = OSKAR_ERR_MS_OUT_OF_RANGE)) ∧
    OSKAR_ERR_MS_UNKNOWN_DATA_TYPE ≠ 0 ∧
    OSKAR_ERR_MS_UNKNOWN_DATA_TYPE ≠ OSKAR_ERR_MS_OUT_OF_RANGE :=
  get_column_unknown_data_type example_store_text example_table_text rfl "NOTE"
    ⟨"NOTE", .TpString, true⟩ (by decide) 0 1 (by decide) (by decide) 100 [] 777

/-! ## Closing the store (C24) -/

theorem set_time_range_eq (p : oskar_MeasurementSet) (t : Table) (hp : p.ms = some t)
    (row0 : ObservationRow) (rest : List ObservationRow)
    (hobs : t.observation = row0 :: rest) :
    p.set_time_range = some { p with
      ms := some { t with
        observation :=
          { timeRange :=
              (if row0.timeRange.1 ≤ 0 ∨ p.start_time < row0.timeRange.1 then p.start_time
                else row0.timeRange.1,
               max p.end_time row0.timeRange.2),
            releaseDate := max p.end_time row0.timeRange.2 + 365.25 * 86400 } :: rest } } := by
  have hmax : (if p.end_time > row0.timeRange.2 then p.end_time else row0.timeRange.2)
      = max p.end_time row0.timeRange.2 := by
    rcases le_or_lt p.end_time row0.timeRange.2 with h | h
    · rw [if_neg (not_lt.mpr h), max_eq_right h]
    · rw [if_pos h, max_eq_left h.le]
  unfold oskar_MeasurementSet.set_time_range
  simp only [hp, hobs, hmax]

theorem DBL_MAX_pos : 0 < DBL_MAX := by
  unfold DBL_MAX
  norm_num

theorem create_subtables (filename app_name : String) (ra_rad dec_rad ref_freq chan_width : ℚ)
    (num_pols num_channels n : Nat) (write_autocorr write_crosscorr : Int) (nb : Nat)
    (hnb : create_num_baselines n write_autocorr write_crosscorr = some nb) :
    ∃ p t, oskar_ms_create false filename app_name ra_rad dec_rad num_pols num_channels
        ref_freq chan_width n write_autocorr write_crosscorr = some p ∧
      p.ms = some t ∧ t.nrow = 0 ∧
      t.observation = [{ timeRange := (DBL_MAX, 0), releaseDate := 365.25 * 86400 }] ∧
      t.spectralWindow = [⟨num_channels⟩] ∧
      p.start_time = DBL_MAX ∧ p.end_time = -DBL_MAX ∧ p.app_name = app_name := by
  have hpos := DBL_MAX_pos
  have h1 : ¬ (-DBL_MAX > 0) := by
    intro h
    linarith
  simp [oskar_ms_create, oskar_MeasurementSet.create, hnb,
    oskar_MeasurementSet.set_time_range, oskar_MeasurementSet.add_pol,
    oskar_MeasurementSet.add_field, oskar_MeasurementSet.add_band,
    oskar_MeasurementSet.init, h1]

theorem write_all_for_time_keeps (conv : ℚ → FloatValue) (p : oskar_MeasurementSet) (tbl : Table)
    (hp : p.ms = some tbl) (hu : tbl.nrow ≤ UINT_RANGE) (start nb : Nat)
    (h : start + nb ≤ tbl.nrow) (u v w vis : Nat → ℚ) (ant1 ant2 : Nat → Int)
    (exposure interval time : ℚ) :
    ∃ p1 tbl1,
      oskar_ms_write_all_for_time conv p start nb u v w vis ant1 ant2 exposure interval time
        = some p1 ∧
      p1.ms = some tbl1 ∧ tbl1.nrow = tbl.nrow ∧ tbl1.observation = tbl.observation ∧
      p1.start_time = (if time < p.start_time then time - interval / 2 else p.start_time) ∧
      p1.end_time = (if time > p.end_time then time + interval / 2 else p.end_time) :=
  ⟨_, _, write_all_for_time_eq conv p tbl hp hu start nb h u v w vis ant1 ant2 exposure
    interval time, rfl, rfl, rfl, rfl, rfl⟩

theorem write_times_ordered (ws : List TimeWrite) :
    ∀ (p : oskar_MeasurementSet) (tbl : Table), p.ms = some tbl → tbl.nrow ≤ UINT_RANGE →
      (∀ x ∈ ws, x.start_row + x.num_baselines ≤ tbl.nrow) →
      (∀ x ∈ ws, 0 ≤ x.interval ∧ -DBL_MAX < x.time ∧ x.time < DBL_MAX) →
      ((p.start_time = DBL_MAX ∧ p.end_time = -DBL_MAX ∧ ws ≠ []) ∨
        (p.start_time ≤ p.end_time ∧ p.start_time < DBL_MAX)) →
      ∃ p1 tbl1, write_times ws p = some p1 ∧ p1.ms = some tbl1 ∧
        tbl1.observation = tbl.observation ∧
        p1.start_time ≤ p1.end_time ∧ p1.start_time < DBL_MAX := by
  induction ws with
  | nil =>
    intro p tbl hp _ _ _ hinv
    rcases hinv with ⟨-, -, hne⟩ | ⟨h1, h2⟩
    · exact absurd rfl hne
    · exact ⟨p, tbl, rfl, hp, rfl, h1, h2⟩
  | cons x rest ih =>
    intro p tbl hp hu hrows hfin hinv
    have hx := hrows x (List.mem_cons_self _ _)
    obtain ⟨hi, hlo, hhi⟩ := hfin x (List.mem_cons_self _ _)
    obtain ⟨q, tq, hw, hq, hqn, hqo, hqs, hqe⟩ := write_all_for_time_keeps toFloat32 p tbl hp
      hu x.start_row x.num_baselines hx x.u x.v x.w x.vis x.ant1 x.ant2 x.exposure x.interval
      x.time
    have hinv1 : q.start_time ≤ q.end_time ∧ q.start_time < DBL_MAX := by
      rw [hqs, hqe]
      rcases hinv with ⟨hs, he, -⟩ | ⟨h1, h2⟩
      · rw [hs, he, if_pos hhi, if_pos hlo]
        constructor <;> linarith
      · by_cases ha : x.time < p.start_time
        · have hb : ¬ (x.time > p.end_time) := by
            intro h
            linarith
          rw [if_pos ha, if_neg hb]
          constructor <;> linarith
        · rw [if_neg ha]
          refine ⟨?_, h2⟩
          by_cases hb : x.time > p.end_time
          · rw [if_pos hb]
            linarith
          · rw [if_neg hb]
            exact h1
    obtain ⟨p1, tbl1, h1, h2, h3, h4, h5⟩ := ih q tq hq (by rw [hqn]; exact hu)
      (fun y hy => by rw [hqn]; exact hrows y (List.mem_cons_of_mem _ hy))
      (fun y hy => hfin y (List.mem_cons_of_mem _ hy))
      (Or.inr hinv1)
    refine ⟨p1, tbl1, ?_, h2, h3.trans hqo, h4, h5⟩
    simp only [write_times, oskar_ms_write_all_for_time_d, hw, Option.some_bind,
      Option.bind_eq_bind]
    exact h1

theorem written_time_range_ordered (p : oskar_MeasurementSet) (tbl : Table)
    (hp : p.ms = some tbl) (hu : tbl.nrow ≤ UINT_RANGE)
    (release : ℚ) (rest : List ObservationRow)
    (hobs : tbl.observation = { timeRange := (DBL_MAX, 0), releaseDate := release } :: rest)
    (hstart : p.start_time = DBL_MAX) (hend : p.end_time = -DBL_MAX)
    (ws : List TimeWrite) (hne : ws ≠ [])
    (hrows : ∀ x ∈ ws, x.start_row + x.num_baselines ≤ tbl.nrow)
    (hfin : ∀ x ∈ ws, 0 ≤ x.interval ∧ -DBL_MAX < x.time ∧ x.time < DBL_MAX) :
    ∃ p1 p2 t2 row, write_times ws p = some p1 ∧ p1.close = some (p2, some t2) ∧
      t2.observation = row :: rest ∧ row.timeRange.1 ≤ row.timeRange.2 := by
  obtain ⟨p1, tbl1, h1, h2, h3, h4, h5⟩ := write_times_ordered ws p tbl hp hu hrows hfin
    (Or.inl ⟨hstart, hend, hne⟩)
  have hs := set_time_range_eq p1 tbl1 h2 _ rest (h3.trans hobs)
  refine ⟨p1, ?_⟩
  unfold oskar_MeasurementSet.close
  rw [hs]
  refine ⟨_, _, _, h1, rfl, rfl, ?_⟩
  have hpos := DBL_MAX_pos
  have hc : ¬ (DBL_MAX ≤ 0) := by
    intro h
    linarith
  simp only [hc, false_or, h5, if_true]
  exact le_trans h4 (le_max_left _ _)

/-- C29 (the code departs from the claim): right after `create` (here for
cross-correlations only, any station count) the OBSERVATION record is
`[DBL_MAX, 0]`, whose start is above its end: `create` puts `[0, 0]` and calls
`set_time_range`, which takes the start from `start_time`, still at its initial value
`DBL_MAX`, because the old start `0` counts as unset, while the end is the larger of
`end_time = -DBL_MAX` and the old end `0`.  Closing the store without a write leaves the
record as it is. -/
theorem created_time_range_not_ordered (filename app_name : String)
    (ra_rad dec_rad ref_freq chan_width : ℚ) (num_pols num_channels num_stations : Nat) :
    ∃ p t, oskar_ms_create false filename app_name ra_rad dec_rad num_pols num_channels
        ref_freq chan_width num_stations 0 1 = some p ∧
      p.ms = some t ∧ t.nrow = 0 ∧
      t.observation = [{ timeRange := (DBL_MAX, 0), releaseDate := 365.25 * 86400 }] ∧
      ¬ (DBL_MAX ≤ 0) ∧
      ∃ p1 t1, p.close = some (p1, some t1) ∧ write_times [] p = some p ∧
        t1.observation = [{ timeRange := (DBL_MAX, 0), releaseDate := 365.25 * 86400 }] := by
  have hpos := DBL_MAX_pos
  have hc : ¬ (DBL_MAX ≤ 0) := by
    intro h
    linarith
  obtain ⟨p, t, h1, h2, h3, h4, -, h7, h8, -⟩ :=
    create_subtables filename app_name ra_rad dec_rad ref_freq chan_width num_pols
      num_channels num_stations 0 1 (toUInt (num_stations * usub num_stations 1) / 2)
      (by simp [create_num_baselines])
  refine ⟨p, t, h1, h2, h3, h4, hc, ?_⟩
  have hs := set_time_range_eq p t h2 _ [] h4
  unfold oskar_MeasurementSet.close
  rw [hs]
  refine ⟨_, _, rfl, rfl, ?_⟩
  have hm : max (-DBL_MAX) (0 : ℚ) = 0 := max_eq_right (by linarith)
  simp [hc, h7, h8, hm]

/-- C25: the POLARIZATION row that `create` writes has the correlation types `[XX]` for one
polarisation and `[XX, XY, YX, YY]` (the codes 9, 10, 11, 12 of the enumeration) for four,
with `NUM_CORR` equal to the polarisation count and the receptor pairs `(0,0)`, `(0,1)`,
`(1,0)`, `(1,1)`; and the expansion of a scalar sample by the serializer (`put_expand`)
writes the scalar into the slots `0` and `3`, whose correlation types are XX and YY (equal
receptors), and zero into the slots `1` and `2`, whose types are XY and YX. -/
theorem create_polarization_row (filename app_name : String)
    (ra_rad dec_rad ref_freq chan_width : ℚ) (num_channels n : Nat)
    (write_autocorr write_crosscorr : Int) (nb : Nat)
    (hnb : create_num_baselines n write_autocorr write_crosscorr = some nb) :
    (∃ p t, oskar_ms_create false filename app_name ra_rad dec_rad 1 num_channels
        ref_freq chan_width n write_autocorr write_crosscorr = some p ∧
      p.ms = some t ∧ p.num_pols = 1 ∧
      t.polarization =
        [{ corrType := [Stokes.XX], corrProduct := [(0, 0)], numCorr := 1 }]) ∧
    (∃ p t, oskar_ms_create false filename app_name ra_rad dec_rad 4 num_channels
        ref_freq chan_width n write_autocorr write_crosscorr = some p ∧
      p.ms = some t ∧ p.num_pols = 4 ∧
      t.polarization =
        [{ corrType := [Stokes.XX, Stokes.XY, Stokes.YX, Stokes.YY],
           corrProduct := [(0, 0), (0, 1), (1, 0), (1, 1)], numCorr := 4 }] ∧
      ∀ (out : Nat → double2) (i_out : Nat) (src : Nat → double2) (i k : Nat) (c : Int),
        [Stokes.XX, Stokes.XY, Stokes.YX, Stokes.YY].get? k = some c →
        put_expand out i_out src i (i_out + k) =
          if c = Stokes.XX ∨ c = Stokes.YY then src i else double2.zero) ∧
    Stokes.XX = 9 ∧ Stokes.XY = 10 ∧ Stokes.YX = 11 ∧ Stokes.YY = 12 := by
  refine ⟨?_, ?_, rfl, rfl, rfl, rfl⟩
  · simp [oskar_ms_create, oskar_MeasurementSet.create, hnb,
      oskar_MeasurementSet.set_time_range, oskar_MeasurementSet.add_pol,
      oskar_MeasurementSet.add_field, oskar_MeasurementSet.add_band,
      oskar_MeasurementSet.init, Stokes.receptor1, Stokes.receptor2, Stokes.XX]
  · simp only [oskar_ms_create, oskar_MeasurementSet.create, hnb,
      oskar_MeasurementSet.set_time_range, oskar_MeasurementSet.add_pol,
      oskar_MeasurementSet.add_field, oskar_MeasurementSet.add_band,
      oskar_MeasurementSet.init]
    refine ⟨_, _, rfl, rfl, rfl, ?_, ?_⟩
    · simp [Stokes.receptor1, Stokes.receptor2, Stokes.XX, Stokes.XY, Stokes.YX, Stokes.YY,
        Stokes.Undefined]
    · intro out i_out src i k c hk
      have h4 : k = 0 ∨ k = 1 ∨ k = 2 ∨ k = 3 := by
        have : k < 4 := by
          by_contra hge
          have : [Stokes.XX, Stokes.XY, Stokes.YX, Stokes.YY].get? k = none :=
            List.get?_eq_none.mpr (by simp; omega)
          rw [this] at hk
          exact absurd hk (by simp)
        omega
      rcases h4 with rfl | rfl | rfl | rfl <;> simp at hk <;> subst hk <;>
        simp [put_expand, setAt, double2.zero, Stokes.XX, Stokes.XY, Stokes.YX, Stokes.YY]

theorem create_polarization_row_witness :
    (∃ p t, oskar_ms_create false "example.ms" "example" 0 0 1 1 0 0 2 0 1 = some p ∧
      p.ms = some t ∧ p.num_pols = 1 ∧
      t.polarization =
        [{ corrType := [Stokes.XX], corrProduct := [(0, 0)], numCorr := 1 }]) ∧
    (∃ p t, oskar_ms_create false "example.ms" "example" 0 0 4 1 0 0 2 0 1 = some p ∧
      p.ms = some t ∧ p.num_pols = 4 ∧
      t.polarization =
        [{ corrType := [Stokes.XX, Stokes.XY, Stokes.YX, Stokes.YY],
           corrProduct := [(0, 0), (0, 1), (1, 0), (1, 1)], numCorr := 4 }] ∧
      ∀ (out : Nat → double2) (i_out : Nat) (src : Nat → double2) (i k : Nat) (c : Int),
        [Stokes.XX, Stokes.XY, Stokes.YX, Stokes.YY].get? k = some c →
        put_expand out i_out src i (i_out + k) =
          if c = Stokes.XX ∨ c = Stokes.YY then src i else double2.zero) ∧
    Stokes.XX = 9 ∧ Stokes.XY = 10 ∧ Stokes.YX = 11 ∧ Stokes.YY = 12 :=
  create_polarization_row "example.ms" "example" 0 0 0 0 1 2 0 1 1 (by decide)

/-! ## The history rows (C23) -/

theorem getline_none (delim : Char) (s : List Char) : getline delim s = none ↔ s = [] := by
  cases s with
  | nil => simp [getline]
  | cons c rest =>
    simp only [getline]
    split
    · simp
    · split <;> simp

theorem getline_some (delim : Char) :
    ∀ (s item rest : List Char), getline delim s = some (item, rest) →
      delim ∉ item ∧
        (s = item ++ delim :: rest ∨ (s = item ∧ rest = [] ∧ item ≠ [])) := by
  intro s
  induction s with
  | nil => intro item rest h; simp [getline] at h
  | cons c tl ih =>
    intro item rest h
    simp only [getline] at h
    by_cases hc : c = delim
    · rw [if_pos hc] at h
      simp only [Option.some.injEq, Prod.mk.injEq] at h
      obtain ⟨h1, h2⟩ := h
      subst h1 h2 hc
      exact ⟨by simp, Or.inl rfl⟩
    · rw [if_neg hc] at h
      cases hg : getline delim tl with
      | none =>
        rw [hg] at h
        simp only [Option.some.injEq, Prod.mk.injEq] at h
        obtain ⟨h1, h2⟩ := h
        subst h1 h2
        have htl : tl = [] := (getline_none delim tl).mp hg
        subst htl
        exact ⟨by simpa using fun h => hc h.symm, Or.inr ⟨rfl, rfl, by simp⟩⟩
      | some r =>
        obtain ⟨item1, rest1⟩ := r
        rw [hg] at h
        simp only [Option.some.injEq, Prod.mk.injEq] at h
        obtain ⟨h1, h2⟩ := h
        subst h1 h2
        obtain ⟨hno, hcase⟩ := ih item1 rest1 hg
        refine ⟨?_, ?_⟩
        · intro hmem
          rcases List.mem_cons.mp hmem with h | h
          · exact hc h.symm
          · exact hno h
        · rcases hcase with h | ⟨h, hr, hne⟩
          · left
            rw [h]
            rfl
          · right
            exact ⟨by rw [h], hr, by simp⟩

theorem split_string_loop_spec (delim : Char) (fuel : Nat) :
    ∀ (s : List Char), s.length < fuel →
      (∀ item ∈ split_string_loop delim fuel s, delim ∉ item) ∧
      ((split_string_loop delim fuel s).map (fun item => item ++ [delim])).flatten =
        (if s = [] ∨ s.getLast? = some delim then s else s ++ [delim]) ∧
      (split_string_loop delim fuel s).length =
        s.count delim + (if s = [] ∨ s.getLast? = some delim then 0 else 1) := by
  induction fuel with
  | zero => intro s h; omega
  | succ k ih =>
    intro s hlen
    cases hg : getline delim s with
    | none =>
      have hs : s = [] := (getline_none delim s).mp hg
      subst hs
      simp [split_string_loop, getline]
    | some r =>
      obtain ⟨item, rest⟩ := r
      obtain ⟨hno, hcase⟩ := getline_some delim s item rest hg
      have hcount : item.count delim = 0 := List.count_eq_zero.mpr hno
      simp only [split_string_loop, hg]
      rcases hcase with h | ⟨h, hr, hne⟩
      · have hrl : rest.length < k := by
          rw [h] at hlen
          simp at hlen
          omega
        obtain ⟨i1, i2, i3⟩ := ih rest hrl
        have hsne : s ≠ [] := by rw [h]; simp
        have hlast : s.getLast? = some delim ↔ (rest = [] ∨ rest.getLast? = some delim) := by
          rw [h]
          cases rest with
          | nil => simp
          | cons a b =>
            have : (item ++ delim :: a :: b).getLast? = (a :: b).getLast? := by
              rw [List.getLast?_append_of_ne_nil _ (by simp)]
              simp [List.getLast?_cons_cons]
            rw [this]
            simp
        refine ⟨?_, ?_, ?_⟩
        · intro x hx
          rcases List.mem_cons.mp hx with hx | hx
          · rw [hx]; exact hno
          · exact i1 x hx
        · rw [List.map_cons, List.flatten_cons, i2]
          by_cases hr : rest = [] ∨ rest.getLast? = some delim
          · have hl := hlast.mpr hr
            simp only [hsne, false_or, hl, if_true, hr]
            rw [h]
            simp
          · have hl : ¬ s.getLast? = some delim := fun hl => hr (hlast.mp hl)
            simp only [hsne, false_or, hl, if_false, hr]
            rw [h]
            simp
        · rw [List.length_cons, i3]
          have hc : s.count delim = rest.count delim + 1 := by
            rw [h, List.count_append, hcount, List.count_cons_self]
            omega
          by_cases hr : rest = [] ∨ rest.getLast? = some delim
          · have hl := hlast.mpr hr
            simp only [hsne, false_or, hl, if_true, hr, hc]
          · have hl : ¬ s.getLast? = some delim := fun hl => hr (hlast.mp hl)
            simp only [hsne, false_or, hl, if_false, hr, hc]
      · subst hr
        subst h
        have hlast : ¬ s.getLast? = some delim := by
          intro hl
          exact hno (List.mem_of_mem_getLast? hl)
        have hnil : split_string_loop delim k [] = [] := by
          cases k <;> simp [split_string_loop, getline]
        rw [hnil]
        refine ⟨?_, ?_, ?_⟩
        · intro x hx
          simp at hx
          rw [hx]; exact hno
        · simp [hne, hlast]
        · simp [hne, hlast, hcount]

theorem add_history_loop (p : oskar_MeasurementSet) (t : Table) (hp : p.ms = some t)
    (origin : String) (time : ℚ) (v : List (List Char)) (n : Nat) (hn : n ≤ v.length) :
    forLoop (fun i p => p.add_history (String.mk (v.getD i [])) origin time []) 0 n p =
      { p with
        ms := some { t with
          history := t.history ++ (v.take n).map (fun l =>
            { message := String.mk l, application := p.app_name, priority := "INFO",
              origin := origin, time := time, observationId := -1, appParams := [],
              cliCommand := [] }) } } := by
  induction n with
  | zero =>
    cases p
    simp only at hp
    subst hp
    simp [forLoop]
  | succ k ih =>
    rw [forLoop_succ_last, ih (by omega)]
    have hk : k < v.length := by omega
    have htake : v.take (k + 1) = v.take k ++ [v.getD k []] := by
      rw [List.take_succ, List.getD_eq_getElem _ _ hk, List.getElem?_eq_getElem hk]
      rfl
    simp [oskar_MeasurementSet.add_history, htake]

theorem oskar_ms_add_history_eq (clock : tm) (p : oskar_MeasurementSet) (t : Table)
    (hp : p.ms = some t) (origin : String) (str : List Char) (size : Nat) :
    oskar_ms_add_history clock p origin (some str) size =
      { p with
        ms := some { t with
          history := t.history ++ (split_string (str.take size) '\n').map (fun l =>
            { message := String.mk l, application := p.app_name, priority := "INFO",
              origin := origin, time := roundDouble (86400 * current_utc_to_mjd clock),
              observationId := -1, appParams := [], cliCommand := [] }) } } := by
  by_cases hsize : size = 0
  · subst hsize
    cases p
    simp only at hp
    subst hp
    simp [oskar_ms_add_history, split_string, split_string_loop, getline]
  · simp only [oskar_ms_add_history, hsize, if_false]
    rw [add_history_loop p t hp origin _ _ _ (le_refl _), List.take_length]

/-- C23: on an open store `oskar_ms_add_history` returns the store with one new HISTORY row
for each line of the text (the first `size` characters of `str`), appended in order after
the rows already there; each row holds its line as the message, the application name, the
origin and the same time, the `double` product of `86400` and `current_utc_to_mjd` of the
clock.  The lines contain no newline and, each followed by a newline, concatenate to the
text with a final newline supplied if the text is not empty and lacks one: a line ends at
each newline, a trailing newline starts no further line, and an empty segment is a line.
Their number is the number of newlines plus one for a non-empty text that does not end in
a newline.  The main table is untouched, and a null pointer or a zero size appends
nothing. -/
theorem add_history_rows (clock : tm) (p : oskar_MeasurementSet) (t : Table)
    (hp : p.ms = some t) (origin : String) (str : List Char) (size : Nat) :
    ∃ (t1 : Table) (lines : List (List Char)),
      (oskar_ms_add_history clock p origin (some str) size).ms = some t1 ∧
      t1.history = t.history ++ lines.map (fun l =>
        { message := String.mk l, application := p.app_name, priority := "INFO",
          origin := origin, time := roundDouble (86400 * current_utc_to_mjd clock),
          observationId := -1, appParams := [], cliCommand := [] }) ∧
      (∀ l ∈ lines, '\n' ∉ l) ∧
      (lines.map (fun l => l ++ ['\n'])).flatten =
        (if str.take size = [] ∨ (str.take size).getLast? = some '\n' then str.take size
          else str.take size ++ ['\n']) ∧
      lines.length = (str.take size).count '\n' +
        (if str.take size = [] ∨ (str.take size).getLast? = some '\n' then 0 else 1) ∧
      t1.nrow = t.nrow ∧ t1.desc = t.desc ∧ t1.cell = t.cell ∧
      oskar_ms_add_history clock p origin none size = p ∧
      oskar_ms_add_history clock p origin (some str) 0 = p := by
  obtain ⟨h1, h2, h3⟩ := split_string_loop_spec '\n' ((str.take size).length + 1)
    (str.take size) (by omega)
  rw [oskar_ms_add_history_eq clock p t hp origin str size]
  exact ⟨_, split_string (str.take size) '\n', rfl, rfl, h1, h2, h3, rfl, rfl, rfl,
    by simp [oskar_ms_add_history], by simp [oskar_ms_add_history]⟩

theorem add_history_rows_witness :
    ∃ (t1 : Table) (lines : List (List Char)),
      (oskar_ms_add_history example_clock example_store_observed "example"
        (some ['a', '\n', '\n', 'b', '\n', 'c']) 5).ms = some t1 ∧
      t1.history = example_table_observed.history ++ lines.map (fun l =>
        { message := String.mk l, application := example_store_observed.app_name,
          priority := "INFO", origin := "example",
          time := roundDouble (86400 * current_utc_to_mjd example_clock),
          observationId := -1, appParams := [], cliCommand := [] }) ∧
      (∀ l ∈ lines, '\n' ∉ l) ∧
      (lines.map (fun l => l ++ ['\n'])).flatten =
        (if ['a', '\n', '\n', 'b', '\n', 'c'].take 5 = [] ∨
            (['a', '\n', '\n', 'b', '\n', 'c'].take 5).getLast? = some '\n'
          then ['a', '\n', '\n', 'b', '\n', 'c'].take 5
          else ['a', '\n', '\n', 'b', '\n', 'c'].take 5 ++ ['\n']) ∧
      lines.length = (['a', '\n', '\n', 'b', '\n', 'c'].take 5).count '\n' +
        (if ['a', '\n', '\n', 'b', '\n', 'c'].take 5 = [] ∨
            (['a', '\n', '\n', 'b', '\n', 'c'].take 5).getLast? = some '\n'
          then 0 else 1) ∧
      t1.nrow = example_table_observed.nrow ∧ t1.desc = example_table_observed.desc ∧
      t1.cell = example_table_observed.cell ∧
      oskar_ms_add_history example_clock example_store_observed "example" none 5
        = example_store_observed ∧
      oskar_ms_add_history example_clock example_store_observed "example"
        (some ['a', '\n', '\n', 'b', '\n', 'c']) 0 = example_store_observed :=
  add_history_rows example_clock example_store_observed example_table_observed rfl "example"
    ['a', '\n', '\n', 'b', '\n', 'c'] 5

theorem split_string_example :
    split_string ['a', '\n', '\n', 'b', '\n'] '\n' = [['a'], [], ['b']] ∧
    split_string ['\n'] '\n' = [[]] ∧ split_string [] '\n' = [] ∧
    split_string ['a', 'b'] '\n' = [['a', 'b']] := by
  refine ⟨by decide, by decide, by decide, by decide⟩

/-! ## The Modified Julian Date of the clock (C27) -/

theorem gregorian_leap_iff (y : Nat) :
    gregorian_leap y = true ↔ (y % 4 = 0 ∧ y % 100 ≠ 0) ∨ y % 400 = 0 := by
  simp [gregorian_leap]

theorem gregorian_days_before_year_closed (y : Nat) :
    gregorian_days_before_year y + (y + 99) / 100 =
      365 * y + (y + 3) / 4 + (y + 399) / 400 := by
  induction y with
  | zero => simp [gregorian_days_before_year]
  | succ k ih =>
    simp only [gregorian_days_before_year]
    by_cases hl : gregorian_leap k = true
    · rw [if_pos hl]
      rw [gregorian_leap_iff] at hl
      omega
    · rw [if_neg hl]
      rw [gregorian_leap_iff] at hl
      omega

theorem gregorian_days_before_month_closed (year month : Nat)
    (hm : 1 ≤ month ∧ month ≤ 12) :
    gregorian_days_before_month year month =
      if month ≤ 2 then 31 * (month - 1)
      else (153 * (month - 3) + 2) / 5 + 59 + (if gregorian_leap year = true then 1 else 0) := by
  obtain ⟨h1, h12⟩ := hm
  interval_cases month <;>
    simp [gregorian_days_before_month, gregorian_month_days] <;>
    split <;> rfl

theorem jdn_eq (year month day : Nat) (hm : 1 ≤ month ∧ month ≤ 12) (hd : 1 ≤ day)
    (a y m : Int) (ha : a = (14 - ((month : Int) - 1 + 1)) / 12)
    (hy : y = (((year : Int) - 1900) + 1900) + 4800 - a)
    (hm1 : m = ((month : Int) - 1 + 1) + 12 * a - 3) :
    (day : Int) + (153 * m + 2) / 5 + 365 * y + y / 4 - y / 100 + y / 400 - 32045
      = (gregorian_days year month day : Int) + 1721060 := by
  have hD := gregorian_days_before_year_closed year
  have hL := gregorian_leap_iff year
  have hM := gregorian_days_before_month_closed year month hm
  unfold gregorian_days
  by_cases h2 : month ≤ 2
  · rw [if_pos h2] at hM
    have ha1 : a = 1 := by omega
    subst ha1
    omega
  · rw [if_neg h2] at hM
    have ha0 : a = 0 := by omega
    subst ha0
    by_cases hl : gregorian_leap year = true
    · rw [if_pos hl] at hM
      rw [hL] at hl
      omega
    · rw [if_neg hl] at hM
      rw [hL] at hl
      omega

theorem gregorian_days_epoch : gregorian_days 1858 11 17 = 678941 := by
  have hD := gregorian_days_before_year_closed 1858
  have hM := gregorian_days_before_month_closed 1858 11 (by omega)
  have hl : gregorian_leap 1858 = false := by decide
  rw [hl] at hM
  simp at hM
  unfold gregorian_days
  omega

/-- The Julian Day Number that `current_utc_to_mjd` computes in `int`. -/
theorem jdn_tdiv (year month day : Nat) (hm : 1 ≤ month ∧ month ≤ 12) (hd : 1 ≤ day) :
    (day : Int) + Int.tdiv (153 * (((month : Int) - 1 + 1)
        + 12 * Int.tdiv (14 - ((month : Int) - 1 + 1)) 12 - 3) + 2) 5
      + 365 * ((((year : Int) - 1900) + 1900) + 4800
        - Int.tdiv (14 - ((month : Int) - 1 + 1)) 12)
      + Int.tdiv ((((year : Int) - 1900) + 1900) + 4800
        - Int.tdiv (14 - ((month : Int) - 1 + 1)) 12) 4
      - Int.tdiv ((((year : Int) - 1900) + 1900) + 4800
        - Int.tdiv (14 - ((month : Int) - 1 + 1)) 12) 100
      + Int.tdiv ((((year : Int) - 1900) + 1900) + 4800
        - Int.tdiv (14 - ((month : Int) - 1 + 1)) 12) 400 - 32045
      = (gregorian_days year month day : Int) + 1721060 := by
  have ha0 : (0 : Int) ≤ 14 - ((month : Int) - 1 + 1) := by omega
  have ha : Int.tdiv (14 - ((month : Int) - 1 + 1)) 12 = (14 - ((month : Int) - 1 + 1)) / 12 :=
    Int.tdiv_eq_ediv ha0 (by omega)
  have hale : (14 - ((month : Int) - 1 + 1)) / 12 ≤ 1 := by omega
  have hage : 0 ≤ (14 - ((month : Int) - 1 + 1)) / 12 := by omega
  have hmonth3 : 3 ≤ (month : Int) + 12 * ((14 - ((month : Int) - 1 + 1)) / 12) := by omega
  have hj := jdn_eq year month day hm hd _ _ _ rfl rfl rfl
  simp only [ha]
  rw [Int.tdiv_eq_ediv (by omega) (by omega), Int.tdiv_eq_ediv (by omega) (by omega),
    Int.tdiv_eq_ediv (by omega) (by omega), Int.tdiv_eq_ediv (by omega) (by omega)]
  rw [← hj]

theorem gregorian_days_le (year month day : Nat) (hm : 1 ≤ month ∧ month ≤ 12)
    (hd : day ≤ 31) : gregorian_days year month day ≤ 366 * year + 366 := by
  have hD := gregorian_days_before_year_closed year
  have hM := gregorian_days_before_month_closed year month hm
  unfold gregorian_days
  by_cases h2 : month ≤ 2
  · rw [if_pos h2] at hM
    omega
  · rw [if_neg h2] at hM
    split at hM <;> omega

theorem gregorian_month_days_le (year month : Nat) : gregorian_month_days year month ≤ 31 := by
  unfold gregorian_month_days
  repeat' split
  all_goals omega

/-- The day fraction computed in `double` lies within `9 / 2 ^ 54` of the exact one. -/
theorem day_fraction_error (h m s : Nat) (hh : h ≤ 23) (hm : m ≤ 59) (hs : s ≤ 60) :
    |roundDouble (roundDouble (roundDouble ((h : ℚ) / 24) + roundDouble ((m : ℚ) / 1440))
        + roundDouble ((s : ℚ) / 86400))
      - ((h : ℚ) / 24 + (m : ℚ) / 1440 + (s : ℚ) / 86400)| ≤ 9 / 2 ^ 54 := by
  have hhq : (h : ℚ) ≤ 23 := by exact_mod_cast hh
  have hh0 : (0 : ℚ) ≤ h := Nat.cast_nonneg h
  have hmq : (m : ℚ) ≤ 59 := by exact_mod_cast hm
  have hm0 : (0 : ℚ) ≤ m := Nat.cast_nonneg m
  have hsq : (s : ℚ) ≤ 60 := by exact_mod_cast hs
  have hs0 : (0 : ℚ) ≤ s := Nat.cast_nonneg s
  obtain ⟨l1, u1⟩ := roundDouble_near 0 ((h : ℚ) / 24) (1 / 2 ^ 54)
    (by rw [abs_lt]; constructor <;> norm_num <;> linarith) (by norm_num) (by norm_num)
  obtain ⟨l2, u2⟩ := roundDouble_near 0 ((m : ℚ) / 1440) (1 / 2 ^ 54)
    (by rw [abs_lt]; constructor <;> norm_num <;> linarith) (by norm_num) (by norm_num)
  obtain ⟨l3, u3⟩ := roundDouble_near 0 ((s : ℚ) / 86400) (1 / 2 ^ 54)
    (by rw [abs_lt]; constructor <;> norm_num <;> linarith) (by norm_num) (by norm_num)
  generalize roundDouble ((h : ℚ) / 24) = a1 at l1 u1 ⊢
  generalize roundDouble ((m : ℚ) / 1440) = a2 at l2 u2 ⊢
  generalize roundDouble ((s : ℚ) / 86400) = a3 at l3 u3 ⊢
  obtain ⟨l4, u4⟩ := roundDouble_near 1 (a1 + a2) (1 / 2 ^ 53)
    (by rw [abs_lt]; constructor <;> norm_num <;> linarith) (by norm_num) (by norm_num)
  generalize roundDouble (a1 + a2) = s1 at l4 u4 ⊢
  obtain ⟨l5, u5⟩ := roundDouble_near 2 (s1 + a3) (1 / 2 ^ 52)
    (by rw [abs_lt]; constructor <;> norm_num <;> linarith) (by norm_num) (by norm_num)
  generalize roundDouble (s1 + a3) = s2 at l5 u5 ⊢
  rw [abs_le]
  norm_num at l1 u1 l2 u2 l3 u3 l4 u4 l5 u5 ⊢
  constructor <;> linarith

/-- The three last operations of `current_utc_to_mjd`: for a day number `J` with
`J + 3 <= 2 ^ k` and a day fraction `d` between `-1` and `2`, each operation is off by at
most half a unit in the last place at `2 ^ k`. -/
theorem mjd_sum_error (k : Int) (hk1 : 22 ≤ k) (hk2 : k ≤ 40) (J : Int) (hJ0 : 0 ≤ J)
    (hJ : (J : ℚ) + 3 ≤ (2 : ℚ) ^ k) (d : ℚ) (hd0 : -1 ≤ d) (hd1 : d ≤ 2) :
    |roundDouble (roundDouble (roundDouble ((J : ℚ) + d) - 2400000.5) - 0.5)
      - ((J : ℚ) - 2400001 + d)| ≤ 3 * ((2 : ℚ) ^ (k - 53) / 2) := by
  have hJ0q : (0 : ℚ) ≤ J := by exact_mod_cast hJ0
  have h22 : (2 : ℚ) ^ (22 : Int) ≤ 2 ^ k := zpow_le_zpow_right₀ (by norm_num) hk1
  have h22v : (2 : ℚ) ^ (22 : Int) = 4194304 := by norm_num
  rw [h22v] at h22
  have hε : (2 : ℚ) ^ (k - 53) ≤ 2 ^ (-13 : Int) := zpow_le_zpow_right₀ (by norm_num) (by omega)
  have h13 : (2 : ℚ) ^ (-13 : Int) = 1 / 8192 := by
    rw [zpow_neg]
    norm_num
  rw [h13] at hε
  have hεpos : (0 : ℚ) < 2 ^ (k - 53) := zpow_pos (by norm_num) _
  have hb1 : |(J : ℚ) + d| < (2 : ℚ) ^ k := by
    rw [abs_lt]
    constructor <;> linarith
  obtain ⟨l6, u6⟩ := roundDouble_near k ((J : ℚ) + d) _ hb1 (by omega) (le_refl _)
  generalize roundDouble ((J : ℚ) + d) = r1 at l6 u6 ⊢
  have hb2 : |r1 - 2400000.5| < (2 : ℚ) ^ k := by
    rw [abs_lt]
    constructor <;> norm_num <;> linarith
  obtain ⟨l7, u7⟩ := roundDouble_near k (r1 - 2400000.5) _ hb2 (by omega) (le_refl _)
  generalize roundDouble (r1 - 2400000.5) = r2 at l7 u7 ⊢
  have hb3 : |r2 - 0.5| < (2 : ℚ) ^ k := by
    rw [abs_lt]
    constructor <;> norm_num at l7 u7 ⊢ <;> linarith
  obtain ⟨l8, u8⟩ := roundDouble_near k (r2 - 0.5) _ hb3 (by omega) (le_refl _)
  generalize roundDouble (r2 - 0.5) = r3 at l8 u8 ⊢
  rw [abs_le]
  norm_num at l7 u7 l8 u8 ⊢
  constructor <;> linarith

theorem current_utc_to_mjd_unfold (year month day hour minute second : Nat)
    (hmonth : 1 ≤ month ∧ month ≤ 12) (hday : 1 ≤ day) :
    current_utc_to_mjd (clock_at year month day hour minute second)
      = roundDouble (roundDouble (roundDouble
          ((((gregorian_days year month day : Int) + 1721060 : Int) : ℚ)
            + roundDouble (roundDouble (roundDouble ((hour : ℚ) / 24)
                + roundDouble ((minute : ℚ) / 1440)) + roundDouble ((second : ℚ) / 86400)))
          - 2400000.5) - 0.5) := by
  unfold current_utc_to_mjd clock_at
  simp only [Int.cast_natCast]
  rw [jdn_tdiv year month day hmonth hday]

theorem modified_julian_date_eq (year month day hour minute second : Nat) :
    modified_julian_date year month day hour minute second
      = (((gregorian_days year month day : Int) + 1721060 : Int) : ℚ) - 2400001
        + ((hour : ℚ) / 24 + (minute : ℚ) / 1440 + (second : ℚ) / 86400) := by
  unfold modified_julian_date
  rw [gregorian_days_epoch]
  push_cast
  ring

/-- The value of `current_utc_to_mjd` lies within three half units in the last place at
`2 ^ k`, and the error of the day fraction, of the Modified Julian Date. -/
theorem current_utc_to_mjd_error (k : Int) (hk1 : 22 ≤ k) (hk2 : k ≤ 40)
    (year month day hour minute second : Nat)
    (hmonth : 1 ≤ month ∧ month ≤ 12) (hday : 1 ≤ day)
    (hJ : (gregorian_days year month day : ℚ) + 1721063 ≤ (2 : ℚ) ^ k)
    (hhour : hour ≤ 23) (hminute : minute ≤ 59) (hsecond : second ≤ 60) :
    |current_utc_to_mjd (clock_at year month day hour minute second)
      - modified_julian_date year month day hour minute second|
      ≤ 3 * ((2 : ℚ) ^ (k - 53) / 2) + 9 / 2 ^ 54 := by
  rw [current_utc_to_mjd_unfold year month day hour minute second hmonth hday,
    modified_julian_date_eq]
  have hhq : (hour : ℚ) ≤ 23 := by exact_mod_cast hhour
  have hh0 : (0 : ℚ) ≤ hour := Nat.cast_nonneg hour
  have hmq : (minute : ℚ) ≤ 59 := by exact_mod_cast hminute
  have hm0 : (0 : ℚ) ≤ minute := Nat.cast_nonneg minute
  have hsq : (second : ℚ) ≤ 60 := by exact_mod_cast hsecond
  have hs0 : (0 : ℚ) ≤ second := Nat.cast_nonneg second
  have hdf := day_fraction_error hour minute second hhour hminute hsecond
  generalize roundDouble (roundDouble (roundDouble ((hour : ℚ) / 24)
    + roundDouble ((minute : ℚ) / 1440)) + roundDouble ((second : ℚ) / 86400)) = d at hdf ⊢
  rw [abs_le] at hdf
  obtain ⟨hd1, hd2⟩ := hdf
  have hs := mjd_sum_error k hk1 hk2 ((gregorian_days year month day : Int) + 1721060)
    (by positivity) (by push_cast; linarith) d
    (by norm_num at hd1 hd2 ⊢; linarith) (by norm_num at hd1 hd2 ⊢; linarith)
  rw [abs_le] at hs ⊢
  obtain ⟨hs1, hs2⟩ := hs
  constructor <;> linarith

/-- At a time of day that is a whole multiple of 675 seconds (1 / 128 day) the value of
`current_utc_to_mjd` is the Modified Julian Date. -/
theorem current_utc_to_mjd_exact (year month day hour minute second : Nat)
    (hmonth : 1 ≤ month ∧ month ≤ 12) (hday : 1 ≤ day)
    (hJ : gregorian_days year month day ≤ 2000000000)
    (hhour : hour ≤ 23) (hminute : minute ≤ 59) (hsecond : second ≤ 60)
    (hT : (3600 * hour + 60 * minute + second) % 675 = 0) :
    current_utc_to_mjd (clock_at year month day hour minute second)
      = modified_julian_date year month day hour minute second := by
  rw [current_utc_to_mjd_unfold year month day hour minute second hmonth hday,
    modified_julian_date_eq]
  have hdf := day_fraction_error hour minute second hhour hminute hsecond
  generalize roundDouble (roundDouble (roundDouble ((hour : ℚ) / 24)
    + roundDouble ((minute : ℚ) / 1440)) + roundDouble ((second : ℚ) / 86400)) = d at hdf ⊢
  obtain ⟨c, hc⟩ : ∃ c, 3600 * hour + 60 * minute + second = 675 * c :=
    ⟨(3600 * hour + 60 * minute + second) / 675, by omega⟩
  have hc128 : c ≤ 128 := by omega
  have hfrac : (hour : ℚ) / 24 + (minute : ℚ) / 1440 + (second : ℚ) / 86400 = (c : ℚ) / 128 := by
    have : (3600 * (hour : ℚ) + 60 * minute + second) = 675 * c := by exact_mod_cast hc
    field_simp
    linarith
  rw [hfrac] at hdf ⊢
  generalize hG : (gregorian_days year month day : Int) + 1721060 = J
  have hJ1 : 1721060 ≤ J := by omega
  have hJ2 : J ≤ 2001721060 := by omega
  have hJ1q : (1721060 : ℚ) ≤ J := by exact_mod_cast hJ1
  have hJ2q : (J : ℚ) ≤ 2001721060 := by exact_mod_cast hJ2
  have hcq : (c : ℚ) ≤ 128 := by exact_mod_cast hc128
  have hc0 : (0 : ℚ) ≤ c := Nat.cast_nonneg c
  rw [abs_le] at hdf
  obtain ⟨hd1, hd2⟩ := hdf
  have h1 : roundDouble ((J : ℚ) + d) = ((128 * J + c : Int) : ℚ) / 128 := by
    apply roundDouble_snap
    · norm_num at hd1 hd2 ⊢
      linarith
    · norm_num at hd1 hd2 ⊢
      linarith
    · rw [abs_le]
      push_cast
      norm_num at hd1 hd2 ⊢
      constructor <;> linarith
  have h2 : roundDouble (((128 * J + c : Int) : ℚ) / 128 - 2400000.5)
      = ((128 * J + c - 307200064 : Int) : ℚ) / 128 := by
    have e : ((128 * J + c : Int) : ℚ) / 128 - 2400000.5
        = ((128 * J + c - 307200064 : Int) : ℚ) / 128 := by
      push_cast
      norm_num
      ring
    rw [e]
    apply roundDouble_div_128
    rw [abs_lt]
    constructor <;> omega
  have h3 : roundDouble (((128 * J + c - 307200064 : Int) : ℚ) / 128 - 0.5)
      = ((128 * J + c - 307200128 : Int) : ℚ) / 128 := by
    have e : ((128 * J + c - 307200064 : Int) : ℚ) / 128 - 0.5
        = ((128 * J + c - 307200128 : Int) : ℚ) / 128 := by
      push_cast
      norm_num
      ring
    rw [e]
    apply roundDouble_div_128
    rw [abs_lt]
    constructor <;> omega
  rw [h1, h2, h3]
  push_cast
  ring

/-- A value of `current_utc_to_mjd` that is the Modified Julian Date is found only at a
time of day that is a whole multiple of 675 seconds: a `double` is a whole multiple of a
power of two, and `86400 = 128 * 675`. -/
theorem current_utc_to_mjd_exact_only (year month day hour minute second : Nat)
    (hmonth : 1 ≤ month ∧ month ≤ 12) (hday : 1 ≤ day)
    (h : current_utc_to_mjd (clock_at year month day hour minute second)
      = modified_julian_date year month day hour minute second) :
    (3600 * hour + 60 * minute + second) % 675 = 0 := by
  rw [current_utc_to_mjd_unfold year month day hour minute second hmonth hday,
    modified_julian_date_eq] at h
  obtain ⟨n, z, hz⟩ := roundDouble_grid (roundDouble (roundDouble
          ((((gregorian_days year month day : Int) + 1721060 : Int) : ℚ)
            + roundDouble (roundDouble (roundDouble ((hour : ℚ) / 24)
                + roundDouble ((minute : ℚ) / 1440)) + roundDouble ((second : ℚ) / 86400)))
          - 2400000.5) - 0.5)
  rw [h] at hz
  generalize (gregorian_days year month day : Int) + 1721060 = J at hz
  have hq : (((3600 * hour + 60 * minute + second : Nat) : Int) : ℚ) * 2 ^ n
      = ((86400 * (z - (J - 2400001) * 2 ^ n) : Int) : ℚ) := by
    push_cast
    rw [← hz]
    field_simp
    ring
  have hi : ((3600 * hour + 60 * minute + second : Nat) : Int) * 2 ^ n
      = 86400 * (z - (J - 2400001) * 2 ^ n) := by exact_mod_cast hq
  have hdvd : (675 : Int) ∣ ((3600 * hour + 60 * minute + second : Nat) : Int) * 2 ^ n := by
    rw [hi]
    exact ⟨128 * (z - (J - 2400001) * 2 ^ n), by ring⟩
  have hco : IsCoprime (675 : Int) (2 ^ n) :=
    IsCoprime.pow_right ⟨1, -337, by norm_num⟩
  have := hco.dvd_of_dvd_mul_right hdvd
  have := Int.natCast_dvd_natCast.1 this
  omega

/-- The product `86400.0 * current_utc_to_mjd()` in `double`. -/
theorem history_time_error (K : Int) (c m δ : ℚ) (hK : -1022 < K)
    (hc : |86400 * c| < (2 : ℚ) ^ K) (hcm : |c - m| ≤ δ) :
    |roundDouble (86400 * c) - 86400 * m| ≤ (2 : ℚ) ^ (K - 53) / 2 + 86400 * δ := by
  have h := roundDouble_error K (86400 * c) hc hK
  rw [abs_le] at h hcm ⊢
  constructor <;> linarith [h.1, h.2, hcm.1, hcm.2]

theorem modified_julian_date_bounds (year month day hour minute second : Nat)
    (hhour : hour ≤ 23) (hminute : minute ≤ 59) (hsecond : second ≤ 60) :
    -678941 ≤ modified_julian_date year month day hour minute second ∧
    modified_julian_date year month day hour minute second
      ≤ (gregorian_days year month day : ℚ) - 678940 := by
  rw [modified_julian_date_eq]
  have hhq : (hour : ℚ) ≤ 23 := by exact_mod_cast hhour
  have hh0 : (0 : ℚ) ≤ hour := Nat.cast_nonneg hour
  have hmq : (minute : ℚ) ≤ 59 := by exact_mod_cast hminute
  have hm0 : (0 : ℚ) ≤ minute := Nat.cast_nonneg minute
  have hsq : (second : ℚ) ≤ 60 := by exact_mod_cast hsecond
  have hs0 : (0 : ℚ) ≤ second := Nat.cast_nonneg second
  have hg : (0 : ℚ) ≤ gregorian_days year month day := Nat.cast_nonneg _
  push_cast
  constructor
  · have : (0 : ℚ) ≤ (hour : ℚ) / 24 + (minute : ℚ) / 1440 + (second : ℚ) / 86400 := by
      positivity
    linarith
  · have : (hour : ℚ) / 24 + (minute : ℚ) / 1440 + (second : ℚ) / 86400 ≤ 1 := by
      rw [div_add_div _ _ (by norm_num) (by norm_num), div_add_div _ _ (by norm_num) (by norm_num),
        div_le_one (by norm_num)]
      linarith
    linarith

/-- The History time at a time of day that is a whole multiple of 675 seconds. -/
theorem history_time_exact (year month day hour minute second : Nat)
    (hJ : gregorian_days year month day ≤ 2000000000)
    (hhour : hour ≤ 23) (hminute : minute ≤ 59) (hsecond : second ≤ 60)
    (hT : (3600 * hour + 60 * minute + second) % 675 = 0) :
    roundDouble (86400 * modified_julian_date year month day hour minute second)
      = 86400 * modified_julian_date year month day hour minute second := by
  obtain ⟨c, hc⟩ : ∃ c, 3600 * hour + 60 * minute + second = 675 * c :=
    ⟨(3600 * hour + 60 * minute + second) / 675, by omega⟩
  have hc128 : c ≤ 128 := by omega
  have hfrac : (hour : ℚ) / 24 + (minute : ℚ) / 1440 + (second : ℚ) / 86400 = (c : ℚ) / 128 := by
    have : (3600 * (hour : ℚ) + 60 * minute + second) = 675 * c := by exact_mod_cast hc
    field_simp
    linarith
  rw [modified_julian_date_eq, hfrac]
  have e : 86400 * ((((gregorian_days year month day : Int) + 1721060 : Int) : ℚ) - 2400001
        + (c : ℚ) / 128)
      = ((86400 * ((gregorian_days year month day : Int) - 678941) + 675 * c : Int) : ℚ) := by
    push_cast
    ring
  rw [e]
  apply roundDouble_int
  rw [abs_lt]
  constructor <;> omega

theorem roundDouble_eval (x : ℚ) (e z : Int) (he : -1022 ≤ e)
    (h1 : (2 : ℚ) ^ e ≤ x) (h2 : x < (2 : ℚ) ^ (e + 1))
    (hz : |x / (2 : ℚ) ^ (e - 52) - z| < 1 / 2) :
    roundDouble x = (z : ℚ) * (2 : ℚ) ^ (e - 52) := by
  have hmax : max e (-1022) - (((53 : ℕ) : Int) - 1) = e - 52 := by
    rw [max_eq_left he]
    norm_num
  have := roundBinary_eval 53 (-1022) x e z h1 h2 (by rw [hmax]; exact hz)
  rw [hmax] at this
  exact this

theorem clock_at_example : clock_at 2000 1 1 0 0 0 = example_clock := by
  unfold clock_at example_clock
  norm_num

theorem clock_at_example_one_hour : clock_at 2000 1 1 1 0 0 = example_clock_one_hour := by
  unfold clock_at example_clock_one_hour
  norm_num

theorem roundDouble_one_hour :
    roundDouble ((1 : ℚ) / 24) = 6004799503160661 / 144115188075855872 := by
  have h57 : (2 : ℚ) ^ (-5 - 52 : Int) = 1 / 144115188075855872 := by
    rw [show (-5 - 52 : Int) = -57 by norm_num, zpow_neg]
    norm_num
  have h := roundDouble_eval (1 / 24) (-5) 6004799503160661 (by norm_num)
    (by rw [zpow_neg]; norm_num) (by norm_num [zpow_neg])
    (by rw [h57, abs_lt]; constructor <;> norm_num)
  rw [h, h57]
  norm_num

theorem current_utc_to_mjd_one_hour :
    current_utc_to_mjd example_clock_one_hour = 110689986630997 / 2147483648 := by
  have h31 : (2 : ℚ) ^ (21 - 52 : Int) = 1 / 2147483648 := by
    rw [show (21 - 52 : Int) = -31 by norm_num, zpow_neg]
    norm_num
  have h0 : roundDouble ((0 : ℚ) / 1440) = 0 := by rw [zero_div, roundDouble_zero]
  have h0s : roundDouble ((0 : ℚ) / 86400) = 0 := by rw [zero_div, roundDouble_zero]
  have hs : roundDouble ((6004799503160661 : ℚ) / 144115188075855872 + 0)
      = 6004799503160661 / 144115188075855872 := by
    have := roundDouble_exact 6004799503160661 (-57) (by norm_num) (by norm_num)
    have e : ((6004799503160661 : Int) : ℚ) * (2 : ℚ) ^ (-57 : Int)
        = (6004799503160661 : ℚ) / 144115188075855872 + 0 := by
      rw [zpow_neg]
      norm_num
    rw [e] at this
    rw [this, add_zero]
  have h1 : roundDouble ((2451545 : ℚ) + 6004799503160661 / 144115188075855872)
      = 5264652889314645 / 2147483648 := by
    have h := roundDouble_eval ((2451545 : ℚ) + 6004799503160661 / 144115188075855872) 21
      5264652889314645 (by norm_num) (by norm_num) (by norm_num)
      (by rw [h31, abs_lt]; constructor <;> norm_num)
    rw [h, h31]
    norm_num
  have h2 : roundDouble ((5264652889314645 : ℚ) / 2147483648 - 2400000.5)
      = 110691060372821 / 2147483648 := by
    have := roundDouble_exact 110691060372821 (-31) (by norm_num) (by norm_num)
    have e : ((110691060372821 : Int) : ℚ) * (2 : ℚ) ^ (-31 : Int)
        = (5264652889314645 : ℚ) / 2147483648 - 2400000.5 := by
      rw [zpow_neg]
      norm_num
    rw [e] at this
    rw [this]
    norm_num
  have h3 : roundDouble ((110691060372821 : ℚ) / 2147483648 - 0.5)
      = 110689986630997 / 2147483648 := by
    have := roundDouble_exact 110689986630997 (-31) (by norm_num) (by norm_num)
    have e : ((110689986630997 : Int) : ℚ) * (2 : ℚ) ^ (-31 : Int)
        = (110691060372821 : ℚ) / 2147483648 - 0.5 := by
      rw [zpow_neg]
      norm_num
    rw [e] at this
    rw [this]
    norm_num
  have hu := current_utc_to_mjd_unfold 2000 1 1 1 0 0 (by omega) (by omega)
  have hg : gregorian_days 2000 1 1 = 730485 := by
    have hD := gregorian_days_before_year_closed 2000
    have hM := gregorian_days_before_month_closed 2000 1 (by omega)
    simp at hM
    unfold gregorian_days
    omega
  rw [clock_at_example_one_hour, hg] at hu
  rw [hu]
  simp only [Nat.cast_ofNat, Nat.cast_zero, Nat.cast_one, Int.cast_ofNat, Int.cast_add]
  rw [h0, h0s, roundDouble_one_hour, hs, hs]
  norm_num only at h1 h2 h3 ⊢
  rw [h1]
  norm_num only
  rw [h2]
  norm_num only
  rw [h3]

theorem history_time_one_hour :
    roundDouble (86400 * (110689986630997 / 2147483648 : ℚ)) = 2334866905497593 / 524288 := by
  have h20 : (2 : ℚ) ^ (32 - 52 : Int) = 1 / 1048576 := by
    rw [show (32 - 52 : Int) = -20 by norm_num, zpow_neg]
    norm_num
  have h := roundDouble_eval (86400 * (110689986630997 / 2147483648)) 32 4669733810995186
    (by norm_num) (by norm_num) (by norm_num)
    (by rw [h20, abs_lt]; constructor <;> norm_num)
  rw [h, h20]
  norm_num

theorem modified_julian_date_one_hour : modified_julian_date 2000 1 1 1 0 0 = 51544 + 1 / 24 := by
  have hg : gregorian_days 2000 1 1 = 730485 := by
    have hD := gregorian_days_before_year_closed 2000
    have hM := gregorian_days_before_month_closed 2000 1 (by omega)
    simp at hM
    unfold gregorian_days
    omega
  rw [modified_julian_date_eq, hg]
  norm_num

/-- C27 (counterexample): at 2000-01-01 01:00:00 `current_utc_to_mjd` returns
`110689986630997 / 2 ^ 31`, which is `51544.04166666651...` and not the Modified Julian
Date `51544 + 1 / 24`: the quotient `1 / 24.0` and the sum with the day number
`2451545` are rounded.  The HISTORY row gets the time `2334866905497593 / 2 ^ 19`, which
is not `86400` times the Modified Julian Date, `4453405200`. -/
theorem current_utc_to_mjd_rounds :
    current_utc_to_mjd example_clock_one_hour = 110689986630997 / 2147483648 ∧
    modified_julian_date 2000 1 1 1 0 0 = 51544 + 1 / 24 ∧
    current_utc_to_mjd example_clock_one_hour ≠ modified_julian_date 2000 1 1 1 0 0 ∧
    (∃ t1, (oskar_ms_add_history example_clock_one_hour example_store_observed "example"
        (some ['a']) 1).ms = some t1 ∧
      t1.history.map (fun row => row.time)
        = example_table_observed.history.map (fun row => row.time)
          ++ [2334866905497593 / 524288]) ∧
    86400 * modified_julian_date 2000 1 1 1 0 0 = 4453405200 ∧
    (2334866905497593 / 524288 : ℚ) ≠ 4453405200 := by
  refine ⟨current_utc_to_mjd_one_hour, modified_julian_date_one_hour, ?_, ?_, ?_, ?_⟩
  · rw [current_utc_to_mjd_one_hour, modified_julian_date_one_hour]
    norm_num
  · rw [oskar_ms_add_history_eq _ example_store_observed example_table_observed rfl,
      current_utc_to_mjd_one_hour, history_time_one_hour]
    refine ⟨_, rfl, ?_⟩
    have : split_string (['a'].take 1) '\n' = [['a']] := by decide
    rw [this]
    simp
  · rw [modified_julian_date_one_hour]
    norm_num
  · norm_num

/-- C27 (amended): for every date of the Gregorian calendar (month `1` to `12`, day of the
month, year from `0` to `5000000`, where the `int` arithmetic stays in range) and every
time of day (hour to `23`, minute to `59`, second to `60`), `current_utc_to_mjd` applied
to the clock fields of that date-time is the number of days, with day fraction, elapsed
since 1858-11-17 00:00:00 (`modified_julian_date`, counted day by day through the
calendar) as `double` arithmetic gives it: it lies within `2 ^ (-21)` day of that number,
within `2 ^ (-29)` day for years up to `9999`, and it is that number exactly when the time
of day is a whole multiple of 675 seconds (1 / 128 day), so at every 00:00:00;
2000-01-01 00:00:00 gives `51544` and the epoch gives `0`.  Every HISTORY row that
`oskar_ms_add_history` appends to an open store holds as its time the `double` product of
`86400` and that value, which lies within `2 ^ (-4)` second of `86400` times the number
of days, within `2 ^ (-12)` second for years up to `9999`, and is equal to it when the
time of day is a whole multiple of 675 seconds. -/
theorem current_utc_to_mjd_accuracy (year month day hour minute second : Nat)
    (hmonth : 1 ≤ month ∧ month ≤ 12) (hday : 1 ≤ day ∧ day ≤ gregorian_month_days year month)
    (hyear : year ≤ 5000000) (hhour : hour ≤ 23) (hminute : minute ≤ 59)
    (hsecond : second ≤ 60)
    (p : oskar_MeasurementSet) (t : Table) (hp : p.ms = some t) (origin : String)
    (str : List Char) (size : Nat) :
    |current_utc_to_mjd (clock_at year month day hour minute second)
        - modified_julian_date year month day hour minute second| ≤ 1 / 2 ^ 21 ∧
    (year ≤ 9999 →
      |current_utc_to_mjd (clock_at year month day hour minute second)
        - modified_julian_date year month day hour minute second| ≤ 1 / 2 ^ 29) ∧
    (current_utc_to_mjd (clock_at year month day hour minute second)
        = modified_julian_date year month day hour minute second
      ↔ (3600 * hour + 60 * minute + second) % 675 = 0) ∧
    (day : Int) + 337 + 365 * ((year : Int) + 4800) + ((year : Int) + 4800) / 4
      ≤ (INT_MAX : Int) ∧
    current_utc_to_mjd (clock_at 2000 1 1 0 0 0) = 51544 ∧
    modified_julian_date 2000 1 1 0 0 0 = 51544 ∧
    modified_julian_date 1858 11 17 0 0 0 = 0 ∧
    ∃ (t1 : Table) (rows : List HistoryRow),
      (oskar_ms_add_history (clock_at year month day hour minute second)
        p origin (some str) size).ms = some t1 ∧
      t1.history = t.history ++ rows ∧
      rows.length = (split_string (str.take size) '\n').length ∧
      ∀ row ∈ rows,
        row.time
          = roundDouble (86400 * current_utc_to_mjd (clock_at year month day hour minute second)) ∧
        |row.time - 86400 * modified_julian_date year month day hour minute second|
          ≤ 1 / 2 ^ 4 ∧
        (year ≤ 9999 →
          |row.time - 86400 * modified_julian_date year month day hour minute second|
            ≤ 1 / 2 ^ 12) ∧
        ((3600 * hour + 60 * minute + second) % 675 = 0 →
          row.time = 86400 * modified_julian_date year month day hour minute second) := by
  have hd31 : day ≤ 31 := le_trans hday.2 (gregorian_month_days_le year month)
  have hg := gregorian_days_le year month day hmonth hd31
  have hgq : (gregorian_days year month day : ℚ) ≤ 366 * year + 366 := by exact_mod_cast hg
  have hyq : (year : ℚ) ≤ 5000000 := by exact_mod_cast hyear
  have hg0 : (0 : ℚ) ≤ gregorian_days year month day := Nat.cast_nonneg _
  obtain ⟨hb1, hb2⟩ := modified_julian_date_bounds year month day hour minute second
    hhour hminute hsecond
  have h31 : (2 : ℚ) ^ (31 : Int) = 2147483648 := by norm_num
  have h23 : (2 : ℚ) ^ (23 : Int) = 8388608 := by norm_num
  have e31 : (2 : ℚ) ^ (31 - 53 : Int) = 1 / 4194304 := by
    rw [show (31 - 53 : Int) = -22 by norm_num, zpow_neg]
    norm_num
  have e23 : (2 : ℚ) ^ (23 - 53 : Int) = 1 / 1073741824 := by
    rw [show (23 - 53 : Int) = -30 by norm_num, zpow_neg]
    norm_num
  have e48 : (2 : ℚ) ^ (48 - 53 : Int) = 1 / 32 := by
    rw [show (48 - 53 : Int) = -5 by norm_num, zpow_neg]
    norm_num
  have e39 : (2 : ℚ) ^ (39 - 53 : Int) = 1 / 16384 := by
    rw [show (39 - 53 : Int) = -14 by norm_num, zpow_neg]
    norm_num
  have hwide : |current_utc_to_mjd (clock_at year month day hour minute second)
      - modified_julian_date year month day hour minute second| ≤ 1 / 2 ^ 21 := by
    have h := current_utc_to_mjd_error 31 (by norm_num) (by norm_num) year month day hour
      minute second hmonth hday.1 (by rw [h31]; linarith) hhour hminute hsecond
    rw [e31] at h
    refine le_trans h (by norm_num)
  have hnarrow : year ≤ 9999 →
      |current_utc_to_mjd (clock_at year month day hour minute second)
        - modified_julian_date year month day hour minute second| ≤ 1 / 2 ^ 29 := by
    intro hy
    have hyq9 : (year : ℚ) ≤ 9999 := by exact_mod_cast hy
    have h := current_utc_to_mjd_error 23 (by norm_num) (by norm_num) year month day hour
      minute second hmonth hday.1 (by rw [h23]; linarith) hhour hminute hsecond
    rw [e23] at h
    refine le_trans h (by norm_num)
  have hiff : current_utc_to_mjd (clock_at year month day hour minute second)
        = modified_julian_date year month day hour minute second
      ↔ (3600 * hour + 60 * minute + second) % 675 = 0 :=
    ⟨current_utc_to_mjd_exact_only year month day hour minute second hmonth hday.1,
      current_utc_to_mjd_exact year month day hour minute second hmonth hday.1 (by omega)
        hhour hminute hsecond⟩
  have hmid : modified_julian_date 2000 1 1 0 0 0 = 51544 := by
    have hD := gregorian_days_before_year_closed 2000
    have hM := gregorian_days_before_month_closed 2000 1 (by omega)
    simp at hM
    have hgd : gregorian_days 2000 1 1 = 730485 := by
      unfold gregorian_days
      omega
    rw [modified_julian_date_eq, hgd]
    norm_num
  refine ⟨hwide, hnarrow, hiff, ?_, ?_, hmid, ?_, ?_⟩
  · have : (INT_MAX : Int) = 2147483647 := rfl
    omega
  · rw [current_utc_to_mjd_exact 2000 1 1 0 0 0 (by omega) (by omega) ?_ (by omega) (by omega)
      (by omega) (by omega), hmid]
    have := gregorian_days_le 2000 1 1 (by omega) (by omega)
    omega
  · unfold modified_julian_date
    simp
  · rw [oskar_ms_add_history_eq _ p t hp origin str size]
    refine ⟨_, _, rfl, rfl, by simp, ?_⟩
    intro row hrow
    simp only [List.mem_map] at hrow
    obtain ⟨l, -, hl⟩ := hrow
    rw [← hl]
    simp only
    have hwide2 := hwide
    rw [abs_le] at hwide
    refine ⟨trivial, ?_, ?_, ?_⟩
    · have h := history_time_error 48
        (current_utc_to_mjd (clock_at year month day hour minute second))
        (modified_julian_date year month day hour minute second) (1 / 2 ^ 21) (by norm_num)
        (by
          rw [abs_lt]
          norm_num at hwide ⊢
          constructor <;> linarith [hwide.1, hwide.2])
        hwide2
      rw [e48] at h
      refine le_trans h (by norm_num)
    · intro hy
      have hyq9 : (year : ℚ) ≤ 9999 := by exact_mod_cast hy
      have hn := hnarrow hy
      have h := history_time_error 39
        (current_utc_to_mjd (clock_at year month day hour minute second))
        (modified_julian_date year month day hour minute second) (1 / 2 ^ 29) (by norm_num)
        (by
          rw [abs_lt]
          norm_num at hwide ⊢
          constructor <;> linarith [hwide.1, hwide.2])
        hn
      rw [e39] at h
      refine le_trans h (by norm_num)
    · intro hT
      rw [hiff.2 hT]
      exact history_time_exact year month day hour minute second (by omega) hhour hminute
        hsecond hT

theorem current_utc_to_mjd_accuracy_witness :
    |current_utc_to_mjd (clock_at 2024 2 29 12 34 56)
        - modified_julian_date 2024 2 29 12 34 56| ≤ 1 / 2 ^ 21 ∧
    (2024 ≤ 9999 →
      |current_utc_to_mjd (clock_at 2024 2 29 12 34 56)
        - modified_julian_date 2024 2 29 12 34 56| ≤ 1 / 2 ^ 29) ∧
    (current_utc_to_mjd (clock_at 2024 2 29 12 34 56)
        = modified_julian_date 2024 2 29 12 34 56
      ↔ (3600 * 12 + 60 * 34 + 56) % 675 = 0) ∧
    ((29 : Nat) : Int) + 337 + 365 * (((2024 : Nat) : Int) + 4800)
        + (((2024 : Nat) : Int) + 4800) / 4 ≤ (INT_MAX : Int) ∧
    current_utc_to_mjd (clock_at 2000 1 1 0 0 0) = 51544 ∧
    modified_julian_date 2000 1 1 0 0 0 = 51544 ∧
    modified_julian_date 1858 11 17 0 0 0 = 0 ∧
    ∃ (t1 : Table) (rows : List HistoryRow),
      (oskar_ms_add_history (clock_at 2024 2 29 12 34 56)
        example_store_observed "example" (some ['a', '\n', 'b']) 3).ms = some t1 ∧
      t1.history = example_table_observed.history ++ rows ∧
      rows.length = (split_string (['a', '\n', 'b'].take 3) '\n').length ∧
      ∀ row ∈ rows,
        row.time = roundDouble (86400 * current_utc_to_mjd (clock_at 2024 2 29 12 34 56)) ∧
        |row.time - 86400 * modified_julian_date 2024 2 29 12 34 56| ≤ 1 / 2 ^ 4 ∧
        (2024 ≤ 9999 →
          |row.time - 86400 * modified_julian_date 2024 2 29 12 34 56| ≤ 1 / 2 ^ 12) ∧
        ((3600 * 12 + 60 * 34 + 56) % 675 = 0 →
          row.time = 86400 * modified_julian_date 2024 2 29 12 34 56) :=
  current_utc_to_mjd_accuracy 2024 2 29 12 34 56 (by decide) (by decide) (by decide)
    (by decide) (by decide) (by decide)
    example_store_observed example_table_observed rfl "example" ['a', '\n', 'b'] 3

/-! ## The scratch columns (C22, C26) -/

theorem isColumn_addColumn (t : Table) (d : ColumnDesc) (manType manName : String)
    (tileShape : List Nat) (column : String) :
    (t.addColumn d manType manName tileShape).isColumn column =
      (t.isColumn column || d.name == column) := by
  simp [Table.isColumn, Table.addColumn, List.any_append]

theorem add_scratch_cols_some (p : oskar_MeasurementSet) (t : Table) (hp : p.ms = some t)
    (add_model add_corrected : Bool) (p1 : oskar_MeasurementSet)
    (h : p.add_scratch_cols add_model add_corrected = some p1) :
    ∃ t1, p1.ms = some t1 ∧
      t1.desc = t.desc ++
        (if add_model = true ∧ t.isColumn "MODEL_DATA" = false
          then [⟨"MODEL_DATA", .TpComplex, false⟩] else []) ++
        (if add_corrected = true ∧ t.isColumn "CORRECTED_DATA" = false
          then [⟨"CORRECTED_DATA", .TpComplex, false⟩] else []) ∧
      t1.nrow = t.nrow ∧
      (add_model = true → t1.isColumn "MODEL_DATA" = true) ∧
      (add_corrected = true → t1.isColumn "CORRECTED_DATA" = true) := by
  unfold oskar_MeasurementSet.add_scratch_cols at h
  simp only [hp] at h
  by_cases hnone : (!(add_model && !t.isColumn "MODEL_DATA") &&
      !(add_corrected && !t.isColumn "CORRECTED_DATA")) = true
  · rw [if_pos hnone] at h
    simp only [Option.some.injEq] at h
    subst h
    refine ⟨t, hp, ?_, rfl, ?_, ?_⟩
    · cases add_model <;> cases add_corrected <;>
        cases hm : t.isColumn "MODEL_DATA" <;> cases hc : t.isColumn "CORRECTED_DATA" <;>
        simp [hm, hc] at hnone ⊢
    · intro ha
      cases hm : t.isColumn "MODEL_DATA" with
      | true => rfl
      | false => simp [ha, hm] at hnone
    · intro ha
      cases hc : t.isColumn "CORRECTED_DATA" with
      | true => rfl
      | false => simp [ha, hc] at hnone
  · rw [if_neg hnone] at h
    obtain ⟨data, -, h⟩ := Option.bind_eq_some.mp h
    obtain ⟨shape, -, h⟩ := Option.map_eq_some'.mp h
    subst h
    refine ⟨_, rfl, ?_, ?_, ?_, ?_⟩
    · cases add_model <;> cases add_corrected <;>
        cases hm : t.isColumn "MODEL_DATA" <;> cases hc : t.isColumn "CORRECTED_DATA" <;>
        simp [hm, hc, Table.addColumn]
    · cases add_model <;> cases add_corrected <;>
        cases hm : t.isColumn "MODEL_DATA" <;> cases hc : t.isColumn "CORRECTED_DATA" <;>
        simp [hm, hc, Table.addColumn]
    · intro ha
      subst ha
      cases add_corrected <;>
        cases hm : t.isColumn "MODEL_DATA" <;> cases hc : t.isColumn "CORRECTED_DATA" <;>
        simp [hm, hc, isColumn_addColumn]
    · intro ha
      subst ha
      cases add_model <;>
        cases hm : t.isColumn "MODEL_DATA" <;> cases hc : t.isColumn "CORRECTED_DATA" <;>
        simp [hm, hc, isColumn_addColumn]

/-- C22: when a call of `oskar_ms_add_scratch_columns` returns, a second call with the same
flags (in particular `(true, false)`) returns the store unchanged, so that the main table
has the same columns after the second call as after the first; and the call adds to the
columns of the main table, at their end, exactly the requested columns that the table did
not have: a requested column that exists already is not added again. -/
theorem add_scratch_columns_idempotent (p p1 : oskar_MeasurementSet)
    (add_model add_corrected : Int)
    (h : oskar_ms_add_scratch_columns p add_model add_corrected = some p1) :
    oskar_ms_add_scratch_columns p1 add_model add_corrected = some p1 ∧
    (p.ms = none → p1 = p) ∧
    ∀ t, p.ms = some t →
      ∃ t1, p1.ms = some t1 ∧
        t1.desc = t.desc ++
          (if add_model ≠ 0 ∧ t.isColumn "MODEL_DATA" = false
            then [⟨"MODEL_DATA", .TpComplex, false⟩] else []) ++
          (if add_corrected ≠ 0 ∧ t.isColumn "CORRECTED_DATA" = false
            then [⟨"CORRECTED_DATA", .TpComplex, false⟩] else []) ∧
        t1.nrow = t.nrow := by
  unfold oskar_ms_add_scratch_columns at h ⊢
  cases hp : p.ms with
  | none =>
    have hp1 : p1 = p := by
      unfold oskar_MeasurementSet.add_scratch_cols at h
      simp only [hp, Option.some.injEq] at h
      exact h.symm
    subst hp1
    refine ⟨?_, fun _ => rfl, fun t ht => by simp at ht⟩
    unfold oskar_MeasurementSet.add_scratch_cols
    simp only [hp]
  | some t =>
    obtain ⟨t1, hp1, hdesc, hnrow, hm, hc⟩ := add_scratch_cols_some p t hp _ _ p1 h
    refine ⟨?_, fun hn => by simp at hn, ?_⟩
    · unfold oskar_MeasurementSet.add_scratch_cols
      simp only [hp1]
      have hnone : (!(decide (add_model ≠ 0) && !t1.isColumn "MODEL_DATA") &&
          !(decide (add_corrected ≠ 0) && !t1.isColumn "CORRECTED_DATA")) = true := by
        by_cases ha : add_model ≠ 0 <;> by_cases hb : add_corrected ≠ 0
        · simp [ha, hb, hm (by simpa using ha), hc (by simpa using hb)]
        · simp [ha, hb, hm (by simpa using ha)]
        · simp [ha, hb, hc (by simpa using hb)]
        · simp [ha, hb]
      rw [if_pos hnone]
    · intro t0 ht0
      simp only [Option.some.injEq] at ht0
      subst ht0
      refine ⟨t1, hp1, ?_, hnrow⟩
      rw [hdesc]
      simp

theorem add_scratch_columns_created :
    ∃ p p1 t1, oskar_ms_create false "example.ms" "example" 0 0 1 1 0 0 2 0 1 = some p ∧
      oskar_ms_add_scratch_columns p 1 0 = some p1 ∧ p1.ms = some t1 ∧
      t1.desc = main_table_desc ++ [⟨"MODEL_DATA", .TpComplex, false⟩] ∧
      t1.tiles = [("TiledUVW", [3, 2]), ("TiledWeight", [1, 2]), ("TiledSigma", [1, 2]),
        ("TiledData", [1, 1, 2]), ("TiledFlag", [1, 1, 16]), ("ModelTiled", [1, 1, 2])] :=
  ⟨_, _, _, rfl, rfl, rfl, rfl, by decide⟩

theorem add_scratch_columns_idempotent_witness :
    ∃ p p1, oskar_ms_create false "example.ms" "example" 0 0 1 1 0 0 2 0 1 = some p ∧
      oskar_ms_add_scratch_columns p 1 0 = some p1 ∧
      oskar_ms_add_scratch_columns p1 1 0 = some p1 ∧
      (p.ms = none → p1 = p) ∧
      ∀ t, p.ms = some t →
        ∃ t1, p1.ms = some t1 ∧
          t1.desc = t.desc ++
            (if (1 : Int) ≠ 0 ∧ t.isColumn "MODEL_DATA" = false
              then [⟨"MODEL_DATA", .TpComplex, false⟩] else []) ++
            (if (0 : Int) ≠ 0 ∧ t.isColumn "CORRECTED_DATA" = false
              then [⟨"CORRECTED_DATA", .TpComplex, false⟩] else []) ∧
          t1.nrow = t.nrow :=
  ⟨_, _, rfl, rfl, add_scratch_columns_idempotent _ _ 1 0 rfl⟩

theorem foldl_max_spec (ns : List Nat) :
    ∀ n, List.foldl max n ns ∈ n :: ns ∧ ∀ x ∈ n :: ns, x ≤ List.foldl max n ns := by
  induction ns with
  | nil => intro n; simp
  | cons a rest ih =>
    intro n
    obtain ⟨h1, h2⟩ := ih (max n a)
    simp only [List.foldl_cons]
    refine ⟨?_, ?_⟩
    · rcases List.mem_cons.mp h1 with h | h
      · rw [h]
        rcases le_total n a with hle | hle
        · rw [max_eq_right hle]; simp
        · rw [max_eq_left hle]; simp
      · simp [h]
    · intro x hx
      rcases List.mem_cons.mp hx with h | h
      · rw [h]
        exact le_trans (le_max_left n a) (h2 _ (List.mem_cons_self _ _))
      · rcases List.mem_cons.mp h with h | h
        · rw [h]
          exact le_trans (le_max_right n a) (h2 _ (List.mem_cons_self _ _))
        · exact h2 x (List.mem_cons_of_mem _ h)

theorem find_tile_shape_index (cubes : List (List Nat)) (n : Nat) :
    (forLoop (fun i (st : TileSearch) =>
        let product := toInt (IPosition_product (cubes.getD i []))
        if product > 0 ∧ product > st.highestProduct then
          { highestProduct := product, highestId := i }
        else st)
      0 n { highestProduct := -(INT_MAX : Int), highestId := 0 }).highestId ≤ n - 1 := by
  induction n with
  | zero => simp [forLoop]
  | succ k ih =>
    rw [forLoop_succ_last]
    generalize forLoop _ 0 k _ = st at ih ⊢
    dsimp only
    split
    · simp
    · exact le_trans ih (by omega)

theorem canonical_tile_size (nCorr tileSize : Nat) (hn : 1 ≤ nCorr) (hs : 1 ≤ tileSize) :
    131072 < nCorr * tileSize * (131072 / nCorr / tileSize + 1) ∧
    nCorr * tileSize * (131072 / nCorr / tileSize + 1) ≤ 131072 + nCorr * tileSize := by
  have hk : 0 < nCorr * tileSize := Nat.mul_pos hn hs
  rw [Nat.div_div_eq_div_mul]
  have h1 := Nat.div_add_mod 131072 (nCorr * tileSize)
  have h2 := Nat.mod_lt 131072 hk
  have h3 : nCorr * tileSize * (131072 / (nCorr * tileSize) + 1)
      = nCorr * tileSize * (131072 / (nCorr * tileSize)) + nCorr * tileSize := by ring
  rw [h3]
  omega

theorem scratch_tile_shape_canonical (t : Table) (data : String)
    (hlayout : contains_text (t.dataManager data).1 "Tiled" = false ∨
      ∃ s, (t.hypercubes (t.dataManager data).2).get?
          (find_tile_shape (t.hypercubes (t.dataManager data).2)).highestId = some s ∧
        s.length ≠ 3) :
    scratch_tile_shape t data = canonical_tile_shape t data := by
  unfold scratch_tile_shape
  cases htiled : contains_text (t.dataManager data).1 "Tiled" with
  | false => simp [htiled]
  | true =>
    rcases hlayout with h | ⟨s, hget, h3⟩
    · rw [htiled] at h
      exact absurd h (by simp)
    · rw [List.get?_eq_getElem?] at hget
      simp [htiled, hget, h3]

theorem selected_tile_of_all (cubes : List (List Nat)) (hne : cubes ≠ [])
    (hall : ∀ s ∈ cubes, s.length ≠ 3) :
    ∃ s, cubes.get? (find_tile_shape cubes).highestId = some s ∧ s.length ≠ 3 := by
  have hidx := find_tile_shape_index cubes cubes.length
  have hlen : 0 < cubes.length := List.length_pos.mpr hne
  have hlt : (find_tile_shape cubes).highestId < cubes.length := by
    unfold find_tile_shape
    omega
  refine ⟨cubes[(find_tile_shape cubes).highestId], ?_, hall _ (List.getElem_mem hlt)⟩
  rw [List.get?_eq_getElem?]
  exact List.getElem?_eq_getElem hlt

/-- C26: for an open store without the MODEL_DATA column whose data column (`data`) is kept
by a storage manager that is not tiled, or by a tiled one whose selected tile (that of the
hypercube found by the search for the largest tile) does not have three axes, with `M` the
largest NUM_CHAN of the spectral windows and `nCorr >= 1` the first axis of the shape of
row `0`, `add_scratch_cols` uses the tile shape
`(nCorr, M / 10 + 1, 131072 / nCorr / (M / 10 + 1) + 1)` (integer division): it is the
tile shape of the storage manager of the new MODEL_DATA column; and the number of elements
of that tile is above `131072` and at most `131072 + nCorr * (M / 10 + 1)`. -/
theorem canonical_tile_shape_used (p : oskar_MeasurementSet) (t : Table) (hp : p.ms = some t)
    (data : String) (hdata : data_column t = some data)
    (hmodel : t.isColumn "MODEL_DATA" = false)
    (hlayout : contains_text (t.dataManager data).1 "Tiled" = false ∨
      ∃ s, (t.hypercubes (t.dataManager data).2).get?
          (find_tile_shape (t.hypercubes (t.dataManager data).2)).highestId = some s ∧
        s.length ≠ 3)
    (M : Nat) (hM : M ∈ t.spectralWindow.map (fun w => w.numChan))
    (hmax : ∀ x ∈ t.spectralWindow.map (fun w => w.numChan), x ≤ M)
    (nCorr : Nat) (rest : List Nat) (hshape : t.cellShape 0 data = some (nCorr :: rest))
    (hn : 1 ≤ nCorr) :
    scratch_tile_shape t data =
      some [nCorr, M / 10 + 1, 131072 / nCorr / (M / 10 + 1) + 1] ∧
    (∃ p1 t1, oskar_ms_add_scratch_columns p 1 0 = some p1 ∧ p1.ms = some t1 ∧
      t1.tiles = t.tiles ++
        [("ModelTiled", [nCorr, M / 10 + 1, 131072 / nCorr / (M / 10 + 1) + 1])] ∧
      t1.dataManager "MODEL_DATA" = ("TiledShapeStMan", "ModelTiled")) ∧
    131072 < nCorr * (M / 10 + 1) * (131072 / nCorr / (M / 10 + 1) + 1) ∧
    nCorr * (M / 10 + 1) * (131072 / nCorr / (M / 10 + 1) + 1)
      ≤ 131072 + nCorr * (M / 10 + 1) := by
  have hcanon : canonical_tile_shape t data =
      some [nCorr, M / 10 + 1, 131072 / nCorr / (M / 10 + 1) + 1] := by
    unfold canonical_tile_shape
    cases hl : t.spectralWindow.map (fun w => w.numChan) with
    | nil => rw [hl] at hM; simp at hM
    | cons n ns =>
      rw [hl] at hM hmax
      obtain ⟨f1, f2⟩ := foldl_max_spec ns n
      have hfold : List.foldl max n ns = M :=
        le_antisymm (hmax _ f1) (f2 M hM)
      have hn0 : nCorr ≠ 0 := by omega
      simp [hshape, hfold, hn0]
  have hshape1 := (scratch_tile_shape_canonical t data hlayout).trans hcanon
  refine ⟨hshape1, ?_, canonical_tile_size nCorr (M / 10 + 1) hn (by omega)⟩
  have hadd : oskar_ms_add_scratch_columns p 1 0 =
      some { p with
        ms := some (t.addColumn ⟨"MODEL_DATA", .TpComplex, false⟩ "TiledShapeStMan"
          "ModelTiled" [nCorr, M / 10 + 1, 131072 / nCorr / (M / 10 + 1) + 1]) } := by
    unfold oskar_ms_add_scratch_columns oskar_MeasurementSet.add_scratch_cols
    simp [hp, hmodel, hdata, hshape1]
  rw [hadd]
  exact ⟨_, _, rfl, rfl, by simp [Table.addColumn], by simp [Table.addColumn]⟩

theorem canonical_tile_shape_used_witness :
    scratch_tile_shape example_table_untiled "DATA" =
      some [4, 64 / 10 + 1, 131072 / 4 / (64 / 10 + 1) + 1] ∧
    (∃ p1 t1, oskar_ms_add_scratch_columns example_store_untiled 1 0 = some p1 ∧
      p1.ms = some t1 ∧
      t1.tiles = example_table_untiled.tiles ++
        [("ModelTiled", [4, 64 / 10 + 1, 131072 / 4 / (64 / 10 + 1) + 1])] ∧
      t1.dataManager "MODEL_DATA" = ("TiledShapeStMan", "ModelTiled")) ∧
    131072 < 4 * (64 / 10 + 1) * (131072 / 4 / (64 / 10 + 1) + 1) ∧
    4 * (64 / 10 + 1) * (131072 / 4 / (64 / 10 + 1) + 1) ≤ 131072 + 4 * (64 / 10 + 1) :=
  canonical_tile_shape_used example_store_untiled example_table_untiled rfl "DATA"
    (by decide) (by decide) (Or.inl (by decide)) 64 (by decide) (by decide) 4 [64]
    (by decide) (by decide)

/-! ## The memory accesses of the amplitude construction (C28) -/

theorem range_append_range' (a w : Nat) :
    List.range a ++ List.range' a w = List.range (a + w) := by
  have h := List.range'_append_1 0 a w
  rw [Nat.zero_add] at h
  rw [List.range_eq_range', List.range_eq_range', h, Nat.add_comm]

theorem amp_channels_log_spec (writes : Nat → List Nat) (w inc bcross bauto : Nat)
    (hw : ∀ q, writes (inc * q) = List.range' (w * q) w) (auto : Bool) (idx : Nat → Nat)
    (n : Nat) (hidx : ∀ c, c < n → idx c < (if auto then bauto else bcross))
    (s : AccessLog) (q : Nat) (hs : LogInv w inc bcross bauto s q) :
    LogInv w inc bcross bauto (amp_channels_log writes inc auto idx n s) (q + n) ∧
    (amp_channels_log writes inc auto idx n s).b = s.b := by
  unfold amp_channels_log
  induction n with
  | zero => exact ⟨hs, rfl⟩
  | succ k ih =>
    rw [forLoop_succ_last]
    obtain ⟨⟨h1, h2, h3, h4⟩, hb⟩ := ih (fun c hc => hidx c (by omega))
    have hk := hidx k (by omega)
    generalize forLoop _ 0 k s = st at h1 h2 h3 h4 hb ⊢
    refine ⟨⟨?_, ?_, ?_, ?_⟩, hb⟩
    · show st.i_out + inc = inc * (q + (k + 1))
      rw [h1]
      ring
    · show st.writes ++ writes st.i_out = List.range (w * (q + (k + 1)))
      rw [h1, h2, hw, range_append_range']
      have e : w * (q + k) + w = w * (q + (k + 1)) := by ring
      rw [e]
    · cases auto with
      | true => exact h3
      | false =>
        simp only [Bool.false_eq_true, if_false] at hk
        show ∀ i ∈ st.reads_cross ++ [idx (0 + k)], i < bcross
        intro i hi
        rcases List.mem_append.mp hi with h | h
        · exact h3 i h
        · simp only [List.mem_singleton] at h
          rw [h, Nat.zero_add]
          exact hk
    · cases auto with
      | false => exact h4
      | true =>
        simp only [if_true] at hk
        show ∀ i ∈ st.reads_auto ++ [idx (0 + k)], i < bauto
        intro i hi
        rcases List.mem_append.mp hi with h | h
        · exact h4 i h
        · simp only [List.mem_singleton] at h
          rw [h, Nat.zero_add]
          exact hk

theorem amp_baseline_log_spec (writes : Nat → List Nat) (w inc bauto : Nat)
    (hw : ∀ q, writes (inc * q) = List.range' (w * q) w) (blk : oskar_VisBlock) (t : Nat)
    (ht : t < blk.num_times) (s : AccessLog) (q : Nat)
    (hs : LogInv w inc (blk.num_baselines * blk.num_channels * blk.num_times) bauto s q)
    (hb : s.b < blk.num_baselines) :
    LogInv w inc (blk.num_baselines * blk.num_channels * blk.num_times) bauto
      (amp_baseline_log writes inc blk t s) (q + blk.num_channels) ∧
    (amp_baseline_log writes inc blk t s).b = s.b + 1 := by
  have hidx : ∀ c, c < blk.num_channels →
      blk.num_baselines * (t * blk.num_channels + c) + s.b
        < (if false = true then bauto
            else blk.num_baselines * blk.num_channels * blk.num_times) := by
    intro c hc
    simp only [Bool.false_eq_true, if_false]
    have h1 : t * blk.num_channels + c + 1 ≤ blk.num_times * blk.num_channels := by
      have : (t + 1) * blk.num_channels ≤ blk.num_times * blk.num_channels :=
        Nat.mul_le_mul_right _ ht
      have h2 : (t + 1) * blk.num_channels = t * blk.num_channels + blk.num_channels := by
        ring
      omega
    have h2 : blk.num_baselines * (t * blk.num_channels + c + 1)
        ≤ blk.num_baselines * (blk.num_times * blk.num_channels) :=
      Nat.mul_le_mul_left _ h1
    have h3 : blk.num_baselines * (t * blk.num_channels + c + 1)
        = blk.num_baselines * (t * blk.num_channels + c) + blk.num_baselines := by ring
    have h4 : blk.num_baselines * (blk.num_times * blk.num_channels)
        = blk.num_baselines * blk.num_channels * blk.num_times := by ring
    omega
  obtain ⟨h1, h2⟩ := amp_channels_log_spec writes w inc _ bauto hw false _ blk.num_channels
    hidx s q hs
  unfold amp_baseline_log
  refine ⟨?_, ?_⟩
  · exact h1
  · simp only [h2]

theorem amp_baselines_log_loop (writes : Nat → List Nat) (w inc bauto : Nat)
    (hw : ∀ q, writes (inc * q) = List.range' (w * q) w) (blk : oskar_VisBlock) (t : Nat)
    (ht : t < blk.num_times) (n : Nat) :
    ∀ (lo : Nat) (s : AccessLog) (q : Nat),
      LogInv w inc (blk.num_baselines * blk.num_channels * blk.num_times) bauto s q →
      s.b + n ≤ blk.num_baselines →
      LogInv w inc (blk.num_baselines * blk.num_channels * blk.num_times) bauto
        (forLoop (fun _a2 s => amp_baseline_log writes inc blk t s) lo n s)
        (q + n * blk.num_channels) ∧
      (forLoop (fun _a2 s => amp_baseline_log writes inc blk t s) lo n s).b = s.b + n := by
  induction n with
  | zero =>
    intro lo s q hs _
    simpa [forLoop] using hs
  | succ k ih =>
    intro lo s q hs hb
    rw [forLoop_succ_last]
    obtain ⟨h1, h2⟩ := ih lo s q hs (by omega)
    obtain ⟨h3, h4⟩ := amp_baseline_log_spec writes w inc bauto hw blk t ht _ _ h1
      (by rw [h2]; omega)
    refine ⟨?_, ?_⟩
    · have e : q + (k + 1) * blk.num_channels = q + k * blk.num_channels + blk.num_channels := by
        ring
      rw [e]
      exact h3
    · rw [h4, h2]
      omega

theorem amp_station_log_spec (writes : Nat → List Nat) (w inc : Nat)
    (hw : ∀ q, writes (inc * q) = List.range' (w * q) w) (blk : oskar_VisBlock) (t : Nat)
    (ht : t < blk.num_times) (a1 : Nat) (ha : a1 < blk.num_stations) (s : AccessLog) (q : Nat)
    (hs : LogInv w inc (blk.num_baselines * blk.num_channels * blk.num_times)
      (blk.num_stations * blk.num_channels * blk.num_times) s q)
    (hb : s.b + (blk.num_stations - (a1 + 1)) ≤ blk.num_baselines) :
    LogInv w inc (blk.num_baselines * blk.num_channels * blk.num_times)
      (blk.num_stations * blk.num_channels * blk.num_times)
      (amp_station_log writes inc blk t a1 s)
      (q + (self_rows blk.has_auto_correlations + (blk.num_stations - (a1 + 1)))
        * blk.num_channels) ∧
    (amp_station_log writes inc blk t a1 s).b = s.b + (blk.num_stations - (a1 + 1)) := by
  unfold amp_station_log
  cases hauto : blk.has_auto_correlations with
  | false =>
    simp only [Bool.false_eq_true, if_false, self_rows, Nat.zero_add]
    exact amp_baselines_log_loop writes w inc _ hw blk t ht _ _ s q hs hb
  | true =>
    simp only [if_true, self_rows]
    have hidx : ∀ c, c < blk.num_channels →
        blk.num_stations * (t * blk.num_channels + c) + a1
          < (if true = true then blk.num_stations * blk.num_channels * blk.num_times
              else blk.num_baselines * blk.num_channels * blk.num_times) := by
      intro c hc
      simp only [if_true]
      have h1 : t * blk.num_channels + c + 1 ≤ blk.num_times * blk.num_channels := by
        have : (t + 1) * blk.num_channels ≤ blk.num_times * blk.num_channels :=
          Nat.mul_le_mul_right _ ht
        have h2 : (t + 1) * blk.num_channels = t * blk.num_channels + blk.num_channels := by
          ring
        omega
      have h2 : blk.num_stations * (t * blk.num_channels + c + 1)
          ≤ blk.num_stations * (blk.num_times * blk.num_channels) :=
        Nat.mul_le_mul_left _ h1
      have h3 : blk.num_stations * (t * blk.num_channels + c + 1)
          = blk.num_stations * (t * blk.num_channels + c) + blk.num_stations := by ring
      have h4 : blk.num_stations * (blk.num_times * blk.num_channels)
          = blk.num_stations * blk.num_channels * blk.num_times := by ring
      omega
    obtain ⟨h1, h2⟩ := amp_channels_log_spec writes w inc _ _ hw true _ blk.num_channels
      hidx s q hs
    obtain ⟨h3, h4⟩ := amp_baselines_log_loop writes w inc _ hw blk t ht
      (blk.num_stations - (a1 + 1)) (a1 + 1) _ _ h1 (by rw [h2]; exact hb)
    refine ⟨?_, ?_⟩
    · have e : q + (1 + (blk.num_stations - (a1 + 1))) * blk.num_channels
          = q + blk.num_channels + (blk.num_stations - (a1 + 1)) * blk.num_channels := by
        ring
      rw [e]
      exact h3
    · rw [h4, h2]

theorem amp_stations_log_loop (writes : Nat → List Nat) (w inc : Nat)
    (hw : ∀ q, writes (inc * q) = List.range' (w * q) w) (blk : oskar_VisBlock) (t : Nat)
    (ht : t < blk.num_times)
    (hnb : blk.num_baselines = blk.num_stations * (blk.num_stations - 1) / 2) (a : Nat)
    (ha : a ≤ blk.num_stations) :
    LogInv w inc (blk.num_baselines * blk.num_channels * blk.num_times)
      (blk.num_stations * blk.num_channels * blk.num_times)
      (forLoop (amp_station_log writes inc blk t) 0 a
        { b := 0, i_out := 0, writes := [], reads_auto := [], reads_cross := [] })
      ((cross_before blk.num_stations a + self_rows blk.has_auto_correlations * a)
        * blk.num_channels) ∧
    (forLoop (amp_station_log writes inc blk t) 0 a
      { b := 0, i_out := 0, writes := [], reads_auto := [], reads_cross := [] }).b
      = cross_before blk.num_stations a := by
  induction a with
  | zero =>
    simp [forLoop, LogInv, cross_before]
  | succ k ih =>
    rw [forLoop_succ_last]
    obtain ⟨h1, h2⟩ := ih (by omega)
    have htot := cross_before_total blk.num_stations
    have hmono := row_start_mono blk.num_stations 0 blk.num_stations (k + 1) ha
    have hstep : cross_before blk.num_stations (k + 1)
        = cross_before blk.num_stations k + (blk.num_stations - (k + 1)) := rfl
    obtain ⟨h3, h4⟩ := amp_station_log_spec writes w inc hw blk t ht (0 + k) (by omega) _ _ h1
      (by rw [h2]; simp only [Nat.zero_add]; omega)
    simp only [Nat.zero_add] at h3 h4
    refine ⟨?_, ?_⟩
    · have e : (cross_before blk.num_stations (k + 1)
            + self_rows blk.has_auto_correlations * (k + 1)) * blk.num_channels
          = (cross_before blk.num_stations k + self_rows blk.has_auto_correlations * k)
              * blk.num_channels
            + (self_rows blk.has_auto_correlations + (blk.num_stations - (k + 1)))
              * blk.num_channels := by
        rw [hstep]
        ring
      rw [e]
      simpa using h3
    · simp only [Nat.zero_add]
      rw [h4, h2, hstep]

theorem row_values_reads (conv : ℚ → FloatValue) (num_pols num_channels : Nat) (u v w : Nat → ℚ)
    (vis vis1 : Nat → ℚ) (ant1 ant2 : Nat → Int) (exposure interval time : ℚ)
    (num_baselines r : Nat) (hr : r < num_baselines)
    (h : ∀ d ∈ vis_reads num_pols num_channels num_baselines, vis d = vis1 d) :
    row_values conv num_pols num_channels u v w vis ant1 ant2 exposure interval time r =
      row_values conv num_pols num_channels u v w vis1 ant1 ant2 exposure interval time r := by
  have hmem : ∀ k, k < num_pols * num_channels → ∀ e, e = 0 ∨ e = 1 →
      toUInt (toUInt (2 * num_pols * num_channels) * r)
          + (toUInt (2 * (k % num_pols + k / num_pols * num_pols)) + e)
        ∈ vis_reads num_pols num_channels num_baselines := by
    intro k hk e he
    have hpos : 0 < num_pols := by
      rcases Nat.eq_zero_or_pos num_pols with h0 | h0
      · rw [h0] at hk
        omega
      · exact h0
    simp only [vis_reads, List.mem_flatMap, List.mem_range, List.mem_cons, List.mem_singleton,
      List.not_mem_nil, or_false]
    refine ⟨r, hr, k / num_pols, ?_, k % num_pols, Nat.mod_lt _ hpos, ?_⟩
    · exact Nat.div_lt_of_lt_mul hk
    · rcases he with he | he <;> subst he <;> simp
  unfold row_values
  simp only [List.cons.injEq, Prod.mk.injEq, true_and, and_true]
  apply List.map_congr_left
  intro k hk
  have hk1 := List.mem_range.mp hk
  have e0 := h _ (hmem k hk1 0 (Or.inl rfl))
  have e1 := h _ (hmem k hk1 1 (Or.inr rfl))
  simp only [Nat.add_zero] at e0
  rw [e0, e1]

theorem amp_loop_log_follows
    (put : (Nat → double2) → Nat → (Nat → double2) → Nat → (Nat → double2))
    (inc w : Nat) (content : (Nat → double2) → Nat → Nat → double2)
    (hput : PutSpec put inc w content) (writes : Nat → List Nat) (w1 : Nat)
    (hw : ∀ q, writes (inc * q) = List.range' (w1 * q) w1) (blk : oskar_VisBlock) (t : Nat)
    (ht : t < blk.num_times)
    (hnb : blk.num_baselines = blk.num_stations * (blk.num_stations - 1) / 2)
    (out : Nat → double2) :
    (amp_loop_log writes inc blk t).b
      = (forLoop (amp_station put inc blk t) 0 blk.num_stations
          { b := 0, i_out := 0, out := out }).b ∧
    (amp_loop_log writes inc blk t).i_out
      = (forLoop (amp_station put inc blk t) 0 blk.num_stations
          { b := 0, i_out := 0, out := out }).i_out := by
  obtain ⟨⟨h1, -, -, -⟩, hb⟩ := amp_stations_log_loop writes w1 inc hw blk t ht hnb
    blk.num_stations (le_refl _)
  obtain ⟨hb2, hi2, -, -⟩ := amp_stations_loop put inc w content hput blk t out
    blk.num_stations (le_refl _)
  unfold amp_loop_log
  rw [hb, hb2, h1, hi2]
  exact ⟨rfl, rfl⟩

theorem amps_for_time_log_example :
    (amps_for_time_log example_block_autocorr 4 1).writes = List.range 24 ∧
    (amps_for_time_log example_block_autocorr 4 1).reads_auto = [2, 3] ∧
    (amps_for_time_log example_block_autocorr 4 1).reads_cross = [1] := by
  refine ⟨by decide, by decide, by decide⟩

/-! ## The down-sampling of an image (C30) -/

theorem toInt_of_le (n : Nat) (h : n ≤ INT_MAX) : toInt n = (n : Int) := by
  unfold toInt
  have h1 : n % UINT_RANGE = n :=
    Nat.mod_eq_of_lt (by unfold UINT_RANGE; unfold INT_MAX at h; omega)
  rw [h1, if_pos h]

theorem forLoop_const {σ : Type} (n : Nat) (st : σ) :
    ∀ lo, forLoop (fun _ (a : σ) => a) lo n st = st := by
  induction n with
  | zero => intro lo; rfl
  | succ k ih => intro lo; rw [forLoop, ih]

/-- A loop that handles the indices `xx + a` below `W` is a left fold over those indices. -/
theorem forLoop_clip {β : Type} (g : β → Nat → β) (a W f : Nat) (acc : β) :
    forLoop (fun xx acc => if xx + a < W then g acc (xx + a) else acc) 0 f acc
      = (List.range' a (min (a + f) W - a)).foldl g acc := by
  induction f with
  | zero => simp [forLoop]
  | succ k ih =>
    rw [forLoop_succ_last, ih]
    simp only [Nat.zero_add]
    by_cases h : k + a < W
    · rw [if_pos h]
      have h1 : min (a + k) W - a = k := by
        rw [min_eq_left (by omega)]
        omega
      have h2 : min (a + (k + 1)) W - a = k + 1 := by
        rw [min_eq_left (by omega)]
        omega
      rw [h1, h2, List.range'_concat, List.foldl_append]
      simp [Nat.add_comm]
    · rw [if_neg h]
      have h1 : min (a + k) W = W := min_eq_right (by omega)
      have h2 : min (a + (k + 1)) W = W := min_eq_right (by omega)
      rw [h1, h2]

theorem foldl_flatMap_eq {α β γ : Type} (g : β → γ → β) (h : α → List γ) (l : List α) :
    ∀ acc : β, (l.flatMap h).foldl g acc = l.foldl (fun acc x => (h x).foldl g acc) acc := by
  induction l with
  | nil => intro acc; rfl
  | cons x xs ih =>
    intro acc
    rw [List.flatMap_cons, List.foldl_append, ih]
    rfl

/-- The loops over `yy` and `xx` accumulate the pixels of the block in order. -/
theorem downsample_pixel_eq {α : Type} (add : α → α → α) (zero : α) (W H f : Nat)
    (hWH : W * H ≤ INT_MAX) (img : Nat → α) (x y : Nat) :
    downsample_pixel add zero W H ((W * H : Nat) : Int) f img x y
      = pixel_sum add zero img (block_pixels W H f x y) := by
  unfold downsample_pixel pixel_sum block_pixels
  have hinner : ∀ (yy : Nat),
      (fun (xx : Nat) (new_val : α) =>
          let ix := xx + x * f
          let iy := yy + y * f
          let i : Int := toInt (W * iy + ix)
          if ix ≥ W ∨ iy ≥ H ∨ i ≥ ((W * H : Nat) : Int) then new_val
          else add new_val (img i.toNat))
      = (fun xx new_val =>
          if xx + x * f < W then
            (fun a ix => if yy + y * f < H then add a (img (W * (yy + y * f) + ix)) else a)
              new_val (xx + x * f)
          else new_val) := by
    intro yy
    funext xx a
    simp only
    by_cases hc : xx + x * f < W ∧ yy + y * f < H
    · have hlt : W * (yy + y * f) + (xx + x * f) < W * H := by
        have h1 : W * (yy + y * f + 1) ≤ W * H := Nat.mul_le_mul_left _ hc.2
        have h2 : W * (yy + y * f + 1) = W * (yy + y * f) + W := by ring
        omega
      have hi : toInt (W * (yy + y * f) + (xx + x * f))
          = ((W * (yy + y * f) + (xx + x * f) : Nat) : Int) := toInt_of_le _ (by omega)
      have hn : ¬ (xx + x * f ≥ W ∨ yy + y * f ≥ H ∨
          toInt (W * (yy + y * f) + (xx + x * f)) ≥ ((W * H : Nat) : Int)) := by
        rw [hi]
        omega
      rw [if_neg hn, if_pos hc.1, if_pos hc.2, hi, Int.toNat_ofNat]
    · have hp : xx + x * f ≥ W ∨ yy + y * f ≥ H ∨
          toInt (W * (yy + y * f) + (xx + x * f)) ≥ ((W * H : Nat) : Int) := by
        omega
      rw [if_pos hp]
      by_cases h1 : xx + x * f < W
      · rw [if_pos h1, if_neg (by omega)]
      · rw [if_neg h1]
  have hrow : ∀ (yy : Nat) (a : α),
      forLoop (fun (xx : Nat) (new_val : α) =>
          let ix := xx + x * f
          let iy := yy + y * f
          let i : Int := toInt (W * iy + ix)
          if ix ≥ W ∨ iy ≥ H ∨ i ≥ ((W * H : Nat) : Int) then new_val
          else add new_val (img i.toNat)) 0 f a
      = if yy + y * f < H then
          (fun a iy => ((List.range' (x * f) (min ((x + 1) * f) W - x * f)).map
            fun ix => W * iy + ix).foldl (fun a i => add a (img i)) a) a (yy + y * f)
        else a := by
    intro yy a
    rw [hinner yy]
    refine Eq.trans (forLoop_clip
      (fun a ix => if yy + y * f < H then add a (img (W * (yy + y * f) + ix)) else a)
      (x * f) W f a) ?_
    have e : (x + 1) * f = x * f + f := by ring
    rw [e]
    by_cases hy : yy + y * f < H
    · simp only [hy, if_true]
      rw [List.foldl_map]
    · simp only [hy, if_false]
      generalize List.range' (x * f) (min (x * f + f) W - x * f) = l
      induction l with
      | nil => rfl
      | cons _ _ ih => exact ih
  have houter : (fun (yy : Nat) (new_val : α) =>
      forLoop (fun (xx : Nat) (new_val : α) =>
          let ix := xx + x * f
          let iy := yy + y * f
          let i : Int := toInt (W * iy + ix)
          if ix ≥ W ∨ iy ≥ H ∨ i ≥ ((W * H : Nat) : Int) then new_val
          else add new_val (img i.toNat)) 0 f new_val)
      = (fun yy a => if yy + y * f < H then
          (fun a iy => ((List.range' (x * f) (min ((x + 1) * f) W - x * f)).map
            fun ix => W * iy + ix).foldl (fun a i => add a (img i)) a) a (yy + y * f)
        else a) := by
    funext yy a
    exact hrow yy a
  rw [houter, foldl_flatMap_eq]
  refine Eq.trans (forLoop_clip
    (fun a iy => ((List.range' (x * f) (min ((x + 1) * f) W - x * f)).map
      fun ix => W * iy + ix).foldl (fun a i => add a (img i)) a) (y * f) H f zero) ?_
  have e : (y + 1) * f = y * f + f := by ring
  rw [e]

theorem pixel_sum_congr {α : Type} (add : α → α → α) (zero : α) (img1 img2 : Nat → α)
    (l : List Nat) (h : ∀ i ∈ l, img1 i = img2 i) :
    pixel_sum add zero img1 l = pixel_sum add zero img2 l := by
  unfold pixel_sum
  generalize zero = acc
  induction l generalizing acc with
  | nil => rfl
  | cons i l ih =>
    simp only [List.foldl_cons]
    rw [h i (List.mem_cons_self _ _)]
    exact ih (fun j hj => h j (List.mem_cons_of_mem _ hj)) _

theorem mem_block_pixels (W H f x y i : Nat) :
    i ∈ block_pixels W H f x y ↔
      ∃ ix iy, i = W * iy + ix ∧ x * f ≤ ix ∧ ix < min ((x + 1) * f) W ∧
        y * f ≤ iy ∧ iy < min ((y + 1) * f) H := by
  unfold block_pixels
  simp only [List.mem_flatMap, List.mem_map, List.mem_range'_1]
  constructor
  · rintro ⟨iy, ⟨h1, h2⟩, ix, ⟨h3, h4⟩, rfl⟩
    exact ⟨ix, iy, rfl, h3, by omega, h1, by omega⟩
  · rintro ⟨ix, iy, rfl, h1, h2, h3, h4⟩
    exact ⟨iy, ⟨h3, by omega⟩, ix, ⟨h1, by omega⟩, rfl⟩

theorem width_ceil (W f : Nat) (hf : 1 ≤ f) :
    W ≤ (W + f - 1) / f * f ∧ (W + f - 1) / f * f < W + f := by
  have h1 := Nat.div_add_mod (W + f - 1) f
  have h2 := Nat.mod_lt (W + f - 1) (by omega : f > 0)
  rw [Nat.mul_comm] at h1
  constructor <;> omega

/-- A pixel of the block `(x, y)` lies at an index not below that of the super-pixel. -/
theorem block_index_le (W f : Nat) (hf : 1 ≤ f) (x y ix iy : Nat) (h1 : x * f ≤ ix)
    (h3 : y * f ≤ iy) : y * ((W + f - 1) / f) + x ≤ W * iy + ix := by
  have hw : (W + f - 1) / f ≤ W := by
    have hc := (width_ceil W f hf).2
    by_contra hgt
    have : (W + 1) * f ≤ (W + f - 1) / f * f := Nat.mul_le_mul_right _ (by omega)
    have e : (W + 1) * f = W * f + f := by ring
    have : W * 1 ≤ W * f := Nat.mul_le_mul_left _ hf
    omega
  have h4 : y * ((W + f - 1) / f) ≤ W * iy := by
    calc y * ((W + f - 1) / f) ≤ y * W := Nat.mul_le_mul_left _ hw
      _ ≤ (y * f) * W := by
          apply Nat.mul_le_mul_right
          exact Nat.le_mul_of_pos_right _ (by omega)
      _ ≤ iy * W := Nat.mul_le_mul_right _ h3
      _ = W * iy := Nat.mul_comm _ _
  have h5 : x ≤ ix := le_trans (Nat.le_mul_of_pos_right _ (by omega)) h1
  omega

theorem downsample_pixel_congr {α : Type} (add : α → α → α) (zero : α) (W H f n : Nat)
    (hWH : W * H ≤ INT_MAX) (hf : 1 ≤ f) (img1 img2 : Nat → α)
    (h : ∀ k, n ≤ k → img1 k = img2 k) (x y : Nat)
    (hneq : n = y * ((W + f - 1) / f) + x) :
    downsample_pixel add zero W H ((W * H : Nat) : Int) f img1 x y
      = downsample_pixel add zero W H ((W * H : Nat) : Int) f img2 x y := by
  rw [downsample_pixel_eq add zero W H f hWH, downsample_pixel_eq add zero W H f hWH]
  apply pixel_sum_congr
  intro i hi
  obtain ⟨ix, iy, rfl, h1, h2, h3, h4⟩ := (mem_block_pixels W H f x y i).1 hi
  apply h
  rw [hneq]
  exact block_index_le W f hf x y ix iy h1 h3

theorem downsample_row_loop {α : Type} (add : α → α → α) (zero : α) (W H f : Nat)
    (hWH : W * H ≤ INT_MAX) (hf : 1 ≤ f) (img : Nat → α) (y : Nat) (m : Nat)
    (hm : m ≤ (W + f - 1) / f) :
    forLoop (downsample_step add zero W H ((W * H : Nat) : Int) f y) 0 m
        { j := y * ((W + f - 1) / f),
          img := downsample_after add zero W H f img (y * ((W + f - 1) / f)) }
      = { j := y * ((W + f - 1) / f) + m,
          img := downsample_after add zero W H f img (y * ((W + f - 1) / f) + m) } := by
  induction m with
  | zero => rfl
  | succ k ih =>
    rw [forLoop_succ_last, ih (by omega)]
    simp only [downsample_step, Nat.zero_add]
    have hk : k < (W + f - 1) / f := by omega
    have hcongr := downsample_pixel_congr add zero W H f (y * ((W + f - 1) / f) + k) hWH hf
      (downsample_after add zero W H f img (y * ((W + f - 1) / f) + k)) img
      (fun j hj => by
        unfold downsample_after
        rw [if_neg (by omega)])
      k y rfl
    rw [hcongr]
    congr 1
    funext j
    unfold downsample_after setAt
    by_cases h1 : j = y * ((W + f - 1) / f) + k
    · subst h1
      have hlt : y * ((W + f - 1) / f) + k < y * ((W + f - 1) / f) + (k + 1) := by omega
      have hmod : (y * ((W + f - 1) / f) + k) % ((W + f - 1) / f) = k := by
        rw [Nat.mul_comm, Nat.mul_add_mod]
        exact Nat.mod_eq_of_lt hk
      have hdiv : (y * ((W + f - 1) / f) + k) / ((W + f - 1) / f) = y := by
        rw [Nat.mul_comm, Nat.mul_add_div (by omega), Nat.div_eq_of_lt hk]
        rfl
      rw [if_pos rfl, if_pos hlt, hmod, hdiv]
    · rw [if_neg h1]
      show (if j < y * ((W + f - 1) / f) + k then _ else _) = _
      by_cases h2 : j < y * ((W + f - 1) / f) + k
      · rw [if_pos h2, if_pos (by omega)]
      · rw [if_neg h2, if_neg (by omega)]

theorem downsample_loop {α : Type} (add : α → α → α) (zero : α) (W H f : Nat)
    (hWH : W * H ≤ INT_MAX) (hf : 1 ≤ f) (img : Nat → α) (n : Nat) :
    forLoop (fun y st =>
        forLoop (downsample_step add zero W H ((W * H : Nat) : Int) f y) 0 ((W + f - 1) / f) st)
        0 n { j := 0, img := img }
      = { j := n * ((W + f - 1) / f),
          img := downsample_after add zero W H f img (n * ((W + f - 1) / f)) } := by
  induction n with
  | zero =>
    simp only [forLoop, Nat.zero_mul]
    congr 1
  | succ k ih =>
    rw [forLoop_succ_last, ih]
    simp only [Nat.zero_add]
    rw [downsample_row_loop add zero W H f hWH hf img k _ (le_refl _)]
    have e : k * ((W + f - 1) / f) + (W + f - 1) / f = (k + 1) * ((W + f - 1) / f) := by ring
    rw [e]

theorem downsample_eq {α : Type} (add : α → α → α) (zero : α) (W H : Nat) (factor : Int)
    (f : Nat) (hf : f = if factor < 1 then 1 else factor.toNat) (hWH : W * H ≤ INT_MAX)
    (img : Nat → α) :
    1 ≤ f ∧
    downsample add zero W H factor img
      = downsample_after add zero W H f img (((H + f - 1) / f) * ((W + f - 1) / f)) := by
  have h1 : 1 ≤ f := by
    rw [hf]
    split <;> omega
  refine ⟨h1, ?_⟩
  unfold downsample
  simp only [← hf]
  rw [toInt_of_le _ hWH, downsample_loop add zero W H f hWH h1 img]

/-- The value of the in-place loop at the super-pixel `(x, y)`. -/
theorem downsample_value {α : Type} (add : α → α → α) (zero : α) (W H : Nat) (factor : Int)
    (f : Nat) (hf : f = if factor < 1 then 1 else factor.toNat) (hWH : W * H ≤ INT_MAX)
    (img : Nat → α) (x y : Nat) (hx : x < (W + f - 1) / f) (hy : y < (H + f - 1) / f) :
    downsample add zero W H factor img (y * ((W + f - 1) / f) + x)
      = pixel_sum add zero img (block_pixels W H f x y) := by
  obtain ⟨hf1, heq⟩ := downsample_eq add zero W H factor f hf hWH img
  rw [heq]
  unfold downsample_after
  have hlt : y * ((W + f - 1) / f) + x < (H + f - 1) / f * ((W + f - 1) / f) := by
    have h1 : (y + 1) * ((W + f - 1) / f) ≤ (H + f - 1) / f * ((W + f - 1) / f) :=
      Nat.mul_le_mul_right _ hy
    have h2 : (y + 1) * ((W + f - 1) / f) = y * ((W + f - 1) / f) + (W + f - 1) / f := by
      ring
    omega
  have hmod : (y * ((W + f - 1) / f) + x) % ((W + f - 1) / f) = x := by
    rw [Nat.mul_comm, Nat.mul_add_mod]
    exact Nat.mod_eq_of_lt hx
  have hdiv : (y * ((W + f - 1) / f) + x) / ((W + f - 1) / f) = y := by
    rw [Nat.mul_comm, Nat.mul_add_div (by omega), Nat.div_eq_of_lt hx]
    rfl
  rw [if_pos hlt, hmod, hdiv, downsample_pixel_eq add zero W H f hWH]

theorem downsample_beyond {α : Type} (add : α → α → α) (zero : α) (W H : Nat) (factor : Int)
    (f : Nat) (hf : f = if factor < 1 then 1 else factor.toNat) (hWH : W * H ≤ INT_MAX)
    (img : Nat → α) (k : Nat) (hk : (H + f - 1) / f * ((W + f - 1) / f) ≤ k) :
    downsample add zero W H factor img k = img k := by
  obtain ⟨hf1, heq⟩ := downsample_eq add zero W H factor f hf hWH img
  rw [heq]
  unfold downsample_after
  rw [if_neg (by omega)]

theorem pixel_sum_append {α : Type} (add : α → α → α) (zero : α) (img : Nat → α)
    (l : List Nat) (i : Nat) :
    pixel_sum add zero img (l ++ [i]) = add (pixel_sum add zero img l) (img i) := by
  unfold pixel_sum
  rw [List.foldl_append]
  rfl

/-- An accumulation in which no addition rounds gives the exact sum. -/
theorem pixel_sum_exact (fmt : ℚ → FloatValue) (q : Nat → ℚ) (l : List Nat)
    (hpre : ∀ m, 1 ≤ m → m ≤ l.length →
      fmt ((l.take m).map q).sum = FloatValue.finite ((l.take m).map q).sum) :
    pixel_sum (FloatValue.add fmt) (FloatValue.finite 0) (fun i => FloatValue.finite (q i)) l
      = FloatValue.finite (l.map q).sum := by
  have h : ∀ m, m ≤ l.length →
      pixel_sum (FloatValue.add fmt) (FloatValue.finite 0)
          (fun i => FloatValue.finite (q i)) (l.take m)
        = FloatValue.finite ((l.take m).map q).sum := by
    intro m
    induction m with
    | zero =>
      intro _
      simp [pixel_sum]
    | succ k ih =>
      intro hk
      have hlt : k < l.length := by omega
      have htake : l.take (k + 1) = l.take k ++ [l.get ⟨k, hlt⟩] := by
        rw [List.take_succ, List.getElem?_eq_getElem hlt]
        rfl
      have hp := hpre (k + 1) (by omega) hk
      rw [htake] at hp ⊢
      rw [pixel_sum_append, ih (by omega)]
      simp only [FloatValue.add]
      rw [List.map_append, List.sum_append] at hp ⊢
      simpa using hp
  have := h l.length (le_refl _)
  rwa [List.take_length] at this

theorem list_sum_range' (g : Nat → ℚ) (s n : Nat) :
    ((List.range' s n).map g).sum = ∑ i ∈ Finset.Ico s (s + n), g i := by
  induction n with
  | zero => simp
  | succ k ih =>
    rw [List.range'_concat, List.map_append, List.sum_append, ih,
      ← Nat.add_assoc, Finset.sum_Ico_succ_top (by omega)]
    simp

theorem Ico_add_sub (a b : Nat) : Finset.Ico a (a + (b - a)) = Finset.Ico a b := by
  ext i
  simp only [Finset.mem_Ico]
  omega

theorem list_sum_flatMap (q : Nat → ℚ) (h : Nat → List Nat) (l : List Nat) :
    ((l.flatMap h).map q).sum = (l.map fun a => ((h a).map q).sum).sum := by
  induction l with
  | nil => rfl
  | cons a l ih =>
    rw [List.flatMap_cons, List.map_append, List.sum_append, ih]
    rfl

/-- The sum of the pixels of a block, as a sum over the two index ranges. -/
theorem block_pixels_sum (q : Nat → ℚ) (W H f x y : Nat) :
    ((block_pixels W H f x y).map q).sum
      = ∑ iy ∈ Finset.Ico (y * f) (min ((y + 1) * f) H),
          ∑ ix ∈ Finset.Ico (x * f) (min ((x + 1) * f) W), q (W * iy + ix) := by
  unfold block_pixels
  rw [list_sum_flatMap, list_sum_range', Ico_add_sub]
  apply Finset.sum_congr rfl
  intro iy _
  rw [List.map_map, list_sum_range', Ico_add_sub]
  rfl

theorem block_pixels_length (W H f x y : Nat) : (block_pixels W H f x y).length ≤ f * f := by
  unfold block_pixels
  rw [List.length_flatMap]
  have hc : (List.map (List.length ∘ fun iy => List.map (fun ix => W * iy + ix)
      (List.range' (x * f) (min ((x + 1) * f) W - x * f)))
      (List.range' (y * f) (min ((y + 1) * f) H - y * f)))
      = List.replicate (min ((y + 1) * f) H - y * f) (min ((x + 1) * f) W - x * f) := by
    rw [List.eq_replicate_iff]
    simp only [List.length_map, List.length_range', List.mem_map, Function.comp_apply,
      true_and]
    rintro b ⟨_, _, rfl⟩
    rfl
  rw [hc, List.sum_replicate, smul_eq_mul]
  have e1 : (x + 1) * f = x * f + f := by ring
  have e2 : (y + 1) * f = y * f + f := by ring
  have h1 : min ((y + 1) * f) H - y * f ≤ f := by omega
  have h2 : min ((x + 1) * f) W - x * f ≤ f := by omega
  exact Nat.mul_le_mul h1 h2

theorem sum_blocks_prefix_sum (g : Nat → ℚ) (W f m : Nat) :
    ∑ x ∈ Finset.range m, ∑ ix ∈ Finset.Ico (x * f) (min ((x + 1) * f) W), g ix
      = ∑ ix ∈ Finset.Ico 0 (min (m * f) W), g ix := by
  induction m with
  | zero => simp
  | succ k ih =>
    rw [Finset.sum_range_succ, ih]
    have e : (k + 1) * f = k * f + f := by ring
    by_cases h : k * f < W
    · have h1 : min (k * f) W = k * f := min_eq_left (by omega)
      rw [h1]
      exact Finset.sum_Ico_consecutive g (Nat.zero_le _) (le_min (by omega) (by omega))
    · have h1 : min (k * f) W = W := min_eq_right (by omega)
      have h2 : min ((k + 1) * f) W = W := min_eq_right (by omega)
      have hempty : Finset.Ico (k * f) W = ∅ := Finset.Ico_eq_empty h
      rw [h1, h2, hempty, Finset.sum_empty, add_zero]

theorem sum_blocks (g : Nat → ℚ) (W f : Nat) (hf : 1 ≤ f) :
    ∑ x ∈ Finset.range ((W + f - 1) / f),
        ∑ ix ∈ Finset.Ico (x * f) (min ((x + 1) * f) W), g ix
      = ∑ ix ∈ Finset.range W, g ix := by
  rw [sum_blocks_prefix_sum, min_eq_right (width_ceil W f hf).1, Finset.range_eq_Ico]

theorem sum_range_mul (F : Nat → ℚ) (w h : Nat) :
    ∑ j ∈ Finset.range (h * w), F j
      = ∑ y ∈ Finset.range h, ∑ x ∈ Finset.range w, F (y * w + x) := by
  induction h with
  | zero => simp
  | succ k ih =>
    have e : (k + 1) * w = k * w + w := by ring
    rw [e, Finset.sum_range_add, ih, Finset.sum_range_succ]

/-- The block sums of an image add up to the sum of its pixels. -/
theorem sum_block_sums (q : Nat → ℚ) (W H f : Nat) (hf : 1 ≤ f) :
    ∑ y ∈ Finset.range ((H + f - 1) / f), ∑ x ∈ Finset.range ((W + f - 1) / f),
        ∑ iy ∈ Finset.Ico (y * f) (min ((y + 1) * f) H),
          ∑ ix ∈ Finset.Ico (x * f) (min ((x + 1) * f) W), q (W * iy + ix)
      = ∑ i ∈ Finset.range (W * H), q i := by
  have hrow : ∀ y ∈ Finset.range ((H + f - 1) / f),
      ∑ x ∈ Finset.range ((W + f - 1) / f),
        ∑ iy ∈ Finset.Ico (y * f) (min ((y + 1) * f) H),
          ∑ ix ∈ Finset.Ico (x * f) (min ((x + 1) * f) W), q (W * iy + ix)
      = ∑ iy ∈ Finset.Ico (y * f) (min ((y + 1) * f) H),
          ∑ ix ∈ Finset.range W, q (W * iy + ix) := by
    intro y _
    rw [Finset.sum_comm]
    apply Finset.sum_congr rfl
    intro iy _
    exact sum_blocks (fun ix => q (W * iy + ix)) W f hf
  rw [Finset.sum_congr rfl hrow,
    sum_blocks (fun iy => ∑ ix ∈ Finset.range W, q (W * iy + ix)) H f hf,
    Nat.mul_comm W H, sum_range_mul]
  apply Finset.sum_congr rfl
  intro iy _
  apply Finset.sum_congr rfl
  intro ix _
  rw [Nat.mul_comm]

theorem list_sum_intCast (n : Nat → Int) (l : List Nat) :
    (l.map fun i => ((n i : Int) : ℚ)).sum = (((l.map n).sum : Int) : ℚ) := by
  induction l with
  | nil => simp
  | cons a l ih =>
    simp only [List.map_cons, List.sum_cons, ih]
    push_cast
    rfl

theorem list_sum_abs_le (n : Nat → Int) (B : Nat) (l : List Nat)
    (h : ∀ i ∈ l, |n i| ≤ B) : |(l.map n).sum| ≤ (l.length * B : Nat) := by
  induction l with
  | nil => simp
  | cons a l ih =>
    simp only [List.map_cons, List.sum_cons, List.length_cons]
    have h1 := h a (List.mem_cons_self _ _)
    have h2 := ih (fun i hi => h i (List.mem_cons_of_mem _ hi))
    have h3 := abs_add (n a) (l.map n).sum
    have e : ((((l.length + 1) * B : Nat)) : Int) = ((l.length * B : Nat) : Int) + B := by
      push_cast
      ring
    rw [e]
    omega

/-- Pixels that are whole numbers of magnitude at most `B` are added without rounding if
the format holds every whole number up to `B * f * f`. -/
theorem sums_exact_of_bounded (fmt : ℚ → FloatValue) (M : Nat)
    (hfmt : ∀ z : Int, |z| ≤ M → fmt (z : ℚ) = FloatValue.finite (z : ℚ))
    (W H f : Nat) (n : Nat → Int) (B : Nat) (hB : ∀ i, i < W * H → |n i| ≤ B)
    (hM : B * (f * f) ≤ M) :
    sums_exact fmt W H f (fun i => ((n i : Int) : ℚ)) := by
  intro x y m _ hm
  rw [list_sum_intCast]
  apply hfmt
  have hmem : ∀ i ∈ (block_pixels W H f x y).take m, |n i| ≤ B := by
    intro i hi
    have hi2 := List.mem_of_mem_take hi
    obtain ⟨ix, iy, rfl, h1, h2, h3, h4⟩ := (mem_block_pixels W H f x y i).1 hi2
    apply hB
    have hix : ix < W := lt_of_lt_of_le h2 (min_le_right _ _)
    have hiy : iy < H := lt_of_lt_of_le h4 (min_le_right _ _)
    have h5 : W * (iy + 1) ≤ W * H := Nat.mul_le_mul_left _ hiy
    have h6 : W * (iy + 1) = W * iy + W := by ring
    omega
  have hsum := list_sum_abs_le n B _ hmem
  have hlen : ((block_pixels W H f x y).take m).length ≤ f * f := by
    rw [List.length_take]
    exact le_trans (min_le_right _ _) (block_pixels_length W H f x y)
  have hprod : ((block_pixels W H f x y).take m).length * B ≤ M :=
    le_trans (Nat.mul_le_mul_right _ hlen) (by rw [Nat.mul_comm]; exact hM)
  have : ((((block_pixels W H f x y).take m).length * B : Nat) : Int) ≤ (M : Int) := by
    exact_mod_cast hprod
  omega

theorem toFloat32_int (z : Int) (hz : |z| ≤ ((2 ^ 24 : Nat) : Int)) :
    toFloat32 (z : ℚ) = FloatValue.finite (z : ℚ) :=
  toBinaryFormat_int 24 (-126) 127 z (by exact_mod_cast hz) (by norm_num) (by norm_num)
    (by norm_num)

theorem toFloat64_int (z : Int) (hz : |z| ≤ ((2 ^ 53 : Nat) : Int)) :
    toFloat64 (z : ℚ) = FloatValue.finite (z : ℚ) :=
  toBinaryFormat_int 53 (-1022) 1023 z (by exact_mod_cast hz) (by norm_num) (by norm_num)
    (by norm_num)

theorem downsample_image_eq (datatype : ImageType) (W H : Nat) (factor : Int)
    (img : Nat → FloatValue) :
    downsample_image datatype W H factor img
      = downsample (FloatValue.add datatype.fmt) (FloatValue.finite 0) W H factor img := by
  cases datatype <;> rfl

theorem downsample_defined_pixels (datatype : ImageType) (W H f : Nat)
    (hdef : downsample_defined datatype.bytes_per_element W H f) : W * H ≤ INT_MAX := by
  obtain ⟨h, -, -⟩ := hdef
  cases datatype <;> simp only [ImageType.bytes_per_element] at h <;> omega

/-- The value of the in-place loop at the super-pixel `(x, y)` of an image. -/
theorem downsample_image_value (datatype : ImageType) (W H : Nat) (factor : Int) (f : Nat)
    (hf : f = if factor < 1 then 1 else factor.toNat)
    (hdef : downsample_defined datatype.bytes_per_element W H f) (img : Nat → FloatValue)
    (x y : Nat) (hx : x < (W + f - 1) / f) (hy : y < (H + f - 1) / f) :
    downsample_image datatype W H factor img (y * ((W + f - 1) / f) + x)
      = pixel_sum (FloatValue.add datatype.fmt) (FloatValue.finite 0) img
          (block_pixels W H f x y) := by
  rw [downsample_image_eq]
  exact downsample_value _ _ W H factor f hf (downsample_defined_pixels datatype W H f hdef)
    img x y hx hy

/-- The in-place loop on an image whose additions do not round: exact block sums, and the
sum of the output pixels is the sum of the input pixels. -/
theorem downsample_image_exact (datatype : ImageType) (W H : Nat) (factor : Int) (f : Nat)
    (hf : f = if factor < 1 then 1 else factor.toNat)
    (hdef : downsample_defined datatype.bytes_per_element W H f) (q : Nat → ℚ)
    (hq : sums_exact datatype.fmt W H f q) :
    (∀ x y, x < (W + f - 1) / f → y < (H + f - 1) / f →
      downsample_image datatype W H factor (fun i => FloatValue.finite (q i))
          (y * ((W + f - 1) / f) + x)
        = FloatValue.finite (∑ iy ∈ Finset.Ico (y * f) (min ((y + 1) * f) H),
            ∑ ix ∈ Finset.Ico (x * f) (min ((x + 1) * f) W), q (W * iy + ix))) ∧
    ∑ j ∈ Finset.range ((H + f - 1) / f * ((W + f - 1) / f)),
        (downsample_image datatype W H factor (fun i => FloatValue.finite (q i)) j).toRat
      = ∑ i ∈ Finset.range (W * H), q i := by
  have hf1 : 1 ≤ f := by
    rw [hf]
    split <;> omega
  have hval : ∀ x y, x < (W + f - 1) / f → y < (H + f - 1) / f →
      downsample_image datatype W H factor (fun i => FloatValue.finite (q i))
          (y * ((W + f - 1) / f) + x)
        = FloatValue.finite (∑ iy ∈ Finset.Ico (y * f) (min ((y + 1) * f) H),
            ∑ ix ∈ Finset.Ico (x * f) (min ((x + 1) * f) W), q (W * iy + ix)) := by
    intro x y hx hy
    rw [downsample_image_value datatype W H factor f hf hdef _ x y hx hy,
      pixel_sum_exact datatype.fmt q _ (hq x y), block_pixels_sum]
  refine ⟨hval, ?_⟩
  rw [sum_range_mul, ← sum_block_sums q W H f hf1]
  apply Finset.sum_congr rfl
  intro y hy
  apply Finset.sum_congr rfl
  intro x hx
  rw [hval x y (Finset.mem_range.mp hx) (Finset.mem_range.mp hy)]
  rfl

/-- C30 (counterexample): the `float` image of width 2 and height 1 with the pixels
`2 ^ 24 = 16777216` and `1`, down-sampled by the factor 2, gives the one super-pixel
`16777216`, because the sum `16777217` is not a `float` and is rounded; the sum of the
input pixels is `16777217`.  So the output pixel is not the sum of the input pixels of its
block, and the sum of the output pixels is not the sum of the input pixels. -/
theorem downsample_rounds :
    downsample_defined ImageType.TFLOAT.bytes_per_element 2 1 2 ∧
    (2 + 2 - 1) / 2 = 1 ∧ (1 + 2 - 1) / 2 = 1 ∧
    downsample_image ImageType.TFLOAT 2 1 2 example_image_wide 0
      = FloatValue.finite 16777216 ∧
    example_image_wide 0 = FloatValue.finite 16777216 ∧
    example_image_wide 1 = FloatValue.finite 1 ∧
    ∑ j ∈ Finset.range (1 * 1),
      (downsample_image ImageType.TFLOAT 2 1 2 example_image_wide j).toRat = 16777216 ∧
    ∑ i ∈ Finset.range (2 * 1), (example_image_wide i).toRat = 16777217 := by
  have hb : block_pixels 2 1 2 0 0 = [0, 1] := by decide
  have h0 : downsample_image ImageType.TFLOAT 2 1 2 example_image_wide 0
      = FloatValue.finite 16777216 := by
    have h := downsample_image_value ImageType.TFLOAT 2 1 2 2 (by decide) (by decide)
      example_image_wide 0 0 (by decide) (by decide)
    simp only [Nat.zero_mul, Nat.add_zero] at h
    rw [h, hb]
    simp only [pixel_sum, List.foldl_cons, List.foldl_nil, example_image_wide, ImageType.fmt,
      FloatValue.add, if_true, zero_add]
    have h1 : toFloat32 16777216 = FloatValue.finite 16777216 := by
      have := toFloat32_int 16777216 (by norm_num)
      simpa using this
    rw [h1]
    simp only [FloatValue.add, one_ne_zero, if_false, if_true]
    have e : (16777216 : ℚ) + 1 = 16777217 := by norm_num
    rw [e, toFloat32_wide]
  refine ⟨by decide, by decide, by decide, h0, rfl, rfl, ?_, ?_⟩
  · simp only [Nat.mul_one, Finset.sum_range_one, h0, FloatValue.toRat]
  · simp [Finset.sum_range_succ, example_image_wide, FloatValue.toRat]
    norm_num

/-- C30 (amended): for a `float` or `double` image of width `W` and height `H` in the
range where the `int` arithmetic is defined (`downsample_defined`), with `f` the factor in
use (`1` for a `downsample_factor` below `1`) and `width = (W + f - 1) / f`,
`height = (H + f - 1) / f` (the least numbers of blocks of `f` that cover `W` and `H`),
the in-place loop equals the out-of-place definition: the image array after the loop
holds at index `y * width + x`, for `x < width` and `y < height`, the sum of the ORIGINAL
input pixels `(ix, iy)` with `x * f <= ix < min((x + 1) * f, W)` and
`y * f <= iy < min((y + 1) * f, H)` (`block_pixels`), accumulated row by row from zero
in the pixel type, each addition rounded to that type, and it holds the input image beyond
the last super-pixel.  Every pixel that the super-pixel at index `j = y * width + x`
reads lies at an index not below `j`, while the indices stored before are below `j`: no
pixel is overwritten before it is read.  When no addition rounds (`sums_exact`), the
value at index `y * width + x` is the exact sum of those pixels, and the sum of the
`width * height` output pixels is the sum of the `W * H` input pixels. -/
theorem downsample_in_place (datatype : ImageType) (W H : Nat) (factor : Int) (f : Nat)
    (hf : f = if factor < 1 then 1 else factor.toNat)
    (hdef : downsample_defined datatype.bytes_per_element W H f) (img : Nat → FloatValue) :
    (W ≤ (W + f - 1) / f * f ∧ (W + f - 1) / f * f < W + f) ∧
    (H ≤ (H + f - 1) / f * f ∧ (H + f - 1) / f * f < H + f) ∧
    (∀ x y, x < (W + f - 1) / f → y < (H + f - 1) / f →
      downsample_image datatype W H factor img (y * ((W + f - 1) / f) + x)
        = pixel_sum (FloatValue.add datatype.fmt) (FloatValue.finite 0) img
            (block_pixels W H f x y)) ∧
    (∀ x y i, i ∈ block_pixels W H f x y ↔
      ∃ ix iy, i = W * iy + ix ∧ x * f ≤ ix ∧ ix < min ((x + 1) * f) W ∧
        y * f ≤ iy ∧ iy < min ((y + 1) * f) H) ∧
    (∀ k, (H + f - 1) / f * ((W + f - 1) / f) ≤ k →
      downsample_image datatype W H factor img k = img k) ∧
    (∀ x y ix iy, x * f ≤ ix → ix < W → y * f ≤ iy →
      y * ((W + f - 1) / f) + x ≤ W * iy + ix) ∧
    (∀ q : Nat → ℚ, sums_exact datatype.fmt W H f q →
      (∀ x y, x < (W + f - 1) / f → y < (H + f - 1) / f →
        downsample_image datatype W H factor (fun i => FloatValue.finite (q i))
            (y * ((W + f - 1) / f) + x)
          = FloatValue.finite (∑ iy ∈ Finset.Ico (y * f) (min ((y + 1) * f) H),
              ∑ ix ∈ Finset.Ico (x * f) (min ((x + 1) * f) W), q (W * iy + ix))) ∧
      ∑ j ∈ Finset.range ((H + f - 1) / f * ((W + f - 1) / f)),
          (downsample_image datatype W H factor (fun i => FloatValue.finite (q i)) j).toRat
        = ∑ i ∈ Finset.range (W * H), q i) := by
  have hf1 : 1 ≤ f := by
    rw [hf]
    split <;> omega
  have hWH := downsample_defined_pixels datatype W H f hdef
  refine ⟨width_ceil W f hf1, width_ceil H f hf1, ?_, mem_block_pixels W H f, ?_, ?_, ?_⟩
  · intro x y hx hy
    exact downsample_image_value datatype W H factor f hf hdef img x y hx hy
  · intro k hk
    rw [downsample_image_eq]
    exact downsample_beyond _ _ W H factor f hf hWH img k hk
  · intro x y ix iy h1 _ h3
    exact block_index_le W f hf1 x y ix iy h1 h3
  · intro q hq
    exact downsample_image_exact datatype W H factor f hf hdef q hq

theorem downsample_in_place_witness :
    (3 ≤ (3 + 2 - 1) / 2 * 2 ∧ (3 + 2 - 1) / 2 * 2 < 3 + 2) ∧
    (2 ≤ (2 + 2 - 1) / 2 * 2 ∧ (2 + 2 - 1) / 2 * 2 < 2 + 2) ∧
    (∀ x y, x < (3 + 2 - 1) / 2 → y < (2 + 2 - 1) / 2 →
      downsample_image ImageType.TFLOAT 3 2 2 (fun i => FloatValue.finite (i : ℚ))
          (y * ((3 + 2 - 1) / 2) + x)
        = pixel_sum (FloatValue.add ImageType.TFLOAT.fmt) (FloatValue.finite 0)
            (fun i => FloatValue.finite (i : ℚ)) (block_pixels 3 2 2 x y)) ∧
    (∀ x y i, i ∈ block_pixels 3 2 2 x y ↔
      ∃ ix iy, i = 3 * iy + ix ∧ x * 2 ≤ ix ∧ ix < min ((x + 1) * 2) 3 ∧
        y * 2 ≤ iy ∧ iy < min ((y + 1) * 2) 2) ∧
    (∀ k, (2 + 2 - 1) / 2 * ((3 + 2 - 1) / 2) ≤ k →
      downsample_image ImageType.TFLOAT 3 2 2 (fun i => FloatValue.finite (i : ℚ)) k
        = FloatValue.finite (k : ℚ)) ∧
    (∀ x y ix iy, x * 2 ≤ ix → ix < 3 → y * 2 ≤ iy →
      y * ((3 + 2 - 1) / 2) + x ≤ 3 * iy + ix) ∧
    (∀ q : Nat → ℚ, sums_exact ImageType.TFLOAT.fmt 3 2 2 q →
      (∀ x y, x < (3 + 2 - 1) / 2 → y < (2 + 2 - 1) / 2 →
        downsample_image ImageType.TFLOAT 3 2 2 (fun i => FloatValue.finite (q i))
            (y * ((3 + 2 - 1) / 2) + x)
          = FloatValue.finite (∑ iy ∈ Finset.Ico (y * 2) (min ((y + 1) * 2) 2),
              ∑ ix ∈ Finset.Ico (x * 2) (min ((x + 1) * 2) 3), q (3 * iy + ix))) ∧
      ∑ j ∈ Finset.range ((2 + 2 - 1) / 2 * ((3 + 2 - 1) / 2)),
          (downsample_image ImageType.TFLOAT 3 2 2 (fun i => FloatValue.finite (q i)) j).toRat
        = ∑ i ∈ Finset.range (3 * 2), q i) :=
  downsample_in_place ImageType.TFLOAT 3 2 2 2 (by decide) (by decide)
    (fun i => FloatValue.finite (i : ℚ))

/-- An image whose additions do not round: the pixels `0` to `5` of a `float` image of
width 3 and height 2 give the super-pixels `8` and `7`. -/
theorem downsample_example :
    sums_exact ImageType.TFLOAT.fmt 3 2 2 (fun i => (((i : Nat) : Int) : ℚ)) ∧
    sums_exact ImageType.TDOUBLE.fmt 3 2 2 (fun i => (((i : Nat) : Int) : ℚ)) ∧
    downsample_image ImageType.TFLOAT 3 2 2 (fun i => FloatValue.finite (((i : Nat) : Int) : ℚ)) 0
      = FloatValue.finite 8 ∧
    downsample_image ImageType.TFLOAT 3 2 2 (fun i => FloatValue.finite (((i : Nat) : Int) : ℚ)) 1
      = FloatValue.finite 7 ∧
    downsample_image ImageType.TFLOAT 3 2 0 (fun i => FloatValue.finite (((i : Nat) : Int) : ℚ)) 4
      = FloatValue.finite 4 := by
  have hs : sums_exact ImageType.TFLOAT.fmt 3 2 2 (fun i => (((i : Nat) : Int) : ℚ)) :=
    sums_exact_of_bounded toFloat32 (2 ^ 24) toFloat32_int 3 2 2 (fun i => (i : Int)) 6
      (fun i hi => by
        show |(i : Int)| ≤ ((6 : Nat) : Int)
        rw [abs_of_nonneg (by omega)]
        omega)
      (by norm_num)
  have h := downsample_image_exact ImageType.TFLOAT 3 2 2 2 (by decide) (by decide) _ hs
  have hd : sums_exact ImageType.TDOUBLE.fmt 3 2 2 (fun i => (((i : Nat) : Int) : ℚ)) :=
    sums_exact_of_bounded toFloat64 (2 ^ 53) toFloat64_int 3 2 2 (fun i => (i : Int)) 6
      (fun i hi => by
        show |(i : Int)| ≤ ((6 : Nat) : Int)
        rw [abs_of_nonneg (by omega)]
        omega)
      (by norm_num)
  refine ⟨hs, hd, ?_, ?_, ?_⟩
  · have h0 := h.1 0 0 (by decide) (by decide)
    simp only [Nat.zero_mul, Nat.add_zero] at h0
    rw [h0]
    congr 1
    norm_num [Finset.sum_Ico_eq_sum_range, Finset.sum_range_succ]
  · have h1 := h.1 1 0 (by decide) (by decide)
    simp only [Nat.zero_mul, Nat.zero_add] at h1
    rw [h1]
    congr 1
    norm_num [Finset.sum_Ico_eq_sum_range, Finset.sum_range_succ]
  · have hs1 : sums_exact ImageType.TFLOAT.fmt 3 2 1 (fun i => (((i : Nat) : Int) : ℚ)) :=
      sums_exact_of_bounded toFloat32 (2 ^ 24) toFloat32_int 3 2 1 (fun i => (i : Int)) 6
        (fun i hi => by
          show |(i : Int)| ≤ ((6 : Nat) : Int)
          rw [abs_of_nonneg (by omega)]
          omega)
        (by norm_num)
    have h4 := (downsample_image_exact ImageType.TFLOAT 3 2 0 1 (by decide) (by decide) _
      hs1).1 1 1 (by decide) (by decide)
    have e : 1 * ((3 + 1 - 1) / 1) + 1 = 4 := by decide
    rw [e] at h4
    rw [h4]
    congr 1
    norm_num [Finset.sum_Ico_eq_sum_range, Finset.sum_range_succ]

end OSKAR
